import Mathlib

/-!
# ep-engine: the in-memory hash table (`stored-value.hh`), the background fetcher (`bgfetcher.cc`), the store factory and warmup (`kvstore.cc`)

A shallow embedding of `StoredValue`, `StoredValueFactory`, `HashTable`,
`HashTableDepthStatVisitor`, `BgFetcher`, `KVStoreFactory::create`,
`KVStore::warmup` and of the fetch switches of `ep.h`, and the properties of
`find`, `set`, `add`, `del`, the memory accounting, the fetch batches, the
hash, the lock stripes, the record's id, key and variant, the keys of a table
and the serialization of calls on one key proved about it.

Conventions of the embedding.

* A `std::string` and a value blob are lists of bytes.
* `ep_current_time()` is the argument `now` of every operation that reads
  the clock; one operation sees one time.
* A bucket chain (`values[b]`, linked through `next`) is a list, head first.
  A `StoredValue*` into a chain is the position of the node in that list,
  returned together with the node it points to; a write through the pointer
  is `HashTable.store`.
* The process-wide statics `StoredValue::maxDataSize` and
  `StoredValue::currentSize` are the record `Statics`, passed explicitly.
* A failing `assert` (and the undefined behaviour it guards) is the result
  `none`.
* Outside the section on two threads, mutexes are not modelled (one thread);
  the assertions evaluated while taking the mutex are.
-/

namespace EpEngine

/-! ## Machine integers -/

/-- Conversion of an unsigned machine word to `int` (two's complement, 32 bits). -/
def toInt32 (n : Nat) : Int :=
  if n % 2 ^ 32 < 2 ^ 31 then ((n % 2 ^ 32 : Nat) : Int) else ((n % 2 ^ 32 : Nat) : Int) - 2 ^ 32

/-- One byte of a `std::string`. -/
abbrev Byte := Fin 256

/-- A `std::string`: key of an item. -/
abbrev Key := List Byte

/-- The blob behind a `value_t`. -/
abbrev Blob := List Byte

/-! ## Item -/

/-- Modelled from the spec: the `Item` of `item.hh`, which is not among the
sources: "key (≤255 bytes), value (opaque bytes), flags (32 bits), exptime
(absolute seconds), cas (64-bit version), rowid (backend-assigned 64-bit)". -/
structure Item where
  key : Key
  value : Blob
  flags : Nat
  exptime : Nat
  cas : Nat
  id : Int
deriving DecidableEq

namespace Item

def getKey (itm : Item) : Key := itm.key

def getValue (itm : Item) : Blob := itm.value

def getFlags (itm : Item) : Nat := itm.flags

def getExptime (itm : Item) : Nat := itm.exptime

def getCas (itm : Item) : Nat := itm.cas

def getId (itm : Item) : Int := itm.id

/-- Modelled from the spec: `Item::setCas()` of `item.hh` (not among the
sources) stamps the item with a freshly minted CAS ("On successful update, a
CAS is freshly minted"). The minted value is the argument `mint`. -/
def setCas (itm : Item) (mint : Nat) : Item := { itm with cas := mint }

end Item

/-! ## StoredValue -/

/-- Overlay `struct small_data`. -/
structure small_data where
  keylen : Nat
  keybytes : List Byte
deriving DecidableEq

/-- Overlay `struct feature_data`. -/
structure feature_data where
  cas : Nat
  flags : Nat
  exptime : Nat
  lock_expiry : Nat
  locked : Bool
  keylen : Nat
  keybytes : List Byte
deriving DecidableEq

/-- The `union stored_value_bodies`; the bit `_isSmall` of the record that
tells which overlay is in use is the constructor. -/
inductive stored_value_bodies where
  | small (s : small_data)
  | feature (f : feature_data)
deriving DecidableEq

/-- The static members `StoredValue::maxDataSize` and `StoredValue::currentSize`. -/
structure Statics where
  maxDataSize : Nat
  currentSize : Nat
deriving DecidableEq

/-- Modelled from the spec: `StoredValue::increaseCurrentSize` (defined outside
the sources): "a process-wide atomic currentSize is incremented". -/
def increaseCurrentSize (st : Statics) (by_ : Nat) : Statics :=
  { st with currentSize := st.currentSize + by_ }

/-- Modelled from the spec: `StoredValue::reduceCurrentSize` (defined outside
the sources): "a process-wide atomic currentSize is ... decremented". -/
def reduceCurrentSize (st : Statics) (by_ : Nat) : Statics :=
  { st with currentSize := st.currentSize - by_ }

/-- A node of a bucket chain, without its `next` link (the chain is a list). -/
structure StoredValue where
  value : Blob
  id : Int
  dirtiness : Nat
  _isDirty : Bool
  extra : stored_value_bodies
deriving DecidableEq

/-- The `sizeof(StoredValue)` of an LP64 build: 16 (value) + 8 (next) + 8 (id)
+ 4 (bit fields) + 4 (padding) + 24 (union). -/
def sizeof_StoredValue : Nat := 64

/-- The `sizeof(union stored_value_bodies)` of an LP64 build. -/
def sizeof_stored_value_bodies : Nat := 24

/-- The `sizeof(struct small_data)`. -/
def sizeof_small_data : Nat := 2

/-- The `sizeof(struct feature_data)` of an LP64 build. -/
def sizeof_feature_data : Nat := 24

namespace StoredValue

/-- The bit `_isSmall`. -/
def _isSmall (v : StoredValue) : Bool :=
  match v.extra with
  | .small _ => true
  | .feature _ => false

/-- `dirtiness = dataAge >> 2` into a 30-bit field; `_isDirty = 1`. -/
def reDirty (v : StoredValue) (dataAge : Nat) : StoredValue :=
  { v with dirtiness := (dataAge / 4) % 2 ^ 30, _isDirty := true }

def markDirty (v : StoredValue) (now : Nat) : StoredValue :=
  v.reDirty now

/-- Returns the value written to `*dataAge` and the cleaned record. -/
def markClean (v : StoredValue) : Nat × StoredValue :=
  ((v.dirtiness * 4) % 2 ^ 32, { v with _isDirty := false })

def isDirty (v : StoredValue) : Bool := v._isDirty

def isClean (v : StoredValue) : Bool := !v.isDirty

def getKeyBytes (v : StoredValue) : List Byte :=
  match v.extra with
  | .small s => s.keybytes
  | .feature f => f.keybytes

def getKeyLen (v : StoredValue) : Nat :=
  match v.extra with
  | .small s => s.keylen
  | .feature f => f.keylen

/-- `k.length() == getKeyLen() && memcmp(k.data(), getKeyBytes(), getKeyLen()) == 0`. -/
def hasKey (v : StoredValue) (k : Key) : Bool :=
  decide (k.length = v.getKeyLen) && decide (k.take v.getKeyLen = v.getKeyBytes.take v.getKeyLen)

/-- `std::string(getKeyBytes(), getKeyLen())`. -/
def getKey (v : StoredValue) : Key :=
  v.getKeyBytes.take v.getKeyLen

def getValue (v : StoredValue) : Blob := v.value

def getExptime (v : StoredValue) : Nat :=
  match v.extra with
  | .small _ => 0
  | .feature f => f.exptime

def getFlags (v : StoredValue) : Nat :=
  match v.extra with
  | .small _ => 0
  | .feature f => f.flags

def getCas (v : StoredValue) : Nat :=
  match v.extra with
  | .small _ => 0
  | .feature f => f.cas

def getDataAge (v : StoredValue) : Nat := (v.dirtiness * 4) % 2 ^ 32

def setCas (v : StoredValue) (c : Nat) : StoredValue :=
  match v.extra with
  | .small _ => v
  | .feature f => { v with extra := .feature { f with cas := c } }

def lock (v : StoredValue) (expiry : Nat) : StoredValue :=
  match v.extra with
  | .small _ => v
  | .feature f => { v with extra := .feature { f with locked := true, lock_expiry := expiry } }

def unlock (v : StoredValue) : StoredValue :=
  match v.extra with
  | .small _ => v
  | .feature f => { v with extra := .feature { f with locked := false, lock_expiry := 0 } }

def hasId (v : StoredValue) : Bool := decide (v.id > 0)

def getId (v : StoredValue) : Int := v.id

/-- The assertion `!hasId()` guards the assignment. -/
def setId (v : StoredValue) (to_ : Int) : Option StoredValue :=
  if v.hasId then none else some { v with id := to_ }

/-- Size of the record without its key. -/
def sizeOf (small : Bool) : Nat :=
  let base := sizeof_StoredValue - sizeof_stored_value_bodies - 1
  base + (if small then sizeof_small_data else sizeof_feature_data)

def size (v : StoredValue) : Nat :=
  sizeOf v._isSmall + v.getKeyLen + v.value.length

/-- Returns the answer and the record, whose `locked` bit the call clears when
the lock has run out. -/
def isLocked (v : StoredValue) (curtime : Nat) : Bool × StoredValue :=
  match v.extra with
  | .small _ => (false, v)
  | .feature f =>
    if f.locked && decide (curtime > f.lock_expiry) then
      (false, { v with extra := .feature { f with locked := false } })
    else
      (f.locked, v)

def setValue (v : StoredValue) (val : Blob) (newFlags newExp theCas : Nat) (now : Nat)
    (st : Statics) : StoredValue × Statics :=
  let st := reduceCurrentSize st v.size
  let v := { v with value := val }
  let v :=
    match v.extra with
    | .small _ => v
    | .feature f =>
      { v with extra := .feature { f with cas := theCas, flags := newFlags, exptime := newExp } }
  let v := v.markDirty now
  let st := increaseCurrentSize st v.size
  (v, st)

/-- The constructor `StoredValue(itm, n, setDirty, small)`; the key bytes are
copied afterwards by the factory. `keylen` is a `uint8_t`. -/
def construct (itm : Item) (setDirty : Bool) (small : Bool) (now : Nat) (st : Statics) :
    StoredValue × Statics :=
  let extra : stored_value_bodies :=
    if small then
      .small { keylen := itm.getKey.length % 256, keybytes := [] }
    else
      .feature { cas := itm.getCas, flags := itm.getFlags, exptime := itm.getExptime,
                 locked := false, lock_expiry := 0,
                 keylen := itm.getKey.length % 256, keybytes := [] }
  let v : StoredValue :=
    { value := itm.getValue, id := itm.getId, dirtiness := 0, _isDirty := false, extra := extra }
  let v := if setDirty then v.markDirty now else (v.markClean).2
  (v, increaseCurrentSize st v.size)

/-- The destructor: `reduceCurrentSize(size())`. -/
def destroy (v : StoredValue) (st : Statics) : Statics :=
  reduceCurrentSize st v.size

/-- The `memcpy` of the key into `keybytes` done by the factory. -/
def copyKey (v : StoredValue) (key : Key) : StoredValue :=
  match v.extra with
  | .small s => { v with extra := .small { s with keybytes := key } }
  | .feature f => { v with extra := .feature { f with keybytes := key } }

/-- Modelled from the spec: `StoredValue::hasAvailableSpace` (declared in
`stored-value.hh`, defined outside the sources): "enforces
currentSize + incoming_size ≤ maxDataSize"; the incoming size is taken to be
the record header plus the item's key and value. -/
def hasAvailableSpace (st : Statics) (itm : Item) : Bool :=
  decide (st.currentSize + (sizeof_StoredValue + itm.getKey.length + itm.getValue.length)
    ≤ st.maxDataSize)

end StoredValue

inductive mutation_type_t where
  | INVALID_VBUCKET
  | NOT_FOUND
  | INVALID_CAS
  | WAS_CLEAN
  | WAS_DIRTY
  | IS_LOCKED
  | NOMEM
  | SUCCESS
deriving DecidableEq

/-- The enumerator values, in declaration order from 0. -/
def mutation_type_t.toNat : mutation_type_t → Nat
  | .INVALID_VBUCKET => 0
  | .NOT_FOUND => 1
  | .INVALID_CAS => 2
  | .WAS_CLEAN => 3
  | .WAS_DIRTY => 4
  | .IS_LOCKED => 5
  | .NOMEM => 6
  | .SUCCESS => 7

inductive stored_value_type where
  | small
  | featured
deriving DecidableEq

/-! ## StoredValueFactory -/

namespace StoredValueFactory

/-- Allocation of a record for `itm`; `assert(key.length() < 256)`. -/
def newStoredValue (itm : Item) (setDirty : Bool) (small : Bool) (now : Nat) (st : Statics) :
    Option (StoredValue × Statics) :=
  let key := itm.getKey
  if key.length < 256 then
    let (t, st) := StoredValue.construct itm setDirty small now st
    some (t.copyKey key, st)
  else
    none

/-- The call operator of the factory of type `type`. -/
def call (type : stored_value_type) (itm : Item) (setDirty : Bool) (now : Nat) (st : Statics) :
    Option (StoredValue × Statics) :=
  match type with
  | .small => newStoredValue itm setDirty true now st
  | .featured => newStoredValue itm setDirty false now st

end StoredValueFactory

/-! ## HashTable -/

/-- The table: `size` buckets, `n_locks` mutexes, the chains `values`, the
factory type, and the flag `activeState`. -/
structure HashTable where
  size : Nat
  n_locks : Nat
  values : List (List StoredValue)
  valFact : stored_value_type
  activeState : Bool
deriving DecidableEq

/-- What `find` hands back: the pointer (position in the chain and the node
there) or a miss, with the table and the statics after the call. -/
structure FindResult where
  v : Option (Nat × StoredValue)
  table : HashTable
  statics : Statics
deriving DecidableEq

/-- What `set` hands back: the result code, the caller's item (which `set`
stamps with the minted CAS), and the table and the statics after the call. -/
structure SetResult where
  rv : mutation_type_t
  itm : Item
  table : HashTable
  statics : Statics
deriving DecidableEq

/-- Outcome of `unlocked_del` and `del`. -/
structure DelResult where
  deleted : Bool
  table : HashTable
  statics : Statics
deriving DecidableEq

/-- Outcome of `add`. -/
structure AddResult where
  rv : Bool
  itm : Item
  table : HashTable
  statics : Statics
deriving DecidableEq

/-- A `char` promoted to `int` and seen as a 32-bit word (`char` is signed). -/
def charWord (c : Byte) : Nat :=
  if c.val < 128 then c.val else c.val + (2 ^ 32 - 256)

/-- One round of the hash loop, `h = ((h << 5) + h) ^ str[i]`, on the 32-bit
word of `h`. -/
def hashStep (h : Nat) (c : Byte) : Nat :=
  (((h * 32) % 2 ^ 32 + h) % 2 ^ 32) ^^^ charWord c

/-- The loop of `bucket`, from `h = 5381`. -/
def hashFold (key : Key) : Nat :=
  key.foldl hashStep 5381

/-- First node of a chain that carries `key`, with its position: the walk
`while (v) { if (v->hasKey(key)) ...; v = v->next; }`. -/
def chainFind (key : Key) : List StoredValue → Option (Nat × StoredValue)
  | [] => none
  | v :: rest =>
    if v.hasKey key then some (0, v)
    else (chainFind key rest).map (fun p => (p.1 + 1, p.2))

/-- The unlinking walk of `unlocked_del` over one chain (the head case and the
`while (v->next)` loop treat every node alike): the node taken out, if any, and
the chain afterwards. A locked node stops the walk and stays. -/
def chainDel (key : Key) (now : Nat) : List StoredValue → Option StoredValue × List StoredValue
  | [] => (none, [])
  | v :: rest =>
    if v.hasKey key then
      let (l, v1) := v.isLocked now
      if l then (none, v1 :: rest) else (some v1, rest)
    else
      let (d, rest1) := chainDel key now rest
      (d, v :: rest1)

namespace HashTable

/-- The body `return activeState = true;`: the answer and the table after. -/
def active (t : HashTable) : Bool × HashTable :=
  (true, { t with activeState := true })

/-- The hash `abs(h % (int)size)` of a key. -/
def bucket (t : HashTable) (key : Key) : Nat :=
  (Int.tmod (toInt32 (hashFold key)) (toInt32 t.size)).natAbs

/-- The assertions and the result of `mutexForBucket`. -/
def mutexForBucket (t : HashTable) (bucket_num : Nat) : Option Int :=
  if (bucket_num : Int) < toInt32 t.size ∧ (0 : Int) ≤ bucket_num then
    let lock_num := Int.tmod (bucket_num : Int) (toInt32 t.n_locks)
    if lock_num < toInt32 t.n_locks ∧ 0 ≤ lock_num then some lock_num else none
  else
    none

/-- The assertions of `getMutexForLock`; the mutex is named by its index. -/
def getMutexForLock (t : HashTable) (lock_num : Int) : Option Int :=
  if lock_num < toInt32 t.n_locks ∧ 0 ≤ lock_num then some lock_num else none

def getMutex (t : HashTable) (bucket_num : Nat) : Option Int :=
  match t.mutexForBucket bucket_num with
  | none => none
  | some lock_num => t.getMutexForLock lock_num

/-- The chain `values[bucket_num]`. -/
def chain (t : HashTable) (bucket_num : Nat) : List StoredValue :=
  t.values.getD bucket_num []

/-- The assignment `values[bucket_num] = c`. -/
def setChain (t : HashTable) (bucket_num : Nat) (c : List StoredValue) : HashTable :=
  { t with values := t.values.set bucket_num c }

/-- A write through a pointer to node `i` of chain `bucket_num`. -/
def store (t : HashTable) (bucket_num i : Nat) (v : StoredValue) : HashTable :=
  t.setChain bucket_num ((t.chain bucket_num).set i v)

def unlocked_del (t : HashTable) (st : Statics) (key : Key) (bucket_num : Nat) (now : Nat) :
    DelResult :=
  let t := t.active.2
  match chainDel key now (t.chain bucket_num) with
  | (none, c) => ⟨false, t.setChain bucket_num c, st⟩
  | (some v, c) => ⟨true, t.setChain bucket_num c, v.destroy st⟩

def unlocked_find (t : HashTable) (st : Statics) (key : Key) (bucket_num : Nat) (now : Nat) :
    FindResult :=
  match chainFind key (t.chain bucket_num) with
  | none => ⟨none, t, st⟩
  | some (i, v) =>
    if v.getExptime ≠ 0 ∧ v.getExptime < now then
      let r := t.unlocked_del st key bucket_num now
      ⟨none, r.table, r.statics⟩
    else
      ⟨some (i, v), t, st⟩

def find (t : HashTable) (st : Statics) (key : Key) (now : Nat) : Option FindResult :=
  let (a, t) := t.active
  if !a then none else
  let bucket_num := t.bucket key
  match t.getMutex bucket_num with
  | none => none
  | some _ => some (t.unlocked_find st key bucket_num now)

/-- The tail of the update branch of `set`: mint the CAS, report the old dirty
flag, overwrite the node behind the pointer. -/
def set_update (t : HashTable) (st : Statics) (now mint : Nat) (itm : Item)
    (bucket_num i : Nat) (v : StoredValue) : SetResult :=
  let itm := itm.setCas mint
  let rv := if v.isClean then mutation_type_t.WAS_CLEAN else mutation_type_t.WAS_DIRTY
  let (v, st) := v.setValue itm.getValue itm.getFlags itm.getExptime itm.getCas now st
  ⟨rv, itm, t.store bucket_num i v, st⟩

def set (t : HashTable) (st : Statics) (now mint : Nat) (val : Item) : Option SetResult :=
  let (a, t) := t.active
  if !a then none else
  let rv := mutation_type_t.NOT_FOUND
  let bucket_num := t.bucket val.getKey
  match t.getMutex bucket_num with
  | none => none
  | some _ =>
    let r := t.unlocked_find st val.getKey bucket_num now
    let t := r.table
    let st := r.statics
    let itm := val
    match r.v with
    | some (i, v) =>
      let (locked, v) := v.isLocked now
      if locked then
        if val.getCas ≠ v.getCas then
          some ⟨.IS_LOCKED, itm, t.store bucket_num i v, st⟩
        else
          let v := v.unlock
          some (set_update t st now mint itm bucket_num i v)
      else if val.getCas ≠ 0 ∧ val.getCas ≠ v.getCas then
        some ⟨.INVALID_CAS, itm, t.store bucket_num i v, st⟩
      else
        some (set_update t st now mint itm bucket_num i v)
    | none =>
      if itm.getCas ≠ 0 then
        some ⟨.NOT_FOUND, itm, t, st⟩
      else if !StoredValue.hasAvailableSpace st itm then
        some ⟨.NOMEM, itm, t, st⟩
      else
        let itm := itm.setCas mint
        match StoredValueFactory.call t.valFact itm true now st with
        | none => none
        | some (v, st) => some ⟨rv, itm, t.setChain bucket_num (v :: t.chain bucket_num), st⟩

/-- The `bool` a `mutation_type_t` converts to on `return`. -/
def boolOfMutation (m : mutation_type_t) : Bool :=
  decide (m.toNat ≠ 0)

def add (t : HashTable) (st : Statics) (now mint : Nat) (val : Item) (isDirty : Bool) :
    Option AddResult :=
  let (a, t) := t.active
  if !a then none else
  let bucket_num := t.bucket val.getKey
  match t.getMutex bucket_num with
  | none => none
  | some _ =>
    let r := t.unlocked_find st val.getKey bucket_num now
    let t := r.table
    let st := r.statics
    match r.v with
    | some _ => some ⟨false, val, t, st⟩
    | none =>
      let itm := val.setCas mint
      if !StoredValue.hasAvailableSpace st itm then
        some ⟨boolOfMutation .NOMEM, itm, t, st⟩
      else
        match StoredValueFactory.call t.valFact itm isDirty now st with
        | none => none
        | some (v, st) => some ⟨true, itm, t.setChain bucket_num (v :: t.chain bucket_num), st⟩

def del (t : HashTable) (st : Statics) (key : Key) (now : Nat) : Option DelResult :=
  let (a, t) := t.active
  if !a then none else
  let bucket_num := t.bucket key
  match t.getMutex bucket_num with
  | none => none
  | some _ => some (t.unlocked_del st key bucket_num now)

/-- What the constructor establishes (`assert(size > 0)`, `assert(n_locks > 0)`,
`calloc(size, ...)`), with sizes that fit an `int`. -/
def wf (t : HashTable) : Prop :=
  0 < t.size ∧ t.size < 2 ^ 31 ∧ 0 < t.n_locks ∧ t.n_locks < 2 ^ 31 ∧ t.values.length = t.size

instance (t : HashTable) : Decidable t.wf := by
  unfold wf; infer_instance

/-- Node `i` of chain `b`, if there is one. -/
def entry (t : HashTable) (b i : Nat) : Option StoredValue :=
  (t.chain b)[i]?

/-- The node `v` at position `i` is the entry for key `k`: the first node of
chain `bucket(k)` carrying `k`. -/
def entryFor (t : HashTable) (k : Key) (i : Nat) (v : StoredValue) : Prop :=
  t.entry (t.bucket k) i = some v ∧ v.hasKey k = true ∧
    ((t.chain (t.bucket k)).take i).all (fun u => !u.hasKey k) = true

instance (t : HashTable) (k : Key) (i : Nat) (v : StoredValue) : Decidable (t.entryFor k i v) := by
  unfold entryFor; infer_instance

/-- No chain of the table holds a node carrying key `k`. -/
def noEntry (t : HashTable) (k : Key) : Prop :=
  ∀ c ∈ t.values, ∀ u ∈ c, u.hasKey k = false

instance (t : HashTable) (k : Key) : Decidable (t.noEntry k) := by
  unfold noEntry; infer_instance

/-- A table of the featured type: the factory builds featured records and
every node in the table is featured. -/
def featuredTable (t : HashTable) : Prop :=
  t.valFact = .featured ∧ ∀ c ∈ t.values, ∀ u ∈ c, u._isSmall = false

instance (t : HashTable) : Decidable t.featuredTable := by
  unfold featuredTable; infer_instance

end HashTable

/-- An entry is expired at `now`: `exptime != 0 && exptime < now`. -/
def StoredValue.expired (v : StoredValue) (now : Nat) : Prop :=
  v.getExptime ≠ 0 ∧ v.getExptime < now

instance (v : StoredValue) (now : Nat) : Decidable (v.expired now) := by
  unfold StoredValue.expired; infer_instance

/-- The part of `set` that runs once the bucket mutex is held and
`unlocked_find` has answered `fr`; `HashTable.set_eq` shows `set` is this on a
well-formed table. Used to reason about `set` one branch at a time. -/
def HashTable.setAfterFind (fr : FindResult) (bucket_num now mint : Nat) (val : Item) :
    Option SetResult :=
  match fr.v with
  | some (i, v) =>
    if (v.isLocked now).1 = true then
      if val.getCas ≠ (v.isLocked now).2.getCas then
        some ⟨.IS_LOCKED, val, fr.table.store bucket_num i (v.isLocked now).2, fr.statics⟩
      else
        some (fr.table.set_update fr.statics now mint val bucket_num i (v.isLocked now).2.unlock)
    else if val.getCas ≠ 0 ∧ val.getCas ≠ (v.isLocked now).2.getCas then
      some ⟨.INVALID_CAS, val, fr.table.store bucket_num i (v.isLocked now).2, fr.statics⟩
    else
      some (fr.table.set_update fr.statics now mint val bucket_num i (v.isLocked now).2)
  | none =>
    if val.getCas ≠ 0 then
      some ⟨.NOT_FOUND, val, fr.table, fr.statics⟩
    else if (!StoredValue.hasAvailableSpace fr.statics val) = true then
      some ⟨.NOMEM, val, fr.table, fr.statics⟩
    else
      match StoredValueFactory.call fr.table.valFact (val.setCas mint) true now fr.statics with
      | none => none
      | some (v, st) =>
        some ⟨.NOT_FOUND, val.setCas mint,
          fr.table.setChain bucket_num (v :: fr.table.chain bucket_num), st⟩

/-- The node at position `i` of chain `b` is the only node of the table that
carries key `k`. -/
def HashTable.onlyEntry (t : HashTable) (k : Key) (b i : Nat) : Prop :=
  ∀ b1 j u, t.entry b1 j = some u → u.hasKey k = true → b1 = b ∧ j = i

/-! ## Sample data -/

/-- A featured record for key "a" with the given CAS, expiry, lock state and
dirty flag. -/
def sampleEntry (cas exptime lock_expiry : Nat) (locked dirty : Bool) : StoredValue :=
  { value := [1, 2], id := -1, dirtiness := 0, _isDirty := dirty,
    extra := .feature { cas := cas, flags := 7, exptime := exptime, lock_expiry := lock_expiry,
                        locked := locked, keylen := 1, keybytes := [97] } }

/-- A table of three buckets and two locks whose chain 1, the bucket of key
"a", is `l`. -/
def sampleTable (l : List StoredValue) : HashTable :=
  { size := 3, n_locks := 2, values := [[], l, []], valFact := .featured, activeState := true }

/-- An item for key "a". -/
def sampleItem (cas exptime : Nat) : Item :=
  { key := [97], value := [3], flags := 4, exptime := exptime, cas := cas, id := -1 }

/-- A roomy memory budget. -/
def sampleStatics : Statics := { maxDataSize := 100000, currentSize := 1000 }

/-- The result of storing `sampleItem 0 0` into the empty sample table at time
10 with minted CAS 42. -/
def sampleInserted : SetResult :=
  { rv := .NOT_FOUND,
    itm := { key := [97], value := [3], flags := 4, exptime := 0, cas := 42, id := -1 },
    table := sampleTable
      [{ value := [3], id := -1, dirtiness := 2, _isDirty := true,
         extra := .feature { cas := 42, flags := 4, exptime := 0, lock_expiry := 0,
                             locked := false, keylen := 1, keybytes := [97] } }],
    statics := { maxDataSize := 100000, currentSize := 1065 } }

/-- The result of updating the clean entry `sampleEntry 5 0 0 false false` with
`sampleItem 0 0` at time 10 with minted CAS 42. -/
def sampleUpdated : SetResult :=
  { rv := .WAS_CLEAN,
    itm := { key := [97], value := [3], flags := 4, exptime := 0, cas := 42, id := -1 },
    table := sampleTable
      [{ value := [3], id := -1, dirtiness := 2, _isDirty := true,
         extra := .feature { cas := 42, flags := 4, exptime := 0, lock_expiry := 0,
                             locked := false, keylen := 1, keybytes := [97] } }],
    statics := { maxDataSize := 100000, currentSize := 999 } }

/-- The part of `add` that runs once the bucket mutex is held and
`unlocked_find` has answered `fr`; `HashTable.add_eq` shows `add` is this on a
well-formed table. -/
def HashTable.addAfterFind (fr : FindResult) (bucket_num now mint : Nat) (val : Item)
    (isDirty : Bool) : Option AddResult :=
  match fr.v with
  | some _ => some ⟨false, val, fr.table, fr.statics⟩
  | none =>
    if (!StoredValue.hasAvailableSpace fr.statics (val.setCas mint)) = true then
      some ⟨HashTable.boolOfMutation .NOMEM, val.setCas mint, fr.table, fr.statics⟩
    else
      match StoredValueFactory.call fr.table.valFact (val.setCas mint) isDirty now fr.statics with
      | none => none
      | some (v, st) =>
        some ⟨true, val.setCas mint,
          fr.table.setChain bucket_num (v :: fr.table.chain bucket_num), st⟩

/-! ## Memory accounting: the quantities -/

/-- Sum of `size()` over the nodes of one chain. -/
def chainSize (l : List StoredValue) : Nat :=
  (l.map StoredValue.size).sum

/-- Sum of `size()` over all nodes of the table. -/
def HashTable.totalSize (t : HashTable) : Nat :=
  (t.values.map chainSize).sum

/-- The body of the constructor, given the bucket count, the lock count and the
storage type it settles on: the two assertions, `calloc`'ed empty chains,
`activeState = true`. -/
def HashTable.construct (size n_locks : Nat) (type : stored_value_type) : Option HashTable :=
  if 0 < size ∧ 0 < n_locks then
    some { size := size, n_locks := n_locks, values := List.replicate size [],
           valFact := type, activeState := true }
  else
    none

/-- One call on the table. -/
inductive HashTableOp where
  | set (now mint : Nat) (val : Item)
  | add (now mint : Nat) (val : Item) (isDirty : Bool)
  | del (key : Key) (now : Nat)
  | find (key : Key) (now : Nat)
deriving DecidableEq

/-- The table and the statics after one call. -/
def HashTable.applyOp (t : HashTable) (st : Statics) : HashTableOp → Option (HashTable × Statics)
  | .set now mint val => (t.set st now mint val).map (fun r => (r.table, r.statics))
  | .add now mint val isDirty =>
    (t.add st now mint val isDirty).map (fun r => (r.table, r.statics))
  | .del key now => (t.del st key now).map (fun r => (r.table, r.statics))
  | .find key now => (t.find st key now).map (fun r => (r.table, r.statics))

/-- The table and the statics after a sequence of calls. -/
def HashTable.runOps : List HashTableOp → HashTable → Statics → Option (HashTable × Statics)
  | [], t, st => some (t, st)
  | op :: ops, t, st =>
    match t.applyOp st op with
    | none => none
    | some (t1, st1) => HashTable.runOps ops t1 st1

/-- The accounting invariant on a well-formed table: `currentSize` is the sum
of `size()` over the nodes of the table. -/
def HashTable.accounted (t : HashTable) (st : Statics) : Prop :=
  t.wf ∧ st.currentSize = t.totalSize

/-! ## BgFetcher (`bgfetcher.cc`)

The fetcher, the statistics counter it reads and the objects it calls into are
one record, `BgFetcher`. Calls that leave the fetcher (`completeBGFetchMulti`,
`delete`, `snooze`) are kept as logs in calling order. Logging, timing and the
latency histogram are left out. -/

/-- The status `ENGINE_SUCCESS` of memcached's `ENGINE_ERROR_CODE`; a status is
its numeric code. -/
def ENGINE_SUCCESS : Nat := 0

/-- Modelled from the spec: a waiter, `VBucketBGFetchItem` of `vbucket.h`, which
is not among the sources: the key, the client cookie, the rowid and the status
of its value slot, and the retry count. The value buffer itself is not
modelled. -/
structure VBucketBGFetchItem where
  key : Key
  cookie : Nat
  rowid : Nat
  status : Nat
  retryCount : Nat
deriving DecidableEq

namespace VBucketBGFetchItem

/-- Modelled from the spec: `canRetry()`, "retryable (retry_count < max)"; the
cap is the argument `maxRetry`. -/
def canRetry (w : VBucketBGFetchItem) (maxRetry : Nat) : Bool :=
  decide (w.retryCount < maxRetry)

/-- Modelled from the spec: `incrRetryCount()`, "retry_count++". -/
def incrRetryCount (w : VBucketBGFetchItem) : VBucketBGFetchItem :=
  { w with retryCount := w.retryCount + 1 }

/-- Modelled from the spec: `delValue()` frees the shared value buffer ("the
shared value buffer is deleted from the list's first element only"); status and
retry count stay. -/
def delValue (w : VBucketBGFetchItem) : VBucketBGFetchItem := w

end VBucketBGFetchItem

/-- The `vb_bgfetch_queue_t`, a `std::map` from rowid to the list of waiters:
the pairs in iteration order (ascending rowid). -/
abbrev vb_bgfetch_queue_t := List (Nat × List VBucketBGFetchItem)

/-- All waiters of a queue, in iteration order. -/
def queueWaiters : vb_bgfetch_queue_t → List VBucketBGFetchItem
  | [] => []
  | (_, ws) :: rest => ws ++ queueWaiters rest

/-- The statement `q[rowid].push_back(w)` on a map kept in key order. -/
def queuePush : vb_bgfetch_queue_t → Nat → VBucketBGFetchItem → vb_bgfetch_queue_t
  | [], rowid, w => [(rowid, [w])]
  | (r, ws) :: rest, rowid, w =>
    if rowid < r then (rowid, [w]) :: (r, ws) :: rest
    else if rowid = r then (r, ws ++ [w]) :: rest
    else (r, ws) :: queuePush rest rowid w

/-- Modelled from the spec: the part of `VBucket` (`vbucket.h`, not among the
sources) the fetcher uses, its pending-BG-fetch multimap. -/
structure VBucket where
  pendingBGFetches : vb_bgfetch_queue_t
deriving DecidableEq

namespace VBucket

/-- Modelled from the spec: `getBGFetchItems(out map)` "atomically transfers the
pending-fetch multimap into the output and clears internal map"; the result is
the size of the output map. `run` hands in an empty output map. -/
def getBGFetchItems (vb : VBucket) (fetches : vb_bgfetch_queue_t) :
    Nat × VBucket × vb_bgfetch_queue_t :=
  ((fetches ++ vb.pendingBGFetches).length, { vb with pendingBGFetches := [] },
    fetches ++ vb.pendingBGFetches)

/-- Modelled from the spec: `queueBGFetchItem(item, notifier, false)`: "enqueue;
duplicate rowids coalesce into a single list". -/
def queueBGFetchItem (vb : VBucket) (w : VBucketBGFetchItem) : VBucket :=
  { vb with pendingBGFetches := queuePush vb.pendingBGFetches w.rowid w }

end VBucket

/-- What the fetcher needs from outside: the retry cap and the backend, which
answers each waiter of a batch with a status. -/
structure BgFetchEnv where
  maxRetry : Nat
  backend : Nat → Nat → VBucketBGFetchItem → Nat

/-- Modelled from the spec: `KVStore::getMulti(vb, map)`, "Batched fetch,
populating each waiter's value slot". -/
def getMulti (env : BgFetchEnv) (vbId : Nat) (q : vb_bgfetch_queue_t) : vb_bgfetch_queue_t :=
  q.map (fun p => (p.1, p.2.map (fun w => { w with status := env.backend vbId p.1 w })))

/-- The fetcher with what it reaches through `store`, `stats` and `dispatcher`. -/
structure BgFetcher where
  items2fetch : vb_bgfetch_queue_t
  total_num_fetched_items : Nat
  total_num_requeued_items : Nat
  numRemainingBgJobs : Nat
  bgFetchDelay : Nat
  vbuckets : List (Option VBucket)
  completed : List (Nat × List VBucketBGFetchItem)
  deleted : List VBucketBGFetchItem
  snoozes : List Nat
deriving DecidableEq

/-- Modelled from the spec: `Atomic<size_t>::decr` (`atomic.h` is not among the
sources), "decrement numRemainingBgJobs by the number of completed items", on a
64-bit counter. -/
def atomicDecr (c n : Nat) : Nat :=
  (c + 2 ^ 64 - n % 2 ^ 64) % 2 ^ 64

/-- The constant `BgFetcher::sleepInterval = 1.0`, in seconds. -/
def sleepInterval : Nat := 1

namespace BgFetcher

/-- Modelled from the spec: `VBucketMap::getBucket(id)` (`vbucketmap.cc` is not
among the sources): the partition with that id, or null. -/
def getBucket (f : BgFetcher) (id : Nat) : Option VBucket :=
  (f.vbuckets.getD id none)

/-- Modelled from the spec: `completeBGFetchMulti(vbId, fetchedItems, start)`
(`ep.cc` is not among the sources) delivers the batch to the engine's
completion path; it is recorded and leaves the waiters as they are. -/
def completeBGFetchMulti (f : BgFetcher) (vbId : Nat) (fetchedItems : List VBucketBGFetchItem) :
    BgFetcher :=
  { f with completed := f.completed ++ [(vbId, fetchedItems)] }

/-- The inner loop of `doFetch` over the waiters of one rowid: the vector
`fetchedItems` and the count `totalfetches`. -/
def doFetch_inner (env : BgFetchEnv) :
    List VBucketBGFetchItem → List VBucketBGFetchItem × Nat → List VBucketBGFetchItem × Nat
  | [], acc => acc
  | itm :: rest, (fetchedItems, totalfetches) =>
    if itm.status ≠ ENGINE_SUCCESS ∧ itm.canRetry env.maxRetry = true then
      doFetch_inner env rest (fetchedItems, totalfetches)
    else
      doFetch_inner env rest (fetchedItems ++ [itm], totalfetches + 1)

/-- The outer loop of `doFetch` over the map. -/
def doFetch_outer (env : BgFetchEnv) :
    vb_bgfetch_queue_t → List VBucketBGFetchItem × Nat → List VBucketBGFetchItem × Nat
  | [], acc => acc
  | (_, requestedItems) :: rest, acc =>
    doFetch_outer env rest (doFetch_inner env requestedItems acc)

/-- The inner loop of `clearItems` over the waiters of one rowid: delete, or
bump the retry count and queue again on the partition (`assert(vb)`). The
number carried along is `numRequeuedItems`. -/
def clearItems_inner (env : BgFetchEnv) (vbId : Nat) :
    List VBucketBGFetchItem → BgFetcher × Nat → Option (BgFetcher × Nat)
  | [], acc => some acc
  | d :: rest, (f, numRequeuedItems) =>
    if d.status = ENGINE_SUCCESS ∨ ¬ (d.canRetry env.maxRetry = true) then
      clearItems_inner env vbId rest ({ f with deleted := f.deleted ++ [d] }, numRequeuedItems)
    else
      match f.getBucket vbId with
      | none => none
      | some vb =>
        let d := d.incrRetryCount
        clearItems_inner env vbId rest
          ({ f with vbuckets := f.vbuckets.set vbId (some (vb.queueBGFetchItem d)) },
            numRequeuedItems + 1)

/-- The outer loop of `clearItems`; `doneItems.front()` needs a waiter. -/
def clearItems_outer (env : BgFetchEnv) (vbId : Nat) :
    vb_bgfetch_queue_t → BgFetcher × Nat → Option (BgFetcher × Nat)
  | [], acc => some acc
  | (_, doneItems) :: rest, acc =>
    match doneItems with
    | [] => none
    | firstItem :: others =>
      match clearItems_inner env vbId (firstItem.delValue :: others) acc with
      | none => none
      | some acc => clearItems_outer env vbId rest acc

def clearItems (f : BgFetcher) (env : BgFetchEnv) (vbId : Nat) : Option BgFetcher :=
  match clearItems_outer env vbId f.items2fetch (f, 0) with
  | none => none
  | some (f, numRequeuedItems) =>
    some { f with total_num_requeued_items := f.total_num_requeued_items + numRequeuedItems }

def doFetch (f : BgFetcher) (env : BgFetchEnv) (vbId : Nat) : Option BgFetcher :=
  let f := { f with items2fetch := getMulti env vbId f.items2fetch }
  let (fetchedItems, totalfetches) := doFetch_outer env f.items2fetch ([], 0)
  let f :=
    if totalfetches > 0 then
      { f.completeBGFetchMulti vbId fetchedItems with
        total_num_fetched_items := f.total_num_fetched_items + totalfetches }
    else f
  f.clearItems env vbId

/-- One round of the loop of `run` over the partitions; the number carried
along is `total_num_items2fetch`. -/
def run_visit (env : BgFetchEnv) (f : BgFetcher) (total_num_items2fetch : Nat) (vbid : Nat) :
    Option (BgFetcher × Nat) :=
  match f.getBucket vbid with
  | none => some (f, total_num_items2fetch)
  | some vb =>
    let (num_items2fetch, vb, fetches) := vb.getBGFetchItems f.items2fetch
    let f := { f with items2fetch := fetches, vbuckets := f.vbuckets.set vbid (some vb) }
    if num_items2fetch ≠ 0 then
      match f.doFetch env vbid with
      | none => none
      | some f => some ({ f with items2fetch := [] }, total_num_items2fetch + num_items2fetch)
    else
      some (f, total_num_items2fetch)

/-- The loop of `run` over the partition ids still to visit. -/
def run_loop (env : BgFetchEnv) : List Nat → BgFetcher × Nat → Option (BgFetcher × Nat)
  | [], acc => some acc
  | vbid :: rest, (f, total) =>
    match run_visit env f total vbid with
    | none => none
    | some acc => run_loop env rest acc

/-- The first block of `run`: reset the totals and, if jobs remain, visit every
partition and take the fetched total off the counter. -/
def run_fetch (f : BgFetcher) (env : BgFetchEnv) : Option BgFetcher :=
  let f := { f with total_num_fetched_items := 0, total_num_requeued_items := 0 }
  if f.numRemainingBgJobs ≠ 0 then
    match run_loop env (List.range f.vbuckets.length) (f, 0) with
    | none => none
    | some (f, _) =>
      some { f with numRemainingBgJobs := atomicDecr f.numRemainingBgJobs f.total_num_fetched_items }
  else
    some f

/-- The second block of `run`: snooze when no job remains, and look again.
`late` is the number of fetch requests other threads register between the two
reads of the counter (0 when nothing interferes). -/
def run_snooze (f : BgFetcher) (late : Nat) : BgFetcher :=
  if f.numRemainingBgJobs = 0 then
    let sleep := max f.bgFetchDelay sleepInterval
    let f := { f with snoozes := f.snoozes ++ [sleep] }
    let f := { f with numRemainingBgJobs := f.numRemainingBgJobs + late }
    if f.numRemainingBgJobs ≠ 0 then
      { f with snoozes := f.snoozes ++ [0] }
    else f
  else f

/-- The task body; `tid` tells whether the task handle is set
(`assert(tid.get())`). -/
def run (f : BgFetcher) (env : BgFetchEnv) (tid : Bool) (late : Nat) : Option (Bool × BgFetcher) :=
  if !tid then none else
  match f.run_fetch env with
  | none => none
  | some f => some (true, f.run_snooze late)

end BgFetcher

/-- The test `status != ENGINE_SUCCESS && canRetry()` that `doFetch` applies to
a waiter (and `clearItems` applies negated). -/
def BgFetchEnv.retries (env : BgFetchEnv) (w : VBucketBGFetchItem) : Bool :=
  decide (w.status ≠ ENGINE_SUCCESS) && w.canRetry env.maxRetry

/-- The waiters of a batch that go to `completeBGFetchMulti`: those of the
queue, in iteration order, that are not put aside for a retry. -/
def BgFetchEnv.fetchedOf (env : BgFetchEnv) (q : vb_bgfetch_queue_t) : List VBucketBGFetchItem :=
  (queueWaiters q).filter (fun w => !env.retries w)

/-- The waiters of a batch that are put aside for a retry. -/
def BgFetchEnv.retriedOf (env : BgFetchEnv) (q : vb_bgfetch_queue_t) : List VBucketBGFetchItem :=
  (queueWaiters q).filter (fun w => env.retries w)

/-- A partition after `queueBGFetchItem` was called for each waiter of a list,
in order. -/
def VBucket.requeueAll (vb : VBucket) (ws : List VBucketBGFetchItem) : VBucket :=
  ws.foldl VBucket.queueBGFetchItem vb

/-! ## Sample data for the fetcher -/

/-- A backend that finds rowid 7 and fails (status 13, `ENGINE_TMPFAIL`) on every
other rowid; waiters retry at most twice. -/
def sampleEnv : BgFetchEnv :=
  { maxRetry := 2, backend := fun _ rowid _ => if rowid = 7 then 0 else 13 }

/-- A waiter for key "a" with the given cookie, rowid and retry count, not yet
answered. -/
def sampleWaiter (cookie rowid retryCount : Nat) : VBucketBGFetchItem :=
  { key := [97], cookie := cookie, rowid := rowid, status := 0, retryCount := retryCount }

/-- A fetcher holding a batch for partition 0: one waiter on rowid 7, two on
rowid 9 of which the second has used up its retries. -/
def sampleFetcher : BgFetcher :=
  { items2fetch := [(7, [sampleWaiter 1 7 0]), (9, [sampleWaiter 2 9 0, sampleWaiter 3 9 2])],
    total_num_fetched_items := 0, total_num_requeued_items := 0, numRemainingBgJobs := 3,
    bgFetchDelay := 0, vbuckets := [some ⟨[]⟩], completed := [], deleted := [], snoozes := [] }

/-- A fetcher between runs: the same three waiters pending on partition 0, a
missing partition 1, three jobs outstanding. -/
def sampleIdleFetcher : BgFetcher :=
  { items2fetch := [], total_num_fetched_items := 0, total_num_requeued_items := 0,
    numRemainingBgJobs := 3, bgFetchDelay := 0,
    vbuckets := [some ⟨[(7, [sampleWaiter 1 7 0]),
      (9, [sampleWaiter 2 9 0, sampleWaiter 3 9 2])]⟩, none],
    completed := [], deleted := [], snoozes := [] }

/-- The fetcher `sampleIdleFetcher` after one undisturbed run with `sampleEnv`. -/
def sampleRunResult : BgFetcher :=
  { items2fetch := [], total_num_fetched_items := 2, total_num_requeued_items := 1,
    numRemainingBgJobs := 1, bgFetchDelay := 0,
    vbuckets := [some ⟨[(9, [{ sampleWaiter 2 9 1 with status := 13 }])]⟩, none],
    completed := [(0, [sampleWaiter 1 7 0, { sampleWaiter 3 9 2 with status := 13 }])],
    deleted := [sampleWaiter 1 7 0, { sampleWaiter 3 9 2 with status := 13 }],
    snoozes := [] }

/-- A fetcher whose last outstanding job is one waiter on rowid 7 of partition
0, with a fetch delay of 5 seconds. -/
def sampleLastJobFetcher : BgFetcher :=
  { items2fetch := [], total_num_fetched_items := 0, total_num_requeued_items := 0,
    numRemainingBgJobs := 1, bgFetchDelay := 5,
    vbuckets := [some ⟨[(7, [sampleWaiter 1 7 0])]⟩],
    completed := [], deleted := [], snoozes := [] }

/-- The fetcher `sampleLastJobFetcher` after a run with `sampleEnv` during
which one new request was registered right after the snooze. -/
def sampleLastJobResult : BgFetcher :=
  { items2fetch := [], total_num_fetched_items := 1, total_num_requeued_items := 0,
    numRemainingBgJobs := 1, bgFetchDelay := 5,
    vbuckets := [some ⟨[]⟩],
    completed := [(0, [sampleWaiter 1 7 0])],
    deleted := [sampleWaiter 1 7 0],
    snoozes := [5, 0] }

/-! ## The hash as the specification words it -/

/-- One step of the recurrence in the specification's words,
`h(i+1) = (h(i)*33) xor key[i]` on 32-bit words; `key[i]` is the `char` of the
key as the expression `str[i]` promotes it. -/
def specHashStep (h : Nat) (c : Byte) : Nat :=
  ((h * 33) % 2 ^ 32) ^^^ charWord c

/-- The fold of the specification: `h0 = 5381`, then one step per byte. -/
def specHash (key : Key) : Nat :=
  key.foldl specHashStep 5381

/-- The bucket of the specification: `|h rem n_buckets|` with `h` the fold read
as a signed 32-bit number. -/
def specBucket (n_buckets : Nat) (key : Key) : Nat :=
  (Int.tmod (toInt32 (specHash key)) (n_buckets : Int)).natAbs

/-- A table built with `2^31` lock stripes over one bucket. -/
def sampleWideLocks : HashTable :=
  { size := 1, n_locks := 2 ^ 31, values := [[]], valFact := .featured, activeState := true }

/-! ## Sequences of calls on one record -/

/-- One call on a `StoredValue` that is not `setId`. -/
inductive StoredValueOp where
  | setValue (val : Blob) (newFlags newExp theCas now : Nat)
  | setCas (c : Nat)
  | lock (expiry : Nat)
  | unlock
  | isLocked (curtime : Nat)
  | markDirty (now : Nat)
  | reDirty (dataAge : Nat)
  | markClean
deriving DecidableEq

/-- The record and the statics after one call; what the call returns is
dropped. -/
def StoredValue.applyOp (p : StoredValue × Statics) : StoredValueOp → StoredValue × Statics
  | .setValue val newFlags newExp theCas now => p.1.setValue val newFlags newExp theCas now p.2
  | .setCas c => (p.1.setCas c, p.2)
  | .lock expiry => (p.1.lock expiry, p.2)
  | .unlock => (p.1.unlock, p.2)
  | .isLocked curtime => ((p.1.isLocked curtime).2, p.2)
  | .markDirty now => (p.1.markDirty now, p.2)
  | .reDirty dataAge => (p.1.reDirty dataAge, p.2)
  | .markClean => (p.1.markClean.2, p.2)

/-- The record and the statics after a sequence of calls. -/
def StoredValue.runOps (ops : List StoredValueOp) (p : StoredValue × Statics) :
    StoredValue × Statics :=
  ops.foldl StoredValue.applyOp p

/-- A small-variant record for the key "a". -/
def sampleSmallEntry : StoredValue :=
  { value := [1], id := 7, dirtiness := 0, _isDirty := false,
    extra := .small { keylen := 1, keybytes := [97] } }

/-- An item whose key is 256 bytes long. -/
def sampleLongItem : Item :=
  { sampleItem 0 0 with key := List.replicate 256 97 }

/-- A small-type table of three buckets and two locks that holds
`sampleSmallEntry` in chain 1, the bucket of key "a". -/
def sampleSmallTable : HashTable :=
  { size := 3, n_locks := 2, values := [[], [sampleSmallEntry], []], valFact := .small,
    activeState := true }

/-- The setter overload `active(bool newv)`: `activeState = newv;`. -/
def HashTable.active_newv (t : HashTable) (newv : Bool) : HashTable :=
  { t with activeState := newv }

/-! ## EventuallyPersistentStore: the batched-fetch switch -/

/-- Modelled from the spec: the class `StorageProperties` is not among the
sources; `getStorageProperties()` gives "Capability flags: `hasEfficientGet`,
`supportsEfficientVBDeletion`, etc.". -/
structure StorageProperties where
  efficientGet : Bool
  efficientVBDeletion : Bool
deriving DecidableEq

/-- Modelled from the spec: the capability flag `hasEfficientGet`. -/
def StorageProperties.hasEfficientGet (p : StorageProperties) : Bool := p.efficientGet

/-- The members of the store that `multiBGFetchEnabled` and the accessors of
the fetch delay read and write: the memoized storage properties, the two
dispatcher pointers (as addresses), and the `uint32_t bgFetchDelay`. -/
structure EventuallyPersistentStore where
  storageProperties : StorageProperties
  dispatcher : Nat
  roDispatcher : Nat
  bgFetchDelay : Nat
deriving DecidableEq

namespace EventuallyPersistentStore

/-- The body `return dispatcher != roDispatcher;`. -/
def hasSeparateRODispatcher (s : EventuallyPersistentStore) : Bool :=
  decide (s.dispatcher ≠ s.roDispatcher)

/-- The body `return hasSeparateRODispatcher() && storageProperties.hasEfficientGet();`. -/
def multiBGFetchEnabled (s : EventuallyPersistentStore) : Bool :=
  s.hasSeparateRODispatcher && s.storageProperties.hasEfficientGet

/-- The body `bgFetchDelay = to;` with the argument a `uint32_t`. -/
def setBGFetchDelay (s : EventuallyPersistentStore) (to_ : Nat) : EventuallyPersistentStore :=
  { s with bgFetchDelay := to_ % 2 ^ 32 }

/-- The body `return (double)bgFetchDelay;`: a 32-bit value is exact as a
`double`, so the answer is that number of seconds. -/
def getBGFetchDelay (s : EventuallyPersistentStore) : Nat := s.bgFetchDelay

end EventuallyPersistentStore

/-- The macro `MAX_BG_FETCH_DELAY` of `ep.h`. -/
def MAX_BG_FETCH_DELAY : Nat := 900

/-- A store with one dispatcher and no delay. -/
def sampleStore : EventuallyPersistentStore :=
  { storageProperties := { efficientGet := true, efficientVBDeletion := true },
    dispatcher := 1, roDispatcher := 1, bgFetchDelay := 0 }

/-! ## KVStoreFactory and warmup (`kvstore.cc`) -/

/-- The class of the object the factory allocates. -/
inductive KVStoreKind where
  | CouchKVStore
  | BlackholeKVStore
deriving DecidableEq

/-- Modelled from the spec: a `KVStore` as far as the factory goes (`kvstore.h`
and the two constructors are not among the sources; "a swappable plug with two
in-tree variants"): its class, the `read_only` flag it was built with, and the
engine pointer, null until `setEngine`. -/
structure KVStore where
  kind : KVStoreKind
  read_only : Bool
  engine : Option Nat
deriving DecidableEq

/-- Modelled from the spec: `KVStore::setEngine` stores the pointer. -/
def KVStore.setEngine (s : KVStore) (theEngine : Nat) : KVStore :=
  { s with engine := some theEngine }

/-- Modelled from the spec: the engine as `create` sees it: its address and
the string `getConfiguration().getBackend()` answers. -/
structure EventuallyPersistentEngine where
  address : Nat
  backend : String
deriving DecidableEq

/-- The factory; `NULL` is `none`. The warning logged for an unknown backend
is left out. -/
def KVStoreFactory.create (theEngine : EventuallyPersistentEngine) (read_only : Bool) :
    Option KVStore :=
  let ret : Option KVStore := none
  let backend := theEngine.backend
  let ret : Option KVStore :=
    if backend = "couchdb" then
      some { kind := .CouchKVStore, read_only := read_only, engine := none }
    else if backend = "blackhole" then
      some { kind := .BlackholeKVStore, read_only := read_only, engine := none }
    else
      ret
  match ret with
  | some r => some (r.setEngine theEngine.address)
  | none => none

/-- Modelled from the spec: one record that `MutationLogHarvester::apply` hands
to the callback (`mutation_log.h` is not among the sources), with the two
answers the callback gets at that call: `engine->stillWarmingUp()` and the
status of the value `store->get` fetched. -/
structure WarmupRecord where
  vb : Nat
  key : Key
  rowid : Nat
  stillWarmingUp : Bool
  status : Nat
deriving DecidableEq

/-- The three counters of `struct WarmupCookie` (`size_t`), and the calls of
`cb.callback` in order. -/
structure WarmupCookie where
  loaded : Nat
  skipped : Nat
  error : Nat
  called : List WarmupRecord
deriving DecidableEq

/-- The constructor of `WarmupCookie`: the counters at 0. -/
def WarmupCookie.construct : WarmupCookie :=
  { loaded := 0, skipped := 0, error := 0, called := [] }

def warmupCallback (cookie : WarmupCookie) (r : WarmupRecord) : WarmupCookie :=
  if r.stillWarmingUp then
    if r.status = ENGINE_SUCCESS then
      let cookie := { cookie with called := cookie.called ++ [r] }
      { cookie with loaded := (cookie.loaded + 1) % 2 ^ 64 }
    else
      { cookie with error := (cookie.error + 1) % 2 ^ 64 }
  else
    { cookie with skipped := (cookie.skipped + 1) % 2 ^ 64 }

/-- Modelled from the spec: `MutationLogHarvester::apply(arg, fn)` calls `fn`
once for each harvested record, in order. -/
def harvesterApply (records : List WarmupRecord) (cookie : WarmupCookie) : WarmupCookie :=
  records.foldl warmupCallback cookie

/-- What `KVStore::warmup` returns, the cookie at the end, and the calls of
`estimate.callback`. -/
structure WarmupResult where
  ret : Nat
  cookie : WarmupCookie
  estimated : List Nat
deriving DecidableEq

/-- The body of `KVStore::warmup`; `loadOk` is the answer of `harvester.load()`
and `records` the harvested records (`harvester.total()` is their number). The
return value is a `size_t`, so `-1` is `2^64 - 1`. -/
def KVStore.warmup (loadOk : Bool) (records : List WarmupRecord) : WarmupResult :=
  if !loadOk then
    { ret := 2 ^ 64 - 1, cookie := WarmupCookie.construct, estimated := [] }
  else
    let total := records.length % 2 ^ 64
    let cookie := harvesterApply records WarmupCookie.construct
    { ret := cookie.loaded, cookie := cookie, estimated := [total] }

/-- Four records: loaded, failed, skipped, loaded. -/
def sampleRecords : List WarmupRecord :=
  [{ vb := 0, key := [97], rowid := 1, stillWarmingUp := true, status := 0 },
   { vb := 0, key := [98], rowid := 2, stillWarmingUp := true, status := 13 },
   { vb := 1, key := [99], rowid := 3, stillWarmingUp := false, status := 0 },
   { vb := 1, key := [100], rowid := 4, stillWarmingUp := true, status := 0 }]

/-! ## HashTableDepthStatVisitor -/

def INT_MAX : Int := 2 ^ 31 - 1

/-- The members `int min; int max; size_t size;`. -/
structure HashTableDepthStatVisitor where
  min : Int
  max : Int
  size : Nat
deriving DecidableEq

namespace HashTableDepthStatVisitor

/-- The constructor: `min(INT_MAX), max(0), size(0)`. -/
def construct : HashTableDepthStatVisitor :=
  { min := INT_MAX, max := 0, size := 0 }

/-- The body of `visit(int bucket, int depth)`; in `size += depth` the `int` is
converted to `size_t`. -/
def visit (v : HashTableDepthStatVisitor) (bucket : Int) (depth : Int) :
    HashTableDepthStatVisitor :=
  let _ := bucket
  { min := Min.min v.min depth,
    max := Max.max v.max depth,
    size := (v.size + (depth % 2 ^ 64).toNat) % 2 ^ 64 }

/-- The visitor after the calls `visit(b1, d1)`, ..., `visit(bn, dn)` in order. -/
def visitAll (v : HashTableDepthStatVisitor) (ds : List (Int × Int)) :
    HashTableDepthStatVisitor :=
  ds.foldl (fun v p => v.visit p.1 p.2) v

end HashTableDepthStatVisitor

/-- A record fetched with `ENGINE_SUCCESS` while the engine was still warming
up. -/
def WarmupRecord.isLoaded (r : WarmupRecord) : Bool :=
  r.stillWarmingUp && decide (r.status = ENGINE_SUCCESS)

/-- A record whose fetch failed while the engine was still warming up. -/
def WarmupRecord.isError (r : WarmupRecord) : Bool :=
  r.stillWarmingUp && decide (r.status ≠ ENGINE_SUCCESS)

/-- A record that arrived when the engine was no longer warming up. -/
def WarmupRecord.isSkipped (r : WarmupRecord) : Bool :=
  !r.stillWarmingUp

/-! ## Keys of the nodes of a table -/

/-- The record `w` holds the key bytes and the key length of `v`. -/
def StoredValue.sameKey (v w : StoredValue) : Prop :=
  w.getKeyLen = v.getKeyLen ∧ w.getKeyBytes = v.getKeyBytes

/-- Key uniqueness: no key is carried by two nodes of the table. -/
def HashTable.uniqueKeys (t : HashTable) : Prop :=
  ∀ k b i u b1 j u1, t.entry b i = some u → t.entry b1 j = some u1 →
    u.hasKey k = true → u1.hasKey k = true → b = b1 ∧ i = j

/-- Bucket confinement: every node of chain `b` has `bucket(key) = b`. -/
def HashTable.confined (t : HashTable) : Prop :=
  ∀ b < t.values.length, ∀ u ∈ t.chain b, t.bucket u.getKey = b

instance (t : HashTable) : Decidable t.confined := by
  unfold HashTable.confined; infer_instance

/-- The table on the right arises from the one on the left by `active()`, by
unlinking nodes, and by writes through a pointer that leave the node's key
alone. Used to reason about what `find`, `del` and the update branches of
`set` do to the keys of a table. -/
inductive HashTable.KeepsKeys : HashTable → HashTable → Prop where
  | refl (t : HashTable) : HashTable.KeepsKeys t t
  | active (t : HashTable) : HashTable.KeepsKeys t t.active.2
  | erase (t : HashTable) (b i : Nat) :
      HashTable.KeepsKeys t (t.setChain b ((t.chain b).eraseIdx i))
  | store (t : HashTable) (b i : Nat) (v w : StoredValue) :
      t.entry b i = some v → v.sameKey w → HashTable.KeepsKeys t (t.store b i w)
  | trans (t t1 t2 : HashTable) :
      HashTable.KeepsKeys t t1 → HashTable.KeepsKeys t1 t2 → HashTable.KeepsKeys t t2

/-- The record the factory builds for `sampleItem 0 0` at time 10 with minted
CAS 42. -/
def sampleFresh : StoredValue :=
  { value := [3], id := -1, dirtiness := 2, _isDirty := true,
    extra := .feature { cas := 42, flags := 4, exptime := 0, lock_expiry := 0,
                        locked := false, keylen := 1, keybytes := [97] } }

/-- A table whose chain for "a" holds a fresh entry in front of an older
entry for "a" that is expired at time 10 but locked until 100. -/
def sampleDuplicated : SetResult :=
  { rv := .NOT_FOUND,
    itm := { key := [97], value := [3], flags := 4, exptime := 0, cas := 42, id := -1 },
    table := sampleTable [sampleFresh, sampleEntry 5 5 100 true false],
    statics := { maxDataSize := 100000, currentSize := 1065 } }

/-- Two records carry one key: some key is answered by `hasKey` of both. -/
def StoredValue.keyShared (u v : StoredValue) : Prop :=
  u.hasKey u.getKey = true ∧ v.hasKey u.getKey = true

instance (u v : StoredValue) : Decidable (u.keyShared v) := by
  unfold StoredValue.keyShared; infer_instance

/-- In every chain, a node that stands behind a node carrying the same key is
expired at `now`: a node that is not expired is the first node of its chain
for its key. `set` and `add` link a node in front of a chain only after
`unlocked_find` reported a miss for its key. -/
def HashTable.shadowsExpired (t : HashTable) (now : Nat) : Prop :=
  ∀ c ∈ t.values, c.Pairwise (fun u v => u.keyShared v → v.expired now)

instance (t : HashTable) (now : Nat) : Decidable (t.shadowsExpired now) := by
  unfold HashTable.shadowsExpired; infer_instance

/-- Every entry of the table carries a CAS other than 0, the value that stands
for "no CAS", and the factory builds featured records: what `set` and `add`
keep up, since they stamp the minted CAS on every record they store. -/
def HashTable.casStamped (t : HashTable) : Prop :=
  t.valFact = .featured ∧ ∀ c ∈ t.values, ∀ u ∈ c, u.getCas ≠ 0

instance (t : HashTable) : Decidable t.casStamped := by
  unfold HashTable.casStamped; infer_instance

/-- The record `set` builds for `sampleItem 0 exptime` with the minted CAS
`cas`, at a time whose quarter is `dirtiness`. -/
def sampleStored (cas exptime dirtiness : Nat) : StoredValue :=
  { value := [3], id := -1, dirtiness := dirtiness, _isDirty := true,
    extra := .feature { cas := cas, flags := 4, exptime := exptime, lock_expiry := 0,
                        locked := false, keylen := 1, keybytes := [97] } }

/-! ## Two threads on one table

`find`, `set`, `add` and `del` each run `assert(active())`, compute the
bucket, construct `LockHolder lh(getMutex(bucket_num))` and then run their
unlocked part; `lh` is destroyed when the function returns. A call is three
steps of its thread: take the mutex, run the part under the mutex, return.
The part under the mutex is one step: it touches the chain of its bucket and
the atomic size counter only. -/

/-- The key a call works on. -/
def HashTableOp.key : HashTableOp → Key
  | .set _ _ val => val.getKey
  | .add _ _ val _ => val.getKey
  | .del key _ => key
  | .find key _ => key

/-- The part of a call that runs while `lh` holds the mutex of `bucket_num`:
the table and the statics when it is done. -/
def HashTable.lockedPart (t : HashTable) (st : Statics) (bucket_num : Nat) :
    HashTableOp → Option (HashTable × Statics)
  | .set now mint val =>
    (HashTable.setAfterFind (t.unlocked_find st val.getKey bucket_num now) bucket_num now mint
      val).map (fun r => (r.table, r.statics))
  | .add now mint val isDirty =>
    (HashTable.addAfterFind (t.unlocked_find st val.getKey bucket_num now) bucket_num now mint
      val isDirty).map (fun r => (r.table, r.statics))
  | .del key now =>
    some ((t.unlocked_del st key bucket_num now).table,
      (t.unlocked_del st key bucket_num now).statics)
  | .find key now =>
    some ((t.unlocked_find st key bucket_num now).table,
      (t.unlocked_find st key bucket_num now).statics)

/-- Where a thread stands in its call: before the `LockHolder` is built; with
the mutex `lock_num` held and the unlocked part still to run; with the
unlocked part done and `lh` not yet destroyed; returned. -/
inductive ThreadPc where
  | start
  | locked (bucket_num : Nat) (lock_num : Int)
  | ran (lock_num : Int)
  | returned
deriving DecidableEq

/-- Modelled from the spec: two threads (`false` and `true`), each in one call
on the same table, and the mutexes that are held ("a writer on bucket b takes
mutex `b mod n_locks`"; `Mutex` and `LockHolder` are not among the sources).
`acquired` lists the threads in the order in which they took a mutex. -/
structure TwoThreads where
  table : HashTable
  statics : Statics
  held : List Int
  op : Bool → HashTableOp
  pc : Bool → ThreadPc
  acquired : List Bool

namespace TwoThreads

/-- Both threads about to start their calls. -/
def init (t : HashTable) (st : Statics) (op0 op1 : HashTableOp) : TwoThreads :=
  { table := t, statics := st, held := [],
    op := fun tid => if tid then op1 else op0,
    pc := fun _ => .start, acquired := [] }

/-- The thread is between taking the mutex and returning. -/
def inCritical (s : TwoThreads) (tid : Bool) : Bool :=
  match s.pc tid with
  | .locked _ _ => true
  | .ran _ => true
  | _ => false

/-- One step of thread `tid`, if it can take one: `none` when the thread has
returned, when the mutex it asks for is held (the thread waits), and when an
assertion fails. -/
def step (s : TwoThreads) (tid : Bool) : Option TwoThreads :=
  match s.pc tid with
  | .start =>
    let (a, t) := s.table.active
    if !a then none else
    let bucket_num := t.bucket (s.op tid).key
    match t.getMutex bucket_num with
    | none => none
    | some lock_num =>
      if lock_num ∈ s.held then none
      else
        some { s with table := t, held := lock_num :: s.held,
                      acquired := s.acquired ++ [tid],
                      pc := Function.update s.pc tid (.locked bucket_num lock_num) }
  | .locked bucket_num lock_num =>
    match s.table.lockedPart s.statics bucket_num (s.op tid) with
    | none => none
    | some (t, st) =>
      some { s with table := t, statics := st,
                    pc := Function.update s.pc tid (.ran lock_num) }
  | .ran lock_num =>
    some { s with held := s.held.erase lock_num,
                  pc := Function.update s.pc tid .returned }
  | .returned => none

/-- The state after the threads took their steps in the order `sched`, if
every step could be taken. -/
def run : List Bool → TwoThreads → Option TwoThreads
  | [], s => some s
  | tid :: rest, s =>
    match s.step tid with
    | none => none
    | some s1 => run rest s1

/-- The schedule in which thread `x` runs its whole call before the other
thread starts. -/
def serial (x : Bool) : List Bool := [x, x, x, !x, !x, !x]

/-- What can be seen of a state: table, statics, held mutexes, the two
program counters and the order of acquisition. -/
def view (s : TwoThreads) :
    HashTable × Statics × List Int × ThreadPc × ThreadPc × List Bool :=
  (s.table, s.statics, s.held, s.pc false, s.pc true, s.acquired)

/-- The states a run in which thread `x` takes the mutex first passes
through, for calls `s.op x` and `s.op (!x)` on the table `t` with statics `st`
that both use bucket `b` and mutex `l`. -/
def Stage (t : HashTable) (st : Statics) (x : Bool) (b : Nat) (l : Int) (s : TwoThreads) :
    Prop :=
  (s.table = t.active.2 ∧ s.statics = st ∧ s.held = [l] ∧ s.pc x = .locked b l ∧
      s.pc (!x) = .start ∧ s.acquired = [x]) ∨
  ∃ tx stx, t.applyOp st (s.op x) = some (tx, stx) ∧
    ((s.table = tx ∧ s.statics = stx ∧ s.held = [l] ∧ s.pc x = .ran l ∧
        s.pc (!x) = .start ∧ s.acquired = [x]) ∨
     (s.table = tx ∧ s.statics = stx ∧ s.held = [] ∧ s.pc x = .returned ∧
        s.pc (!x) = .start ∧ s.acquired = [x]) ∨
     (s.table = tx.active.2 ∧ s.statics = stx ∧ s.held = [l] ∧ s.pc x = .returned ∧
        s.pc (!x) = .locked b l ∧ s.acquired = [x, !x]) ∨
     ∃ ty sty, tx.applyOp stx (s.op (!x)) = some (ty, sty) ∧
       s.table = ty ∧ s.statics = sty ∧ s.pc x = .returned ∧ s.acquired = [x, !x] ∧
       ((s.held = [l] ∧ s.pc (!x) = .ran l) ∨ (s.held = [] ∧ s.pc (!x) = .returned)))

end TwoThreads

/-! ## Basic facts -/

theorem toInt32_of_lt (n : Nat) (h : n < 2 ^ 31) : toInt32 n = (n : Int) := by
  have h1 : n % 2 ^ 32 = n := Nat.mod_eq_of_lt (by omega)
  unfold toInt32
  rw [h1, if_pos h]

theorem natAbs_tmod_lt (a : Int) (n : Nat) (h : 0 < n) : (Int.tmod a (n : Int)).natAbs < n := by
  cases a with
  | ofNat m =>
    show (Int.ofNat (m % n)).natAbs < n
    exact Nat.mod_lt _ h
  | negSucc m =>
    show (-Int.ofNat (Nat.succ m % n)).natAbs < n
    rw [Int.natAbs_neg]
    exact Nat.mod_lt _ h

namespace HashTable

theorem bucket_lt (t : HashTable) (key : Key) (h : t.wf) : t.bucket key < t.size := by
  obtain ⟨h0, h1, -⟩ := h
  unfold bucket
  rw [toInt32_of_lt _ h1]
  exact natAbs_tmod_lt _ _ h0

theorem getMutex_isSome (t : HashTable) (b : Nat) (h : t.wf) (hb : b < t.size) :
    ∃ l, t.getMutex b = some l := by
  obtain ⟨h0, h1, h2, h3, -⟩ := h
  have e : Int.tmod (b : Int) (t.n_locks : Int) = ((b % t.n_locks : Nat) : Int) :=
    (Int.ofNat_tmod b t.n_locks).symm
  have hl : b % t.n_locks < t.n_locks := Nat.mod_lt _ h2
  refine ⟨((b % t.n_locks : Nat) : Int), ?_⟩
  simp only [getMutex, mutexForBucket, getMutexForLock, toInt32_of_lt _ h1, toInt32_of_lt _ h3, e]
  have c1 : ((b : Int) < (t.size : Int) ∧ (0 : Int) ≤ (b : Int)) := ⟨by omega, by omega⟩
  have c2 : (((b % t.n_locks : Nat) : Int) < (t.n_locks : Int) ∧
      (0 : Int) ≤ ((b % t.n_locks : Nat) : Int)) := ⟨by omega, by omega⟩
  simp only [c1, c2, and_self, if_true]

end HashTable

/-! ## Walking a chain -/

theorem chainFind_eq_none (k : Key) (l : List StoredValue) :
    chainFind k l = none ↔ ∀ u ∈ l, u.hasKey k = false := by
  induction l with
  | nil => simp [chainFind]
  | cons v rest ih =>
    by_cases hv : v.hasKey k = true
    · simp [chainFind, hv]
    · simp only [Bool.not_eq_true] at hv
      simp [chainFind, hv, ih]

theorem chainFind_eq_some (k : Key) (l : List StoredValue) (i : Nat) (v : StoredValue) :
    chainFind k l = some (i, v) ↔
      l[i]? = some v ∧ v.hasKey k = true ∧ (l.take i).all (fun u => !u.hasKey k) = true := by
  induction l generalizing i with
  | nil => simp [chainFind]
  | cons w rest ih =>
    by_cases hw : w.hasKey k = true
    · cases i with
      | zero =>
        simp only [chainFind, hw, if_true, Option.some.injEq, Prod.mk.injEq, true_and,
          List.getElem?_cons_zero, List.take_zero, List.all_nil, and_true]
        constructor
        · intro e; subst e; exact ⟨rfl, hw⟩
        · intro e; exact e.1
      | succ j =>
        simp [chainFind, hw]
    · simp only [Bool.not_eq_true] at hw
      cases i with
      | zero =>
        simp only [chainFind, hw, Bool.false_eq_true, if_false, Option.map_eq_some',
          Prod.mk.injEq, List.getElem?_cons_zero, Option.some.injEq, List.take_zero,
          List.all_nil, and_true]
        constructor
        · rintro ⟨p, -, h1, -⟩; omega
        · rintro ⟨e, h2⟩; subst e; rw [hw] at h2; cases h2
      | succ j =>
        simp only [chainFind, hw, Bool.false_eq_true, if_false, Option.map_eq_some',
          Prod.mk.injEq, List.getElem?_cons_succ, List.take_succ_cons, List.all_cons,
          Bool.not_false, Bool.true_and]
        constructor
        · rintro ⟨p, hp, h1, h2⟩
          have hj : p.1 = j := by omega
          have : chainFind k rest = some (j, v) := by rw [hp, ← hj, ← h2]
          exact (ih j).1 this
        · intro h
          exact ⟨(j, v), (ih j).2 h, rfl, rfl⟩

theorem take_set_self {α : Type} (l : List α) (i : Nat) (w : α) :
    (l.set i w).take i = l.take i :=
  List.ext_getElem? fun j => by
    rw [List.getElem?_take, List.getElem?_take]
    split
    · rw [List.getElem?_set_ne (by omega)]
    · rfl

theorem chainFind_set (k : Key) (l : List StoredValue) (i : Nat) (v w : StoredValue)
    (h : chainFind k l = some (i, v)) (hw : w.hasKey k = true) :
    chainFind k (l.set i w) = some (i, w) := by
  rw [chainFind_eq_some] at h ⊢
  obtain ⟨h1, -, h3⟩ := h
  have hi : i < l.length := by
    by_contra hc
    rw [List.getElem?_eq_none (by omega)] at h1
    cases h1
  refine ⟨?_, hw, ?_⟩
  · rw [List.getElem?_set_self hi]
  · rw [take_set_self]; exact h3

theorem isLocked_fst_true (v : StoredValue) (now : Nat) (h : (v.isLocked now).1 = true) :
    (v.isLocked now).2 = v := by
  unfold StoredValue.isLocked at h ⊢
  cases hx : v.extra with
  | small s => simp
  | feature f =>
    simp only [hx] at h ⊢
    split
    · rename_i hc; rw [if_pos hc] at h; cases h
    · rfl

theorem chainDel_of_none (k : Key) (now : Nat) (l : List StoredValue)
    (h : chainFind k l = none) : chainDel k now l = (none, l) := by
  induction l with
  | nil => rfl
  | cons v rest ih =>
    by_cases hv : v.hasKey k = true
    · simp [chainFind, hv] at h
    · simp only [Bool.not_eq_true] at hv
      have hr : chainFind k rest = none := by
        rw [chainFind_eq_none] at h ⊢
        intro u hu; exact h u (List.mem_cons_of_mem _ hu)
      simp [chainDel, hv, ih hr]

theorem chainDel_of_locked (k : Key) (now : Nat) (l : List StoredValue) (i : Nat)
    (v : StoredValue) (h : chainFind k l = some (i, v)) (hl : (v.isLocked now).1 = true) :
    chainDel k now l = (none, l) := by
  induction l generalizing i with
  | nil => simp [chainFind] at h
  | cons w rest ih =>
    by_cases hw : w.hasKey k = true
    · simp only [chainFind, hw, if_true, Option.some.injEq, Prod.mk.injEq] at h
      obtain ⟨-, e⟩ := h
      subst e
      simp [chainDel, hw, hl, isLocked_fst_true _ _ hl]
    · simp only [Bool.not_eq_true] at hw
      simp only [chainFind, hw, Bool.false_eq_true, if_false, Option.map_eq_some',
        Prod.mk.injEq] at h
      obtain ⟨p, hp, -, h2⟩ := h
      have : chainFind k rest = some (p.1, v) := by rw [hp, ← h2]
      simp [chainDel, hw, ih p.1 this]

theorem chainDel_of_unlocked (k : Key) (now : Nat) (l : List StoredValue) (i : Nat)
    (v : StoredValue) (h : chainFind k l = some (i, v)) (hl : (v.isLocked now).1 = false) :
    chainDel k now l = (some (v.isLocked now).2, l.eraseIdx i) := by
  induction l generalizing i with
  | nil => simp [chainFind] at h
  | cons w rest ih =>
    by_cases hw : w.hasKey k = true
    · simp only [chainFind, hw, if_true, Option.some.injEq, Prod.mk.injEq] at h
      obtain ⟨e0, e⟩ := h
      subst e; subst e0
      simp [chainDel, hw, hl]
    · simp only [Bool.not_eq_true] at hw
      simp only [chainFind, hw, Bool.false_eq_true, if_false, Option.map_eq_some',
        Prod.mk.injEq] at h
      obtain ⟨p, hp, h1, h2⟩ := h
      have : chainFind k rest = some (p.1, v) := by rw [hp, ← h2]
      subst h1
      simp [chainDel, hw, ih p.1 this]

/-! ## The table after `active()`, and the branches of the operations -/

namespace HashTable

theorem active_eq (t : HashTable) : t.active = (true, t.active.2) := rfl

theorem bucket_active (t : HashTable) (k : Key) : t.active.2.bucket k = t.bucket k := rfl

theorem chain_active (t : HashTable) (b : Nat) : t.active.2.chain b = t.chain b := rfl

theorem values_active (t : HashTable) : t.active.2.values = t.values := rfl

theorem valFact_active (t : HashTable) : t.active.2.valFact = t.valFact := rfl

theorem wf_active (t : HashTable) (h : t.wf) : t.active.2.wf := h

theorem getMutex_bucket (t : HashTable) (k : Key) (h : t.wf) :
    ∃ l, t.active.2.getMutex (t.bucket k) = some l :=
  getMutex_isSome _ _ (wf_active t h) (bucket_lt _ _ (wf_active t h))

theorem find_eq (t : HashTable) (st : Statics) (key : Key) (now : Nat) (h : t.wf) :
    t.find st key now = some (t.active.2.unlocked_find st key (t.bucket key) now) := by
  obtain ⟨l, hl⟩ := getMutex_bucket t key h
  unfold find
  rw [active_eq]
  simp only [Bool.not_true, Bool.false_eq_true, if_false, hl, bucket_active]

theorem set_eq (t : HashTable) (st : Statics) (now mint : Nat) (val : Item) (h : t.wf) :
    t.set st now mint val =
      setAfterFind (t.active.2.unlocked_find st val.getKey (t.bucket val.getKey) now)
        (t.bucket val.getKey) now mint val := by
  obtain ⟨l, hl⟩ := getMutex_bucket t val.getKey h
  unfold set
  rw [active_eq]
  simp only [Bool.not_true, Bool.false_eq_true, if_false, hl, bucket_active]
  rfl

theorem unlocked_find_miss (t : HashTable) (st : Statics) (k : Key) (b now : Nat)
    (h : chainFind k (t.chain b) = none) :
    t.unlocked_find st k b now = ⟨none, t, st⟩ := by
  unfold unlocked_find
  rw [h]

theorem unlocked_find_hit (t : HashTable) (st : Statics) (k : Key) (b now i : Nat)
    (v : StoredValue) (h : chainFind k (t.chain b) = some (i, v)) (hx : ¬ v.expired now) :
    t.unlocked_find st k b now = ⟨some (i, v), t, st⟩ := by
  unfold unlocked_find
  rw [h]
  unfold StoredValue.expired at hx
  simp only [hx, if_false]

theorem unlocked_find_expired (t : HashTable) (st : Statics) (k : Key) (b now i : Nat)
    (v : StoredValue) (h : chainFind k (t.chain b) = some (i, v)) (hx : v.expired now) :
    t.unlocked_find st k b now =
      ⟨none, (t.unlocked_del st k b now).table, (t.unlocked_del st k b now).statics⟩ := by
  unfold unlocked_find
  rw [h]
  unfold StoredValue.expired at hx
  show (if v.getExptime ≠ 0 ∧ v.getExptime < now then _ else _) = _
  rw [if_pos hx]

theorem unlocked_del_unlocked (t : HashTable) (st : Statics) (k : Key) (b now i : Nat)
    (v : StoredValue) (h : chainFind k (t.chain b) = some (i, v))
    (hl : (v.isLocked now).1 = false) :
    t.unlocked_del st k b now =
      ⟨true, t.active.2.setChain b ((t.chain b).eraseIdx i), (v.isLocked now).2.destroy st⟩ := by
  unfold unlocked_del
  simp only [chain_active]
  rw [chainDel_of_unlocked k now _ i v h hl]

theorem unlocked_del_locked (t : HashTable) (st : Statics) (k : Key) (b now i : Nat)
    (v : StoredValue) (h : chainFind k (t.chain b) = some (i, v))
    (hl : (v.isLocked now).1 = true) :
    t.unlocked_del st k b now = ⟨false, t.active.2.setChain b (t.chain b), st⟩ := by
  unfold unlocked_del
  simp only [chain_active]
  rw [chainDel_of_locked k now _ i v h hl]

theorem unlocked_del_miss (t : HashTable) (st : Statics) (k : Key) (b now : Nat)
    (h : chainFind k (t.chain b) = none) :
    t.unlocked_del st k b now = ⟨false, t.active.2.setChain b (t.chain b), st⟩ := by
  unfold unlocked_del
  simp only [chain_active]
  rw [chainDel_of_none k now _ h]

theorem set_getD_self {α : Type} (l : List α) (b : Nat) (d : α) : l.set b (l.getD b d) = l := by
  apply List.ext_getElem?
  intro j
  by_cases hj : b = j
  · subst hj
    by_cases hb : b < l.length
    · rw [List.getElem?_set_self hb, List.getD_eq_getElem?_getD, List.getElem?_eq_getElem hb]
      rfl
    · rw [List.getElem?_eq_none (by simpa using hb), List.getElem?_eq_none (by omega)]
  · rw [List.getElem?_set_ne hj]

theorem setChain_chain (t : HashTable) (b : Nat) : t.setChain b (t.chain b) = t := by
  unfold setChain chain
  rw [set_getD_self]

theorem values_setChain (t : HashTable) (b : Nat) (l : List StoredValue) :
    (t.setChain b l).values = t.values.set b l := rfl

theorem chain_setChain_same (t : HashTable) (b : Nat) (l : List StoredValue)
    (hb : b < t.values.length) : (t.setChain b l).chain b = l := by
  unfold chain setChain
  simp [List.getD_eq_getElem?_getD, List.getElem?_set_self hb]

theorem chain_setChain_other (t : HashTable) (b b1 : Nat) (l : List StoredValue)
    (hb : b1 ≠ b) : (t.setChain b l).chain b1 = t.chain b1 := by
  unfold chain setChain
  simp [List.getD_eq_getElem?_getD, List.getElem?_set_ne (Ne.symm hb)]

theorem bucket_setChain (t : HashTable) (b : Nat) (l : List StoredValue) (k : Key) :
    (t.setChain b l).bucket k = t.bucket k := rfl

theorem wf_setChain (t : HashTable) (b : Nat) (l : List StoredValue) (h : t.wf) :
    (t.setChain b l).wf := by
  obtain ⟨h0, h1, h2, h3, h4⟩ := h
  refine ⟨h0, h1, h2, h3, ?_⟩
  simp [setChain, h4]

theorem bucket_store (t : HashTable) (b i : Nat) (v : StoredValue) (k : Key) :
    (t.store b i v).bucket k = t.bucket k := rfl

theorem wf_store (t : HashTable) (b i : Nat) (v : StoredValue) (h : t.wf) :
    (t.store b i v).wf := wf_setChain _ _ _ h

theorem chain_store_same (t : HashTable) (b i : Nat) (v : StoredValue)
    (hb : b < t.values.length) : (t.store b i v).chain b = (t.chain b).set i v :=
  chain_setChain_same _ _ _ hb

theorem chain_store_other (t : HashTable) (b b1 i : Nat) (v : StoredValue) (hb : b1 ≠ b) :
    (t.store b i v).chain b1 = t.chain b1 :=
  chain_setChain_other _ _ _ _ hb

theorem lt_of_entry (t : HashTable) (b i : Nat) (v : StoredValue) (h : t.entry b i = some v) :
    b < t.values.length ∧ i < (t.chain b).length := by
  unfold entry at h
  have hi : i < (t.chain b).length := by
    by_contra hc
    rw [List.getElem?_eq_none (by omega)] at h
    cases h
  refine ⟨?_, hi⟩
  by_contra hc
  have : t.chain b = [] := by
    unfold chain
    rw [List.getD_eq_getElem?_getD, List.getElem?_eq_none (by omega)]
    rfl
  rw [this] at hi
  simp at hi

theorem entry_store_same (t : HashTable) (b i : Nat) (v w : StoredValue)
    (h : t.entry b i = some v) : (t.store b i w).entry b i = some w := by
  obtain ⟨hb, hi⟩ := lt_of_entry t b i v h
  unfold entry
  rw [chain_store_same _ _ _ _ hb, List.getElem?_set_self hi]

theorem entry_store_other (t : HashTable) (b i : Nat) (w : StoredValue) (b1 j : Nat)
    (h : ¬ (b1 = b ∧ j = i)) : (t.store b i w).entry b1 j = t.entry b1 j := by
  unfold entry
  by_cases hb : b1 = b
  · subst hb
    have hj : i ≠ j := fun e => h ⟨rfl, e.symm⟩
    by_cases hl : b1 < t.values.length
    · rw [chain_store_same _ _ _ _ hl, List.getElem?_set_ne hj]
    · have e : t.store b1 i w = t := by
        unfold store setChain
        rw [List.set_eq_of_length_le (by omega)]
      rw [e]
  · rw [chain_store_other _ _ _ _ _ hb]

theorem entryFor_iff (t : HashTable) (k : Key) (i : Nat) (v : StoredValue) :
    t.entryFor k i v ↔ chainFind k (t.chain (t.bucket k)) = some (i, v) := by
  unfold entryFor entry
  rw [chainFind_eq_some]

theorem chainFind_of_noEntry (t : HashTable) (k : Key) (b : Nat) (h : t.noEntry k) :
    chainFind k (t.chain b) = none := by
  rw [chainFind_eq_none]
  intro u hu
  unfold chain at hu
  rw [List.getD_eq_getElem?_getD] at hu
  cases hb : t.values[b]? with
  | none => rw [hb] at hu; simp at hu
  | some l =>
    rw [hb] at hu
    exact h l (List.getElem?_mem hb) u hu

end HashTable
/-! ## Facts about one record -/

namespace StoredValue

theorem getKey_of_hasKey (v : StoredValue) (k : Key) (h : v.hasKey k = true) : v.getKey = k := by
  unfold hasKey at h
  simp only [Bool.and_eq_true, decide_eq_true_eq] at h
  obtain ⟨h1, h2⟩ := h
  unfold getKey
  rw [← h2, ← h1, List.take_length]

theorem hasKey_isLocked (v : StoredValue) (now : Nat) (k : Key) :
    (v.isLocked now).2.hasKey k = v.hasKey k := by
  unfold isLocked
  cases hx : v.extra with
  | small s => simp
  | feature f =>
    simp only
    split <;> simp [hasKey, getKeyLen, getKeyBytes, hx]

theorem hasKey_unlock (v : StoredValue) (k : Key) : v.unlock.hasKey k = v.hasKey k := by
  unfold unlock
  cases hx : v.extra with
  | small s => simp
  | feature f => simp [hasKey, getKeyLen, getKeyBytes, hx]

theorem hasKey_setValue (v : StoredValue) (val : Blob) (fl ex cs now : Nat) (st : Statics)
    (k : Key) : (v.setValue val fl ex cs now st).1.hasKey k = v.hasKey k := by
  unfold setValue
  cases hx : v.extra with
  | small s => simp [hasKey, getKeyLen, getKeyBytes, markDirty, reDirty, hx]
  | feature f => simp [hasKey, getKeyLen, getKeyBytes, markDirty, reDirty, hx]

end StoredValue

/-! ## Entries of a table -/

namespace HashTable

theorem entry_of_values (t : HashTable) (b j : Nat) (l : List StoredValue) (u : StoredValue)
    (hb : t.values[b]? = some l) (hj : l[j]? = some u) : t.entry b j = some u := by
  unfold entry chain
  rw [List.getD_eq_getElem?_getD, hb]
  exact hj

theorem values_of_entry (t : HashTable) (b j : Nat) (u : StoredValue)
    (h : t.entry b j = some u) : ∃ l, t.values[b]? = some l ∧ l[j]? = some u := by
  unfold entry chain at h
  rw [List.getD_eq_getElem?_getD] at h
  cases hb : t.values[b]? with
  | none => rw [hb] at h; simp at h
  | some l => rw [hb] at h; exact ⟨l, rfl, h⟩

theorem noEntry_iff (t : HashTable) (k : Key) :
    t.noEntry k ↔ ∀ b j u, t.entry b j = some u → u.hasKey k = false := by
  constructor
  · intro h b j u hu
    obtain ⟨l, hl, hj⟩ := values_of_entry t b j u hu
    exact h l (List.getElem?_mem hl) u (List.getElem?_mem hj)
  · intro h l hl u hu
    obtain ⟨b, hb⟩ := List.getElem?_of_mem hl
    obtain ⟨j, hj⟩ := List.getElem?_of_mem hu
    exact h b j u (entry_of_values t b j l u hb hj)

theorem entry_setChain (t : HashTable) (b : Nat) (l : List StoredValue) (b1 j : Nat)
    (u : StoredValue) (h : (t.setChain b l).entry b1 j = some u) :
    (b1 = b ∧ l[j]? = some u) ∨ (b1 ≠ b ∧ t.entry b1 j = some u) := by
  by_cases hb : b1 = b
  · subst hb
    left
    refine ⟨rfl, ?_⟩
    obtain ⟨hlt, -⟩ := lt_of_entry _ _ _ _ h
    rw [values_setChain, List.length_set] at hlt
    unfold entry at h
    rw [chain_setChain_same _ _ _ hlt] at h
    exact h
  · right
    refine ⟨hb, ?_⟩
    unfold entry at h ⊢
    rw [chain_setChain_other _ _ _ _ hb] at h
    exact h

theorem entry_active (t : HashTable) (b j : Nat) : t.active.2.entry b j = t.entry b j := rfl

end HashTable

namespace HashTable

theorem onlyEntry_sampleTable (e : StoredValue) (k : Key) :
    (sampleTable [e]).onlyEntry k 1 0 := by
  intro b1 j u h _
  rcases b1 with _ | _ | _ | b1 <;> rcases j with _ | j <;>
    simp [HashTable.entry, HashTable.chain, sampleTable] at h ⊢

end HashTable

/-! ## Lookup -/

/-- C1: when `find(key)` returns an entry, the entry carries the requested key
and is not expired at the current time: its `exptime` is 0 or at least `now`.
The pointer returned is a node of the key's chain in the table after the call. -/
theorem find_returns_unexpired (t : HashTable) (st : Statics) (key : Key) (now : Nat)
    (r : FindResult) (i : Nat) (v : StoredValue)
    (h : t.find st key now = some r) (hv : r.v = some (i, v)) :
    v.hasKey key = true ∧ v.getKey = key ∧ (v.getExptime = 0 ∨ now ≤ v.getExptime) ∧
      ¬ (v.getExptime ≠ 0 ∧ v.getExptime < now) ∧
      r.table.entry (r.table.bucket key) i = some v := by
  unfold HashTable.find at h
  rw [HashTable.active_eq] at h
  simp only [Bool.not_true, Bool.false_eq_true, if_false, HashTable.bucket_active] at h
  cases hm : t.active.2.getMutex (t.bucket key) with
  | none => rw [hm] at h; cases h
  | some l =>
    rw [hm] at h
    simp only [Option.some.injEq] at h
    subst h
    cases hc : chainFind key (t.active.2.chain (t.bucket key)) with
    | none =>
      rw [HashTable.unlocked_find_miss _ _ _ _ _ hc] at hv
      cases hv
    | some p =>
      obtain ⟨j, w⟩ := p
      by_cases hx : w.expired now
      · rw [HashTable.unlocked_find_expired _ _ _ _ _ _ _ hc hx] at hv
        cases hv
      · rw [HashTable.unlocked_find_hit _ _ _ _ _ _ _ hc hx] at hv ⊢
        simp only [Option.some.injEq, Prod.mk.injEq] at hv
        obtain ⟨e1, e2⟩ := hv
        subst e1; subst e2
        have hc2 := (chainFind_eq_some _ _ _ _).1 hc
        refine ⟨hc2.2.1, StoredValue.getKey_of_hasKey _ _ hc2.2.1, ?_, hx, hc2.1⟩
        unfold StoredValue.expired at hx
        omega

/-- C1 at a sample table: the live entry for "a" is found and is unexpired. -/
theorem find_returns_unexpired_witness :
    (sampleTable [sampleEntry 5 20 0 false false]).find sampleStatics [97] 10 =
        some ⟨some (0, sampleEntry 5 20 0 false false),
          sampleTable [sampleEntry 5 20 0 false false], sampleStatics⟩ ∧
      ((sampleEntry 5 20 0 false false).hasKey [97] = true ∧
        (sampleEntry 5 20 0 false false).getKey = [97] ∧
        ((sampleEntry 5 20 0 false false).getExptime = 0 ∨
          10 ≤ (sampleEntry 5 20 0 false false).getExptime) ∧
        ¬ ((sampleEntry 5 20 0 false false).getExptime ≠ 0 ∧
          (sampleEntry 5 20 0 false false).getExptime < 10) ∧
        (sampleTable [sampleEntry 5 20 0 false false]).entry
          ((sampleTable [sampleEntry 5 20 0 false false]).bucket [97]) 0 =
          some (sampleEntry 5 20 0 false false)) :=
  ⟨by decide,
   find_returns_unexpired (sampleTable [sampleEntry 5 20 0 false false]) sampleStatics [97] 10
     ⟨some (0, sampleEntry 5 20 0 false false),
       sampleTable [sampleEntry 5 20 0 false false], sampleStatics⟩
     0 (sampleEntry 5 20 0 false false) (by decide) rfl⟩

/-- C2 as stated fails: the entry for "a" is expired at time 10 (exptime 5) but
still locked (lock expiry 100); `find` reports a miss and the entry stays in
the table, because `unlocked_del` refuses to unlink a locked node. -/
theorem find_expired_locked_stays :
    (∃ v ∈ (sampleTable [sampleEntry 5 5 100 true false]).chain
        ((sampleTable [sampleEntry 5 5 100 true false]).bucket [97]),
        v.hasKey [97] = true ∧ v.getExptime ≠ 0 ∧ v.getExptime < 10) ∧
      ∃ r, (sampleTable [sampleEntry 5 5 100 true false]).find sampleStatics [97] 10 = some r ∧
        r.v = none ∧ ¬ r.table.noEntry [97] :=
  ⟨by decide,
   ⟨⟨none, sampleTable [sampleEntry 5 5 100 true false], sampleStatics⟩,
    by decide, rfl, by decide⟩⟩

/-- C2 (amended): if the entry for the key is expired at `now`, is not locked
at `now`, and is the only node of the table carrying the key, then `find`
reports a miss and afterwards no chain of the table holds a node for the key:
the key's chain has lost exactly that node and `currentSize` is reduced by
its size. -/
theorem find_expired_unlocked_removes (t : HashTable) (st : Statics) (key : Key) (now i : Nat)
    (v : StoredValue) (hwf : t.wf) (he : t.entryFor key i v)
    (hx : v.getExptime ≠ 0 ∧ v.getExptime < now) (hl : (v.isLocked now).1 = false)
    (hu : t.onlyEntry key (t.bucket key) i) :
    ∃ r, t.find st key now = some r ∧ r.v = none ∧ r.table.noEntry key ∧
      r.table.chain (t.bucket key) = (t.chain (t.bucket key)).eraseIdx i ∧
      r.statics = reduceCurrentSize st v.size := by
  have hc := (HashTable.entryFor_iff t key i v).1 he
  have hc1 : chainFind key (t.active.2.chain (t.bucket key)) = some (i, v) := hc
  refine ⟨_, HashTable.find_eq t st key now hwf, ?_⟩
  rw [HashTable.unlocked_find_expired _ _ _ _ _ _ _ hc1 hx,
    HashTable.unlocked_del_unlocked _ _ _ _ _ _ _ hc1 hl]
  have hblt : t.bucket key < t.values.length := by
    rw [hwf.2.2.2.2]; exact HashTable.bucket_lt t key hwf
  refine ⟨rfl, ?_, ?_, ?_⟩
  · rw [HashTable.noEntry_iff]
    intro b1 j u hent
    by_contra hk
    simp only [Bool.not_eq_false] at hk
    rcases HashTable.entry_setChain _ _ _ _ _ _ hent with ⟨hb, hj⟩ | ⟨hb, hj⟩
    · rw [List.getElem?_eraseIdx] at hj
      by_cases hji : j < i
      · rw [if_pos hji] at hj
        have := (hu (t.bucket key) j u hj hk).2
        omega
      · rw [if_neg hji] at hj
        have := (hu (t.bucket key) (j + 1) u hj hk).2
        omega
    · exact hb (hu b1 j u hj hk).1
  · exact HashTable.chain_setChain_same _ _ _ hblt
  · show (v.isLocked now).2.destroy st = _
    unfold StoredValue.destroy
    congr 1
    unfold StoredValue.isLocked at hl ⊢
    cases hxx : v.extra with
    | small s => simp
    | feature f =>
      simp only [hxx] at hl ⊢
      split
      · simp [StoredValue.size, StoredValue._isSmall, StoredValue.getKeyLen, hxx]
      · rfl

/-- C2 (amended) at a sample table: the expired, unlocked entry for "a" is
removed by `find`. -/
theorem find_expired_unlocked_removes_witness :
    ∃ r, (sampleTable [sampleEntry 5 5 0 false false]).find sampleStatics [97] 10 = some r ∧
      r.v = none ∧ r.table.noEntry [97] ∧
      r.table.chain ((sampleTable [sampleEntry 5 5 0 false false]).bucket [97]) =
        ((sampleTable [sampleEntry 5 5 0 false false]).chain
          ((sampleTable [sampleEntry 5 5 0 false false]).bucket [97])).eraseIdx 0 ∧
      r.statics = reduceCurrentSize sampleStatics (sampleEntry 5 5 0 false false).size :=
  find_expired_unlocked_removes (sampleTable [sampleEntry 5 5 0 false false]) sampleStatics
    [97] 10 0 (sampleEntry 5 5 0 false false) (by decide) (by decide) (by decide) (by decide)
    (HashTable.onlyEntry_sampleTable _ _)

/-! ## What `setValue`, `unlock`, `isLocked` and the factory do to a record -/

namespace StoredValue

theorem exists_feature_of_not_small (v : StoredValue) (h : v._isSmall = false) :
    ∃ f, v.extra = .feature f := by
  unfold _isSmall at h
  cases hx : v.extra with
  | small s => rw [hx] at h; cases h
  | feature f => exact ⟨f, rfl⟩

theorem isSmall_isLocked (v : StoredValue) (now : Nat) :
    (v.isLocked now).2._isSmall = v._isSmall := by
  unfold isLocked
  cases hx : v.extra with
  | small s => simp
  | feature f =>
    simp only
    split <;> simp [_isSmall, hx]

theorem isSmall_unlock (v : StoredValue) : v.unlock._isSmall = v._isSmall := by
  unfold unlock
  cases hx : v.extra with
  | small s => simp
  | feature f => simp [_isSmall, hx]

theorem getValue_setValue (v : StoredValue) (val : Blob) (fl ex cs now : Nat) (st : Statics) :
    (v.setValue val fl ex cs now st).1.getValue = val := by
  unfold setValue
  cases hx : v.extra <;> simp [getValue, markDirty, reDirty, hx]

theorem isDirty_setValue (v : StoredValue) (val : Blob) (fl ex cs now : Nat) (st : Statics) :
    (v.setValue val fl ex cs now st).1.isDirty = true := by
  unfold setValue
  cases hx : v.extra <;> simp [isDirty, markDirty, reDirty, hx]

theorem isSmall_setValue (v : StoredValue) (val : Blob) (fl ex cs now : Nat) (st : Statics) :
    (v.setValue val fl ex cs now st).1._isSmall = v._isSmall := by
  unfold setValue
  cases hx : v.extra <;> simp [_isSmall, markDirty, reDirty, hx]

theorem feature_setValue (v : StoredValue) (val : Blob) (fl ex cs now : Nat) (st : Statics)
    (h : v._isSmall = false) :
    (v.setValue val fl ex cs now st).1.getCas = cs ∧
      (v.setValue val fl ex cs now st).1.getFlags = fl ∧
      (v.setValue val fl ex cs now st).1.getExptime = ex := by
  obtain ⟨f, hf⟩ := exists_feature_of_not_small v h
  unfold setValue
  simp [getCas, getFlags, getExptime, markDirty, reDirty, hf]

theorem getCas_isLocked (v : StoredValue) (now : Nat) : (v.isLocked now).2.getCas = v.getCas := by
  unfold isLocked
  cases hx : v.extra with
  | small s => simp
  | feature f =>
    simp only
    split <;> simp [getCas, hx]

theorem getFlags_isLocked (v : StoredValue) (now : Nat) :
    (v.isLocked now).2.getFlags = v.getFlags := by
  unfold isLocked
  cases hx : v.extra with
  | small s => simp
  | feature f =>
    simp only
    split <;> simp [getFlags, hx]

theorem getExptime_isLocked (v : StoredValue) (now : Nat) :
    (v.isLocked now).2.getExptime = v.getExptime := by
  unfold isLocked
  cases hx : v.extra with
  | small s => simp
  | feature f =>
    simp only
    split <;> simp [getExptime, hx]

theorem getValue_isLocked (v : StoredValue) (now : Nat) :
    (v.isLocked now).2.getValue = v.getValue := by
  unfold isLocked
  cases hx : v.extra with
  | small s => simp
  | feature f =>
    simp only
    split <;> simp [getValue]

theorem isDirty_isLocked (v : StoredValue) (now : Nat) :
    (v.isLocked now).2.isDirty = v.isDirty := by
  unfold isLocked
  cases hx : v.extra with
  | small s => simp
  | feature f =>
    simp only
    split <;> simp [isDirty]

theorem isDirty_unlock (v : StoredValue) : v.unlock.isDirty = v.isDirty := by
  unfold unlock
  cases hx : v.extra <;> simp [isDirty]

end StoredValue

namespace StoredValueFactory

theorem call_featured (itm : Item) (now : Nat) (st : Statics) (setDirty : Bool)
    (h : itm.getKey.length < 256) :
    ∃ w st1, call .featured itm setDirty now st = some (w, st1) ∧
      w.hasKey itm.getKey = true ∧ w.getValue = itm.getValue ∧ w.getFlags = itm.getFlags ∧
      w.getExptime = itm.getExptime ∧ w.getCas = itm.getCas ∧ w.isDirty = setDirty ∧
      w._isSmall = false := by
  have hm : itm.getKey.length % 256 = itm.getKey.length := Nat.mod_eq_of_lt h
  cases setDirty <;>
    simp [call, newStoredValue, h, StoredValue.construct, StoredValue.copyKey,
      StoredValue.markDirty, StoredValue.reDirty, StoredValue.markClean, StoredValue.hasKey,
      StoredValue.getKeyLen, StoredValue.getKeyBytes, StoredValue.getValue,
      StoredValue.getFlags, StoredValue.getExptime, StoredValue.getCas, StoredValue.isDirty,
      StoredValue._isSmall, hm]

end StoredValueFactory

/-! ## The branches of `set` -/

namespace HashTable

theorem unlocked_del_table (t : HashTable) (st : Statics) (k : Key) (b now : Nat) :
    ∃ l, (t.unlocked_del st k b now).table = t.active.2.setChain b l := by
  unfold unlocked_del
  rcases hd : chainDel k now (t.active.2.chain b) with ⟨_ | d, l⟩
  · exact ⟨l, by simp only [hd]⟩
  · exact ⟨l, by simp only [hd]⟩

/-- The table `unlocked_find` leaves behind keeps the shape of the table. -/
theorem unlocked_find_table (t : HashTable) (st : Statics) (k : Key) (b now : Nat) :
    (t.unlocked_find st k b now).table = t ∨
      ∃ l, (t.unlocked_find st k b now).table = t.active.2.setChain b l := by
  unfold unlocked_find
  split
  · left; rfl
  · split
    · right; exact unlocked_del_table t st k b now
    · left; rfl

theorem unlocked_find_wf (t : HashTable) (st : Statics) (k : Key) (b now : Nat) (h : t.wf) :
    (t.unlocked_find st k b now).table.wf := by
  rcases unlocked_find_table t st k b now with e | ⟨l, e⟩
  · rw [e]; exact h
  · rw [e]; exact wf_setChain _ _ _ (wf_active t h)

theorem unlocked_find_bucket (t : HashTable) (st : Statics) (k : Key) (b now : Nat) (k1 : Key) :
    (t.unlocked_find st k b now).table.bucket k1 = t.bucket k1 := by
  rcases unlocked_find_table t st k b now with e | ⟨l, e⟩
  · rw [e]
  · rw [e]; rfl

theorem unlocked_find_valFact (t : HashTable) (st : Statics) (k : Key) (b now : Nat) :
    (t.unlocked_find st k b now).table.valFact = t.valFact := by
  rcases unlocked_find_table t st k b now with e | ⟨l, e⟩
  · rw [e]
  · rw [e]; rfl

/-- A hit of `unlocked_find` is the first node for the key in the chain of the
unchanged table, and is not expired. -/
theorem unlocked_find_some (t : HashTable) (st : Statics) (k : Key) (b now i : Nat)
    (v : StoredValue) (h : (t.unlocked_find st k b now).v = some (i, v)) :
    chainFind k (t.chain b) = some (i, v) ∧ ¬ v.expired now ∧
      t.unlocked_find st k b now = ⟨some (i, v), t, st⟩ := by
  cases hc : chainFind k (t.chain b) with
  | none => rw [unlocked_find_miss _ _ _ _ _ hc] at h; cases h
  | some p =>
    obtain ⟨j, w⟩ := p
    by_cases hx : w.expired now
    · rw [unlocked_find_expired _ _ _ _ _ _ _ hc hx] at h; cases h
    · rw [unlocked_find_hit _ _ _ _ _ _ _ hc hx] at h ⊢
      simp only [Option.some.injEq, Prod.mk.injEq] at h
      obtain ⟨e1, e2⟩ := h
      subst e1; subst e2
      exact ⟨rfl, hx, rfl⟩

/-- Lookup right after a node for the key was put at the head of its chain. -/
theorem find_after_insert (t : HashTable) (st : Statics) (k : Key) (now : Nat)
    (w : StoredValue) (l : List StoredValue) (hwf : t.wf) (hk : w.hasKey k = true)
    (hx : ¬ w.expired now) :
    ∃ fr, (t.setChain (t.bucket k) (w :: l)).find st k now = some fr ∧ fr.v = some (0, w) := by
  have hwf1 := wf_setChain t (t.bucket k) (w :: l) hwf
  have hblt : t.bucket k < t.values.length := by
    rw [hwf.2.2.2.2]; exact bucket_lt t k hwf
  refine ⟨_, find_eq _ st k now hwf1, ?_⟩
  rw [bucket_setChain]
  have hc : chainFind k ((t.setChain (t.bucket k) (w :: l)).active.2.chain (t.bucket k)) =
      some (0, w) := by
    rw [chain_active, chain_setChain_same _ _ _ hblt]
    simp [chainFind, hk]
  rw [unlocked_find_hit _ _ _ _ _ _ _ hc hx]

/-- Lookup right after the entry for the key was overwritten in place. -/
theorem find_after_store (t : HashTable) (st : Statics) (k : Key) (now i : Nat)
    (v w : StoredValue) (hwf : t.wf) (hc : chainFind k (t.chain (t.bucket k)) = some (i, v))
    (hk : w.hasKey k = true) (hx : ¬ w.expired now) :
    ∃ fr, (t.store (t.bucket k) i w).find st k now = some fr ∧ fr.v = some (i, w) := by
  have hwf1 := wf_store t (t.bucket k) i w hwf
  have hblt : t.bucket k < t.values.length := by
    rw [hwf.2.2.2.2]; exact bucket_lt t k hwf
  refine ⟨_, find_eq _ st k now hwf1, ?_⟩
  rw [bucket_store]
  have hc1 : chainFind k ((t.store (t.bucket k) i w).active.2.chain (t.bucket k)) =
      some (i, w) := by
    rw [chain_active, chain_store_same _ _ _ _ hblt]
    exact chainFind_set _ _ _ _ _ hc hk
  rw [unlocked_find_hit _ _ _ _ _ _ _ hc1 hx]

/-- The miss branch of `set`: every way it can end. -/
theorem setAfterFind_miss (fr : FindResult) (b now mint : Nat) (val : Item) (r : SetResult)
    (hv : fr.v = none) (h : setAfterFind fr b now mint val = some r) :
    (val.getCas ≠ 0 ∧ r = ⟨.NOT_FOUND, val, fr.table, fr.statics⟩) ∨
    (val.getCas = 0 ∧ StoredValue.hasAvailableSpace fr.statics val = false ∧
      r = ⟨.NOMEM, val, fr.table, fr.statics⟩) ∨
    (val.getCas = 0 ∧ StoredValue.hasAvailableSpace fr.statics val = true ∧
      ∃ w st1, StoredValueFactory.call fr.table.valFact (val.setCas mint) true now fr.statics =
          some (w, st1) ∧
        r = ⟨.NOT_FOUND, val.setCas mint, fr.table.setChain b (w :: fr.table.chain b), st1⟩) := by
  unfold setAfterFind at h
  rw [hv] at h
  simp only at h
  by_cases hc : val.getCas ≠ 0
  · rw [if_pos hc] at h
    left
    exact ⟨hc, (Option.some.inj h).symm⟩
  · rw [if_neg hc] at h
    simp only [ne_eq, Decidable.not_not] at hc
    right
    cases hs : StoredValue.hasAvailableSpace fr.statics val with
    | false =>
      left
      rw [hs] at h
      simp only [Bool.not_false, if_true] at h
      exact ⟨hc, rfl, (Option.some.inj h).symm⟩
    | true =>
      right
      rw [hs] at h
      simp only [Bool.not_true, Bool.false_eq_true, if_false] at h
      refine ⟨hc, rfl, ?_⟩
      cases hf : StoredValueFactory.call fr.table.valFact (val.setCas mint) true now fr.statics with
      | none => rw [hf] at h; cases h
      | some p =>
        obtain ⟨w, st1⟩ := p
        rw [hf] at h
        exact ⟨w, st1, rfl, (Option.some.inj h).symm⟩

/-- The hit branch of `set`: every way it can end. -/
theorem setAfterFind_hit (fr : FindResult) (b now mint i : Nat) (v : StoredValue) (val : Item)
    (hv : fr.v = some (i, v)) :
    ((v.isLocked now).1 = true ∧ val.getCas ≠ v.getCas ∧
      setAfterFind fr b now mint val =
        some ⟨.IS_LOCKED, val, fr.table.store b i (v.isLocked now).2, fr.statics⟩) ∨
    ((v.isLocked now).1 = true ∧ val.getCas = v.getCas ∧
      setAfterFind fr b now mint val =
        some (fr.table.set_update fr.statics now mint val b i (v.isLocked now).2.unlock)) ∨
    ((v.isLocked now).1 = false ∧ val.getCas ≠ 0 ∧ val.getCas ≠ v.getCas ∧
      setAfterFind fr b now mint val =
        some ⟨.INVALID_CAS, val, fr.table.store b i (v.isLocked now).2, fr.statics⟩) ∨
    ((v.isLocked now).1 = false ∧ (val.getCas = 0 ∨ val.getCas = v.getCas) ∧
      setAfterFind fr b now mint val =
        some (fr.table.set_update fr.statics now mint val b i (v.isLocked now).2)) := by
  unfold setAfterFind
  rw [hv]
  simp only [StoredValue.getCas_isLocked]
  cases hl : (v.isLocked now).1 with
  | true =>
    by_cases hc : val.getCas ≠ v.getCas
    · left
      exact ⟨rfl, hc, by rw [if_pos rfl, if_pos hc]⟩
    · right; left
      refine ⟨rfl, by simpa using hc, by rw [if_pos rfl, if_neg hc]⟩
  | false =>
    right; right
    by_cases hc : val.getCas ≠ 0 ∧ val.getCas ≠ v.getCas
    · left
      refine ⟨rfl, hc.1, hc.2, ?_⟩
      rw [if_neg (by simp), if_pos hc]
    · right
      refine ⟨rfl, by omega, ?_⟩
      rw [if_neg (by simp), if_neg hc]

theorem set_update_rv (t : HashTable) (st : Statics) (now mint : Nat) (itm : Item)
    (b i : Nat) (v : StoredValue) :
    (t.set_update st now mint itm b i v).rv =
      (if v.isClean then mutation_type_t.WAS_CLEAN else mutation_type_t.WAS_DIRTY) := rfl

theorem set_update_itm (t : HashTable) (st : Statics) (now mint : Nat) (itm : Item)
    (b i : Nat) (v : StoredValue) :
    (t.set_update st now mint itm b i v).itm = itm.setCas mint := rfl

theorem set_update_table (t : HashTable) (st : Statics) (now mint : Nat) (itm : Item)
    (b i : Nat) (v : StoredValue) :
    (t.set_update st now mint itm b i v).table =
      t.store b i (v.setValue itm.getValue itm.getFlags itm.getExptime mint now st).1 := rfl

theorem set_update_statics (t : HashTable) (st : Statics) (now mint : Nat) (itm : Item)
    (b i : Nat) (v : StoredValue) :
    (t.set_update st now mint itm b i v).statics =
      (v.setValue itm.getValue itm.getFlags itm.getExptime mint now st).2 := rfl

end HashTable

namespace HashTable

theorem featured_of_entry (t : HashTable) (b i : Nat) (v : StoredValue) (hf : t.featuredTable)
    (h : t.entry b i = some v) : v._isSmall = false := by
  obtain ⟨l, hl, hj⟩ := values_of_entry t b i v h
  exact hf.2 l (List.getElem?_mem hl) v (List.getElem?_mem hj)

/-- The update done by `set_update` on a featured entry, seen by a lookup at the
same time. -/
theorem find_after_set_update (t : HashTable) (st : Statics) (now mint i : Nat) (val : Item)
    (v w : StoredValue) (hwf : t.wf)
    (hc : chainFind val.getKey (t.chain (t.bucket val.getKey)) = some (i, v))
    (hk : w.hasKey val.getKey = true) (hsm : w._isSmall = false)
    (hx : val.exptime = 0 ∨ now ≤ val.exptime) :
    ∃ fr u, (t.set_update st now mint val (t.bucket val.getKey) i w).table.find
        (t.set_update st now mint val (t.bucket val.getKey) i w).statics val.key now = some fr ∧
      fr.v = some (i, u) ∧ u.getKey = val.key ∧ u.getValue = val.value ∧
      u.getFlags = val.flags ∧ u.getExptime = val.exptime ∧ u.getCas = mint := by
  obtain ⟨h1, h2, h3⟩ :=
    StoredValue.feature_setValue w val.getValue val.getFlags val.getExptime mint now st hsm
  have hk1 : (w.setValue val.getValue val.getFlags val.getExptime mint now st).1.hasKey
      val.getKey = true := by
    rw [StoredValue.hasKey_setValue]; exact hk
  have hx1 : ¬ (w.setValue val.getValue val.getFlags val.getExptime mint now st).1.expired now := by
    unfold StoredValue.expired
    rw [h3]
    show ¬ (val.exptime ≠ 0 ∧ val.exptime < now)
    omega
  obtain ⟨fr, hfr, hv⟩ := find_after_store t
    (t.set_update st now mint val (t.bucket val.getKey) i w).statics val.getKey now i v _ hwf hc
    hk1 hx1
  refine ⟨fr, _, hfr, hv, StoredValue.getKey_of_hasKey _ _ hk1,
    StoredValue.getValue_setValue _ _ _ _ _ _ _, h2, h3, h1⟩

end HashTable

/-! ## Round trip and the CAS and lock checks of `set` -/

/-- C3: on a table of the featured type, when `set` stores an item whose key has
at most 255 bytes and whose `exptime` is 0 or at least `now` (by update:
`WAS_CLEAN` / `WAS_DIRTY`; by insert: `NOT_FOUND` for an item that came with CAS
0), a `find` of the item's key at the same time returns an entry with the
item's key, value, flags and exptime and with the CAS minted by that `set`,
which is also the CAS left in the caller's item. -/
theorem set_find_round_trip (t : HashTable) (st : Statics) (now mint : Nat) (val : Item)
    (r : SetResult) (hwf : t.wf) (hf : t.featuredTable) (hk : val.key.length ≤ 255)
    (hx : val.exptime = 0 ∨ now ≤ val.exptime)
    (hs : t.set st now mint val = some r)
    (hst : r.rv = .WAS_CLEAN ∨ r.rv = .WAS_DIRTY ∨ (r.rv = .NOT_FOUND ∧ val.cas = 0)) :
    ∃ fr i v, r.table.find r.statics val.key now = some fr ∧ fr.v = some (i, v) ∧
      v.getKey = val.key ∧ v.getValue = val.value ∧ v.getFlags = val.flags ∧
      v.getExptime = val.exptime ∧ v.getCas = mint ∧ r.itm.cas = mint := by
  rw [HashTable.set_eq t st now mint val hwf] at hs
  cases hv : (t.active.2.unlocked_find st val.getKey (t.bucket val.getKey) now).v with
  | none =>
    rcases HashTable.setAfterFind_miss _ _ _ _ _ _ hv hs with
      ⟨hc, e⟩ | ⟨-, -, e⟩ | ⟨-, -, w, st1, hcall, e⟩
    · subst e
      rcases hst with h | h | ⟨-, h⟩
      · cases h
      · cases h
      · exact absurd h hc
    · subst e
      rcases hst with h | h | ⟨h, -⟩ <;> cases h
    · subst e
      rw [HashTable.unlocked_find_valFact, HashTable.valFact_active, hf.1] at hcall
      obtain ⟨w1, st2, hcall1, hw1, hw2, hw3, hw4, hw5, -, -⟩ :=
        StoredValueFactory.call_featured (val.setCas mint) now
          (t.active.2.unlocked_find st val.getKey (t.bucket val.getKey) now).statics true
          (show val.key.length < 256 by omega)
      rw [hcall1] at hcall
      simp only [Option.some.injEq, Prod.mk.injEq] at hcall
      obtain ⟨e1, e2⟩ := hcall
      subst e1; subst e2
      have hwf1 := HashTable.unlocked_find_wf _ st val.getKey (t.bucket val.getKey) now
        (HashTable.wf_active t hwf)
      have hb : (t.active.2.unlocked_find st val.getKey (t.bucket val.getKey) now).table.bucket
          val.getKey = t.bucket val.getKey := HashTable.unlocked_find_bucket _ _ _ _ _ _
      have hx1 : ¬ w1.expired now := by
        unfold StoredValue.expired
        rw [hw4]
        show ¬ (val.exptime ≠ 0 ∧ val.exptime < now)
        omega
      obtain ⟨fr, hfr, hfv⟩ := HashTable.find_after_insert _ st2 val.getKey now w1
        ((t.active.2.unlocked_find st val.getKey (t.bucket val.getKey) now).table.chain
          (t.bucket val.getKey)) hwf1 hw1 hx1
      rw [hb] at hfr
      exact ⟨fr, 0, w1, hfr, hfv, StoredValue.getKey_of_hasKey _ _ hw1, hw2, hw3, hw4, hw5, rfl⟩
  | some p =>
    obtain ⟨i, v⟩ := p
    obtain ⟨hc, -, hfr⟩ := HashTable.unlocked_find_some _ _ _ _ _ _ _ hv
    have hc0 : chainFind val.getKey (t.active.2.chain (t.active.2.bucket val.getKey)) =
        some (i, v) := hc
    have hkv : v.hasKey val.getKey = true := ((chainFind_eq_some _ _ _ _).1 hc).2.1
    have hsm : v._isSmall = false :=
      HashTable.featured_of_entry t (t.bucket val.getKey) i v hf ((chainFind_eq_some _ _ _ _).1 hc).1
    rw [hfr] at hs
    rcases HashTable.setAfterFind_hit ⟨some (i, v), t.active.2, st⟩ (t.bucket val.getKey) now
      mint i v val rfl with ⟨-, -, e⟩ | ⟨-, -, e⟩ | ⟨-, -, -, e⟩ | ⟨-, -, e⟩
    · rw [e] at hs
      have := Option.some.inj hs
      subst this
      rcases hst with h | h | ⟨h, -⟩ <;> cases h
    · rw [e] at hs
      have := Option.some.inj hs
      subst this
      obtain ⟨fr, u, h1, h2, h3, h4, h5, h6, h7⟩ :=
        HashTable.find_after_set_update t.active.2 st now mint i val v
          (v.isLocked now).2.unlock (HashTable.wf_active t hwf) hc0
          (by rw [StoredValue.hasKey_unlock, StoredValue.hasKey_isLocked]; exact hkv)
          (by rw [StoredValue.isSmall_unlock, StoredValue.isSmall_isLocked]; exact hsm) hx
      exact ⟨fr, i, u, h1, h2, h3, h4, h5, h6, h7, rfl⟩
    · rw [e] at hs
      have := Option.some.inj hs
      subst this
      rcases hst with h | h | ⟨h, -⟩ <;> cases h
    · rw [e] at hs
      have := Option.some.inj hs
      subst this
      obtain ⟨fr, u, h1, h2, h3, h4, h5, h6, h7⟩ :=
        HashTable.find_after_set_update t.active.2 st now mint i val v
          (v.isLocked now).2 (HashTable.wf_active t hwf) hc0
          (by rw [StoredValue.hasKey_isLocked]; exact hkv)
          (by rw [StoredValue.isSmall_isLocked]; exact hsm) hx
      exact ⟨fr, i, u, h1, h2, h3, h4, h5, h6, h7, rfl⟩

/-- C3 at a sample table: an item stored by insert is found again with the
minted CAS 42. -/
theorem set_find_round_trip_witness :
    (sampleTable []).set sampleStatics 10 42 (sampleItem 0 0) = some sampleInserted ∧
      ∃ fr i v, sampleInserted.table.find sampleInserted.statics (sampleItem 0 0).key 10 =
          some fr ∧ fr.v = some (i, v) ∧
        v.getKey = (sampleItem 0 0).key ∧ v.getValue = (sampleItem 0 0).value ∧
        v.getFlags = (sampleItem 0 0).flags ∧ v.getExptime = (sampleItem 0 0).exptime ∧
        v.getCas = 42 ∧ sampleInserted.itm.cas = 42 :=
  ⟨by decide,
   set_find_round_trip (sampleTable []) sampleStatics 10 42 (sampleItem 0 0) sampleInserted
     (by decide) (by decide) (by decide) (by decide) (by decide) (by decide)⟩

namespace HashTable

theorem set_getElem?_self {α : Type} (l : List α) (i : Nat) (a : α) (h : l[i]? = some a) :
    l.set i a = l := by
  apply List.ext_getElem?
  intro j
  by_cases hj : i = j
  · subst hj
    rw [List.getElem?_set_self', h]
    rfl
  · rw [List.getElem?_set_ne hj]

/-- Writing back through a pointer the node it already points to changes
nothing. -/
theorem store_self (t : HashTable) (b i : Nat) (v : StoredValue) (h : t.entry b i = some v) :
    t.store b i v = t := by
  unfold store
  rw [set_getElem?_self _ _ _ h, setChain_chain]

end HashTable

/-- C4: when the key's entry is unexpired and not locked at the current time,
a `set` carrying a CAS that is neither 0 nor the entry's CAS returns
`INVALID_CAS`; the entry keeps its value, flags, exptime, cas and dirty flag,
every other node of the table is unchanged, and so are the statics and the
caller's item. -/
theorem set_invalid_cas (t : HashTable) (st : Statics) (now mint : Nat) (val : Item) (i : Nat)
    (v : StoredValue) (hwf : t.wf) (he : t.entryFor val.key i v)
    (hx : v.getExptime = 0 ∨ now ≤ v.getExptime) (hl : (v.isLocked now).1 = false)
    (hc0 : val.cas ≠ 0) (hc : val.cas ≠ v.getCas) :
    ∃ r, t.set st now mint val = some r ∧ r.rv = .INVALID_CAS ∧
      (∃ u, r.table.entry (t.bucket val.key) i = some u ∧ u.getValue = v.getValue ∧
        u.getFlags = v.getFlags ∧ u.getExptime = v.getExptime ∧ u.getCas = v.getCas ∧
        u.isDirty = v.isDirty) ∧
      (∀ b j, ¬ (b = t.bucket val.key ∧ j = i) → r.table.entry b j = t.entry b j) ∧
      r.statics = st ∧ r.itm = val := by
  have hcf : chainFind val.getKey (t.active.2.chain (t.bucket val.getKey)) = some (i, v) :=
    (HashTable.entryFor_iff t val.key i v).1 he
  have hnx : ¬ v.expired now := by unfold StoredValue.expired; omega
  rw [HashTable.set_eq t st now mint val hwf, HashTable.unlocked_find_hit _ _ _ _ _ _ _ hcf hnx]
  rcases HashTable.setAfterFind_hit ⟨some (i, v), t.active.2, st⟩ (t.bucket val.getKey) now
    mint i v val rfl with ⟨h1, -, -⟩ | ⟨h1, -, -⟩ | ⟨-, -, -, e⟩ | ⟨-, h2, -⟩
  · rw [hl] at h1; cases h1
  · rw [hl] at h1; cases h1
  · refine ⟨_, e, rfl, ⟨(v.isLocked now).2, ?_, StoredValue.getValue_isLocked _ _,
      StoredValue.getFlags_isLocked _ _, StoredValue.getExptime_isLocked _ _,
      StoredValue.getCas_isLocked _ _, StoredValue.isDirty_isLocked _ _⟩, ?_, rfl, rfl⟩
    · exact HashTable.entry_store_same t.active.2 _ _ v _ he.1
    · intro b j hbj
      exact HashTable.entry_store_other t.active.2 _ _ _ _ _ hbj
  · exact absurd h2 (by
      show ¬ (val.cas = 0 ∨ val.cas = v.getCas)
      omega)

/-- C4 at a sample table: entry with CAS 5, `set` carrying CAS 9. -/
theorem set_invalid_cas_witness :
    ∃ r, (sampleTable [sampleEntry 5 0 0 false false]).set sampleStatics 10 42 (sampleItem 9 0) =
        some r ∧ r.rv = .INVALID_CAS ∧
      (∃ u, r.table.entry ((sampleTable [sampleEntry 5 0 0 false false]).bucket
            (sampleItem 9 0).key) 0 = some u ∧
        u.getValue = (sampleEntry 5 0 0 false false).getValue ∧
        u.getFlags = (sampleEntry 5 0 0 false false).getFlags ∧
        u.getExptime = (sampleEntry 5 0 0 false false).getExptime ∧
        u.getCas = (sampleEntry 5 0 0 false false).getCas ∧
        u.isDirty = (sampleEntry 5 0 0 false false).isDirty) ∧
      (∀ b j, ¬ (b = (sampleTable [sampleEntry 5 0 0 false false]).bucket (sampleItem 9 0).key ∧
          j = 0) →
        r.table.entry b j = (sampleTable [sampleEntry 5 0 0 false false]).entry b j) ∧
      r.statics = sampleStatics ∧ r.itm = sampleItem 9 0 :=
  set_invalid_cas (sampleTable [sampleEntry 5 0 0 false false]) sampleStatics 10 42
    (sampleItem 9 0) 0 (sampleEntry 5 0 0 false false) (by decide) (by decide) (by decide)
    (by decide) (by decide) (by decide)

/-- C5: when the key's entry is unexpired and locked at the current time, a
`set` whose CAS differs from the entry's CAS returns `IS_LOCKED`; the entry is
the very same node afterwards (value, flags, exptime, cas, dirty flag, locked
bit and lock expiry), still locked at the current time, and no chain of the
table has changed. -/
theorem set_is_locked (t : HashTable) (st : Statics) (now mint : Nat) (val : Item) (i : Nat)
    (v : StoredValue) (hwf : t.wf) (he : t.entryFor val.key i v)
    (hx : v.getExptime = 0 ∨ now ≤ v.getExptime) (hl : (v.isLocked now).1 = true)
    (hc : val.cas ≠ v.getCas) :
    ∃ r, t.set st now mint val = some r ∧ r.rv = .IS_LOCKED ∧
      r.table.entry (t.bucket val.key) i = some v ∧ (v.isLocked now).1 = true ∧
      r.table.values = t.values ∧ r.statics = st := by
  have hcf : chainFind val.getKey (t.active.2.chain (t.bucket val.getKey)) = some (i, v) :=
    (HashTable.entryFor_iff t val.key i v).1 he
  have hnx : ¬ v.expired now := by unfold StoredValue.expired; omega
  rw [HashTable.set_eq t st now mint val hwf, HashTable.unlocked_find_hit _ _ _ _ _ _ _ hcf hnx]
  rcases HashTable.setAfterFind_hit ⟨some (i, v), t.active.2, st⟩ (t.bucket val.getKey) now
    mint i v val rfl with ⟨-, -, e⟩ | ⟨-, h2, -⟩ | ⟨h1, -, -, -⟩ | ⟨h1, -, -⟩
  · have hs : t.active.2.store (t.bucket val.getKey) i (v.isLocked now).2 = t.active.2 := by
      rw [isLocked_fst_true v now hl]
      exact HashTable.store_self t.active.2 _ _ _ he.1
    refine ⟨_, e, rfl, ?_, hl, ?_, rfl⟩
    · show (t.active.2.store (t.bucket val.getKey) i (v.isLocked now).2).entry _ i = some v
      rw [hs]; exact he.1
    · show (t.active.2.store (t.bucket val.getKey) i (v.isLocked now).2).values = t.values
      rw [hs]; rfl
  · exact absurd h2 hc
  · rw [hl] at h1; cases h1
  · rw [hl] at h1; cases h1

/-- C5 at a sample table: entry locked until 100 with CAS 5, `set` carrying
CAS 9 at time 10. -/
theorem set_is_locked_witness :
    ∃ r, (sampleTable [sampleEntry 5 0 100 true false]).set sampleStatics 10 42
        (sampleItem 9 0) = some r ∧ r.rv = .IS_LOCKED ∧
      r.table.entry ((sampleTable [sampleEntry 5 0 100 true false]).bucket (sampleItem 9 0).key) 0 =
        some (sampleEntry 5 0 100 true false) ∧
      ((sampleEntry 5 0 100 true false).isLocked 10).1 = true ∧
      r.table.values = (sampleTable [sampleEntry 5 0 100 true false]).values ∧
      r.statics = sampleStatics :=
  set_is_locked (sampleTable [sampleEntry 5 0 100 true false]) sampleStatics 10 42
    (sampleItem 9 0) 0 (sampleEntry 5 0 100 true false) (by decide) (by decide) (by decide)
    (by decide) (by decide)

namespace StoredValue

/-- After `unlock` a featured record has `locked = false` and
`lock_expiry = 0`, whatever is done to it afterwards by `setValue`. -/
theorem unlock_setValue_extra (v : StoredValue) (val : Blob) (fl ex cs now : Nat) (st : Statics)
    (h : v._isSmall = false) :
    ∃ f, (v.unlock.setValue val fl ex cs now st).1.extra = .feature f ∧ f.locked = false ∧
      f.lock_expiry = 0 := by
  obtain ⟨f, hf⟩ := exists_feature_of_not_small v h
  simp [unlock, setValue, markDirty, reDirty, hf]

theorem isLocked_of_unlocked (v : StoredValue) (f : feature_data) (h : v.extra = .feature f)
    (hl : f.locked = false) (n : Nat) : (v.isLocked n).1 = false := by
  simp [isLocked, h, hl]

theorem not_small_of_isLocked (v : StoredValue) (now : Nat) (h : (v.isLocked now).1 = true) :
    v._isSmall = false := by
  unfold isLocked at h
  unfold _isSmall
  cases hx : v.extra with
  | small s => rw [hx] at h; cases h
  | feature f => rfl

end StoredValue

/-- C6: when the key's entry is unexpired and locked at the current time, a
`set` whose CAS equals the entry's CAS is let through: it returns `WAS_CLEAN`
or `WAS_DIRTY`, the entry holds the item's value afterwards, and the entry is
unlocked (`locked` is false and `lock_expiry` is 0, so `isLocked` answers false
at every time). -/
theorem set_locked_cas_match (t : HashTable) (st : Statics) (now mint : Nat) (val : Item)
    (i : Nat) (v : StoredValue) (hwf : t.wf) (he : t.entryFor val.key i v)
    (hx : v.getExptime = 0 ∨ now ≤ v.getExptime) (hl : (v.isLocked now).1 = true)
    (hc : val.cas = v.getCas) :
    ∃ r, t.set st now mint val = some r ∧ (r.rv = .WAS_CLEAN ∨ r.rv = .WAS_DIRTY) ∧
      ∃ u f, r.table.entry (t.bucket val.key) i = some u ∧ u.getValue = val.value ∧
        u.extra = .feature f ∧ f.locked = false ∧ f.lock_expiry = 0 ∧
        ∀ n, (u.isLocked n).1 = false := by
  have hcf : chainFind val.getKey (t.active.2.chain (t.bucket val.getKey)) = some (i, v) :=
    (HashTable.entryFor_iff t val.key i v).1 he
  have hnx : ¬ v.expired now := by unfold StoredValue.expired; omega
  have hsm : (v.isLocked now).2._isSmall = false := by
    rw [StoredValue.isSmall_isLocked]; exact StoredValue.not_small_of_isLocked v now hl
  rw [HashTable.set_eq t st now mint val hwf, HashTable.unlocked_find_hit _ _ _ _ _ _ _ hcf hnx]
  rcases HashTable.setAfterFind_hit ⟨some (i, v), t.active.2, st⟩ (t.bucket val.getKey) now
    mint i v val rfl with ⟨-, h2, -⟩ | ⟨-, -, e⟩ | ⟨h1, -, -, -⟩ | ⟨h1, -, -⟩
  · exact absurd hc h2
  · obtain ⟨f, hf1, hf2, hf3⟩ := StoredValue.unlock_setValue_extra (v.isLocked now).2
      val.getValue val.getFlags val.getExptime mint now st hsm
    refine ⟨_, e, ?_, _, f, ?_, StoredValue.getValue_setValue _ _ _ _ _ _ _, hf1, hf2, hf3,
      StoredValue.isLocked_of_unlocked _ f hf1 hf2⟩
    · rw [HashTable.set_update_rv]
      cases (v.isLocked now).2.unlock.isClean
      · right; rfl
      · left; rfl
    · rw [HashTable.set_update_table]
      exact HashTable.entry_store_same t.active.2 _ _ v _ he.1
  · rw [hl] at h1; cases h1
  · rw [hl] at h1; cases h1

/-- C6 at a sample table: entry locked until 100 with CAS 5, `set` carrying
CAS 5 at time 10. -/
theorem set_locked_cas_match_witness :
    ∃ r, (sampleTable [sampleEntry 5 0 100 true false]).set sampleStatics 10 42
        (sampleItem 5 0) = some r ∧ (r.rv = .WAS_CLEAN ∨ r.rv = .WAS_DIRTY) ∧
      ∃ u f, r.table.entry ((sampleTable [sampleEntry 5 0 100 true false]).bucket
            (sampleItem 5 0).key) 0 = some u ∧ u.getValue = (sampleItem 5 0).value ∧
        u.extra = .feature f ∧ f.locked = false ∧ f.lock_expiry = 0 ∧
        ∀ n, (u.isLocked n).1 = false :=
  set_locked_cas_match (sampleTable [sampleEntry 5 0 100 true false]) sampleStatics 10 42
    (sampleItem 5 0) 0 (sampleEntry 5 0 100 true false) (by decide) (by decide) (by decide)
    (by decide) (by decide)

/-- C7: on a table with no entry for the key, a `set` carrying a non-zero CAS
returns `NOT_FOUND` and inserts nothing: the chains, the statics and the
caller's item are as before. -/
theorem set_not_found (t : HashTable) (st : Statics) (now mint : Nat) (val : Item)
    (hwf : t.wf) (hn : t.noEntry val.key) (hc : val.cas ≠ 0) :
    ∃ r, t.set st now mint val = some r ∧ r.rv = .NOT_FOUND ∧ r.table.values = t.values ∧
      r.statics = st ∧ r.itm = val := by
  have hcf : chainFind val.getKey (t.active.2.chain (t.bucket val.getKey)) = none :=
    HashTable.chainFind_of_noEntry t val.key _ hn
  rw [HashTable.set_eq t st now mint val hwf, HashTable.unlocked_find_miss _ _ _ _ _ hcf]
  refine ⟨⟨.NOT_FOUND, val, t.active.2, st⟩, ?_, rfl, rfl, rfl, rfl⟩
  have hc1 : val.getCas ≠ 0 := hc
  unfold HashTable.setAfterFind
  simp only
  rw [if_pos hc1]

/-- C7 at the empty sample table: `set` carrying CAS 9. -/
theorem set_not_found_witness :
    ∃ r, (sampleTable []).set sampleStatics 10 42 (sampleItem 9 0) = some r ∧
      r.rv = .NOT_FOUND ∧ r.table.values = (sampleTable []).values ∧
      r.statics = sampleStatics ∧ r.itm = sampleItem 9 0 :=
  set_not_found (sampleTable []) sampleStatics 10 42 (sampleItem 9 0) (by decide) (by decide)
    (by decide)

/-- C8: on a table with no entry for the key, a `set` with CAS 0 for which
`hasAvailableSpace` is false returns `NOMEM` and inserts nothing: the chains and
`currentSize` (indeed all statics) are as before. -/
theorem set_nomem (t : HashTable) (st : Statics) (now mint : Nat) (val : Item)
    (hwf : t.wf) (hn : t.noEntry val.key) (hc : val.cas = 0)
    (hs : StoredValue.hasAvailableSpace st val = false) :
    ∃ r, t.set st now mint val = some r ∧ r.rv = .NOMEM ∧ r.table.values = t.values ∧
      r.statics.currentSize = st.currentSize ∧ r.statics = st := by
  have hcf : chainFind val.getKey (t.active.2.chain (t.bucket val.getKey)) = none :=
    HashTable.chainFind_of_noEntry t val.key _ hn
  rw [HashTable.set_eq t st now mint val hwf, HashTable.unlocked_find_miss _ _ _ _ _ hcf]
  refine ⟨⟨.NOMEM, val, t.active.2, st⟩, ?_, rfl, rfl, rfl, rfl⟩
  have hc1 : ¬ val.getCas ≠ 0 := by
    show ¬ val.cas ≠ 0
    simpa using hc
  unfold HashTable.setAfterFind
  simp only
  rw [if_neg hc1, hs]
  rfl

/-- C8 at the empty sample table with a memory budget of 10 bytes. -/
theorem set_nomem_witness :
    ∃ r, (sampleTable []).set ⟨10, 0⟩ 10 42 (sampleItem 0 0) = some r ∧
      r.rv = .NOMEM ∧ r.table.values = (sampleTable []).values ∧
      r.statics.currentSize = (⟨10, 0⟩ : Statics).currentSize ∧ r.statics = ⟨10, 0⟩ :=
  set_nomem (sampleTable []) ⟨10, 0⟩ 10 42 (sampleItem 0 0) (by decide) (by decide)
    (by decide) (by decide)

/-- C9: when the key has an unexpired entry and `set` does not reject the call
(the result is neither `IS_LOCKED` nor `INVALID_CAS`), the update succeeds with
`WAS_CLEAN` exactly when the entry's dirty flag was clear before the call and
`WAS_DIRTY` exactly when it was set, and the entry is dirty afterwards. -/
theorem set_reports_dirty (t : HashTable) (st : Statics) (now mint : Nat) (val : Item)
    (i : Nat) (v : StoredValue) (r : SetResult) (hwf : t.wf) (he : t.entryFor val.key i v)
    (hx : v.getExptime = 0 ∨ now ≤ v.getExptime) (hs : t.set st now mint val = some r)
    (hok : r.rv ≠ .IS_LOCKED ∧ r.rv ≠ .INVALID_CAS) :
    (r.rv = .WAS_CLEAN ∨ r.rv = .WAS_DIRTY) ∧
      (r.rv = .WAS_CLEAN ↔ v.isDirty = false) ∧ (r.rv = .WAS_DIRTY ↔ v.isDirty = true) ∧
      ∃ u, r.table.entry (t.bucket val.key) i = some u ∧ u.isDirty = true := by
  have hcf : chainFind val.getKey (t.active.2.chain (t.bucket val.getKey)) = some (i, v) :=
    (HashTable.entryFor_iff t val.key i v).1 he
  have hnx : ¬ v.expired now := by unfold StoredValue.expired; omega
  rw [HashTable.set_eq t st now mint val hwf,
    HashTable.unlocked_find_hit _ _ _ _ _ _ _ hcf hnx] at hs
  have key : ∀ w : StoredValue, w.isDirty = v.isDirty →
      r = t.active.2.set_update st now mint val (t.bucket val.getKey) i w →
      (r.rv = .WAS_CLEAN ∨ r.rv = .WAS_DIRTY) ∧
      (r.rv = .WAS_CLEAN ↔ v.isDirty = false) ∧ (r.rv = .WAS_DIRTY ↔ v.isDirty = true) ∧
      ∃ u, r.table.entry (t.bucket val.key) i = some u ∧ u.isDirty = true := by
    intro w hw hr
    subst hr
    rw [HashTable.set_update_rv, HashTable.set_update_table]
    refine ⟨?_, ?_, ?_, _, HashTable.entry_store_same t.active.2 _ _ v _ he.1,
      StoredValue.isDirty_setValue _ _ _ _ _ _ _⟩
    · unfold StoredValue.isClean; cases w.isDirty <;> simp
    · rw [← hw]; unfold StoredValue.isClean; cases w.isDirty <;> simp
    · rw [← hw]; unfold StoredValue.isClean; cases w.isDirty <;> simp
  rcases HashTable.setAfterFind_hit ⟨some (i, v), t.active.2, st⟩ (t.bucket val.getKey) now
    mint i v val rfl with ⟨-, -, e⟩ | ⟨-, -, e⟩ | ⟨-, -, -, e⟩ | ⟨-, -, e⟩
  · rw [e] at hs
    have := Option.some.inj hs
    subst this
    exact absurd rfl hok.1
  · rw [e] at hs
    exact key _ (by rw [StoredValue.isDirty_unlock, StoredValue.isDirty_isLocked])
      (Option.some.inj hs).symm
  · rw [e] at hs
    have := Option.some.inj hs
    subst this
    exact absurd rfl hok.2
  · rw [e] at hs
    exact key _ (StoredValue.isDirty_isLocked _ _) (Option.some.inj hs).symm

/-- C9 at a sample table: a clean entry updated by a `set` with CAS 0 reports
`WAS_CLEAN` and is dirty afterwards. -/
theorem set_reports_dirty_witness :
    (sampleTable [sampleEntry 5 0 0 false false]).set sampleStatics 10 42 (sampleItem 0 0) =
        some sampleUpdated ∧
      ((sampleUpdated.rv = .WAS_CLEAN ∨ sampleUpdated.rv = .WAS_DIRTY) ∧
        (sampleUpdated.rv = .WAS_CLEAN ↔ (sampleEntry 5 0 0 false false).isDirty = false) ∧
        (sampleUpdated.rv = .WAS_DIRTY ↔ (sampleEntry 5 0 0 false false).isDirty = true) ∧
        ∃ u, sampleUpdated.table.entry
            ((sampleTable [sampleEntry 5 0 0 false false]).bucket (sampleItem 0 0).key) 0 =
            some u ∧ u.isDirty = true) :=
  ⟨by decide,
   set_reports_dirty (sampleTable [sampleEntry 5 0 0 false false]) sampleStatics 10 42
     (sampleItem 0 0) 0 (sampleEntry 5 0 0 false false) sampleUpdated (by decide) (by decide)
     (by decide) (by decide) (by decide)⟩

namespace StoredValue

theorem isLocked_snd_of_unlocked (v : StoredValue) (f : feature_data) (h : v.extra = .feature f)
    (hl : f.locked = false) (n : Nat) : (v.isLocked n).2 = v := by
  simp [isLocked, h, hl]

theorem unlocked_setValue (v : StoredValue) (f : feature_data) (val : Blob)
    (fl ex cs now : Nat) (st : Statics) (h : v.extra = .feature f) (hl : f.locked = false) :
    ∃ g, (v.setValue val fl ex cs now st).1.extra = .feature g ∧ g.locked = false := by
  simp [setValue, markDirty, reDirty, h, hl]

theorem not_small_of_feature (v : StoredValue) (f : feature_data) (h : v.extra = .feature f) :
    v._isSmall = false := by
  simp [_isSmall, h]

end StoredValue

namespace StoredValueFactory

theorem length_of_call (ty : stored_value_type) (itm : Item) (d : Bool) (now : Nat)
    (st : Statics) (p : StoredValue × Statics) (h : call ty itm d now st = some p) :
    itm.getKey.length < 256 := by
  by_contra hc
  cases ty <;> simp [call, newStoredValue, hc] at h

theorem call_featured_unlocked (itm : Item) (now : Nat) (st : Statics) (d : Bool)
    (w : StoredValue) (st1 : Statics) (h : call .featured itm d now st = some (w, st1)) :
    ∃ f, w.extra = .feature f ∧ f.locked = false := by
  have hl := length_of_call _ _ _ _ _ _ h
  cases d <;>
    simp [call, newStoredValue, hl, StoredValue.construct, StoredValue.copyKey,
      StoredValue.markDirty, StoredValue.reDirty, StoredValue.markClean] at h <;>
    (obtain ⟨e, -⟩ := h; subst e; simp)

end StoredValueFactory

/-- C10 as stated fails: an item with a TTL (exptime 5) is stored at time 1 in
the empty featured table with minted CAS 42; at time 10 the entry has expired,
so the `set` of the same key carrying CAS 42 finds nothing and returns
`NOT_FOUND` instead of succeeding. -/
theorem cas_round_trip_expired :
    (sampleTable []).featuredTable ∧ (sampleTable []).noEntry [97] ∧
      ((sampleTable []).set sampleStatics 1 42 (sampleItem 0 5)).map
          (fun r1 => (r1.rv, (r1.table.chain 1).map StoredValue.getCas)) =
        some (.NOT_FOUND, [42]) ∧
      (((sampleTable []).set sampleStatics 1 42 (sampleItem 0 5)).bind
          (fun r1 => r1.table.set r1.statics 10 43 (sampleItem 42 5))).map (fun r2 => r2.rv) =
        some .NOT_FOUND := by
  refine ⟨by decide, by decide, by decide, by decide⟩

namespace HashTable

/-- What a storing `set` on a featured table without an entry for the key
leaves behind: a fresh unlocked featured node at the head of the key's chain. -/
theorem set_insert_shape (t : HashTable) (st : Statics) (now mint : Nat) (val : Item)
    (r : SetResult) (hwf : t.wf) (hf : t.valFact = .featured) (hn : t.noEntry val.key)
    (hc : val.cas = 0) (hs : t.set st now mint val = some r) (hrv : r.rv = .NOT_FOUND) :
    ∃ w f, r.table = t.active.2.setChain (t.bucket val.key) (w :: t.chain (t.bucket val.key)) ∧
      w.hasKey val.key = true ∧ w.getCas = mint ∧ w.getExptime = val.exptime ∧
      w.extra = .feature f ∧ f.locked = false := by
  have hcf : chainFind val.getKey (t.active.2.chain (t.bucket val.getKey)) = none :=
    chainFind_of_noEntry t val.key _ hn
  rw [set_eq t st now mint val hwf, unlocked_find_miss _ _ _ _ _ hcf] at hs
  rcases setAfterFind_miss _ _ _ _ _ _ rfl hs with ⟨h0, -⟩ | ⟨-, -, e⟩ | ⟨-, -, w, st1, hcall, e⟩
  · exact absurd hc h0
  · subst e; cases hrv
  · subst e
    have hcall1 : StoredValueFactory.call .featured (val.setCas mint) true now st =
        some (w, st1) := by
      rw [← hf]; exact hcall
    have hlen := StoredValueFactory.length_of_call _ _ _ _ _ _ hcall1
    obtain ⟨w1, st2, hc1, hw1, -, -, hw4, hw5, -, -⟩ :=
      StoredValueFactory.call_featured (val.setCas mint) now st true hlen
    rw [hc1] at hcall1
    simp only [Option.some.injEq, Prod.mk.injEq] at hcall1
    obtain ⟨e1, -⟩ := hcall1
    subst e1
    obtain ⟨f, hf1, hf2⟩ := StoredValueFactory.call_featured_unlocked _ _ _ _ _ _ hc1
    exact ⟨w1, f, rfl, hw1, hw5, hw4, hf1, hf2⟩

end HashTable

/-- C10 (amended): CAS round trip on a featured table with no entry for the
key. Let `set` of an item with CAS 0 store the entry with minted CAS `c`. If
the stored item is unexpired when the second `set` runs (its exptime is 0 or at
least that time), a `set` of the same key carrying CAS `c` succeeds
(`WAS_CLEAN` or `WAS_DIRTY`) and stores the newly minted CAS `c1`. If moreover
`c` is not 0 and `c1` differs from `c`, and the second item is unexpired when
the third `set` runs, a further `set` carrying the old CAS `c` returns
`INVALID_CAS`. -/
theorem cas_round_trip (t : HashTable) (st : Statics) (n1 n2 n3 c c1 c2 : Nat)
    (it1 it2 it3 : Item) (r1 : SetResult) (hwf : t.wf) (hf : t.featuredTable)
    (hn : t.noEntry it1.key) (h1c : it1.cas = 0)
    (hs1 : t.set st n1 c it1 = some r1) (hrv : r1.rv = .NOT_FOUND)
    (hk2 : it2.key = it1.key) (h2c : it2.cas = c) (hx1 : it1.exptime = 0 ∨ n2 ≤ it1.exptime)
    (hk3 : it3.key = it1.key) (h3c : it3.cas = c) (hx2 : it2.exptime = 0 ∨ n3 ≤ it2.exptime)
    (hc0 : c ≠ 0) (hcc : c1 ≠ c) :
    (∃ w, r1.table.entry (t.bucket it1.key) 0 = some w ∧ w.getCas = c) ∧
    ∃ r2, r1.table.set r1.statics n2 c1 it2 = some r2 ∧
      (r2.rv = .WAS_CLEAN ∨ r2.rv = .WAS_DIRTY) ∧
      (∃ u, r2.table.entry (t.bucket it1.key) 0 = some u ∧ u.getCas = c1) ∧
      ∃ r3, r2.table.set r2.statics n3 c2 it3 = some r3 ∧ r3.rv = .INVALID_CAS := by
  obtain ⟨w, f, ht1, hwk, hwc, hwx, hwf1, hwl⟩ :=
    HashTable.set_insert_shape t st n1 c it1 r1 hwf hf.1 hn h1c hs1 hrv
  have hblt : t.bucket it1.key < t.values.length := by
    rw [hwf.2.2.2.2]; exact HashTable.bucket_lt t it1.key hwf
  -- the table after the first set
  have hwft1 : r1.table.wf := by
    rw [ht1]; exact HashTable.wf_setChain _ _ _ (HashTable.wf_active t hwf)
  have hb1 : ∀ k, r1.table.bucket k = t.bucket k := by
    intro k; rw [ht1]; rfl
  have hch1 : r1.table.chain (t.bucket it1.key) = w :: t.chain (t.bucket it1.key) := by
    rw [ht1]; exact HashTable.chain_setChain_same _ _ _ hblt
  have hcf1 : chainFind it2.getKey (r1.table.active.2.chain (r1.table.bucket it2.getKey)) =
      some (0, w) := by
    show chainFind it2.key (r1.table.chain (r1.table.bucket it2.key)) = some (0, w)
    rw [hk2, hb1, hch1]
    simp [chainFind, hwk]
  have hnx1 : ¬ w.expired n2 := by
    unfold StoredValue.expired; rw [hwx]; omega
  have hent1 : r1.table.entry (t.bucket it1.key) 0 = some w := by
    unfold HashTable.entry; rw [hch1]; exact List.getElem?_cons_zero
  refine ⟨⟨w, hent1, hwc⟩, ?_⟩
  -- the second set
  have hs2 := HashTable.set_eq r1.table r1.statics n2 c1 it2 hwft1
  rw [HashTable.unlocked_find_hit _ _ _ _ _ _ _ hcf1 hnx1] at hs2
  have hcas2 : it2.getCas = w.getCas := by
    show it2.cas = w.getCas
    rw [h2c, hwc]
  rcases HashTable.setAfterFind_hit ⟨some (0, w), r1.table.active.2, r1.statics⟩
    (r1.table.bucket it2.getKey) n2 c1 0 w it2 rfl with
    ⟨h, -, -⟩ | ⟨h, -, -⟩ | ⟨-, -, h, -⟩ | ⟨-, -, e⟩
  · rw [StoredValue.isLocked_of_unlocked w f hwf1 hwl] at h; cases h
  · rw [StoredValue.isLocked_of_unlocked w f hwf1 hwl] at h; cases h
  · exact absurd hcas2 h
  · rw [e, StoredValue.isLocked_snd_of_unlocked w f hwf1 hwl] at hs2
    have hbk2 : r1.table.bucket it2.getKey = t.bucket it1.key := by
      show r1.table.bucket it2.key = _
      rw [hk2, hb1]
    rw [hbk2] at hs2
    obtain ⟨g, hg1, hg2⟩ := StoredValue.unlocked_setValue w f it2.getValue it2.getFlags
      it2.getExptime c1 n2 r1.statics hwf1 hwl
    obtain ⟨hu1, -, hu3⟩ := StoredValue.feature_setValue w it2.getValue it2.getFlags
      it2.getExptime c1 n2 r1.statics (StoredValue.not_small_of_feature w f hwf1)
    have hent2 : (r1.table.active.2.set_update r1.statics n2 c1 it2 (t.bucket it1.key) 0
        w).table.entry (t.bucket it1.key) 0 =
          some (w.setValue it2.getValue it2.getFlags it2.getExptime c1 n2 r1.statics).1 :=
      HashTable.entry_store_same r1.table.active.2 _ _ w _ hent1
    refine ⟨_, hs2, ?_, ⟨_, hent2, hu1⟩, ?_⟩
    · rw [HashTable.set_update_rv]
      cases w.isClean
      · right; rfl
      · left; rfl
    · -- the third set
      have hwft2 : (r1.table.active.2.set_update r1.statics n2 c1 it2 (t.bucket it1.key) 0
          w).table.wf :=
        HashTable.wf_store _ _ _ _ (HashTable.wf_active _ hwft1)
      have hcf0 : chainFind it3.key (r1.table.active.2.chain (t.bucket it1.key)) =
          some (0, w) := by
        show chainFind it3.key (r1.table.chain (t.bucket it1.key)) = some (0, w)
        rw [hk3, hch1]
        simp [chainFind, hwk]
      have hblt1 : t.bucket it1.key < r1.table.active.2.values.length := by
        show t.bucket it1.key < r1.table.values.length
        rw [hwft1.2.2.2.2, ht1]
        exact HashTable.bucket_lt t it1.key hwf
      have hk3w : (w.setValue it2.getValue it2.getFlags it2.getExptime c1 n2
          r1.statics).1.hasKey it3.key = true := by
        rw [StoredValue.hasKey_setValue, hk3]; exact hwk
      have hcf2 : chainFind it3.getKey
          ((r1.table.active.2.set_update r1.statics n2 c1 it2 (t.bucket it1.key) 0
            w).table.active.2.chain
            ((r1.table.active.2.set_update r1.statics n2 c1 it2 (t.bucket it1.key) 0
              w).table.bucket it3.getKey)) =
          some (0, (w.setValue it2.getValue it2.getFlags it2.getExptime c1 n2 r1.statics).1) := by
        have hb3 : (r1.table.active.2.set_update r1.statics n2 c1 it2 (t.bucket it1.key) 0
            w).table.bucket it3.getKey = t.bucket it1.key := by
          show r1.table.bucket it3.key = _
          rw [hk3, hb1]
        rw [hb3, HashTable.chain_active, HashTable.set_update_table,
          HashTable.chain_store_same _ _ _ _ hblt1]
        exact chainFind_set _ _ _ _ _ hcf0 hk3w
      have hnx2 : ¬ (w.setValue it2.getValue it2.getFlags it2.getExptime c1 n2
          r1.statics).1.expired n3 := by
        unfold StoredValue.expired
        rw [hu3]
        show ¬ (it2.exptime ≠ 0 ∧ it2.exptime < n3)
        omega
      have hs3 := HashTable.set_eq _ (r1.table.active.2.set_update r1.statics n2 c1 it2
        (t.bucket it1.key) 0 w).statics n3 c2 it3 hwft2
      rw [HashTable.unlocked_find_hit _ _ _ _ _ _ _ hcf2 hnx2] at hs3
      rcases HashTable.setAfterFind_hit
        ⟨some (0, (w.setValue it2.getValue it2.getFlags it2.getExptime c1 n2 r1.statics).1),
          (r1.table.active.2.set_update r1.statics n2 c1 it2 (t.bucket it1.key) 0
            w).table.active.2,
          (r1.table.active.2.set_update r1.statics n2 c1 it2 (t.bucket it1.key) 0 w).statics⟩
        ((r1.table.active.2.set_update r1.statics n2 c1 it2 (t.bucket it1.key) 0
          w).table.bucket it3.getKey) n3 c2 0 _ it3 rfl with
        ⟨h, -, -⟩ | ⟨h, -, -⟩ | ⟨-, -, -, e3⟩ | ⟨-, h, -⟩
      · rw [StoredValue.isLocked_of_unlocked _ g hg1 hg2] at h; cases h
      · rw [StoredValue.isLocked_of_unlocked _ g hg1 hg2] at h; cases h
      · rw [e3] at hs3
        exact ⟨_, hs3, rfl⟩
      · rw [hu1] at h
        have h3c1 : it3.getCas = c := h3c
        rw [h3c1] at h
        rcases h with h | h
        · exact absurd h hc0
        · exact absurd h.symm hcc

/-- C10 (amended) at the empty sample table: insert at time 10 with minted CAS
42, update carrying CAS 42 at time 11 with minted CAS 43, then a `set` carrying
the old CAS 42 at time 12. -/
theorem cas_round_trip_witness :
    (∃ w, sampleInserted.table.entry ((sampleTable []).bucket (sampleItem 0 0).key) 0 = some w ∧
        w.getCas = 42) ∧
    ∃ r2, sampleInserted.table.set sampleInserted.statics 11 43 (sampleItem 42 0) = some r2 ∧
      (r2.rv = .WAS_CLEAN ∨ r2.rv = .WAS_DIRTY) ∧
      (∃ u, r2.table.entry ((sampleTable []).bucket (sampleItem 0 0).key) 0 = some u ∧
        u.getCas = 43) ∧
      ∃ r3, r2.table.set r2.statics 12 44 (sampleItem 42 0) = some r3 ∧ r3.rv = .INVALID_CAS :=
  cas_round_trip (sampleTable []) sampleStatics 10 11 12 42 43 44 (sampleItem 0 0)
    (sampleItem 42 0) (sampleItem 42 0) sampleInserted (by decide) (by decide) (by decide)
    (by decide) (by decide) (by decide) (by decide) (by decide) (by decide) (by decide)
    (by decide) (by decide) (by decide) (by decide)

/-! ## `set` without a CAS, `add` and `del` -/

namespace HashTable

theorem add_eq (t : HashTable) (st : Statics) (now mint : Nat) (val : Item) (isDirty : Bool)
    (h : t.wf) :
    t.add st now mint val isDirty =
      addAfterFind (t.active.2.unlocked_find st val.getKey (t.bucket val.getKey) now)
        (t.bucket val.getKey) now mint val isDirty := by
  obtain ⟨l, hl⟩ := getMutex_bucket t val.getKey h
  unfold add
  rw [active_eq]
  simp only [Bool.not_true, Bool.false_eq_true, if_false, hl, bucket_active]
  rfl

theorem del_eq (t : HashTable) (st : Statics) (key : Key) (now : Nat) (h : t.wf) :
    t.del st key now = some (t.active.2.unlocked_del st key (t.bucket key) now) := by
  obtain ⟨l, hl⟩ := getMutex_bucket t key h
  unfold del
  rw [active_eq]
  simp only [Bool.not_true, Bool.false_eq_true, if_false, hl, bucket_active]

theorem active_of_activeState (t : HashTable) (h : t.activeState = true) : t.active.2 = t := by
  cases t
  simp only at h
  subst h
  rfl

theorem active_active (t : HashTable) : t.active.2.active.2 = t.active.2 := rfl

/-- Unlinking the only node for a key leaves no node for the key. -/
theorem noEntry_erase (t : HashTable) (k : Key) (b i : Nat) (hu : t.onlyEntry k b i) :
    (t.setChain b ((t.chain b).eraseIdx i)).noEntry k := by
  rw [noEntry_iff]
  intro b1 j u hent
  by_contra hk
  simp only [Bool.not_eq_false] at hk
  rcases entry_setChain _ _ _ _ _ _ hent with ⟨-, hj⟩ | ⟨hb, hj⟩
  · rw [List.getElem?_eraseIdx] at hj
    by_cases hji : j < i
    · rw [if_pos hji] at hj
      have := (hu b j u hj hk).2
      omega
    · rw [if_neg hji] at hj
      have := (hu b (j + 1) u hj hk).2
      omega
  · exact hb (hu b1 j u hj hk).1

end HashTable

/-- C11 as stated fails: the entry for "a" is unexpired and unlocked, and the
`set` carrying CAS 0 is not rejected: it returns `WAS_CLEAN` (not
`INVALID_CAS`) and the stored value `[1, 2]` is replaced by the item's `[3]`. -/
theorem set_cas_zero_not_rejected :
    (sampleTable [sampleEntry 5 0 0 false false]).entryFor [97] 0
        (sampleEntry 5 0 0 false false) ∧
      ((sampleEntry 5 0 0 false false).isLocked 10).1 = false ∧
      (sampleEntry 5 0 0 false false).getValue = [1, 2] ∧
      ∃ r, (sampleTable [sampleEntry 5 0 0 false false]).set sampleStatics 10 42
          (sampleItem 0 0) = some r ∧
        r.rv = .WAS_CLEAN ∧ r.rv ≠ .INVALID_CAS ∧
        (r.table.chain 1).map StoredValue.getValue = [[3]] :=
  ⟨by decide, by decide, by decide, sampleUpdated, by decide, by decide, by decide, by decide⟩

/-- C11 (amended): when the key's entry is unexpired and not locked at the
current time, a `set` carrying CAS 0 is accepted: it returns `WAS_CLEAN` or
`WAS_DIRTY`, the entry holds the item's value afterwards and is dirty, and the
caller's item carries the minted CAS. -/
theorem set_cas_zero_updates (t : HashTable) (st : Statics) (now mint : Nat) (val : Item)
    (i : Nat) (v : StoredValue) (hwf : t.wf) (he : t.entryFor val.key i v)
    (hx : v.getExptime = 0 ∨ now ≤ v.getExptime) (hl : (v.isLocked now).1 = false)
    (hc : val.cas = 0) :
    ∃ r, t.set st now mint val = some r ∧ (r.rv = .WAS_CLEAN ∨ r.rv = .WAS_DIRTY) ∧
      r.itm.cas = mint ∧
      ∃ u, r.table.entry (t.bucket val.key) i = some u ∧ u.getValue = val.value ∧
        u.isDirty = true := by
  have hcf : chainFind val.getKey (t.active.2.chain (t.bucket val.getKey)) = some (i, v) :=
    (HashTable.entryFor_iff t val.key i v).1 he
  have hnx : ¬ v.expired now := by unfold StoredValue.expired; omega
  rw [HashTable.set_eq t st now mint val hwf, HashTable.unlocked_find_hit _ _ _ _ _ _ _ hcf hnx]
  rcases HashTable.setAfterFind_hit ⟨some (i, v), t.active.2, st⟩ (t.bucket val.getKey) now
    mint i v val rfl with ⟨h1, -, -⟩ | ⟨h1, -, -⟩ | ⟨-, h2, -, -⟩ | ⟨-, -, e⟩
  · rw [hl] at h1; cases h1
  · rw [hl] at h1; cases h1
  · exact absurd hc h2
  · refine ⟨_, e, ?_, rfl,
      ((v.isLocked now).2.setValue val.getValue val.getFlags val.getExptime mint now st).1, ?_,
      StoredValue.getValue_setValue _ _ _ _ _ _ _, StoredValue.isDirty_setValue _ _ _ _ _ _ _⟩
    · rw [HashTable.set_update_rv]
      cases (v.isLocked now).2.isClean
      · right; rfl
      · left; rfl
    · rw [HashTable.set_update_table]
      exact HashTable.entry_store_same t.active.2 _ _ v _ he.1

/-- C11 (amended) at a sample table: entry with CAS 5, `set` carrying CAS 0. -/
theorem set_cas_zero_updates_witness :
    ∃ r, (sampleTable [sampleEntry 5 0 0 false true]).set sampleStatics 10 42
        (sampleItem 0 0) = some r ∧ (r.rv = .WAS_CLEAN ∨ r.rv = .WAS_DIRTY) ∧
      r.itm.cas = 42 ∧
      ∃ u, r.table.entry ((sampleTable [sampleEntry 5 0 0 false true]).bucket
            (sampleItem 0 0).key) 0 = some u ∧ u.getValue = (sampleItem 0 0).value ∧
        u.isDirty = true :=
  set_cas_zero_updates (sampleTable [sampleEntry 5 0 0 false true]) sampleStatics 10 42
    (sampleItem 0 0) 0 (sampleEntry 5 0 0 false true) (by decide) (by decide) (by decide)
    (by decide) (by decide)

namespace StoredValue

/-- After `lock(e)` on a featured record, `isLocked(now)` answers true exactly
when `now` is not past `e`. -/
theorem isLocked_lock (v : StoredValue) (e now : Nat) (h : v._isSmall = false) :
    ((v.lock e).isLocked now).1 = true ↔ now ≤ e := by
  obtain ⟨f, hf⟩ := exists_feature_of_not_small v h
  unfold lock isLocked
  simp only [hf]
  by_cases hc : now > e
  · simp [hc]
  · simp [hc]; omega

end StoredValue

/-- C13 as stated fails at `now = e`: after `lock(10)` the record is still
locked at time 10 although `10 > 10` is false, and a `set` carrying CAS 0 at
time 10 is denied with `IS_LOCKED`. -/
theorem isLocked_at_expiry_time :
    (((sampleEntry 5 0 0 false false).lock 10).isLocked 10).1 = true ∧ ¬ (10 > 10) ∧
      ((sampleTable [(sampleEntry 5 0 0 false false).lock 10]).set sampleStatics 10 42
          (sampleItem 0 0)).map (fun r => r.rv) = some .IS_LOCKED := by
  refine ⟨by decide, by decide, by decide⟩

/-- C13 (amended): for a featured record on which `lock(e)` was the last
lock/unlock call, `isLocked(now)` returns true exactly when `e >= now`; once
`now > e` the record is treated as unlocked, so a `set` carrying CAS 0 on its
(unexpired) entry is accepted with `WAS_CLEAN` or `WAS_DIRTY`. -/
theorem lock_holds_through_expiry (t : HashTable) (st : Statics) (now mint e : Nat)
    (val : Item) (i : Nat) (v : StoredValue) (hwf : t.wf) (hsm : v._isSmall = false)
    (he : t.entryFor val.key i (v.lock e))
    (hx : (v.lock e).getExptime = 0 ∨ now ≤ (v.lock e).getExptime) :
    (((v.lock e).isLocked now).1 = true ↔ now ≤ e) ∧
      (e < now → val.cas = 0 →
        ∃ r, t.set st now mint val = some r ∧ (r.rv = .WAS_CLEAN ∨ r.rv = .WAS_DIRTY)) := by
  have hiff := StoredValue.isLocked_lock v e now hsm
  refine ⟨hiff, ?_⟩
  intro hlt hc
  have hl : ((v.lock e).isLocked now).1 = false := by
    cases hb : ((v.lock e).isLocked now).1 with
    | false => rfl
    | true => have := hiff.1 hb; omega
  have hcf : chainFind val.getKey (t.active.2.chain (t.bucket val.getKey)) =
      some (i, v.lock e) := (HashTable.entryFor_iff t val.key i _).1 he
  have hnx : ¬ (v.lock e).expired now := by unfold StoredValue.expired; omega
  rw [HashTable.set_eq t st now mint val hwf, HashTable.unlocked_find_hit _ _ _ _ _ _ _ hcf hnx]
  rcases HashTable.setAfterFind_hit ⟨some (i, v.lock e), t.active.2, st⟩ (t.bucket val.getKey)
    now mint i (v.lock e) val rfl with ⟨h1, -, -⟩ | ⟨h1, -, -⟩ | ⟨-, h2, -, -⟩ | ⟨-, -, h3⟩
  · rw [hl] at h1; cases h1
  · rw [hl] at h1; cases h1
  · exact absurd hc h2
  · refine ⟨_, h3, ?_⟩
    rw [HashTable.set_update_rv]
    cases ((v.lock e).isLocked now).2.isClean
    · right; rfl
    · left; rfl

/-- C13 (amended) at a sample table: locked until 10, looked at and written at
time 11. -/
theorem lock_holds_through_expiry_witness :
    ((((sampleEntry 5 0 0 false false).lock 10).isLocked 11).1 = true ↔ 11 ≤ 10) ∧
      (10 < 11 → (sampleItem 0 0).cas = 0 →
        ∃ r, (sampleTable [(sampleEntry 5 0 0 false false).lock 10]).set sampleStatics 11 42
            (sampleItem 0 0) = some r ∧ (r.rv = .WAS_CLEAN ∨ r.rv = .WAS_DIRTY)) :=
  lock_holds_through_expiry (sampleTable [(sampleEntry 5 0 0 false false).lock 10])
    sampleStatics 11 42 10 (sampleItem 0 0) 0 (sampleEntry 5 0 0 false false) (by decide)
    (by decide) (by decide) (by decide)

/-- C14: when the key has an unexpired entry, `add` of an item with that key
returns false and changes no chain of the table; the statics and the caller's
item are untouched as well. -/
theorem add_existing_returns_false (t : HashTable) (st : Statics) (now mint : Nat)
    (val : Item) (isDirty : Bool) (i : Nat) (v : StoredValue) (hwf : t.wf)
    (he : t.entryFor val.key i v) (hx : v.getExptime = 0 ∨ now ≤ v.getExptime) :
    ∃ r, t.add st now mint val isDirty = some r ∧ r.rv = false ∧
      r.table.values = t.values ∧ r.table.entry (t.bucket val.key) i = some v ∧
      r.statics = st ∧ r.itm = val := by
  have hcf : chainFind val.getKey (t.active.2.chain (t.bucket val.getKey)) = some (i, v) :=
    (HashTable.entryFor_iff t val.key i v).1 he
  have hnx : ¬ v.expired now := by unfold StoredValue.expired; omega
  rw [HashTable.add_eq t st now mint val isDirty hwf,
    HashTable.unlocked_find_hit _ _ _ _ _ _ _ hcf hnx]
  exact ⟨⟨false, val, t.active.2, st⟩, rfl, rfl, rfl, he.1, rfl, rfl⟩

/-- C14 at a sample table: `add` for key "a", which has an entry. -/
theorem add_existing_returns_false_witness :
    ∃ r, (sampleTable [sampleEntry 5 0 0 false true]).add sampleStatics 10 42
        (sampleItem 0 0) true = some r ∧ r.rv = false ∧
      r.table.values = (sampleTable [sampleEntry 5 0 0 false true]).values ∧
      r.table.entry ((sampleTable [sampleEntry 5 0 0 false true]).bucket (sampleItem 0 0).key) 0 =
        some (sampleEntry 5 0 0 false true) ∧
      r.statics = sampleStatics ∧ r.itm = sampleItem 0 0 :=
  add_existing_returns_false (sampleTable [sampleEntry 5 0 0 false true]) sampleStatics 10 42
    (sampleItem 0 0) true 0 (sampleEntry 5 0 0 false true) (by decide) (by decide) (by decide)

/-- C15 at the failing input: with a memory budget of 10 bytes `add` on the
empty sample table inserts nothing and returns `true` (the `bool` that
`return NOMEM` converts to); with a roomy budget the same `add` inserts the
item and returns `true` as well, so the caller cannot tell the two apart. -/
theorem add_nomem_returns_true :
    (sampleTable []).noEntry [97] ∧
      StoredValue.hasAvailableSpace ⟨10, 0⟩ ((sampleItem 0 0).setCas 42) = false ∧
      ((sampleTable []).add ⟨10, 0⟩ 10 42 (sampleItem 0 0) true).map
          (fun r => (r.rv, r.table.values)) = some (true, [[], [], []]) ∧
      ((sampleTable []).add sampleStatics 10 42 (sampleItem 0 0) true).map
          (fun r => (r.rv, r.table.values.map List.length)) = some (true, [0, 1, 0]) ∧
      HashTable.boolOfMutation .NOMEM = true := by
  refine ⟨by decide, by decide, by decide, by decide, by decide⟩

/-- C16, as stated, fails on a chain that holds two nodes for the key. `set`
at time 1 stores "a" with expiry time 5, and the entry `find` returns is
locked until time 7. At time 6 that entry is expired and still locked, so
`set` links a second node for "a" in front of it; that node is locked until
time 100. At time 8 the chain of "a" contains the older node, which carries
"a" and whose lock has run out, yet `del("a")` returns false and unlinks
nothing: it stops at the first node for the key, which is locked. -/
theorem del_stops_at_locked_head :
    (sampleTable []).set sampleStatics 1 42 (sampleItem 0 5) =
        some ⟨.NOT_FOUND, (sampleItem 0 5).setCas 42, sampleTable [sampleStored 42 5 0],
          { maxDataSize := 100000, currentSize := 1065 }⟩ ∧
      ((sampleTable [sampleStored 42 5 0]).find
          { maxDataSize := 100000, currentSize := 1065 } [97] 2).map (fun r => r.v) =
        some (some (0, sampleStored 42 5 0)) ∧
      (sampleTable [sampleStored 42 5 0]).store 1 0 ((sampleStored 42 5 0).lock 7) =
        sampleTable [(sampleStored 42 5 0).lock 7] ∧
      (sampleTable [(sampleStored 42 5 0).lock 7]).set
          { maxDataSize := 100000, currentSize := 1065 } 6 43 (sampleItem 0 0) =
        some ⟨.NOT_FOUND, (sampleItem 0 0).setCas 43,
          sampleTable [sampleStored 43 0 1, (sampleStored 42 5 0).lock 7],
          { maxDataSize := 100000, currentSize := 1130 }⟩ ∧
      ((sampleTable [sampleStored 43 0 1, (sampleStored 42 5 0).lock 7]).find
          { maxDataSize := 100000, currentSize := 1130 } [97] 6).map (fun r => r.v) =
        some (some (0, sampleStored 43 0 1)) ∧
      (sampleTable [sampleStored 43 0 1, (sampleStored 42 5 0).lock 7]).store 1 0
          ((sampleStored 43 0 1).lock 100) =
        sampleTable [(sampleStored 43 0 1).lock 100, (sampleStored 42 5 0).lock 7] ∧
      (sampleTable [(sampleStored 43 0 1).lock 100, (sampleStored 42 5 0).lock 7]).del
          { maxDataSize := 100000, currentSize := 1130 } [97] 8 =
        some ⟨false, sampleTable [(sampleStored 43 0 1).lock 100, (sampleStored 42 5 0).lock 7],
          { maxDataSize := 100000, currentSize := 1130 }⟩ ∧
      (sampleTable [(sampleStored 43 0 1).lock 100, (sampleStored 42 5 0).lock 7]).entry
          ((sampleTable [(sampleStored 43 0 1).lock 100, (sampleStored 42 5 0).lock 7]).bucket
            [97]) 1 = some ((sampleStored 42 5 0).lock 7) ∧
      ((sampleStored 42 5 0).lock 7).hasKey [97] = true ∧
      (((sampleStored 42 5 0).lock 7).isLocked 8).1 = false := by
  decide

/-- C16 (amended): on a well-formed table `del(key)` returns, and it returns
true exactly when the first node of the key's chain carrying the key is not
locked at the current time. Then that node is unlinked from its chain, the
other chains are unchanged, and if it was the only node for the key the table
holds no entry for the key any more. When that first node is locked, and when
the chain holds no node for the key, `del` returns false and the chains and the
statics are unchanged (the whole table is, when it was active). When no key
occurs in more than one entry, `del` returns true exactly when the key's chain
contains an entry for the key that is not locked at the current time. -/
theorem del_spec (t : HashTable) (st : Statics) (key : Key) (now : Nat) (hwf : t.wf) :
    ∃ r, t.del st key now = some r ∧
      (r.deleted = true ↔ ∃ i v, t.entryFor key i v ∧ (v.isLocked now).1 = false) ∧
      (∀ i v, t.entryFor key i v → (v.isLocked now).1 = false →
        r.table.chain (t.bucket key) = (t.chain (t.bucket key)).eraseIdx i ∧
        (∀ b, b ≠ t.bucket key → r.table.chain b = t.chain b) ∧
        (t.onlyEntry key (t.bucket key) i → r.table.noEntry key)) ∧
      (∀ i v, t.entryFor key i v → (v.isLocked now).1 = true →
        r.deleted = false ∧ r.table.values = t.values ∧ r.statics = st ∧
        (t.activeState = true → r.table = t)) ∧
      ((∀ u ∈ t.chain (t.bucket key), u.hasKey key = false) →
        r.deleted = false ∧ r.table.values = t.values ∧ r.statics = st ∧
        (t.activeState = true → r.table = t)) ∧
      (t.uniqueKeys → (r.deleted = true ↔
        ∃ i v, t.entry (t.bucket key) i = some v ∧ v.hasKey key = true ∧
          (v.isLocked now).1 = false)) := by
  have hblt : t.bucket key < t.active.2.values.length := by
    show t.bucket key < t.values.length
    rw [hwf.2.2.2.2]; exact HashTable.bucket_lt t key hwf
  refine ⟨_, HashTable.del_eq t st key now hwf, ?_⟩
  -- the three shapes of the key's chain
  have hun : ∀ i v, t.entryFor key i v → (v.isLocked now).1 = false →
      t.active.2.unlocked_del st key (t.bucket key) now =
        ⟨true, t.active.2.setChain (t.bucket key) ((t.chain (t.bucket key)).eraseIdx i),
          (v.isLocked now).2.destroy st⟩ := by
    intro i v he hl
    exact HashTable.unlocked_del_unlocked t.active.2 st key _ now i v
      ((HashTable.entryFor_iff t key i v).1 he) hl
  have hlk : ∀ i v, t.entryFor key i v → (v.isLocked now).1 = true →
      t.active.2.unlocked_del st key (t.bucket key) now = ⟨false, t.active.2, st⟩ := by
    intro i v he hl
    rw [HashTable.unlocked_del_locked t.active.2 st key _ now i v
      ((HashTable.entryFor_iff t key i v).1 he) hl]
    show DelResult.mk false (t.active.2.setChain (t.bucket key) (t.active.2.chain _)) st = _
    rw [HashTable.setChain_chain]
  have hno : (∀ u ∈ t.chain (t.bucket key), u.hasKey key = false) →
      t.active.2.unlocked_del st key (t.bucket key) now = ⟨false, t.active.2, st⟩ := by
    intro h
    rw [HashTable.unlocked_del_miss t.active.2 st key _ now
      ((chainFind_eq_none key _).2 h)]
    show DelResult.mk false (t.active.2.setChain (t.bucket key) (t.active.2.chain _)) st = _
    rw [HashTable.setChain_chain]
  have hiff : (t.active.2.unlocked_del st key (t.bucket key) now).deleted = true ↔
      ∃ i v, t.entryFor key i v ∧ (v.isLocked now).1 = false := by
    constructor
    · intro hd
      cases hc : chainFind key (t.chain (t.bucket key)) with
      | none =>
        rw [hno ((chainFind_eq_none key _).1 hc)] at hd
        cases hd
      | some p =>
        obtain ⟨i, v⟩ := p
        have he := (HashTable.entryFor_iff t key i v).2 hc
        cases hl : (v.isLocked now).1 with
        | false => exact ⟨i, v, he, hl⟩
        | true =>
          rw [hlk i v he hl] at hd
          cases hd
    · rintro ⟨i, v, he, hl⟩
      rw [hun i v he hl]
  refine ⟨hiff, ?_, ?_, ?_, ?_⟩
  · intro i v he hl
    rw [hun i v he hl]
    refine ⟨HashTable.chain_setChain_same _ _ _ hblt, ?_, ?_⟩
    · intro b hb
      exact HashTable.chain_setChain_other _ _ _ _ hb
    · intro hu
      exact HashTable.noEntry_erase t.active.2 key _ i hu
  · intro i v he hl
    rw [hlk i v he hl]
    exact ⟨rfl, rfl, rfl, fun ha => HashTable.active_of_activeState t ha⟩
  · intro h
    rw [hno h]
    exact ⟨rfl, rfl, rfl, fun ha => HashTable.active_of_activeState t ha⟩
  · intro hu
    refine hiff.trans ⟨?_, ?_⟩
    · rintro ⟨i, v, he, hl⟩
      exact ⟨i, v, he.1, he.2.1, hl⟩
    · rintro ⟨i, v, e, hk, hl⟩
      have e0 : (t.chain (t.bucket key))[i]? = some v := e
      cases hc : chainFind key (t.chain (t.bucket key)) with
      | none =>
        rw [(chainFind_eq_none key _).1 hc v (List.getElem?_mem e0)] at hk
        cases hk
      | some p =>
        obtain ⟨i1, v1⟩ := p
        obtain ⟨e1, e2, -⟩ := (chainFind_eq_some _ _ _ _).1 hc
        obtain ⟨-, c⟩ := hu key _ i v _ i1 v1 e e1 hk e2
        subst c
        rw [e1] at e0
        have c1 := Option.some.inj e0
        subst c1
        exact ⟨i, _, (HashTable.entryFor_iff t key i _).2 hc, hl⟩

/-- C16 (amended) at a sample table: the unlocked entry for "a" is deleted and
the table holds no entry for "a" afterwards. -/
theorem del_spec_witness :
    ∃ r, (sampleTable [sampleEntry 5 0 0 false false]).del sampleStatics [97] 10 = some r ∧
      r.deleted = true ∧ r.table.noEntry [97] := by
  obtain ⟨r, h1, h2, h3, -, -, -⟩ :=
    del_spec (sampleTable [sampleEntry 5 0 0 false false]) sampleStatics [97] 10 (by decide)
  exact ⟨r, h1, h2.2 ⟨0, sampleEntry 5 0 0 false false, by decide, by decide⟩,
    (h3 0 (sampleEntry 5 0 0 false false) (by decide) (by decide)).2.2
      (HashTable.onlyEntry_sampleTable _ _)⟩

/-! ## Memory accounting -/

theorem chainSize_cons (v : StoredValue) (l : List StoredValue) :
    chainSize (v :: l) = v.size + chainSize l := by
  simp [chainSize]

theorem chainSize_set (l : List StoredValue) (i : Nat) (v w : StoredValue)
    (h : l[i]? = some v) : chainSize (l.set i w) + v.size = chainSize l + w.size := by
  induction l generalizing i with
  | nil => simp at h
  | cons u rest ih =>
    cases i with
    | zero =>
      simp only [List.getElem?_cons_zero, Option.some.injEq] at h
      subst h
      simp only [List.set_cons_zero, chainSize_cons]
      omega
    | succ j =>
      simp only [List.getElem?_cons_succ] at h
      have := ih j h
      simp only [List.set_cons_succ, chainSize_cons]
      omega

theorem chainSize_eraseIdx (l : List StoredValue) (i : Nat) (v : StoredValue)
    (h : l[i]? = some v) : chainSize (l.eraseIdx i) + v.size = chainSize l := by
  induction l generalizing i with
  | nil => simp at h
  | cons u rest ih =>
    cases i with
    | zero =>
      simp only [List.getElem?_cons_zero, Option.some.injEq] at h
      subst h
      simp only [List.eraseIdx_cons_zero, chainSize_cons]
      omega
    | succ j =>
      simp only [List.getElem?_cons_succ] at h
      have := ih j h
      simp only [List.eraseIdx_cons_succ, chainSize_cons]
      omega

theorem sum_set_chains (L : List (List StoredValue)) (b : Nat) (l : List StoredValue)
    (hb : b < L.length) :
    ((L.set b l).map chainSize).sum + chainSize (L.getD b []) =
      (L.map chainSize).sum + chainSize l := by
  induction L generalizing b with
  | nil => simp at hb
  | cons x rest ih =>
    cases b with
    | zero =>
      simp only [List.set_cons_zero, List.map_cons, List.sum_cons, List.getD_cons_zero]
      omega
    | succ j =>
      have hj : j < rest.length := by simpa using hb
      have := ih j hj
      simp only [List.set_cons_succ, List.map_cons, List.sum_cons, List.getD_cons_succ]
      omega

namespace HashTable

theorem totalSize_setChain (t : HashTable) (b : Nat) (l : List StoredValue)
    (hb : b < t.values.length) :
    (t.setChain b l).totalSize + chainSize (t.chain b) = t.totalSize + chainSize l :=
  sum_set_chains t.values b l hb

theorem totalSize_store (t : HashTable) (b i : Nat) (v w : StoredValue)
    (h : t.entry b i = some v) : (t.store b i w).totalSize + v.size = t.totalSize + w.size := by
  obtain ⟨hb, -⟩ := lt_of_entry t b i v h
  have h1 := totalSize_setChain t b ((t.chain b).set i w) hb
  have h2 := chainSize_set (t.chain b) i v w h
  unfold store
  omega

theorem totalSize_active (t : HashTable) : t.active.2.totalSize = t.totalSize := rfl

end HashTable

namespace StoredValue

theorem size_isLocked (v : StoredValue) (now : Nat) : (v.isLocked now).2.size = v.size := by
  unfold isLocked
  cases hx : v.extra with
  | small s => simp
  | feature f =>
    simp only
    split <;> simp [size, _isSmall, getKeyLen, hx]

theorem size_unlock (v : StoredValue) : v.unlock.size = v.size := by
  unfold unlock
  cases hx : v.extra <;> simp [size, _isSmall, getKeyLen, hx]

/-- The counter after `setValue`: the old size taken off, the new size put on. -/
theorem currentSize_setValue (v : StoredValue) (val : Blob) (fl ex cs now : Nat)
    (st : Statics) :
    (v.setValue val fl ex cs now st).2.currentSize =
      st.currentSize - v.size + (v.setValue val fl ex cs now st).1.size := by
  unfold setValue
  cases hx : v.extra <;>
    simp [reduceCurrentSize, increaseCurrentSize, markDirty, reDirty, size, _isSmall,
      getKeyLen, hx]

end StoredValue

namespace StoredValueFactory

/-- The counter after a record was built: its size put on. -/
theorem currentSize_call (ty : stored_value_type) (itm : Item) (d : Bool) (now : Nat)
    (st : Statics) (w : StoredValue) (st1 : Statics) (h : call ty itm d now st = some (w, st1)) :
    st1.currentSize = st.currentSize + w.size := by
  have hl := length_of_call _ _ _ _ _ _ h
  cases ty <;> cases d <;>
    simp [call, newStoredValue, hl, StoredValue.construct, StoredValue.copyKey,
      StoredValue.markDirty, StoredValue.reDirty, StoredValue.markClean,
      increaseCurrentSize] at h <;>
    (obtain ⟨e1, e2⟩ := h; subst e1; subst e2;
     simp [StoredValue.size, StoredValue._isSmall, StoredValue.getKeyLen])

end StoredValueFactory

namespace HashTable

theorem unlocked_del_accounted (t : HashTable) (st : Statics) (k : Key) (b now : Nat)
    (h : t.accounted st) :
    (t.unlocked_del st k b now).table.accounted (t.unlocked_del st k b now).statics := by
  obtain ⟨hwf, hs⟩ := h
  cases hc : chainFind k (t.chain b) with
  | none =>
    rw [unlocked_del_miss t st k b now hc]
    show (t.active.2.setChain b (t.active.2.chain b)).accounted st
    rw [setChain_chain]
    exact ⟨wf_active t hwf, hs⟩
  | some p =>
    obtain ⟨i, v⟩ := p
    cases hl : (v.isLocked now).1 with
    | true =>
      rw [unlocked_del_locked t st k b now i v hc hl]
      show (t.active.2.setChain b (t.active.2.chain b)).accounted st
      rw [setChain_chain]
      exact ⟨wf_active t hwf, hs⟩
    | false =>
      rw [unlocked_del_unlocked t st k b now i v hc hl]
      have hent : t.entry b i = some v := ((chainFind_eq_some _ _ _ _).1 hc).1
      obtain ⟨hb, -⟩ := lt_of_entry t b i v hent
      have h1 : (t.active.2.setChain b ((t.chain b).eraseIdx i)).totalSize +
          chainSize (t.chain b) = t.totalSize + chainSize ((t.chain b).eraseIdx i) :=
        totalSize_setChain t.active.2 b ((t.chain b).eraseIdx i) hb
      have h2 := chainSize_eraseIdx (t.chain b) i v hent
      refine ⟨wf_setChain _ _ _ (wf_active t hwf), ?_⟩
      show (reduceCurrentSize st (v.isLocked now).2.size).currentSize =
        (t.active.2.setChain b ((t.chain b).eraseIdx i)).totalSize
      rw [StoredValue.size_isLocked]
      show st.currentSize - v.size = _
      omega

theorem unlocked_find_accounted (t : HashTable) (st : Statics) (k : Key) (b now : Nat)
    (h : t.accounted st) :
    (t.unlocked_find st k b now).table.accounted (t.unlocked_find st k b now).statics := by
  cases hc : chainFind k (t.chain b) with
  | none => rw [unlocked_find_miss t st k b now hc]; exact h
  | some p =>
    obtain ⟨i, v⟩ := p
    by_cases hx : v.expired now
    · rw [unlocked_find_expired t st k b now i v hc hx]
      exact unlocked_del_accounted t st k b now h
    · rw [unlocked_find_hit t st k b now i v hc hx]; exact h

theorem accounted_active (t : HashTable) (st : Statics) (h : t.accounted st) :
    t.active.2.accounted st := h

/-- A write through a pointer that keeps the size of the node keeps the
accounting. -/
theorem store_accounted (t : HashTable) (st : Statics) (b i : Nat) (v w : StoredValue)
    (h : t.accounted st) (he : t.entry b i = some v) (hs : w.size = v.size) :
    (t.store b i w).accounted st := by
  have := totalSize_store t b i v w he
  exact ⟨wf_store _ _ _ _ h.1, by have := h.2; omega⟩

theorem set_update_accounted (t : HashTable) (st : Statics) (now mint : Nat) (val : Item)
    (b i : Nat) (v w : StoredValue) (h : t.accounted st) (he : t.entry b i = some v)
    (hs : w.size = v.size) :
    (t.set_update st now mint val b i w).table.accounted
      (t.set_update st now mint val b i w).statics := by
  rw [set_update_table, set_update_statics]
  have h1 := totalSize_store t b i v
    (w.setValue val.getValue val.getFlags val.getExptime mint now st).1 he
  have h2 := StoredValue.currentSize_setValue w val.getValue val.getFlags val.getExptime mint
    now st
  have h3 : v.size ≤ t.totalSize := by
    obtain ⟨hb, -⟩ := lt_of_entry t b i v he
    have a1 := totalSize_setChain t b [] hb
    have a2 := chainSize_eraseIdx (t.chain b) i v he
    have a0 : chainSize ([] : List StoredValue) = 0 := rfl
    omega
  refine ⟨wf_store _ _ _ _ h.1, ?_⟩
  have := h.2
  omega

theorem insert_accounted (t : HashTable) (st st1 : Statics) (b : Nat) (w : StoredValue)
    (ty : stored_value_type) (itm : Item) (d : Bool) (now : Nat) (h : t.accounted st)
    (hb : b < t.values.length)
    (hc : StoredValueFactory.call ty itm d now st = some (w, st1)) :
    (t.setChain b (w :: t.chain b)).accounted st1 := by
  have h1 := totalSize_setChain t b (w :: t.chain b) hb
  have h2 := StoredValueFactory.currentSize_call _ _ _ _ _ _ _ hc
  rw [chainSize_cons] at h1
  refine ⟨wf_setChain _ _ _ h.1, ?_⟩
  have := h.2
  omega

theorem set_accounted (t : HashTable) (st : Statics) (now mint : Nat) (val : Item)
    (r : SetResult) (h : t.accounted st) (hs : t.set st now mint val = some r) :
    r.table.accounted r.statics := by
  rw [set_eq t st now mint val h.1] at hs
  have hfa := unlocked_find_accounted t.active.2 st val.getKey (t.bucket val.getKey) now
    (accounted_active t st h)
  cases hv : (t.active.2.unlocked_find st val.getKey (t.bucket val.getKey) now).v with
  | none =>
    have hblt : t.bucket val.getKey <
        (t.active.2.unlocked_find st val.getKey (t.bucket val.getKey) now).table.values.length := by
      rw [hfa.1.2.2.2.2]
      have := bucket_lt _ val.getKey hfa.1
      rwa [unlocked_find_bucket] at this
    rcases setAfterFind_miss _ _ _ _ _ _ hv hs with
      ⟨-, e⟩ | ⟨-, -, e⟩ | ⟨-, -, w, st1, hcall, e⟩
    · subst e; exact hfa
    · subst e; exact hfa
    · subst e
      exact insert_accounted _ _ _ _ _ _ _ _ _ hfa hblt hcall
  | some p =>
    obtain ⟨i, v⟩ := p
    obtain ⟨hc, -, hfr⟩ := unlocked_find_some _ _ _ _ _ _ _ hv
    have hent : t.active.2.entry (t.bucket val.getKey) i = some v :=
      ((chainFind_eq_some _ _ _ _).1 hc).1
    have ha := accounted_active t st h
    rw [hfr] at hs
    rcases setAfterFind_hit ⟨some (i, v), t.active.2, st⟩ (t.bucket val.getKey) now
      mint i v val rfl with ⟨-, -, e⟩ | ⟨-, -, e⟩ | ⟨-, -, -, e⟩ | ⟨-, -, e⟩
    · rw [e] at hs
      have := Option.some.inj hs
      subst this
      exact store_accounted _ _ _ _ v _ ha hent (StoredValue.size_isLocked _ _)
    · rw [e] at hs
      have := Option.some.inj hs
      subst this
      exact set_update_accounted _ _ _ _ _ _ _ v _ ha hent
        (by rw [StoredValue.size_unlock, StoredValue.size_isLocked])
    · rw [e] at hs
      have := Option.some.inj hs
      subst this
      exact store_accounted _ _ _ _ v _ ha hent (StoredValue.size_isLocked _ _)
    · rw [e] at hs
      have := Option.some.inj hs
      subst this
      exact set_update_accounted _ _ _ _ _ _ _ v _ ha hent (StoredValue.size_isLocked _ _)

theorem add_accounted (t : HashTable) (st : Statics) (now mint : Nat) (val : Item)
    (isDirty : Bool) (r : AddResult) (h : t.accounted st)
    (hs : t.add st now mint val isDirty = some r) : r.table.accounted r.statics := by
  rw [add_eq t st now mint val isDirty h.1] at hs
  have hfa := unlocked_find_accounted t.active.2 st val.getKey (t.bucket val.getKey) now
    (accounted_active t st h)
  unfold addAfterFind at hs
  cases hv : (t.active.2.unlocked_find st val.getKey (t.bucket val.getKey) now).v with
  | some p =>
    rw [hv] at hs
    have := Option.some.inj hs
    subst this
    exact hfa
  | none =>
    rw [hv] at hs
    simp only at hs
    have hblt : t.bucket val.getKey <
        (t.active.2.unlocked_find st val.getKey (t.bucket val.getKey) now).table.values.length := by
      rw [hfa.1.2.2.2.2]
      have := bucket_lt _ val.getKey hfa.1
      rwa [unlocked_find_bucket] at this
    split at hs
    · have := Option.some.inj hs
      subst this
      exact hfa
    · cases hcall : StoredValueFactory.call
          (t.active.2.unlocked_find st val.getKey (t.bucket val.getKey) now).table.valFact
          (val.setCas mint) isDirty now
          (t.active.2.unlocked_find st val.getKey (t.bucket val.getKey) now).statics with
      | none => rw [hcall] at hs; cases hs
      | some q =>
        obtain ⟨w, st1⟩ := q
        rw [hcall] at hs
        have := Option.some.inj hs
        subst this
        exact insert_accounted _ _ _ _ _ _ _ _ _ hfa hblt hcall

theorem del_accounted (t : HashTable) (st : Statics) (key : Key) (now : Nat) (r : DelResult)
    (h : t.accounted st) (hs : t.del st key now = some r) : r.table.accounted r.statics := by
  rw [del_eq t st key now h.1] at hs
  have := Option.some.inj hs
  subst this
  exact unlocked_del_accounted _ _ _ _ _ (accounted_active t st h)

theorem find_accounted (t : HashTable) (st : Statics) (key : Key) (now : Nat) (r : FindResult)
    (h : t.accounted st) (hs : t.find st key now = some r) : r.table.accounted r.statics := by
  rw [find_eq t st key now h.1] at hs
  have := Option.some.inj hs
  subst this
  exact unlocked_find_accounted _ _ _ _ _ (accounted_active t st h)

theorem applyOp_accounted (t : HashTable) (st : Statics) (op : HashTableOp) (t1 : HashTable)
    (st1 : Statics) (h : t.accounted st) (hs : t.applyOp st op = some (t1, st1)) :
    t1.accounted st1 := by
  cases op with
  | set now mint val =>
    simp only [applyOp, Option.map_eq_some', Prod.mk.injEq] at hs
    obtain ⟨r, hr, e1, e2⟩ := hs
    subst e1; subst e2
    exact set_accounted t st now mint val r h hr
  | add now mint val isDirty =>
    simp only [applyOp, Option.map_eq_some', Prod.mk.injEq] at hs
    obtain ⟨r, hr, e1, e2⟩ := hs
    subst e1; subst e2
    exact add_accounted t st now mint val isDirty r h hr
  | del key now =>
    simp only [applyOp, Option.map_eq_some', Prod.mk.injEq] at hs
    obtain ⟨r, hr, e1, e2⟩ := hs
    subst e1; subst e2
    exact del_accounted t st key now r h hr
  | find key now =>
    simp only [applyOp, Option.map_eq_some', Prod.mk.injEq] at hs
    obtain ⟨r, hr, e1, e2⟩ := hs
    subst e1; subst e2
    exact find_accounted t st key now r h hr

theorem runOps_accounted (ops : List HashTableOp) (t : HashTable) (st : Statics)
    (t1 : HashTable) (st1 : Statics) (h : t.accounted st)
    (hs : runOps ops t st = some (t1, st1)) : t1.accounted st1 := by
  induction ops generalizing t st with
  | nil =>
    simp only [runOps, Option.some.injEq, Prod.mk.injEq] at hs
    obtain ⟨e1, e2⟩ := hs
    subst e1; subst e2
    exact h
  | cons op ops ih =>
    unfold runOps at hs
    cases ha : t.applyOp st op with
    | none => rw [ha] at hs; cases hs
    | some p =>
      obtain ⟨t2, st2⟩ := p
      rw [ha] at hs
      exact ih t2 st2 (applyOp_accounted t st op t2 st2 h ha) hs

theorem construct_accounted (size n_locks : Nat) (ty : stored_value_type) (t : HashTable)
    (m : Nat) (h : construct size n_locks ty = some t) (hs : size < 2 ^ 31)
    (hl : n_locks < 2 ^ 31) : t.accounted ⟨m, 0⟩ := by
  unfold construct at h
  split at h
  · rename_i hc
    have := Option.some.inj h
    subst this
    refine ⟨⟨hc.1, hs, hc.2, hl, by simp⟩, ?_⟩
    simp [totalSize, chainSize]
  · cases h

end HashTable

/-- C17: start from the table the constructor builds (all chains empty) with
`currentSize` 0, and run any sequence of `set`, `add`, `del` and `find` calls
(any arguments, any times). Afterwards `currentSize` equals the sum over all
nodes in the table of `size()`, and `size()` is
`sizeOf(variant) + key length + value length`. -/
theorem currentSize_accounting (size n_locks : Nat) (ty : stored_value_type) (maxData : Nat)
    (ops : List HashTableOp) (t0 t : HashTable) (st : Statics)
    (h0 : HashTable.construct size n_locks ty = some t0) (hs : size < 2 ^ 31)
    (hl : n_locks < 2 ^ 31) (hrun : HashTable.runOps ops t0 ⟨maxData, 0⟩ = some (t, st)) :
    st.currentSize = (t.values.map (fun l => (l.map StoredValue.size).sum)).sum ∧
      ∀ l ∈ t.values, ∀ v ∈ l,
        v.size = StoredValue.sizeOf v._isSmall + v.getKeyLen + v.getValue.length :=
  ⟨(HashTable.runOps_accounted ops t0 ⟨maxData, 0⟩ t st
      (HashTable.construct_accounted size n_locks ty t0 maxData h0 hs hl) hrun).2,
    fun _ _ _ _ => rfl⟩

/-- C17 at a sample run: on the table the constructor builds for 3 buckets and
2 locks, a `set`, an `add` of the same key and a `find` leave one node of size
65 and `currentSize` 65. -/
theorem currentSize_accounting_witness :
    HashTable.runOps [.set 10 42 (sampleItem 0 0), .add 11 43 (sampleItem 0 0) true,
        .find [97] 12] (sampleTable []) ⟨100000, 0⟩ =
        some (sampleInserted.table, ⟨100000, 65⟩) ∧
      (⟨100000, 65⟩ : Statics).currentSize =
        (sampleInserted.table.values.map (fun l => (l.map StoredValue.size).sum)).sum :=
  ⟨by decide,
   (currentSize_accounting 3 2 .featured 100000
      [.set 10 42 (sampleItem 0 0), .add 11 43 (sampleItem 0 0) true, .find [97] 12]
      (sampleTable []) sampleInserted.table ⟨100000, 65⟩ (by decide) (by decide) (by decide)
      (by decide)).1⟩

/-! ## BgFetcher: one batch -/

theorem queueWaiters_queuePush (q : vb_bgfetch_queue_t) (r : Nat) (w : VBucketBGFetchItem) :
    List.Perm (queueWaiters (queuePush q r w)) (queueWaiters q ++ [w]) := by
  induction q with
  | nil => simp [queuePush, queueWaiters]
  | cons p rest ih =>
    obtain ⟨r1, ws⟩ := p
    unfold queuePush
    split
    · simp only [queueWaiters, List.singleton_append]
      exact (List.perm_append_singleton w _).symm
    · split
      · simp only [queueWaiters, List.append_assoc]
        exact (@List.perm_append_comm _ [w] (queueWaiters rest)).append_left ws
      · simp only [queueWaiters, List.append_assoc]
        exact ih.append_left ws

theorem queueWaiters_requeueAll (vb : VBucket) (ws : List VBucketBGFetchItem) :
    List.Perm (queueWaiters (vb.requeueAll ws).pendingBGFetches)
      (queueWaiters vb.pendingBGFetches ++ ws) := by
  induction ws generalizing vb with
  | nil => simp [VBucket.requeueAll]
  | cons w rest ih =>
    have h1 := ih (vb.queueBGFetchItem w)
    have h2 : List.Perm (queueWaiters (vb.queueBGFetchItem w).pendingBGFetches)
        (queueWaiters vb.pendingBGFetches ++ [w]) := queueWaiters_queuePush _ _ _
    have h3 : vb.requeueAll (w :: rest) = (vb.queueBGFetchItem w).requeueAll rest := rfl
    rw [h3]
    refine h1.trans ?_
    have := h2.append_right rest
    simpa using this

namespace BgFetcher

theorem doFetch_inner_eq (env : BgFetchEnv) (ws acc : List VBucketBGFetchItem) (n : Nat) :
    doFetch_inner env ws (acc, n) =
      (acc ++ ws.filter (fun w => !env.retries w),
        n + (ws.filter (fun w => !env.retries w)).length) := by
  induction ws generalizing acc n with
  | nil => simp [doFetch_inner]
  | cons w rest ih =>
    unfold doFetch_inner
    by_cases hc : w.status ≠ ENGINE_SUCCESS ∧ w.canRetry env.maxRetry = true
    · have hr : env.retries w = true := by
        simp [BgFetchEnv.retries, hc.1, hc.2]
      rw [if_pos hc, ih]
      simp [hr]
    · have hr : env.retries w = false := by
        cases h : env.retries w with
        | false => rfl
        | true =>
          simp only [BgFetchEnv.retries, Bool.and_eq_true, decide_eq_true_eq] at h
          exact absurd h hc
      rw [if_neg hc, ih]
      simp [hr]
      omega

theorem doFetch_outer_eq (env : BgFetchEnv) (q : vb_bgfetch_queue_t)
    (acc : List VBucketBGFetchItem) (n : Nat) :
    doFetch_outer env q (acc, n) =
      (acc ++ env.fetchedOf q, n + (env.fetchedOf q).length) := by
  induction q generalizing acc n with
  | nil => simp [doFetch_outer, BgFetchEnv.fetchedOf, queueWaiters]
  | cons p rest ih =>
    obtain ⟨r, ws⟩ := p
    unfold doFetch_outer
    rw [doFetch_inner_eq, ih]
    simp [BgFetchEnv.fetchedOf, queueWaiters]
    omega

end BgFetcher

namespace BgFetcher

theorem lt_of_getBucket (f : BgFetcher) (vbId : Nat) (vb : VBucket)
    (h : f.getBucket vbId = some vb) : vbId < f.vbuckets.length := by
  by_contra hc
  unfold getBucket at h
  rw [List.getD_eq_getElem?_getD, List.getElem?_eq_none (by omega)] at h
  cases h

theorem getD_set_self {α : Type} (l : List α) (i : Nat) (x d : α) (h : i < l.length) :
    (l.set i x).getD i d = x := by
  rw [List.getD_eq_getElem?_getD, List.getElem?_set_self h]
  rfl

theorem set_set_self {α : Type} (l : List α) (i : Nat) (x y : α) :
    (l.set i x).set i y = l.set i y := by
  apply List.ext_getElem?
  intro j
  by_cases hj : i = j
  · subst hj
    rw [List.getElem?_set_self', List.getElem?_set_self', List.getElem?_set_self']
    cases l[i]? <;> rfl
  · rw [List.getElem?_set_ne hj, List.getElem?_set_ne hj, List.getElem?_set_ne hj]

theorem retries_iff (env : BgFetchEnv) (w : VBucketBGFetchItem) :
    env.retries w = true ↔ (w.status ≠ ENGINE_SUCCESS ∧ w.canRetry env.maxRetry = true) := by
  simp [BgFetchEnv.retries]

/-- The inner loop of `clearItems` on a list of waiters, when the partition is
there. -/
theorem clearItems_inner_eq (env : BgFetchEnv) (vbId : Nat) (ws : List VBucketBGFetchItem)
    (f : BgFetcher) (n : Nat) (vb : VBucket) (hvb : f.getBucket vbId = some vb) :
    clearItems_inner env vbId ws (f, n) =
      some ({ f with
              deleted := f.deleted ++ ws.filter (fun w => !env.retries w),
              vbuckets := f.vbuckets.set vbId (some (vb.requeueAll
                ((ws.filter (fun w => env.retries w)).map
                  VBucketBGFetchItem.incrRetryCount))) },
        n + (ws.filter (fun w => env.retries w)).length) := by
  induction ws generalizing f n vb with
  | nil =>
    have e : f.vbuckets.set vbId (some vb) = f.vbuckets := by
      have := HashTable.set_getD_self f.vbuckets vbId none
      unfold getBucket at hvb
      rw [hvb] at this
      exact this
    simp [clearItems_inner, VBucket.requeueAll, e]
  | cons d rest ih =>
    unfold clearItems_inner
    cases hr : env.retries d with
    | false =>
      have hc : d.status = ENGINE_SUCCESS ∨ ¬ (d.canRetry env.maxRetry = true) := by
        by_contra hcc
        have : env.retries d = true :=
          (retries_iff env d).2 ⟨fun h => hcc (Or.inl h), by
            by_contra h2; exact hcc (Or.inr h2)⟩
        rw [hr] at this
        cases this
      rw [if_pos hc]
      rw [ih { f with deleted := f.deleted ++ [d] } n vb hvb]
      simp [hr]
    | true =>
      have hrr := (retries_iff env d).1 hr
      have hc : ¬ (d.status = ENGINE_SUCCESS ∨ ¬ (d.canRetry env.maxRetry = true)) := by
        intro h
        rcases h with h | h
        · exact hrr.1 h
        · exact h hrr.2
      rw [if_neg hc, hvb]
      simp only
      have hlt := lt_of_getBucket f vbId vb hvb
      have hvb1 : getBucket
          { f with
            vbuckets := f.vbuckets.set vbId (some (vb.queueBGFetchItem d.incrRetryCount)) }
          vbId = some (vb.queueBGFetchItem d.incrRetryCount) := by
        unfold getBucket
        exact getD_set_self _ _ _ _ hlt
      rw [ih _ (n + 1) _ hvb1]
      simp only [set_set_self, hr, List.filter_cons_of_pos, List.map_cons, List.length_cons,
        Bool.not_true, Bool.false_eq_true, not_false_eq_true, List.filter_cons_of_neg]
      have h3 : vb.requeueAll (d.incrRetryCount ::
          List.map VBucketBGFetchItem.incrRetryCount
            (List.filter (fun w => env.retries w) rest)) =
          (vb.queueBGFetchItem d.incrRetryCount).requeueAll
            (List.map VBucketBGFetchItem.incrRetryCount
              (List.filter (fun w => env.retries w) rest)) := rfl
      rw [h3]
      congr 2
      omega

end BgFetcher

namespace BgFetcher

theorem requeueAll_append (vb : VBucket) (l1 l2 : List VBucketBGFetchItem) :
    (vb.requeueAll l1).requeueAll l2 = vb.requeueAll (l1 ++ l2) := by
  simp [VBucket.requeueAll, List.foldl_append]

theorem fetchedOf_cons (env : BgFetchEnv) (r : Nat) (ws : List VBucketBGFetchItem)
    (q : vb_bgfetch_queue_t) :
    env.fetchedOf ((r, ws) :: q) = ws.filter (fun w => !env.retries w) ++ env.fetchedOf q := by
  simp [BgFetchEnv.fetchedOf, queueWaiters]

theorem retriedOf_cons (env : BgFetchEnv) (r : Nat) (ws : List VBucketBGFetchItem)
    (q : vb_bgfetch_queue_t) :
    env.retriedOf ((r, ws) :: q) = ws.filter (fun w => env.retries w) ++ env.retriedOf q := by
  simp [BgFetchEnv.retriedOf, queueWaiters]

/-- The outer loop of `clearItems` on a map without empty waiter lists, when the
partition is there. -/
theorem clearItems_outer_eq (env : BgFetchEnv) (vbId : Nat) (q : vb_bgfetch_queue_t)
    (f : BgFetcher) (n : Nat) (vb : VBucket) (hvb : f.getBucket vbId = some vb)
    (hne : ∀ p ∈ q, p.2 ≠ []) :
    clearItems_outer env vbId q (f, n) =
      some ({ f with
              deleted := f.deleted ++ env.fetchedOf q,
              vbuckets := f.vbuckets.set vbId (some (vb.requeueAll
                ((env.retriedOf q).map VBucketBGFetchItem.incrRetryCount))) },
        n + (env.retriedOf q).length) := by
  induction q generalizing f n vb with
  | nil =>
    have e : f.vbuckets.set vbId (some vb) = f.vbuckets := by
      have := HashTable.set_getD_self f.vbuckets vbId none
      unfold getBucket at hvb
      rw [hvb] at this
      exact this
    simp [clearItems_outer, BgFetchEnv.fetchedOf, BgFetchEnv.retriedOf, queueWaiters,
      VBucket.requeueAll, e]
  | cons p rest ih =>
    obtain ⟨r, ws⟩ := p
    have hws : ws ≠ [] := hne (r, ws) (List.mem_cons_self _ _)
    have hrest : ∀ p ∈ rest, p.2 ≠ [] := fun p hp => hne p (List.mem_cons_of_mem _ hp)
    cases ws with
    | nil => exact absurd rfl hws
    | cons first others =>
      unfold clearItems_outer
      simp only [VBucketBGFetchItem.delValue]
      rw [clearItems_inner_eq env vbId (first :: others) f n vb hvb]
      simp only
      have hlt := lt_of_getBucket f vbId vb hvb
      rw [ih _ _ (vb.requeueAll (((first :: others).filter (fun w => env.retries w)).map
        VBucketBGFetchItem.incrRetryCount)) (by
          unfold getBucket
          exact getD_set_self _ _ _ _ hlt) hrest]
      simp only [requeueAll_append, set_set_self, fetchedOf_cons, retriedOf_cons,
        List.append_assoc, List.map_append, List.length_append, Nat.add_assoc]

theorem getMulti_nonempty (env : BgFetchEnv) (vbId : Nat) (q : vb_bgfetch_queue_t)
    (hne : ∀ p ∈ q, p.2 ≠ []) : ∀ p ∈ getMulti env vbId q, p.2 ≠ [] := by
  intro p hp
  unfold getMulti at hp
  rw [List.mem_map] at hp
  obtain ⟨p0, hp0, e⟩ := hp
  subst e
  have := hne p0 hp0
  simpa using this

/-- What `clearItems` does, when the partition is there and no rowid has an
empty waiter list. -/
theorem clearItems_eq (g : BgFetcher) (env : BgFetchEnv) (vbId : Nat) (vb : VBucket)
    (hvb : g.getBucket vbId = some vb) (hne : ∀ p ∈ g.items2fetch, p.2 ≠ []) :
    g.clearItems env vbId =
      some { g with
        deleted := g.deleted ++ env.fetchedOf g.items2fetch,
        vbuckets := g.vbuckets.set vbId (some (vb.requeueAll
          ((env.retriedOf g.items2fetch).map VBucketBGFetchItem.incrRetryCount))),
        total_num_requeued_items := g.total_num_requeued_items +
          (env.retriedOf g.items2fetch).length } := by
  unfold clearItems
  rw [clearItems_outer_eq env vbId g.items2fetch g 0 vb hvb hne]
  simp

/-- What one call of `doFetch` does, when the partition is there and no rowid
has an empty waiter list. -/
theorem doFetch_eq (f : BgFetcher) (env : BgFetchEnv) (vbId : Nat) (vb : VBucket)
    (hvb : f.getBucket vbId = some vb) (hne : ∀ p ∈ f.items2fetch, p.2 ≠ []) :
    f.doFetch env vbId =
      some { f with
        items2fetch := getMulti env vbId f.items2fetch,
        completed := f.completed ++
          (if (env.fetchedOf (getMulti env vbId f.items2fetch)).length > 0 then
            [(vbId, env.fetchedOf (getMulti env vbId f.items2fetch))] else []),
        total_num_fetched_items := f.total_num_fetched_items +
          (env.fetchedOf (getMulti env vbId f.items2fetch)).length,
        deleted := f.deleted ++ env.fetchedOf (getMulti env vbId f.items2fetch),
        vbuckets := f.vbuckets.set vbId (some (vb.requeueAll
          ((env.retriedOf (getMulti env vbId f.items2fetch)).map
            VBucketBGFetchItem.incrRetryCount))),
        total_num_requeued_items := f.total_num_requeued_items +
          (env.retriedOf (getMulti env vbId f.items2fetch)).length } := by
  have hne1 := getMulti_nonempty env vbId f.items2fetch hne
  unfold doFetch
  simp only [doFetch_outer_eq, List.nil_append, Nat.zero_add]
  by_cases hpos : (env.fetchedOf (getMulti env vbId f.items2fetch)).length > 0
  · rw [if_pos hpos, if_pos hpos]
    refine (clearItems_eq _ env vbId vb ?_ ?_).trans ?_
    · exact hvb
    · exact hne1
    · rfl
  · rw [if_neg hpos, if_neg hpos]
    have h0 : (env.fetchedOf (getMulti env vbId f.items2fetch)).length = 0 := by omega
    refine (clearItems_eq _ env vbId vb ?_ ?_).trans ?_
    · exact hvb
    · exact hne1
    · simp [h0]

end BgFetcher

/-- C18: `doFetch` on a batch whose rowids all have a waiter, for a partition
that exists, returns, and every waiter of the batch (with the status the
backend gave it) is handled exactly once. The waiters not put aside are, in
order, the vector handed to `completeBGFetchMulti` (one call, none when the
vector is empty) and are then deleted; the others are queued again on the
partition with their retry count bumped. The two groups together are the batch
(as multisets), and no waiter is in both. -/
theorem doFetch_every_waiter_once (f : BgFetcher) (env : BgFetchEnv) (vbId : Nat)
    (vb : VBucket) (hvb : f.getBucket vbId = some vb)
    (hne : ∀ p ∈ f.items2fetch, p.2 ≠ []) :
    ∃ f1 vb1, f.doFetch env vbId = some f1 ∧
      f1.completed = f.completed ++
        (if (env.fetchedOf (getMulti env vbId f.items2fetch)).length > 0 then
          [(vbId, env.fetchedOf (getMulti env vbId f.items2fetch))] else []) ∧
      f1.deleted = f.deleted ++ env.fetchedOf (getMulti env vbId f.items2fetch) ∧
      f1.getBucket vbId = some vb1 ∧
      List.Perm (queueWaiters vb1.pendingBGFetches)
        (queueWaiters vb.pendingBGFetches ++
          (env.retriedOf (getMulti env vbId f.items2fetch)).map
            VBucketBGFetchItem.incrRetryCount) ∧
      List.Perm (env.fetchedOf (getMulti env vbId f.items2fetch) ++
          env.retriedOf (getMulti env vbId f.items2fetch))
        (queueWaiters (getMulti env vbId f.items2fetch)) ∧
      ∀ w ∈ queueWaiters (getMulti env vbId f.items2fetch),
        (w ∈ env.fetchedOf (getMulti env vbId f.items2fetch) ∧
          w ∉ env.retriedOf (getMulti env vbId f.items2fetch)) ∨
        (w ∈ env.retriedOf (getMulti env vbId f.items2fetch) ∧
          w ∉ env.fetchedOf (getMulti env vbId f.items2fetch)) := by
  have hlt := BgFetcher.lt_of_getBucket f vbId vb hvb
  refine ⟨_, vb.requeueAll ((env.retriedOf (getMulti env vbId f.items2fetch)).map
      VBucketBGFetchItem.incrRetryCount),
    BgFetcher.doFetch_eq f env vbId vb hvb hne, rfl, rfl, ?_, ?_, ?_, ?_⟩
  · exact BgFetcher.getD_set_self _ _ _ _ hlt
  · exact queueWaiters_requeueAll _ _
  · exact (List.perm_append_comm).trans (List.filter_append_perm _ _)
  · intro w hw
    cases hr : env.retries w with
    | false =>
      left
      simp [BgFetchEnv.fetchedOf, BgFetchEnv.retriedOf, hw, hr]
    | true =>
      right
      simp [BgFetchEnv.fetchedOf, BgFetchEnv.retriedOf, hw, hr]

/-- C18 at the sample batch: the found waiter and the one out of retries are
completed and deleted, the third is left for the partition. -/
theorem doFetch_every_waiter_once_witness :
    ∃ f1, sampleFetcher.doFetch sampleEnv 0 = some f1 ∧
      f1.deleted = sampleFetcher.deleted ++
        sampleEnv.fetchedOf (getMulti sampleEnv 0 sampleFetcher.items2fetch) ∧
      sampleEnv.fetchedOf (getMulti sampleEnv 0 sampleFetcher.items2fetch) =
        [{ sampleWaiter 1 7 0 with status := 0 }, { sampleWaiter 3 9 2 with status := 13 }] := by
  obtain ⟨f1, vb1, h1, -, h3, -⟩ :=
    doFetch_every_waiter_once sampleFetcher sampleEnv 0 ⟨[]⟩ (by decide) (by decide)
  exact ⟨f1, h1, h3, by decide⟩

/-- C19: in `doFetch`/`clearItems` (partition there, no empty waiter list) a
waiter of the batch is queued again exactly when its status is not
`ENGINE_SUCCESS` and `canRetry()` holds; what is queued is the waiter with its
retry count up by exactly 1, and `total_num_requeued_items` grows by their
number. A waiter whose status is not `ENGINE_SUCCESS` and that cannot retry is
in the vector handed to `completeBGFetchMulti` and is not queued again. -/
theorem doFetch_requeues_retryable (f : BgFetcher) (env : BgFetchEnv) (vbId : Nat)
    (vb : VBucket) (hvb : f.getBucket vbId = some vb)
    (hne : ∀ p ∈ f.items2fetch, p.2 ≠ []) :
    ∃ (f1 : BgFetcher) (vb1 : VBucket) (requeued : List VBucketBGFetchItem),
      f.doFetch env vbId = some f1 ∧ f1.getBucket vbId = some vb1 ∧
      List.Perm (queueWaiters vb1.pendingBGFetches)
        (queueWaiters vb.pendingBGFetches ++
          requeued.map VBucketBGFetchItem.incrRetryCount) ∧
      (∀ w ∈ queueWaiters (getMulti env vbId f.items2fetch),
        w ∈ requeued ↔ (w.status ≠ ENGINE_SUCCESS ∧ w.canRetry env.maxRetry = true)) ∧
      (∀ w ∈ requeued, w.incrRetryCount.retryCount = w.retryCount + 1 ∧
        w.incrRetryCount.key = w.key ∧ w.incrRetryCount.cookie = w.cookie ∧
        w.incrRetryCount.rowid = w.rowid ∧ w.incrRetryCount.status = w.status) ∧
      f1.total_num_requeued_items = f.total_num_requeued_items + requeued.length ∧
      ∀ w ∈ queueWaiters (getMulti env vbId f.items2fetch),
        w.status ≠ ENGINE_SUCCESS → w.canRetry env.maxRetry = false →
          w ∉ requeued ∧ ∃ fetchedItems, (vbId, fetchedItems) ∈ f1.completed ∧
            w ∈ fetchedItems := by
  have hlt := BgFetcher.lt_of_getBucket f vbId vb hvb
  refine ⟨_, vb.requeueAll ((env.retriedOf (getMulti env vbId f.items2fetch)).map
      VBucketBGFetchItem.incrRetryCount), env.retriedOf (getMulti env vbId f.items2fetch),
    BgFetcher.doFetch_eq f env vbId vb hvb hne, ?_, ?_, ?_, ?_, rfl, ?_⟩
  · exact BgFetcher.getD_set_self _ _ _ _ hlt
  · exact queueWaiters_requeueAll _ _
  · intro w hw
    rw [← BgFetcher.retries_iff]
    simp [BgFetchEnv.retriedOf, hw]
  · intro w _
    exact ⟨rfl, rfl, rfl, rfl, rfl⟩
  · intro w hw hs hc
    have hr : env.retries w = false := by
      simp [BgFetchEnv.retries, hc]
    have hin : w ∈ env.fetchedOf (getMulti env vbId f.items2fetch) := by
      simp [BgFetchEnv.fetchedOf, hw, hr]
    refine ⟨by simp [BgFetchEnv.retriedOf, hr], _, ?_, hin⟩
    have hpos : (env.fetchedOf (getMulti env vbId f.items2fetch)).length > 0 :=
      List.length_pos_of_mem hin
    simp only [hpos, if_true]
    simp

/-- C19 at the sample batch: exactly the waiter with cookie 2 (failed, retries
left) is queued again, with retry count 1. -/
theorem doFetch_requeues_retryable_witness :
    ∃ f1 vb1, sampleFetcher.doFetch sampleEnv 0 = some f1 ∧ f1.getBucket 0 = some vb1 ∧
      f1.total_num_requeued_items = 1 ∧
      sampleEnv.retriedOf (getMulti sampleEnv 0 sampleFetcher.items2fetch) =
        [{ sampleWaiter 2 9 0 with status := 13 }] := by
  obtain ⟨f1, vb1, rq, h1, h2, -, -, -, h6, -⟩ :=
    doFetch_requeues_retryable sampleFetcher sampleEnv 0 ⟨[]⟩ (by decide) (by decide)
  have e : sampleFetcher.doFetch sampleEnv 0 = some
      { sampleFetcher with
        items2fetch := getMulti sampleEnv 0 sampleFetcher.items2fetch,
        completed := [(0, [{ sampleWaiter 1 7 0 with status := 0 },
          { sampleWaiter 3 9 2 with status := 13 }])],
        total_num_fetched_items := 2,
        deleted := [{ sampleWaiter 1 7 0 with status := 0 },
          { sampleWaiter 3 9 2 with status := 13 }],
        vbuckets := [some ⟨[(9, [{ sampleWaiter 2 9 0 with status := 13, retryCount := 1 }])]⟩],
        total_num_requeued_items := 1 } := by decide
  rw [e] at h1
  have := Option.some.inj h1
  subst this
  exact ⟨_, vb1, e, h2, rfl, by decide⟩

/-! ## BgFetcher: a run -/

namespace BgFetcher

/-- The inner loop of `clearItems` touches neither the completion log nor the
fetched total nor the job counter. -/
theorem clearItems_inner_frame (env : BgFetchEnv) (vbId : Nat) (ws : List VBucketBGFetchItem)
    (f : BgFetcher) (n : Nat) (f1 : BgFetcher) (n1 : Nat)
    (h : clearItems_inner env vbId ws (f, n) = some (f1, n1)) :
    f1.completed = f.completed ∧ f1.total_num_fetched_items = f.total_num_fetched_items ∧
      f1.numRemainingBgJobs = f.numRemainingBgJobs := by
  induction ws generalizing f n with
  | nil =>
    simp only [clearItems_inner, Option.some.injEq, Prod.mk.injEq] at h
    obtain ⟨e, -⟩ := h
    subst e
    exact ⟨rfl, rfl, rfl⟩
  | cons d rest ih =>
    unfold clearItems_inner at h
    split at h
    · have := ih _ _ h
      exact this
    · cases hb : f.getBucket vbId with
      | none => rw [hb] at h; cases h
      | some vb =>
        rw [hb] at h
        simp only at h
        have := ih _ _ h
        exact this

theorem clearItems_outer_frame (env : BgFetchEnv) (vbId : Nat) (q : vb_bgfetch_queue_t)
    (f : BgFetcher) (n : Nat) (f1 : BgFetcher) (n1 : Nat)
    (h : clearItems_outer env vbId q (f, n) = some (f1, n1)) :
    f1.completed = f.completed ∧ f1.total_num_fetched_items = f.total_num_fetched_items ∧
      f1.numRemainingBgJobs = f.numRemainingBgJobs := by
  induction q generalizing f n with
  | nil =>
    simp only [clearItems_outer, Option.some.injEq, Prod.mk.injEq] at h
    obtain ⟨e, -⟩ := h
    subst e
    exact ⟨rfl, rfl, rfl⟩
  | cons p rest ih =>
    obtain ⟨r, ws⟩ := p
    cases ws with
    | nil => simp [clearItems_outer] at h
    | cons first others =>
      unfold clearItems_outer at h
      simp only at h
      cases hi : clearItems_inner env vbId (first.delValue :: others) (f, n) with
      | none => rw [hi] at h; cases h
      | some acc =>
        obtain ⟨f2, n2⟩ := acc
        rw [hi] at h
        obtain ⟨a1, a2, a3⟩ := clearItems_inner_frame env vbId _ f n f2 n2 hi
        obtain ⟨b1, b2, b3⟩ := ih f2 n2 h
        exact ⟨b1.trans a1, b2.trans a2, b3.trans a3⟩

theorem clearItems_frame (g : BgFetcher) (env : BgFetchEnv) (vbId : Nat) (f1 : BgFetcher)
    (h : g.clearItems env vbId = some f1) :
    f1.completed = g.completed ∧ f1.total_num_fetched_items = g.total_num_fetched_items ∧
      f1.numRemainingBgJobs = g.numRemainingBgJobs := by
  unfold clearItems at h
  cases ho : clearItems_outer env vbId g.items2fetch (g, 0) with
  | none => rw [ho] at h; cases h
  | some acc =>
    obtain ⟨f2, n2⟩ := acc
    rw [ho] at h
    have := Option.some.inj h
    subst this
    exact clearItems_outer_frame env vbId _ g 0 f2 n2 ho

/-- What any returning call of `doFetch` adds to the completion log and to the
fetched total: at most one batch, counted by its length. -/
theorem doFetch_frame (f : BgFetcher) (env : BgFetchEnv) (vbId : Nat) (f1 : BgFetcher)
    (h : f.doFetch env vbId = some f1) :
    ∃ calls, f1.completed = f.completed ++ calls ∧
      f1.total_num_fetched_items =
        f.total_num_fetched_items + (calls.map (fun p => p.2.length)).sum ∧
      f1.numRemainingBgJobs = f.numRemainingBgJobs := by
  unfold doFetch at h
  simp only [doFetch_outer_eq, List.nil_append, Nat.zero_add] at h
  by_cases hpos : (env.fetchedOf (getMulti env vbId f.items2fetch)).length > 0
  · rw [if_pos hpos] at h
    obtain ⟨a1, a2, a3⟩ := clearItems_frame _ env vbId f1 h
    refine ⟨[(vbId, env.fetchedOf (getMulti env vbId f.items2fetch))], a1, ?_, a3⟩
    rw [a2]
    simp
  · rw [if_neg hpos] at h
    obtain ⟨a1, a2, a3⟩ := clearItems_frame _ env vbId f1 h
    refine ⟨[], ?_, ?_, a3⟩
    · rw [a1]; simp
    · rw [a2]; simp

theorem run_visit_frame (env : BgFetchEnv) (f : BgFetcher) (total vbid : Nat)
    (f1 : BgFetcher) (total1 : Nat) (h : run_visit env f total vbid = some (f1, total1)) :
    ∃ calls, f1.completed = f.completed ++ calls ∧
      f1.total_num_fetched_items =
        f.total_num_fetched_items + (calls.map (fun p => p.2.length)).sum ∧
      f1.numRemainingBgJobs = f.numRemainingBgJobs := by
  unfold run_visit at h
  cases hb : f.getBucket vbid with
  | none =>
    rw [hb] at h
    simp only [Option.some.injEq, Prod.mk.injEq] at h
    obtain ⟨e, -⟩ := h
    subst e
    exact ⟨[], by simp, by simp, rfl⟩
  | some vb =>
    rw [hb] at h
    simp only [VBucket.getBGFetchItems] at h
    split at h
    · split at h
      · cases h
      · rename_i g hg
        simp only [Option.some.injEq, Prod.mk.injEq] at h
        obtain ⟨e, -⟩ := h
        subst e
        obtain ⟨calls, a1, a2, a3⟩ := doFetch_frame _ env vbid g hg
        exact ⟨calls, a1, a2, a3⟩
    · simp only [Option.some.injEq, Prod.mk.injEq] at h
      obtain ⟨e, -⟩ := h
      subst e
      exact ⟨[], by simp, by simp, rfl⟩

theorem run_loop_frame (env : BgFetchEnv) (ids : List Nat) (f : BgFetcher) (total : Nat)
    (f1 : BgFetcher) (total1 : Nat) (h : run_loop env ids (f, total) = some (f1, total1)) :
    ∃ calls, f1.completed = f.completed ++ calls ∧
      f1.total_num_fetched_items =
        f.total_num_fetched_items + (calls.map (fun p => p.2.length)).sum ∧
      f1.numRemainingBgJobs = f.numRemainingBgJobs := by
  induction ids generalizing f total with
  | nil =>
    simp only [run_loop, Option.some.injEq, Prod.mk.injEq] at h
    obtain ⟨e, -⟩ := h
    subst e
    exact ⟨[], by simp, by simp, rfl⟩
  | cons vbid rest ih =>
    unfold run_loop at h
    cases hv : run_visit env f total vbid with
    | none => rw [hv] at h; cases h
    | some acc =>
      obtain ⟨f2, t2⟩ := acc
      rw [hv] at h
      obtain ⟨c1, a1, a2, a3⟩ := run_visit_frame env f total vbid f2 t2 hv
      obtain ⟨c2, b1, b2, b3⟩ := ih f2 t2 h
      refine ⟨c1 ++ c2, ?_, ?_, b3.trans a3⟩
      · rw [b1, a1, List.append_assoc]
      · rw [b2, a2]
        simp only [List.map_append, List.sum_append]
        omega

theorem atomicDecr_of_le (c n : Nat) (h : n ≤ c) (hc : c < 2 ^ 64) :
    atomicDecr c n + n = c := by
  unfold atomicDecr
  have hn : n % 2 ^ 64 = n := Nat.mod_eq_of_lt (by omega)
  rw [hn]
  have : c + 2 ^ 64 - n = (c - n) + 2 ^ 64 := by omega
  rw [this, Nat.add_mod_right, Nat.mod_eq_of_lt (by omega)]
  omega

end BgFetcher

namespace BgFetcher

theorem run_fetch_of_zero (f : BgFetcher) (env : BgFetchEnv) (h : f.numRemainingBgJobs = 0) :
    f.run_fetch env =
      some { f with total_num_fetched_items := 0, total_num_requeued_items := 0 } := by
  unfold run_fetch
  simp [h]

theorem run_snooze_frame (g : BgFetcher) (late : Nat) :
    (g.run_snooze late).completed = g.completed ∧
      (g.run_snooze late).total_num_fetched_items = g.total_num_fetched_items ∧
      (g.run_snooze late).vbuckets = g.vbuckets ∧
      (g.run_snooze late).items2fetch = g.items2fetch ∧
      (g.run_snooze late).numRemainingBgJobs =
        g.numRemainingBgJobs + (if g.numRemainingBgJobs = 0 then late else 0) := by
  unfold run_snooze
  by_cases h0 : g.numRemainingBgJobs = 0
  · rw [if_pos h0, if_pos h0]
    simp only
    split <;> simp
  · rw [if_neg h0, if_neg h0]
    simp

end BgFetcher

/-- C20: for a run of `BgFetcher::run` that returns. If it starts with
`numRemainingBgJobs > 0`, the batches it hands to `completeBGFetchMulti` are
appended to the completion log, `total_num_fetched_items` ends as the total
number of waiters in those batches (waiters queued again are in none of them),
and the counter is taken down by exactly that number (on the 64-bit counter;
plain subtraction when the number does not exceed the counter), apart from the
`late` requests other threads add after the snooze. If it starts with
`numRemainingBgJobs = 0`, no partition queue is drained, nothing is completed,
and the counter is changed only by those `late` requests; such a run always
returns. -/
theorem run_decrements_by_completed (f : BgFetcher) (env : BgFetchEnv) (late : Nat) (b : Bool)
    (f1 : BgFetcher) (hrun : f.run env true late = some (b, f1)) :
    (f.numRemainingBgJobs > 0 →
      ∃ calls, f1.completed = f.completed ++ calls ∧
        f1.total_num_fetched_items = (calls.map (fun p => p.2.length)).sum ∧
        f1.numRemainingBgJobs =
          atomicDecr f.numRemainingBgJobs (calls.map (fun p => p.2.length)).sum +
            (if atomicDecr f.numRemainingBgJobs (calls.map (fun p => p.2.length)).sum = 0
              then late else 0) ∧
        ((calls.map (fun p => p.2.length)).sum ≤ f.numRemainingBgJobs →
          f.numRemainingBgJobs < 2 ^ 64 →
          atomicDecr f.numRemainingBgJobs (calls.map (fun p => p.2.length)).sum +
            (calls.map (fun p => p.2.length)).sum = f.numRemainingBgJobs)) ∧
    (f.numRemainingBgJobs = 0 →
      f1.vbuckets = f.vbuckets ∧ f1.completed = f.completed ∧
        f1.items2fetch = f.items2fetch ∧ f1.numRemainingBgJobs = late ∧
        f.run env true late =
          some (true, ({ f with total_num_fetched_items := 0,
                                total_num_requeued_items := 0 } : BgFetcher).run_snooze late)) := by
  unfold BgFetcher.run at hrun
  simp only [Bool.not_true, Bool.false_eq_true, if_false] at hrun
  cases hf : f.run_fetch env with
  | none => rw [hf] at hrun; cases hrun
  | some g =>
    rw [hf] at hrun
    simp only [Option.some.injEq, Prod.mk.injEq] at hrun
    obtain ⟨-, e⟩ := hrun
    subst e
    obtain ⟨s1, s2, s3, s4, s5⟩ := BgFetcher.run_snooze_frame g late
    constructor
    · intro hpos
      unfold BgFetcher.run_fetch at hf
      have hne : ¬ f.numRemainingBgJobs = 0 := by omega
      simp only [ne_eq, hne, not_false_eq_true, if_true] at hf
      cases hl : BgFetcher.run_loop env (List.range f.vbuckets.length)
          ({ f with total_num_fetched_items := 0, total_num_requeued_items := 0 }, 0) with
      | none => rw [hl] at hf; cases hf
      | some acc =>
        obtain ⟨g1, t1⟩ := acc
        rw [hl] at hf
        have := Option.some.inj hf
        subst this
        obtain ⟨calls, a1, a2, a3⟩ := BgFetcher.run_loop_frame env _ _ 0 g1 t1 hl
        simp only [Nat.zero_add] at a2
        refine ⟨calls, ?_, ?_, ?_, ?_⟩
        · rw [s1]; exact a1
        · rw [s2]; exact a2
        · rw [s5]
          show atomicDecr g1.numRemainingBgJobs g1.total_num_fetched_items +
            (if atomicDecr g1.numRemainingBgJobs g1.total_num_fetched_items = 0
              then late else 0) = _
          rw [a2, a3]
        · intro h1 h2
          exact BgFetcher.atomicDecr_of_le _ _ h1 h2
    · intro h0
      rw [BgFetcher.run_fetch_of_zero f env h0] at hf
      have := Option.some.inj hf
      subst this
      refine ⟨s3, s1, s4, ?_, ?_⟩
      · rw [s5]
        show f.numRemainingBgJobs + (if f.numRemainingBgJobs = 0 then late else 0) = late
        rw [h0]
        simp
      · unfold BgFetcher.run
        rw [BgFetcher.run_fetch_of_zero f env h0]
        rfl

/-- C20 at the sample fetcher: three jobs outstanding, one batch of two waiters
completed and one waiter queued again, counter down to 1. -/
theorem run_decrements_by_completed_witness :
    sampleIdleFetcher.run sampleEnv true 0 = some (true, sampleRunResult) ∧
      ∃ calls, sampleRunResult.completed = sampleIdleFetcher.completed ++ calls ∧
        sampleRunResult.total_num_fetched_items = (calls.map (fun p => p.2.length)).sum ∧
        sampleRunResult.numRemainingBgJobs =
          atomicDecr sampleIdleFetcher.numRemainingBgJobs
              (calls.map (fun p => p.2.length)).sum +
            (if atomicDecr sampleIdleFetcher.numRemainingBgJobs
                (calls.map (fun p => p.2.length)).sum = 0 then 0 else 0) ∧
        ((calls.map (fun p => p.2.length)).sum ≤ sampleIdleFetcher.numRemainingBgJobs →
          sampleIdleFetcher.numRemainingBgJobs < 2 ^ 64 →
          atomicDecr sampleIdleFetcher.numRemainingBgJobs
              (calls.map (fun p => p.2.length)).sum +
            (calls.map (fun p => p.2.length)).sum = sampleIdleFetcher.numRemainingBgJobs) :=
  ⟨by decide,
   (run_decrements_by_completed sampleIdleFetcher sampleEnv 0 true sampleRunResult
      (by decide)).1 (by decide)⟩

/-! ## BgFetcher: snoozing and the order of a batch -/

namespace BgFetcher

theorem clearItems_inner_quiet (env : BgFetchEnv) (vbId : Nat) (ws : List VBucketBGFetchItem)
    (f : BgFetcher) (n : Nat) (f1 : BgFetcher) (n1 : Nat)
    (h : clearItems_inner env vbId ws (f, n) = some (f1, n1)) :
    f1.snoozes = f.snoozes ∧ f1.bgFetchDelay = f.bgFetchDelay := by
  induction ws generalizing f n with
  | nil =>
    simp only [clearItems_inner, Option.some.injEq, Prod.mk.injEq] at h
    obtain ⟨e, -⟩ := h
    subst e
    exact ⟨rfl, rfl⟩
  | cons d rest ih =>
    unfold clearItems_inner at h
    split at h
    · have := ih _ _ h
      exact this
    · cases hb : f.getBucket vbId with
      | none => rw [hb] at h; cases h
      | some vb =>
        rw [hb] at h
        simp only at h
        have := ih _ _ h
        exact this

theorem clearItems_outer_quiet (env : BgFetchEnv) (vbId : Nat) (q : vb_bgfetch_queue_t)
    (f : BgFetcher) (n : Nat) (f1 : BgFetcher) (n1 : Nat)
    (h : clearItems_outer env vbId q (f, n) = some (f1, n1)) :
    f1.snoozes = f.snoozes ∧ f1.bgFetchDelay = f.bgFetchDelay := by
  induction q generalizing f n with
  | nil =>
    simp only [clearItems_outer, Option.some.injEq, Prod.mk.injEq] at h
    obtain ⟨e, -⟩ := h
    subst e
    exact ⟨rfl, rfl⟩
  | cons p rest ih =>
    obtain ⟨r, ws⟩ := p
    cases ws with
    | nil => simp [clearItems_outer] at h
    | cons first others =>
      unfold clearItems_outer at h
      simp only at h
      cases hi : clearItems_inner env vbId (first.delValue :: others) (f, n) with
      | none => rw [hi] at h; cases h
      | some acc =>
        obtain ⟨f2, n2⟩ := acc
        rw [hi] at h
        obtain ⟨a1, a2⟩ := clearItems_inner_quiet env vbId _ f n f2 n2 hi
        obtain ⟨b1, b2⟩ := ih f2 n2 h
        exact ⟨b1.trans a1, b2.trans a2⟩

theorem clearItems_quiet (g : BgFetcher) (env : BgFetchEnv) (vbId : Nat) (f1 : BgFetcher)
    (h : g.clearItems env vbId = some f1) :
    f1.snoozes = g.snoozes ∧ f1.bgFetchDelay = g.bgFetchDelay := by
  unfold clearItems at h
  cases ho : clearItems_outer env vbId g.items2fetch (g, 0) with
  | none => rw [ho] at h; cases h
  | some acc =>
    obtain ⟨f2, n2⟩ := acc
    rw [ho] at h
    have := Option.some.inj h
    subst this
    exact clearItems_outer_quiet env vbId _ g 0 f2 n2 ho

/-- What a returning call of `doFetch` appends to the completion log: the one
batch of the waiters not put aside, unless it is empty. -/
theorem doFetch_completed (f : BgFetcher) (env : BgFetchEnv) (vbId : Nat) (f1 : BgFetcher)
    (h : f.doFetch env vbId = some f1) :
    f1.completed = f.completed ++
        (if (env.fetchedOf (getMulti env vbId f.items2fetch)).length > 0 then
          [(vbId, env.fetchedOf (getMulti env vbId f.items2fetch))] else []) ∧
      f1.snoozes = f.snoozes ∧ f1.bgFetchDelay = f.bgFetchDelay := by
  unfold doFetch at h
  simp only [doFetch_outer_eq, List.nil_append, Nat.zero_add] at h
  by_cases hpos : (env.fetchedOf (getMulti env vbId f.items2fetch)).length > 0
  · rw [if_pos hpos] at h
    obtain ⟨a1, -, -⟩ := clearItems_frame _ env vbId f1 h
    obtain ⟨b1, b2⟩ := clearItems_quiet _ env vbId f1 h
    rw [if_pos hpos]
    exact ⟨a1, b1, b2⟩
  · rw [if_neg hpos] at h
    obtain ⟨a1, -, -⟩ := clearItems_frame _ env vbId f1 h
    obtain ⟨b1, b2⟩ := clearItems_quiet _ env vbId f1 h
    rw [if_neg hpos]
    exact ⟨by rw [a1]; simp, b1, b2⟩

theorem run_visit_quiet (env : BgFetchEnv) (f : BgFetcher) (total vbid : Nat)
    (f1 : BgFetcher) (total1 : Nat) (h : run_visit env f total vbid = some (f1, total1)) :
    f1.snoozes = f.snoozes ∧ f1.bgFetchDelay = f.bgFetchDelay := by
  unfold run_visit at h
  cases hb : f.getBucket vbid with
  | none =>
    rw [hb] at h
    simp only [Option.some.injEq, Prod.mk.injEq] at h
    obtain ⟨e, -⟩ := h
    subst e
    exact ⟨rfl, rfl⟩
  | some vb =>
    rw [hb] at h
    simp only [VBucket.getBGFetchItems] at h
    split at h
    · split at h
      · cases h
      · rename_i g hg
        simp only [Option.some.injEq, Prod.mk.injEq] at h
        obtain ⟨e, -⟩ := h
        subst e
        obtain ⟨-, a2, a3⟩ := doFetch_completed _ env vbid g hg
        exact ⟨a2, a3⟩
    · simp only [Option.some.injEq, Prod.mk.injEq] at h
      obtain ⟨e, -⟩ := h
      subst e
      exact ⟨rfl, rfl⟩

theorem run_loop_quiet (env : BgFetchEnv) (ids : List Nat) (f : BgFetcher) (total : Nat)
    (f1 : BgFetcher) (total1 : Nat) (h : run_loop env ids (f, total) = some (f1, total1)) :
    f1.snoozes = f.snoozes ∧ f1.bgFetchDelay = f.bgFetchDelay := by
  induction ids generalizing f total with
  | nil =>
    simp only [run_loop, Option.some.injEq, Prod.mk.injEq] at h
    obtain ⟨e, -⟩ := h
    subst e
    exact ⟨rfl, rfl⟩
  | cons vbid rest ih =>
    unfold run_loop at h
    cases hv : run_visit env f total vbid with
    | none => rw [hv] at h; cases h
    | some acc =>
      obtain ⟨f2, t2⟩ := acc
      rw [hv] at h
      obtain ⟨a1, a2⟩ := run_visit_quiet env f total vbid f2 t2 hv
      obtain ⟨b1, b2⟩ := ih f2 t2 h
      exact ⟨b1.trans a1, b2.trans a2⟩

/-- The fetch pass of `run` issues no snooze and leaves the delay alone. -/
theorem run_fetch_quiet (f : BgFetcher) (env : BgFetchEnv) (g : BgFetcher)
    (h : f.run_fetch env = some g) :
    g.snoozes = f.snoozes ∧ g.bgFetchDelay = f.bgFetchDelay := by
  unfold run_fetch at h
  simp only at h
  split at h
  · cases hl : run_loop env (List.range f.vbuckets.length)
        ({ f with total_num_fetched_items := 0, total_num_requeued_items := 0 }, 0) with
    | none => rw [hl] at h; cases h
    | some acc =>
      obtain ⟨g1, t1⟩ := acc
      rw [hl] at h
      have := Option.some.inj h
      subst this
      have := run_loop_quiet env _ _ 0 g1 t1 hl
      exact this
  · have := Option.some.inj h
    subst this
    exact ⟨rfl, rfl⟩

end BgFetcher

/-- C21: in a returning `run`, let `g` be the fetcher after the fetch pass
(which has issued no snooze). If `numRemainingBgJobs` is 0 then, the task is
snoozed for `max(bgFetchDelay, 1)` seconds, which is at least 1; if the counter
is seen non-zero on the re-check (`late` requests came in) a second snooze of
0 seconds follows, so the last snooze is 0, and otherwise that is the only
snooze. If the counter is non-zero after the pass, no snooze is issued. -/
theorem run_snoozes (f : BgFetcher) (env : BgFetchEnv) (late : Nat) (b : Bool)
    (f1 : BgFetcher) (hrun : f.run env true late = some (b, f1)) :
    ∃ g, f.run_fetch env = some g ∧ g.snoozes = f.snoozes ∧
      1 ≤ max f.bgFetchDelay sleepInterval ∧
      (g.numRemainingBgJobs = 0 → late = 0 →
        f1.snoozes = f.snoozes ++ [max f.bgFetchDelay sleepInterval]) ∧
      (g.numRemainingBgJobs = 0 → late ≠ 0 →
        f1.snoozes = f.snoozes ++ [max f.bgFetchDelay sleepInterval, 0] ∧
        f1.snoozes.getLast? = some 0) ∧
      (g.numRemainingBgJobs ≠ 0 → f1.snoozes = f.snoozes) := by
  unfold BgFetcher.run at hrun
  simp only [Bool.not_true, Bool.false_eq_true, if_false] at hrun
  cases hf : f.run_fetch env with
  | none => rw [hf] at hrun; cases hrun
  | some g =>
    rw [hf] at hrun
    simp only [Option.some.injEq, Prod.mk.injEq] at hrun
    obtain ⟨-, e⟩ := hrun
    subst e
    obtain ⟨q1, q2⟩ := BgFetcher.run_fetch_quiet f env g hf
    refine ⟨g, rfl, q1, ?_, ?_, ?_, ?_⟩
    · unfold sleepInterval; omega
    · intro h0 hl
      subst hl
      unfold BgFetcher.run_snooze
      simp [h0, q1, q2]
    · intro h0 hl
      unfold BgFetcher.run_snooze
      simp [h0, q1, q2, hl]
    · intro h0
      unfold BgFetcher.run_snooze
      simp [h0, q1]

/-- C21 at a sample fetcher: the last job is fetched, the task snoozes for 5
seconds (the delay), a request arrives, and a snooze of 0 follows. -/
theorem run_snoozes_witness :
    sampleLastJobFetcher.run sampleEnv true 1 = some (true, sampleLastJobResult) ∧
    ∃ g, sampleLastJobFetcher.run_fetch sampleEnv = some g ∧
      g.snoozes = sampleLastJobFetcher.snoozes ∧
      1 ≤ max sampleLastJobFetcher.bgFetchDelay sleepInterval ∧
      (g.numRemainingBgJobs = 0 → 1 = 0 →
        sampleLastJobResult.snoozes = sampleLastJobFetcher.snoozes ++
          [max sampleLastJobFetcher.bgFetchDelay sleepInterval]) ∧
      (g.numRemainingBgJobs = 0 → 1 ≠ 0 →
        sampleLastJobResult.snoozes = sampleLastJobFetcher.snoozes ++
          [max sampleLastJobFetcher.bgFetchDelay sleepInterval, 0] ∧
        sampleLastJobResult.snoozes.getLast? = some 0) ∧
      (g.numRemainingBgJobs ≠ 0 →
        sampleLastJobResult.snoozes = sampleLastJobFetcher.snoozes) :=
  ⟨by decide, run_snoozes sampleLastJobFetcher sampleEnv 1 true sampleLastJobResult (by decide)⟩

theorem fetchedOf_eq_flatten (env : BgFetchEnv) (q : vb_bgfetch_queue_t) :
    env.fetchedOf q = (q.map (fun p => p.2.filter (fun w => !env.retries w))).flatten := by
  induction q with
  | nil => rfl
  | cons p rest ih =>
    obtain ⟨r, ws⟩ := p
    unfold BgFetchEnv.fetchedOf at ih
    unfold BgFetchEnv.fetchedOf
    simp only [queueWaiters, List.filter_append, List.map_cons, List.flatten_cons, ih]

theorem getMulti_keys (env : BgFetchEnv) (vbId : Nat) (q : vb_bgfetch_queue_t) :
    (getMulti env vbId q).map Prod.fst = q.map Prod.fst := by
  unfold getMulti
  simp [List.map_map, Function.comp_def]

/-- C22: the vector `doFetch` builds from the answered map `q` (and hands to
`completeBGFetchMulti` when it is not empty) is the concatenation, in the
order of the map, of each rowid's waiter list filtered by "not put aside for a
retry". The map keeps its keys, which ascend; each rowid's block is a
sub-list of that rowid's waiter list, so relative order is that of the list;
and the answered list of a rowid is the input list waiter by waiter. -/
theorem doFetch_batch_order (f : BgFetcher) (env : BgFetchEnv) (vbId : Nat)
    (hasc : (f.items2fetch.map Prod.fst).Pairwise (fun a b => a < b)) :
    BgFetcher.doFetch_outer env (getMulti env vbId f.items2fetch) ([], 0) =
        (env.fetchedOf (getMulti env vbId f.items2fetch),
          (env.fetchedOf (getMulti env vbId f.items2fetch)).length) ∧
      (∀ f1, f.doFetch env vbId = some f1 →
        f1.completed = f.completed ++
          (if (env.fetchedOf (getMulti env vbId f.items2fetch)).length > 0 then
            [(vbId, env.fetchedOf (getMulti env vbId f.items2fetch))] else [])) ∧
      env.fetchedOf (getMulti env vbId f.items2fetch) =
        ((getMulti env vbId f.items2fetch).map
          (fun p => p.2.filter (fun w => !env.retries w))).flatten ∧
      ((getMulti env vbId f.items2fetch).map Prod.fst).Pairwise (fun a b => a < b) ∧
      (∀ p ∈ getMulti env vbId f.items2fetch,
        (p.2.filter (fun w => !env.retries w)).Sublist p.2) ∧
      (getMulti env vbId f.items2fetch).map (fun p => p.2.map (fun w => w.cookie)) =
        f.items2fetch.map (fun p => p.2.map (fun w => w.cookie)) := by
  refine ⟨?_, ?_, fetchedOf_eq_flatten env _, ?_, ?_, ?_⟩
  · rw [BgFetcher.doFetch_outer_eq]
    simp
  · intro f1 h
    exact (BgFetcher.doFetch_completed f env vbId f1 h).1
  · rw [getMulti_keys]
    exact hasc
  · intro p _
    exact List.filter_sublist _
  · unfold getMulti
    simp [List.map_map, Function.comp_def]

/-- C22 at the sample batch: rowid 7 before rowid 9, and of the two waiters
on rowid 9 the one that may retry is left out. -/
theorem doFetch_batch_order_witness :
    (sampleFetcher.items2fetch.map Prod.fst).Pairwise (fun a b => a < b) ∧
    sampleEnv.fetchedOf (getMulti sampleEnv 0 sampleFetcher.items2fetch) =
        [sampleWaiter 1 7 0, { sampleWaiter 3 9 2 with status := 13 }] ∧
    (BgFetcher.doFetch_outer sampleEnv (getMulti sampleEnv 0 sampleFetcher.items2fetch) ([], 0) =
        (sampleEnv.fetchedOf (getMulti sampleEnv 0 sampleFetcher.items2fetch),
          (sampleEnv.fetchedOf (getMulti sampleEnv 0 sampleFetcher.items2fetch)).length) ∧
      (∀ f1, sampleFetcher.doFetch sampleEnv 0 = some f1 →
        f1.completed = sampleFetcher.completed ++
          (if (sampleEnv.fetchedOf (getMulti sampleEnv 0 sampleFetcher.items2fetch)).length > 0
            then [(0, sampleEnv.fetchedOf (getMulti sampleEnv 0 sampleFetcher.items2fetch))]
            else [])) ∧
      sampleEnv.fetchedOf (getMulti sampleEnv 0 sampleFetcher.items2fetch) =
        ((getMulti sampleEnv 0 sampleFetcher.items2fetch).map
          (fun p => p.2.filter (fun w => !sampleEnv.retries w))).flatten ∧
      ((getMulti sampleEnv 0 sampleFetcher.items2fetch).map Prod.fst).Pairwise
        (fun a b => a < b) ∧
      (∀ p ∈ getMulti sampleEnv 0 sampleFetcher.items2fetch,
        (p.2.filter (fun w => !sampleEnv.retries w)).Sublist p.2) ∧
      (getMulti sampleEnv 0 sampleFetcher.items2fetch).map
          (fun p => p.2.map (fun w => w.cookie)) =
        sampleFetcher.items2fetch.map (fun p => p.2.map (fun w => w.cookie))) :=
  ⟨by decide, by decide, doFetch_batch_order sampleFetcher sampleEnv 0 (by decide)⟩

/-! ## Hashing, lock stripes, the dirtiness stamp -/

theorem hashStep_eq_spec (h : Nat) (c : Byte) : hashStep h c = specHashStep h c := by
  unfold hashStep specHashStep
  have e : ((h * 32) % 2 ^ 32 + h) % 2 ^ 32 = (h * 33) % 2 ^ 32 := by omega
  rw [e]

theorem hashFold_eq_spec (key : Key) : hashFold key = specHash key := by
  have e : hashStep = specHashStep := funext (fun h => funext (fun c => hashStep_eq_spec h c))
  unfold hashFold specHash
  rw [e]

/-- C23: for a table of `1 ≤ n_buckets ≤ 2^31 - 1` buckets, `bucket(key)` is
`|h rem n_buckets|` for the 32-bit fold `h0 = 5381`, `h(i+1) = (h(i)*33) xor
key[i]`, and it lies below `n_buckets`, so it indexes the chain array (of
`n_buckets` chains) in range. -/
theorem bucket_spec (t : HashTable) (key : Key) (h1 : 1 ≤ t.size) (h2 : t.size ≤ 2 ^ 31 - 1) :
    t.bucket key = specBucket t.size key ∧ t.bucket key < t.size ∧
      (t.values.length = t.size → ∃ l, t.values[t.bucket key]? = some l) := by
  have hs : toInt32 t.size = (t.size : Int) := toInt32_of_lt _ (by omega)
  have e : t.bucket key = specBucket t.size key := by
    unfold HashTable.bucket specBucket
    rw [hs, hashFold_eq_spec]
  have hlt : t.bucket key < t.size := by
    rw [e]
    exact natAbs_tmod_lt _ _ (by omega)
  refine ⟨e, hlt, ?_⟩
  intro hlen
  have hb : t.bucket key < t.values.length := by omega
  exact ⟨t.values[t.bucket key], List.getElem?_eq_getElem hb⟩

/-- C23 at the sample table of 3 buckets: the key "a" hashes to
`5381 * 33 xor 97 = 177604`, and `177604 rem 3 = 1`. -/
theorem bucket_spec_witness :
    specHash [97] = 177604 ∧
    ((sampleTable []).bucket [97] = specBucket (sampleTable []).size [97] ∧
      (sampleTable []).bucket [97] < (sampleTable []).size ∧
      ((sampleTable []).values.length = (sampleTable []).size →
        ∃ l, (sampleTable []).values[(sampleTable []).bucket [97]]? = some l)) :=
  ⟨by decide, bucket_spec (sampleTable []) [97] (by decide) (by decide)⟩

/-- C24, as stated, fails: a table with `n_locks = 2^31 ≥ 1` stripes. The cast
`(int)n_locks` is negative there, and for the bucket index 0 (below
`n_buckets = 1`) the assertion `lock_num < (int)n_locks` of `mutexForBucket`
fails. -/
theorem mutexForBucket_wide_locks_fails :
    1 ≤ sampleWideLocks.n_locks ∧ 0 < sampleWideLocks.size ∧
      sampleWideLocks.mutexForBucket 0 = none ∧ sampleWideLocks.getMutex 0 = none ∧
      sampleWideLocks.getMutexForLock 0 = none := by
  decide

/-- C24, amended with the range of `int`: for a table with
`1 ≤ n_locks ≤ 2^31 - 1` and `n_buckets ≤ 2^31 - 1` and a bucket index
`b < n_buckets`, `mutexForBucket(b)` is `b mod n_locks`, which lies in
`[0, n_locks)`; `getMutexForLock` accepts it, so `getMutex(b)` passes every
assertion, in particular for `b = bucket(key)`. -/
theorem mutexForBucket_spec (t : HashTable) (b : Nat) (hl1 : 1 ≤ t.n_locks)
    (hl2 : t.n_locks ≤ 2 ^ 31 - 1) (hs : t.size ≤ 2 ^ 31 - 1) (hb : b < t.size) :
    t.mutexForBucket b = some ((b % t.n_locks : Nat) : Int) ∧
      b % t.n_locks < t.n_locks ∧
      t.getMutexForLock ((b % t.n_locks : Nat) : Int) = some ((b % t.n_locks : Nat) : Int) ∧
      t.getMutex b = some ((b % t.n_locks : Nat) : Int) ∧
      ∀ key, t.getMutex (t.bucket key) = some ((t.bucket key % t.n_locks : Nat) : Int) := by
  have es : toInt32 t.size = (t.size : Int) := toInt32_of_lt _ (by omega)
  have el : toInt32 t.n_locks = (t.n_locks : Int) := toInt32_of_lt _ (by omega)
  have key : ∀ c : Nat, c < t.size →
      t.mutexForBucket c = some ((c % t.n_locks : Nat) : Int) ∧
      t.getMutexForLock ((c % t.n_locks : Nat) : Int) = some ((c % t.n_locks : Nat) : Int) := by
    intro c hc
    have e : Int.tmod (c : Int) (t.n_locks : Int) = ((c % t.n_locks : Nat) : Int) :=
      (Int.ofNat_tmod c t.n_locks).symm
    have hl : c % t.n_locks < t.n_locks := Nat.mod_lt _ (by omega)
    have c1 : ((c : Int) < (t.size : Int) ∧ (0 : Int) ≤ (c : Int)) := ⟨by omega, by omega⟩
    have c2 : (((c % t.n_locks : Nat) : Int) < (t.n_locks : Int) ∧
        (0 : Int) ≤ ((c % t.n_locks : Nat) : Int)) := ⟨by omega, by omega⟩
    constructor
    · simp only [HashTable.mutexForBucket, es, el, e]
      simp only [c1, c2, and_self, if_true]
    · simp only [HashTable.getMutexForLock, el]
      simp only [c2, and_self, if_true]
  have gm : ∀ c : Nat, c < t.size → t.getMutex c = some ((c % t.n_locks : Nat) : Int) := by
    intro c hc
    obtain ⟨k1, k2⟩ := key c hc
    unfold HashTable.getMutex
    rw [k1]
    exact k2
  refine ⟨(key b hb).1, Nat.mod_lt _ (by omega), (key b hb).2, gm b hb, ?_⟩
  intro k
  exact gm _ (bucket_spec t k (by omega) hs).2.1

/-- C24 (amended) at the sample table of 3 buckets and 2 stripes, bucket 1. -/
theorem mutexForBucket_spec_witness :
    (sampleTable []).mutexForBucket 1 = some ((1 % (sampleTable []).n_locks : Nat) : Int) ∧
      1 % (sampleTable []).n_locks < (sampleTable []).n_locks ∧
      (sampleTable []).getMutexForLock ((1 % (sampleTable []).n_locks : Nat) : Int) =
        some ((1 % (sampleTable []).n_locks : Nat) : Int) ∧
      (sampleTable []).getMutex 1 = some ((1 % (sampleTable []).n_locks : Nat) : Int) ∧
      ∀ key, (sampleTable []).getMutex ((sampleTable []).bucket key) =
        some (((sampleTable []).bucket key % (sampleTable []).n_locks : Nat) : Int) :=
  mutexForBucket_spec (sampleTable []) 1 (by decide) (by decide) (by decide) (by decide)

/-- C25: for a 32-bit time `t`, after `reDirty(t)` the value is dirty and
`getDataAge()` is `4 * (t / 4)`, at most 3 below `t`; `markClean` then yields
that same age, clears the dirty flag and leaves `getDataAge()` as it was. -/
theorem reDirty_markClean (v : StoredValue) (t : Nat) (ht : t < 2 ^ 32) :
    (v.reDirty t).isDirty = true ∧
      (v.reDirty t).getDataAge = 4 * (t / 4) ∧
      (v.reDirty t).getDataAge ≤ t ∧ t - (v.reDirty t).getDataAge ≤ 3 ∧
      (v.reDirty t).markClean.1 = 4 * (t / 4) ∧
      (v.reDirty t).markClean.2.isDirty = false ∧
      (v.reDirty t).markClean.2.getDataAge = (v.reDirty t).getDataAge := by
  have e : ((t / 4) % 2 ^ 30 * 4) % 2 ^ 32 = 4 * (t / 4) := by omega
  have a : (v.reDirty t).getDataAge = 4 * (t / 4) := e
  have m : (v.reDirty t).markClean.1 = 4 * (t / 4) := e
  refine ⟨rfl, a, ?_, ?_, m, rfl, rfl⟩
  · rw [a]; omega
  · rw [a]; omega

/-- C25 at the sample entry and the time 4294967295, the largest 32-bit
value: the age read back is 4294967292. -/
theorem reDirty_markClean_witness :
    ((sampleEntry 5 0 0 false false).reDirty 4294967295).getDataAge = 4294967292 ∧
    (((sampleEntry 5 0 0 false false).reDirty 4294967295).isDirty = true ∧
      ((sampleEntry 5 0 0 false false).reDirty 4294967295).getDataAge = 4 * (4294967295 / 4) ∧
      ((sampleEntry 5 0 0 false false).reDirty 4294967295).getDataAge ≤ 4294967295 ∧
      4294967295 - ((sampleEntry 5 0 0 false false).reDirty 4294967295).getDataAge ≤ 3 ∧
      ((sampleEntry 5 0 0 false false).reDirty 4294967295).markClean.1 = 4 * (4294967295 / 4) ∧
      ((sampleEntry 5 0 0 false false).reDirty 4294967295).markClean.2.isDirty = false ∧
      ((sampleEntry 5 0 0 false false).reDirty 4294967295).markClean.2.getDataAge =
        ((sampleEntry 5 0 0 false false).reDirty 4294967295).getDataAge) :=
  ⟨by decide, reDirty_markClean (sampleEntry 5 0 0 false false) 4294967295 (by decide)⟩

/-! ## The backend id, the key, the small variant -/

namespace StoredValue

theorem id_setValue (v : StoredValue) (val : Blob) (fl ex cs now : Nat) (st : Statics) :
    (v.setValue val fl ex cs now st).1.id = v.id := by
  unfold setValue
  cases hx : v.extra <;> simp [markDirty, reDirty, hx]

theorem id_setCas (v : StoredValue) (c : Nat) : (v.setCas c).id = v.id := by
  unfold setCas
  cases hx : v.extra <;> simp

theorem id_lock (v : StoredValue) (e : Nat) : (v.lock e).id = v.id := by
  unfold lock
  cases hx : v.extra <;> simp

theorem id_unlock (v : StoredValue) : v.unlock.id = v.id := by
  unfold unlock
  cases hx : v.extra <;> simp

theorem id_isLocked (v : StoredValue) (t : Nat) : (v.isLocked t).2.id = v.id := by
  unfold isLocked
  cases hx : v.extra with
  | small s => simp
  | feature f =>
    simp only
    split <;> simp

theorem id_applyOp (p : StoredValue × Statics) (op : StoredValueOp) :
    (applyOp p op).1.id = p.1.id := by
  cases op with
  | setValue val fl ex cs now => exact id_setValue _ _ _ _ _ _ _
  | setCas c => exact id_setCas _ _
  | lock e => exact id_lock _ _
  | unlock => exact id_unlock _
  | isLocked t => exact id_isLocked _ _
  | markDirty now => rfl
  | reDirty a => rfl
  | markClean => rfl

theorem id_runOps (ops : List StoredValueOp) (p : StoredValue × Statics) :
    (runOps ops p).1.id = p.1.id := by
  induction ops generalizing p with
  | nil => rfl
  | cons op rest ih =>
    show (runOps rest (applyOp p op)).1.id = p.1.id
    rw [ih, id_applyOp]

end StoredValue

/-- C26: `hasId()` holds exactly when `id > 0`; `setId(to)` passes its
assertion exactly when `hasId()` is false, and then stores `to`; and for a
record `v` with `id > 0`, after any sequence of `setValue`, `setCas`, `lock`,
`unlock`, `isLocked`, `markDirty`, `reDirty` and `markClean` the id is the
same, `hasId()` still holds, and `setId` fails its assertion. -/
theorem id_assigned_once (u v : StoredValue) (to_ : Int) (ops : List StoredValueOp)
    (st : Statics) (hid : v.id > 0) :
    (u.hasId = true ↔ u.id > 0) ∧
      ((∃ u1, u.setId to_ = some u1) ↔ u.hasId = false) ∧
      (∀ u1, u.setId to_ = some u1 → u1.getId = to_) ∧
      (StoredValue.runOps ops (v, st)).1.getId = v.getId ∧
      (StoredValue.runOps ops (v, st)).1.hasId = true ∧
      (StoredValue.runOps ops (v, st)).1.setId to_ = none ∧
      v.setId to_ = none := by
  have e : (StoredValue.runOps ops (v, st)).1.id = v.id := StoredValue.id_runOps ops (v, st)
  have h1 : (StoredValue.runOps ops (v, st)).1.hasId = true := by
    unfold StoredValue.hasId
    rw [e]
    exact decide_eq_true hid
  have h2 : v.hasId = true := decide_eq_true hid
  refine ⟨by simp [StoredValue.hasId], ?_, ?_, e, h1, ?_, ?_⟩
  · unfold StoredValue.setId
    cases hu : u.hasId <;> simp
  · intro u1 hu1
    unfold StoredValue.setId at hu1
    split at hu1
    · cases hu1
    · have := Option.some.inj hu1
      subst this
      rfl
  · unfold StoredValue.setId
    rw [h1]
    rfl
  · unfold StoredValue.setId
    rw [h2]
    rfl

/-- C26 at sample records: an entry not yet stored (id -1) takes the id 7; the entry with
id 7 keeps it through a write, a lock and a cleaning, and refuses `setId`. -/
theorem id_assigned_once_witness :
    (sampleEntry 5 0 0 false false).setId 7 =
        some { sampleEntry 5 0 0 false false with id := 7 } ∧
    (((sampleEntry 5 0 0 false false).hasId = true ↔ (sampleEntry 5 0 0 false false).id > 0) ∧
      ((∃ u1, (sampleEntry 5 0 0 false false).setId 9 = some u1) ↔
        (sampleEntry 5 0 0 false false).hasId = false) ∧
      (∀ u1, (sampleEntry 5 0 0 false false).setId 9 = some u1 → u1.getId = 9) ∧
      (StoredValue.runOps [.setValue [2] 1 0 6 10, .lock 30, .markClean]
        (sampleSmallEntry, sampleStatics)).1.getId = sampleSmallEntry.getId ∧
      (StoredValue.runOps [.setValue [2] 1 0 6 10, .lock 30, .markClean]
        (sampleSmallEntry, sampleStatics)).1.hasId = true ∧
      (StoredValue.runOps [.setValue [2] 1 0 6 10, .lock 30, .markClean]
        (sampleSmallEntry, sampleStatics)).1.setId 9 = none ∧
      sampleSmallEntry.setId 9 = none) :=
  ⟨by decide, id_assigned_once (sampleEntry 5 0 0 false false) sampleSmallEntry 9
    [.setValue [2] 1 0 6 10, .lock 30, .markClean] sampleStatics (by decide)⟩

namespace StoredValue

/-- A record that holds the whole of `key` answers `hasKey` for `key` alone. -/
theorem hasKey_iff_of_key (v : StoredValue) (key : Key) (hl : v.getKeyLen = key.length)
    (hb : v.getKeyBytes = key) (k : Key) : v.hasKey k = true ↔ k = key := by
  unfold hasKey
  rw [hl, hb]
  simp only [Bool.and_eq_true, decide_eq_true_eq, List.take_length]
  constructor
  · rintro ⟨h1, h2⟩
    rw [← h1, List.take_length] at h2
    exact h2
  · intro h
    subst h
    exact ⟨rfl, List.take_length k⟩

end StoredValue

namespace StoredValueFactory

theorem call_key (ty : stored_value_type) (itm : Item) (setDirty : Bool) (now : Nat)
    (st : Statics) (h : itm.getKey.length < 256) :
    ∃ w st1, call ty itm setDirty now st = some (w, st1) ∧
      w.getKeyLen = itm.getKey.length ∧ w.getKeyBytes = itm.getKey ∧
      w._isSmall = decide (ty = .small) := by
  have hm : itm.getKey.length % 256 = itm.getKey.length := Nat.mod_eq_of_lt h
  cases ty <;> cases setDirty <;>
    simp [call, newStoredValue, h, StoredValue.construct, StoredValue.copyKey,
      StoredValue.markDirty, StoredValue.reDirty, StoredValue.markClean,
      StoredValue.getKeyLen, StoredValue.getKeyBytes, StoredValue._isSmall, hm]

end StoredValueFactory

/-- C27: for an item whose key has at most 255 bytes the factory, small or
featured, returns a record with `getKeyLen()` the key's length, `getKey()` the
key, and `hasKey(k)` true exactly for `k` equal to the key; for a key of 256
bytes or more the factory's assertion fails. -/
theorem factory_key (ty : stored_value_type) (itm : Item) (setDirty : Bool) (now : Nat)
    (st : Statics) :
    (itm.getKey.length ≤ 255 →
      ∃ w st1, StoredValueFactory.call ty itm setDirty now st = some (w, st1) ∧
        w.getKeyLen = itm.getKey.length ∧ w.getKey = itm.getKey ∧
        ∀ k, w.hasKey k = true ↔ k = itm.getKey) ∧
    (256 ≤ itm.getKey.length → StoredValueFactory.call ty itm setDirty now st = none) := by
  constructor
  · intro h
    obtain ⟨w, st1, e, h1, h2, -⟩ :=
      StoredValueFactory.call_key ty itm setDirty now st (by omega)
    refine ⟨w, st1, e, h1, ?_, StoredValue.hasKey_iff_of_key w _ h1 h2⟩
    unfold StoredValue.getKey
    rw [h1, h2, List.take_length]
  · intro h
    have hn : ¬ itm.getKey.length < 256 := by omega
    cases ty <;> simp [StoredValueFactory.call, StoredValueFactory.newStoredValue, hn]

/-- C27 at the sample item (key "a") and the small factory, and at an item
with a key of 256 bytes. -/
theorem factory_key_witness :
    (∃ w st1, StoredValueFactory.call .small (sampleItem 0 0) true 10 sampleStatics =
          some (w, st1) ∧
        w.getKeyLen = (sampleItem 0 0).getKey.length ∧ w.getKey = (sampleItem 0 0).getKey ∧
        ∀ k, w.hasKey k = true ↔ k = (sampleItem 0 0).getKey) ∧
    StoredValueFactory.call .featured sampleLongItem true 10 sampleStatics = none :=
  ⟨(factory_key .small (sampleItem 0 0) true 10 sampleStatics).1 (by decide),
    (factory_key .featured sampleLongItem true 10 sampleStatics).2
      (by
        show 256 ≤ (List.replicate 256 (97 : Byte)).length
        rw [List.length_replicate])⟩

namespace StoredValue

theorem isSmall_setCas (v : StoredValue) (c : Nat) : (v.setCas c)._isSmall = v._isSmall := by
  unfold setCas
  cases hx : v.extra with
  | small s => simp
  | feature f => simp [_isSmall, hx]

theorem isSmall_lock (v : StoredValue) (e : Nat) : (v.lock e)._isSmall = v._isSmall := by
  unfold lock
  cases hx : v.extra with
  | small s => simp
  | feature f => simp [_isSmall, hx]

theorem isSmall_applyOp (p : StoredValue × Statics) (op : StoredValueOp) :
    (applyOp p op).1._isSmall = p.1._isSmall := by
  cases op with
  | setValue val fl ex cs now => exact isSmall_setValue _ _ _ _ _ _ _
  | setCas c => exact isSmall_setCas _ _
  | lock e => exact isSmall_lock _ _
  | unlock => exact isSmall_unlock _
  | isLocked t => exact isSmall_isLocked _ _
  | markDirty now => rfl
  | reDirty a => rfl
  | markClean => rfl

theorem isSmall_runOps (ops : List StoredValueOp) (p : StoredValue × Statics) :
    (runOps ops p).1._isSmall = p.1._isSmall := by
  induction ops generalizing p with
  | nil => rfl
  | cons op rest ih =>
    show (runOps rest (applyOp p op)).1._isSmall = p.1._isSmall
    rw [ih, isSmall_applyOp]

/-- The getters of a small record. -/
theorem small_getters (v : StoredValue) (h : v._isSmall = true) :
    v.getCas = 0 ∧ v.getFlags = 0 ∧ v.getExptime = 0 ∧ ∀ t, v.isLocked t = (false, v) := by
  unfold _isSmall at h
  cases hx : v.extra with
  | small s => simp [getCas, getFlags, getExptime, isLocked, hx]
  | feature f => rw [hx] at h; cases h

end StoredValue

/-- C28: a record the small factory builds is of the small variant; a small
variant `w` stays small through any sequence of `setValue`, `setCas`, `lock`
and `unlock` (and `isLocked`, `markDirty`, `reDirty`, `markClean`) and then
has `getCas() = 0`, `getFlags() = 0`, `getExptime() = 0` and `isLocked(t)`
false for every `t`. When `w` is the entry of a table for the key of `val`,
`find` returns it at every time (it never expires), it is never locked, and a
`set` of `val` carrying a non-zero CAS returns `INVALID_CAS`. -/
theorem small_variant (w : StoredValue) (tb : HashTable) (val : Item) (i : Nat)
    (hs : w._isSmall = true) (hwf : tb.wf) (he : tb.entryFor val.key i w) (hc : val.cas ≠ 0) :
    (∀ itm d now st p, StoredValueFactory.call .small itm d now st = some p →
        p.1._isSmall = true) ∧
      (∀ ops st t, (StoredValue.runOps ops (w, st)).1._isSmall = true ∧
        (StoredValue.runOps ops (w, st)).1.getCas = 0 ∧
        (StoredValue.runOps ops (w, st)).1.getFlags = 0 ∧
        (StoredValue.runOps ops (w, st)).1.getExptime = 0 ∧
        ((StoredValue.runOps ops (w, st)).1.isLocked t).1 = false) ∧
      (∀ st now, ¬ w.expired now ∧ (w.isLocked now).1 = false ∧
        ∃ r, tb.find st val.key now = some r ∧ r.v = some (i, w)) ∧
      (∀ st now mint, ∃ r, tb.set st now mint val = some r ∧ r.rv = .INVALID_CAS) := by
  obtain ⟨g1, g2, g3, g4⟩ := StoredValue.small_getters w hs
  have hcf : chainFind val.getKey (tb.active.2.chain (tb.bucket val.getKey)) = some (i, w) :=
    (HashTable.entryFor_iff tb val.key i w).1 he
  have hnx : ∀ now, ¬ w.expired now := by
    intro now
    unfold StoredValue.expired
    omega
  refine ⟨?_, ?_, ?_, ?_⟩
  · intro itm d now st p hp
    have hl := StoredValueFactory.length_of_call _ _ _ _ _ _ hp
    obtain ⟨u, st1, e, -, -, hu⟩ := StoredValueFactory.call_key .small itm d now st hl
    rw [e] at hp
    have := Option.some.inj hp
    subst this
    simpa using hu
  · intro ops st t
    have h1 : (StoredValue.runOps ops (w, st)).1._isSmall = true := by
      rw [StoredValue.isSmall_runOps]
      exact hs
    obtain ⟨a1, a2, a3, a4⟩ := StoredValue.small_getters _ h1
    exact ⟨h1, a1, a2, a3, by rw [a4 t]⟩
  · intro st now
    refine ⟨hnx now, by rw [g4 now], _, HashTable.find_eq tb st val.key now hwf, ?_⟩
    show (tb.active.2.unlocked_find st val.getKey (tb.bucket val.getKey) now).v = some (i, w)
    rw [HashTable.unlocked_find_hit _ _ _ _ _ _ _ hcf (hnx now)]
  · intro st now mint
    rw [HashTable.set_eq tb st now mint val hwf,
      HashTable.unlocked_find_hit _ _ _ _ _ _ _ hcf (hnx now)]
    rcases HashTable.setAfterFind_hit ⟨some (i, w), tb.active.2, st⟩ (tb.bucket val.getKey) now
      mint i w val rfl with ⟨h1, -, -⟩ | ⟨h1, -, -⟩ | ⟨-, -, -, e⟩ | ⟨-, h2, -⟩
    · rw [g4 now] at h1; cases h1
    · rw [g4 now] at h1; cases h1
    · exact ⟨_, e, rfl⟩
    · exact absurd h2 (by
        show ¬ (val.cas = 0 ∨ val.cas = w.getCas)
        omega)

/-- C28 at a small-type sample table: the small entry for "a" and a `set`
carrying CAS 9. -/
theorem small_variant_witness :
    sampleSmallTable.set sampleStatics 10 42 (sampleItem 9 0) =
        some ⟨.INVALID_CAS, sampleItem 9 0, sampleSmallTable, sampleStatics⟩ ∧
    ((∀ itm d now st p, StoredValueFactory.call .small itm d now st = some p →
        p.1._isSmall = true) ∧
      (∀ ops st t, (StoredValue.runOps ops (sampleSmallEntry, st)).1._isSmall = true ∧
        (StoredValue.runOps ops (sampleSmallEntry, st)).1.getCas = 0 ∧
        (StoredValue.runOps ops (sampleSmallEntry, st)).1.getFlags = 0 ∧
        (StoredValue.runOps ops (sampleSmallEntry, st)).1.getExptime = 0 ∧
        ((StoredValue.runOps ops (sampleSmallEntry, st)).1.isLocked t).1 = false) ∧
      (∀ st now, ¬ sampleSmallEntry.expired now ∧ (sampleSmallEntry.isLocked now).1 = false ∧
        ∃ r, sampleSmallTable.find st (sampleItem 9 0).key now = some r ∧
          r.v = some (0, sampleSmallEntry)) ∧
      (∀ st now mint, ∃ r, sampleSmallTable.set st now mint (sampleItem 9 0) = some r ∧
        r.rv = .INVALID_CAS)) :=
  ⟨by decide, small_variant sampleSmallEntry sampleSmallTable (sampleItem 9 0) 0 (by decide)
    (by decide) (by decide) (by decide)⟩

/-! ## The active flag; the batched-fetch switch -/

/-- C29, the code at a deactivated table: after `active(false)` on the sample
table the flag is false, yet `active()` returns true and leaves the flag set,
so it is not a pure read; and `find` on the deactivated table passes its
`assert(active())` and returns the entry, with the table active again. -/
theorem active_assigns :
    ((sampleTable [sampleEntry 5 0 0 false false]).active_newv false).activeState = false ∧
      ((sampleTable [sampleEntry 5 0 0 false false]).active_newv false).active.1 = true ∧
      ((sampleTable [sampleEntry 5 0 0 false false]).active_newv false).active.2.activeState =
        true ∧
      ((sampleTable [sampleEntry 5 0 0 false false]).active_newv false).find sampleStatics
          [97] 10 =
        some ⟨some (0, sampleEntry 5 0 0 false false),
          sampleTable [sampleEntry 5 0 0 false false], sampleStatics⟩ := by
  decide

/-- C30: `multiBGFetchEnabled()` returns true exactly when the read-only
dispatcher is another object than the read-write dispatcher and the memoized
storage properties report `hasEfficientGet()`. -/
theorem multiBGFetchEnabled_iff (s : EventuallyPersistentStore) :
    s.multiBGFetchEnabled = true ↔
      s.roDispatcher ≠ s.dispatcher ∧ s.storageProperties.hasEfficientGet = true := by
  unfold EventuallyPersistentStore.multiBGFetchEnabled
    EventuallyPersistentStore.hasSeparateRODispatcher
  simp only [Bool.and_eq_true, decide_eq_true_eq]
  constructor
  · rintro ⟨h1, h2⟩
    exact ⟨fun h => h1 h.symm, h2⟩
  · rintro ⟨h1, h2⟩
    exact ⟨fun h => h1 h.symm, h2⟩

/-! ## The store factory, the fetch delay, warmup, the depth visitor -/

/-- C31: `KVStoreFactory::create` returns a store exactly when the configured
backend is the string "couchdb" (then a `CouchKVStore`) or the string
"blackhole" (then a `BlackholeKVStore`), built with the given `read_only`
flag; for every other string it returns `NULL`; and every store it returns
has had `setEngine` called with the given engine. -/
theorem create_spec (theEngine : EventuallyPersistentEngine) (read_only : Bool) :
    ((∃ s, KVStoreFactory.create theEngine read_only = some s) ↔
        (theEngine.backend = "couchdb" ∨ theEngine.backend = "blackhole")) ∧
      (theEngine.backend = "couchdb" →
        KVStoreFactory.create theEngine read_only =
          some ⟨.CouchKVStore, read_only, some theEngine.address⟩) ∧
      (theEngine.backend = "blackhole" →
        KVStoreFactory.create theEngine read_only =
          some ⟨.BlackholeKVStore, read_only, some theEngine.address⟩) ∧
      (theEngine.backend ≠ "couchdb" → theEngine.backend ≠ "blackhole" →
        KVStoreFactory.create theEngine read_only = none) ∧
      (∀ s, KVStoreFactory.create theEngine read_only = some s →
        s.engine = some theEngine.address ∧
        s = (KVStore.mk s.kind read_only none).setEngine theEngine.address) := by
  unfold KVStoreFactory.create
  by_cases h1 : theEngine.backend = "couchdb"
  · simp [h1, KVStore.setEngine]
  · by_cases h2 : theEngine.backend = "blackhole"
    · simp [h2, KVStore.setEngine]
    · simp [h1, h2]

/-- C31 at three engines: "couchdb", "blackhole", and "sqlite" (no store). -/
theorem create_spec_witness :
    KVStoreFactory.create ⟨5, "couchdb"⟩ true = some ⟨.CouchKVStore, true, some 5⟩ ∧
      KVStoreFactory.create ⟨5, "blackhole"⟩ false = some ⟨.BlackholeKVStore, false, some 5⟩ ∧
      KVStoreFactory.create ⟨5, "sqlite"⟩ false = none :=
  ⟨(create_spec ⟨5, "couchdb"⟩ true).2.1 rfl,
    (create_spec ⟨5, "blackhole"⟩ false).2.2.1 rfl,
    (create_spec ⟨5, "sqlite"⟩ false).2.2.2.1 (by decide) (by decide)⟩

/-- C32, as stated, fails: `setBGFetchDelay(901)` is stored as given, so
`getBGFetchDelay()` is 901, above `MAX_BG_FETCH_DELAY`; so is the largest
32-bit value. -/
theorem setBGFetchDelay_not_clamped :
    (sampleStore.setBGFetchDelay 901).getBGFetchDelay = 901 ∧
      ¬ (sampleStore.setBGFetchDelay 901).getBGFetchDelay ≤ MAX_BG_FETCH_DELAY ∧
      (sampleStore.setBGFetchDelay 4294967295).getBGFetchDelay = 4294967295 := by
  decide

/-- C32, amended: for every 32-bit value `to`, after `setBGFetchDelay(to)`
`getBGFetchDelay()` is `to` itself, so it is at most `MAX_BG_FETCH_DELAY = 900`
exactly when `to` is; the rest of the store is left alone. -/
theorem setBGFetchDelay_spec (s : EventuallyPersistentStore) (to_ : Nat) (h : to_ < 2 ^ 32) :
    (s.setBGFetchDelay to_).getBGFetchDelay = to_ ∧
      ((s.setBGFetchDelay to_).getBGFetchDelay ≤ MAX_BG_FETCH_DELAY ↔ to_ ≤ 900) ∧
      (s.setBGFetchDelay to_).multiBGFetchEnabled = s.multiBGFetchEnabled := by
  have e : (s.setBGFetchDelay to_).getBGFetchDelay = to_ := Nat.mod_eq_of_lt h
  refine ⟨e, ?_, rfl⟩
  rw [e]
  rfl

/-- C32 (amended) at the sample store and the delay 900. -/
theorem setBGFetchDelay_spec_witness :
    (sampleStore.setBGFetchDelay 900).getBGFetchDelay = 900 ∧
      ((sampleStore.setBGFetchDelay 900).getBGFetchDelay ≤ MAX_BG_FETCH_DELAY ↔ 900 ≤ 900) ∧
      (sampleStore.setBGFetchDelay 900).multiBGFetchEnabled = sampleStore.multiBGFetchEnabled :=
  setBGFetchDelay_spec sampleStore 900 (by decide)

theorem WarmupRecord.classify (r : WarmupRecord) :
    (r.isLoaded = true ∧ r.isSkipped = false ∧ r.isError = false) ∨
      (r.isLoaded = false ∧ r.isSkipped = true ∧ r.isError = false) ∨
      (r.isLoaded = false ∧ r.isSkipped = false ∧ r.isError = true) := by
  unfold WarmupRecord.isLoaded WarmupRecord.isSkipped WarmupRecord.isError
  cases hw : r.stillWarmingUp with
  | false => simp
  | true =>
    by_cases hs : r.status = ENGINE_SUCCESS
    · simp [hs]
    · simp [hs]

theorem warmupCallback_eq (c : WarmupCookie) (r : WarmupRecord)
    (hb : c.loaded + c.skipped + c.error + 1 < 2 ^ 64) :
    warmupCallback c r =
      { loaded := c.loaded + (if r.isLoaded then 1 else 0),
        skipped := c.skipped + (if r.isSkipped then 1 else 0),
        error := c.error + (if r.isError then 1 else 0),
        called := c.called ++ (if r.isLoaded then [r] else []) } := by
  have h1 : (c.loaded + 1) % 2 ^ 64 = c.loaded + 1 := Nat.mod_eq_of_lt (by omega)
  have h2 : (c.skipped + 1) % 2 ^ 64 = c.skipped + 1 := Nat.mod_eq_of_lt (by omega)
  have h3 : (c.error + 1) % 2 ^ 64 = c.error + 1 := Nat.mod_eq_of_lt (by omega)
  unfold warmupCallback WarmupRecord.isLoaded WarmupRecord.isSkipped WarmupRecord.isError
  cases hw : r.stillWarmingUp with
  | false =>
    simp only [Bool.false_eq_true, if_false, h2, Bool.false_and, Bool.not_false, if_true,
      Nat.add_zero, List.append_nil]
  | true =>
    by_cases hs : r.status = ENGINE_SUCCESS
    · simp only [if_true, hs, h1, Bool.true_and, decide_True, Bool.not_true,
        Bool.false_eq_true, if_false, Nat.add_zero, ne_eq, not_true_eq_false, decide_False]
    · simp only [if_true, hs, if_false, h3, Bool.true_and, decide_False, Bool.false_eq_true,
        Nat.add_zero, List.append_nil, Bool.not_true, ne_eq, not_false_eq_true, decide_True]

theorem harvesterApply_eq (records : List WarmupRecord) (c : WarmupCookie)
    (hb : c.loaded + c.skipped + c.error + records.length < 2 ^ 64) :
    harvesterApply records c =
      { loaded := c.loaded + (records.filter WarmupRecord.isLoaded).length,
        skipped := c.skipped + (records.filter WarmupRecord.isSkipped).length,
        error := c.error + (records.filter WarmupRecord.isError).length,
        called := c.called ++ records.filter WarmupRecord.isLoaded } := by
  induction records generalizing c with
  | nil => simp [harvesterApply]
  | cons r rest ih =>
    have hlen : (r :: rest).length = rest.length + 1 := rfl
    rw [hlen] at hb
    show harvesterApply rest (warmupCallback c r) = _
    rw [warmupCallback_eq c r (by omega)]
    rcases WarmupRecord.classify r with ⟨a1, a2, a3⟩ | ⟨a1, a2, a3⟩ | ⟨a1, a2, a3⟩
    · rw [ih _ (by simp only [a1, a2, a3, if_true, Bool.false_eq_true, if_false]; omega)]
      simp [List.filter_cons, a1, a2, a3]
      omega
    · rw [ih _ (by simp only [a1, a2, a3, if_true, Bool.false_eq_true, if_false]; omega)]
      simp [List.filter_cons, a1, a2, a3]
      omega
    · rw [ih _ (by simp only [a1, a2, a3, if_true, Bool.false_eq_true, if_false]; omega)]
      simp [List.filter_cons, a1, a2, a3]
      omega

theorem filter_three_length (records : List WarmupRecord) :
    (records.filter WarmupRecord.isLoaded).length +
      (records.filter WarmupRecord.isSkipped).length +
      (records.filter WarmupRecord.isError).length = records.length := by
  induction records with
  | nil => rfl
  | cons r rest ih =>
    rcases WarmupRecord.classify r with ⟨a1, a2, a3⟩ | ⟨a1, a2, a3⟩ | ⟨a1, a2, a3⟩
    · simp only [List.filter_cons, a1, a2, a3, if_true, Bool.false_eq_true, if_false,
        List.length_cons]
      omega
    · simp only [List.filter_cons, a1, a2, a3, if_true, Bool.false_eq_true, if_false,
        List.length_cons]
      omega
    · simp only [List.filter_cons, a1, a2, a3, if_true, Bool.false_eq_true, if_false,
        List.length_cons]
      omega

/-- C39: when `harvester.load()` succeeds with `n` records (`n` fits a
`size_t`), each record raises exactly one of `loaded`, `skipped`, `error`: they
count the records fetched with `ENGINE_SUCCESS` while warming up, those that
came when the engine no longer warmed up, and those whose fetch failed, and add
up to `n`. The value callback is called once for each loaded record, in
order, so `loaded` times; and `warmup` returns `loaded`. -/
theorem warmup_counts (records : List WarmupRecord) (hn : records.length < 2 ^ 64) :
    (KVStore.warmup true records).cookie.loaded +
        (KVStore.warmup true records).cookie.skipped +
        (KVStore.warmup true records).cookie.error = records.length ∧
      (KVStore.warmup true records).cookie.loaded =
        (records.filter WarmupRecord.isLoaded).length ∧
      (KVStore.warmup true records).cookie.skipped =
        (records.filter WarmupRecord.isSkipped).length ∧
      (KVStore.warmup true records).cookie.error =
        (records.filter WarmupRecord.isError).length ∧
      (KVStore.warmup true records).cookie.called = records.filter WarmupRecord.isLoaded ∧
      (KVStore.warmup true records).cookie.called.length =
        (KVStore.warmup true records).cookie.loaded ∧
      (KVStore.warmup true records).ret = (KVStore.warmup true records).cookie.loaded ∧
      (KVStore.warmup true records).estimated = [records.length] := by
  have e : (KVStore.warmup true records).cookie =
      { loaded := (records.filter WarmupRecord.isLoaded).length,
        skipped := (records.filter WarmupRecord.isSkipped).length,
        error := (records.filter WarmupRecord.isError).length,
        called := records.filter WarmupRecord.isLoaded } := by
    show harvesterApply records WarmupCookie.construct = _
    rw [harvesterApply_eq records WarmupCookie.construct (by
      show 0 + 0 + 0 + records.length < 2 ^ 64
      omega)]
    simp [WarmupCookie.construct]
  have hm : records.length % 2 ^ 64 = records.length := Nat.mod_eq_of_lt hn
  refine ⟨?_, ?_, ?_, ?_, ?_, ?_, rfl, ?_⟩
  · rw [e]; exact filter_three_length records
  · rw [e]
  · rw [e]
  · rw [e]
  · rw [e]
  · rw [e]
  · show [records.length % 2 ^ 64] = [records.length]
    rw [hm]

/-- C39 at four sample records: two loaded, one skipped, one failed. -/
theorem warmup_counts_witness :
    (KVStore.warmup true sampleRecords).ret = 2 ∧
    ((KVStore.warmup true sampleRecords).cookie.loaded +
        (KVStore.warmup true sampleRecords).cookie.skipped +
        (KVStore.warmup true sampleRecords).cookie.error = sampleRecords.length ∧
      (KVStore.warmup true sampleRecords).cookie.loaded =
        (sampleRecords.filter WarmupRecord.isLoaded).length ∧
      (KVStore.warmup true sampleRecords).cookie.skipped =
        (sampleRecords.filter WarmupRecord.isSkipped).length ∧
      (KVStore.warmup true sampleRecords).cookie.error =
        (sampleRecords.filter WarmupRecord.isError).length ∧
      (KVStore.warmup true sampleRecords).cookie.called =
        sampleRecords.filter WarmupRecord.isLoaded ∧
      (KVStore.warmup true sampleRecords).cookie.called.length =
        (KVStore.warmup true sampleRecords).cookie.loaded ∧
      (KVStore.warmup true sampleRecords).ret =
        (KVStore.warmup true sampleRecords).cookie.loaded ∧
      (KVStore.warmup true sampleRecords).estimated = [sampleRecords.length]) :=
  ⟨by decide, warmup_counts sampleRecords (by decide)⟩

namespace HashTableDepthStatVisitor

theorem visit_bucket (v : HashTableDepthStatVisitor) (b d : Int) : v.visit b d = v.visit 0 d := rfl

theorem visit_comm (v : HashTableDepthStatVisitor) (a b c d : Int) :
    (v.visit a c).visit b d = (v.visit b d).visit a c := by
  unfold visit
  simp only [mk.injEq]
  refine ⟨?_, ?_, ?_⟩
  · exact min_right_comm _ _ _
  · rw [max_assoc, max_comm c d, ← max_assoc]
  · omega

theorem visitAll_cons (v : HashTableDepthStatVisitor) (p : Int × Int) (ds : List (Int × Int)) :
    v.visitAll (p :: ds) = (v.visit p.1 p.2).visitAll ds := rfl

/-- The result depends on the depths alone. -/
theorem visitAll_depths (v : HashTableDepthStatVisitor) (ds : List (Int × Int)) :
    v.visitAll ds = v.visitAll ((ds.map Prod.snd).map (fun d => ((0 : Int), d))) := by
  induction ds generalizing v with
  | nil => rfl
  | cons p rest ih =>
    rw [visitAll_cons, ih]
    rfl

theorem visitAll_perm (l1 l2 : List (Int × Int)) (h : l1.Perm l2) :
    ∀ v : HashTableDepthStatVisitor, v.visitAll l1 = v.visitAll l2 := by
  induction h with
  | nil => intro v; rfl
  | cons p _ ih => intro v; rw [visitAll_cons, visitAll_cons, ih]
  | swap p q l =>
    intro v
    rw [visitAll_cons, visitAll_cons, visitAll_cons, visitAll_cons, visit_comm]
  | trans _ _ ih1 ih2 => intro v; rw [ih1, ih2]

theorem visitAll_min (v : HashTableDepthStatVisitor) (ds : List (Int × Int)) :
    (v.visitAll ds).min ≤ v.min ∧ (∀ p ∈ ds, (v.visitAll ds).min ≤ p.2) ∧
      ((v.visitAll ds).min = v.min ∨ ∃ p ∈ ds, (v.visitAll ds).min = p.2) := by
  induction ds generalizing v with
  | nil => exact ⟨le_refl _, by simp, Or.inl rfl⟩
  | cons q rest ih =>
    rw [visitAll_cons]
    obtain ⟨h1, h2, h3⟩ := ih (v.visit q.1 q.2)
    have hm : (v.visit q.1 q.2).min = Min.min v.min q.2 := rfl
    rw [hm] at h1 h3
    refine ⟨le_trans h1 (min_le_left _ _), ?_, ?_⟩
    · intro p hp
      rcases List.mem_cons.1 hp with e | hp
      · subst e; exact le_trans h1 (min_le_right _ _)
      · exact h2 p hp
    · rcases h3 with e | ⟨p, hp, e⟩
      · rcases min_choice v.min q.2 with c | c
        · left; rw [e, c]
        · right; exact ⟨q, List.mem_cons_self _ _, by rw [e, c]⟩
      · right; exact ⟨p, List.mem_cons_of_mem _ hp, e⟩

theorem visitAll_max (v : HashTableDepthStatVisitor) (ds : List (Int × Int)) :
    v.max ≤ (v.visitAll ds).max ∧ (∀ p ∈ ds, p.2 ≤ (v.visitAll ds).max) ∧
      ((v.visitAll ds).max = v.max ∨ ∃ p ∈ ds, (v.visitAll ds).max = p.2) := by
  induction ds generalizing v with
  | nil => exact ⟨le_refl _, by simp, Or.inl rfl⟩
  | cons q rest ih =>
    rw [visitAll_cons]
    obtain ⟨h1, h2, h3⟩ := ih (v.visit q.1 q.2)
    have hm : (v.visit q.1 q.2).max = Max.max v.max q.2 := rfl
    rw [hm] at h1 h3
    refine ⟨le_trans (le_max_left _ _) h1, ?_, ?_⟩
    · intro p hp
      rcases List.mem_cons.1 hp with e | hp
      · subst e; exact le_trans (le_max_right _ _) h1
      · exact h2 p hp
    · rcases h3 with e | ⟨p, hp, e⟩
      · rcases max_choice v.max q.2 with c | c
        · left; rw [e, c]
        · right; exact ⟨q, List.mem_cons_self _ _, by rw [e, c]⟩
      · right; exact ⟨p, List.mem_cons_of_mem _ hp, e⟩

theorem visitAll_size (v : HashTableDepthStatVisitor) (ds : List (Int × Int))
    (hd : ∀ p ∈ ds, 0 ≤ p.2) (hs : (v.size : Int) + (ds.map Prod.snd).sum < 2 ^ 64) :
    ((v.visitAll ds).size : Int) = (v.size : Int) + (ds.map Prod.snd).sum := by
  induction ds generalizing v with
  | nil => simp [visitAll]
  | cons q rest ih =>
    have hq : 0 ≤ q.2 := hd q (List.mem_cons_self _ _)
    have hr : ∀ p ∈ rest, 0 ≤ p.2 := fun p hp => hd p (List.mem_cons_of_mem _ hp)
    have hsum : 0 ≤ (rest.map Prod.snd).sum := by
      apply List.sum_nonneg
      intro x hx
      obtain ⟨p, hp, e⟩ := List.mem_map.1 hx
      rw [← e]
      exact hr p hp
    simp only [List.map_cons, List.sum_cons] at hs ⊢
    have e1 : ((v.visit q.1 q.2).size : Int) = (v.size : Int) + q.2 := by
      show (((v.size + (q.2 % 2 ^ 64).toNat) % 2 ^ 64 : Nat) : Int) = _
      omega
    rw [visitAll_cons, ih _ hr (by rw [e1]; omega), e1]
    omega

end HashTableDepthStatVisitor

/-- C40: for depths `d1..dn`, each an `int` that is at least 0, whose sum fits
a `size_t`, a fresh visitor ends with `min` the least of them (`INT_MAX` when
there is none), `max` the greatest of them (0 when there is none) and `size`
their sum; and any other sequence of visits with the same depths in some
order, whatever the bucket indices, ends in the same visitor. -/
theorem depth_visitor_spec (ds : List (Int × Int))
    (hd : ∀ p ∈ ds, 0 ≤ p.2 ∧ p.2 ≤ INT_MAX)
    (hs : (ds.map Prod.snd).sum < 2 ^ 64) :
    (∀ p ∈ ds, (HashTableDepthStatVisitor.construct.visitAll ds).min ≤ p.2) ∧
      (ds ≠ [] → ∃ p ∈ ds, (HashTableDepthStatVisitor.construct.visitAll ds).min = p.2) ∧
      (ds = [] → (HashTableDepthStatVisitor.construct.visitAll ds).min = INT_MAX) ∧
      (∀ p ∈ ds, p.2 ≤ (HashTableDepthStatVisitor.construct.visitAll ds).max) ∧
      (ds ≠ [] → ∃ p ∈ ds, (HashTableDepthStatVisitor.construct.visitAll ds).max = p.2) ∧
      (ds = [] → (HashTableDepthStatVisitor.construct.visitAll ds).max = 0) ∧
      ((HashTableDepthStatVisitor.construct.visitAll ds).size : Int) = (ds.map Prod.snd).sum ∧
      (∀ ds1 : List (Int × Int), (ds1.map Prod.snd).Perm (ds.map Prod.snd) →
        HashTableDepthStatVisitor.construct.visitAll ds1 =
          HashTableDepthStatVisitor.construct.visitAll ds) := by
  obtain ⟨-, m2, m3⟩ := HashTableDepthStatVisitor.visitAll_min HashTableDepthStatVisitor.construct ds
  obtain ⟨-, x2, x3⟩ := HashTableDepthStatVisitor.visitAll_max HashTableDepthStatVisitor.construct ds
  have hfirst : ∀ q rest, ds = q :: rest → q ∈ ds := by
    intro q rest e; rw [e]; exact List.mem_cons_self _ _
  refine ⟨m2, ?_, ?_, x2, ?_, ?_, ?_, ?_⟩
  · intro hne
    rcases m3 with e | h
    · cases hds : ds with
      | nil => exact absurd hds hne
      | cons q rest =>
        have hq := hfirst q rest hds
        refine ⟨q, by rw [← hds]; exact hq, ?_⟩
        rw [← hds]
        apply le_antisymm (m2 q hq)
        rw [e]
        exact (hd q hq).2
    · exact h
  · intro he; subst he; rfl
  · intro hne
    rcases x3 with e | h
    · cases hds : ds with
      | nil => exact absurd hds hne
      | cons q rest =>
        have hq := hfirst q rest hds
        refine ⟨q, by rw [← hds]; exact hq, ?_⟩
        rw [← hds]
        apply le_antisymm _ (x2 q hq)
        rw [e]
        exact (hd q hq).1
    · exact h
  · intro he; subst he; rfl
  · have := HashTableDepthStatVisitor.visitAll_size HashTableDepthStatVisitor.construct ds
      (fun p hp => (hd p hp).1) (by
        show ((0 : Nat) : Int) + (ds.map Prod.snd).sum < 2 ^ 64
        omega)
    rw [this]
    show ((0 : Nat) : Int) + _ = _
    omega
  · intro ds1 hp
    rw [HashTableDepthStatVisitor.visitAll_depths _ ds1,
      HashTableDepthStatVisitor.visitAll_depths _ ds]
    exact HashTableDepthStatVisitor.visitAll_perm _ _ (hp.map _) _

/-- C40 at the depths 2, 0, 5 (buckets 0, 1, 2), against the visits in another
order and under other bucket indices. -/
theorem depth_visitor_spec_witness :
    HashTableDepthStatVisitor.construct.visitAll [(0, 2), (1, 0), (2, 5)] = ⟨0, 5, 7⟩ ∧
    HashTableDepthStatVisitor.construct.visitAll [(7, 5), (7, 2), (7, 0)] =
      HashTableDepthStatVisitor.construct.visitAll [(0, 2), (1, 0), (2, 5)] :=
  ⟨by decide,
    (depth_visitor_spec [(0, 2), (1, 0), (2, 5)] (by decide) (by decide)).2.2.2.2.2.2.2
      [(7, 5), (7, 2), (7, 0)] (by decide)⟩

/-! ## Frame of deletion -/

namespace HashTable

theorem values_setChain_self (t : HashTable) (b : Nat) :
    (t.active.2.setChain b (t.chain b)).values = t.values := by
  have h := setChain_chain t.active.2 b
  rw [chain_active] at h
  rw [h]
  rfl

theorem lt_of_chainFind (t : HashTable) (k : Key) (b i : Nat) (v : StoredValue)
    (h : chainFind k (t.chain b) = some (i, v)) : b < t.values.length :=
  (lt_of_entry t b i v ((chainFind_eq_some _ _ _ _).1 h).1).1

end HashTable

/-- C37: when `unlocked_del(key, b)` returns true, chain `b` had a first node
carrying `key` (at position `i`, no node before it carries the key), that
node is not locked, and chain `b` afterwards is the previous chain without
position `i`, the other nodes in their order; every other chain is as before.
When it returns false, every chain is as before. -/
theorem unlocked_del_frame (t : HashTable) (st : Statics) (key : Key) (b now : Nat) :
    ((t.unlocked_del st key b now).deleted = true →
      ∃ i v, (t.chain b)[i]? = some v ∧ v.hasKey key = true ∧
        ((t.chain b).take i).all (fun u => !u.hasKey key) = true ∧
        (v.isLocked now).1 = false ∧
        (t.unlocked_del st key b now).table.chain b = (t.chain b).eraseIdx i ∧
        (∀ b1, b1 ≠ b → (t.unlocked_del st key b now).table.chain b1 = t.chain b1) ∧
        (t.unlocked_del st key b now).table.values.length = t.values.length) ∧
    ((t.unlocked_del st key b now).deleted = false →
      (t.unlocked_del st key b now).table.values = t.values) := by
  cases hc : chainFind key (t.chain b) with
  | none =>
    rw [HashTable.unlocked_del_miss t st key b now hc]
    constructor
    · intro h; cases h
    · intro _; exact HashTable.values_setChain_self t b
  | some p =>
    obtain ⟨i, v⟩ := p
    have hblt := HashTable.lt_of_chainFind t key b i v hc
    obtain ⟨c1, c2, c3⟩ := (chainFind_eq_some _ _ _ _).1 hc
    cases hl : (v.isLocked now).1 with
    | true =>
      rw [HashTable.unlocked_del_locked t st key b now i v hc hl]
      constructor
      · intro h; cases h
      · intro _; exact HashTable.values_setChain_self t b
    | false =>
      rw [HashTable.unlocked_del_unlocked t st key b now i v hc hl]
      constructor
      · intro _
        refine ⟨i, v, c1, c2, c3, hl, ?_, ?_, ?_⟩
        · exact HashTable.chain_setChain_same t.active.2 b _ hblt
        · intro b1 hb1
          exact HashTable.chain_setChain_other t.active.2 b b1 _ hb1
        · show (t.values.set b _).length = t.values.length
          exact List.length_set _ _ _
      · intro h; cases h

/-- C37 at a sample chain of three nodes for "a": the first is taken out and
the two behind it stay in order; with a locked first node nothing changes. -/
theorem unlocked_del_frame_witness :
    ((sampleTable [sampleEntry 5 0 0 false false, sampleEntry 6 0 0 false true,
        sampleEntry 7 0 0 false false]).unlocked_del sampleStatics [97] 1 10).table.values =
      [[], [sampleEntry 6 0 0 false true, sampleEntry 7 0 0 false false], []] ∧
    ((sampleTable [sampleEntry 5 0 100 true false, sampleEntry 6 0 0 false true]).unlocked_del
        sampleStatics [97] 1 10).table.values =
      (sampleTable [sampleEntry 5 0 100 true false, sampleEntry 6 0 0 false true]).values :=
  ⟨by decide,
    (unlocked_del_frame (sampleTable [sampleEntry 5 0 100 true false,
      sampleEntry 6 0 0 false true]) sampleStatics [97] 1 10).2 (by decide)⟩

/-! ## The insert branch of `set` and its result codes -/

namespace StoredValueFactory

theorem call_props (ty : stored_value_type) (itm : Item) (d : Bool) (now : Nat)
    (st : Statics) (w : StoredValue) (st1 : Statics) (h : call ty itm d now st = some (w, st1)) :
    w.isDirty = d ∧ w.getValue = itm.getValue ∧ w.getKeyLen = itm.getKey.length ∧
      w.getKeyBytes = itm.getKey ∧ w.id = itm.getId := by
  have hl := length_of_call _ _ _ _ _ _ h
  have hm : itm.getKey.length % 256 = itm.getKey.length := Nat.mod_eq_of_lt hl
  cases ty <;> cases d <;>
    simp [call, newStoredValue, hl, StoredValue.construct, StoredValue.copyKey,
      StoredValue.markDirty, StoredValue.reDirty, StoredValue.markClean] at h <;>
    (obtain ⟨e1, -⟩ := h; subst e1
     simp [StoredValue.isDirty, StoredValue.getValue, StoredValue.getKeyLen,
       StoredValue.getKeyBytes, hm])

end StoredValueFactory

namespace HashTable

/-- Whatever `set` returns, its body is `setAfterFind`. -/
theorem set_some (t : HashTable) (st : Statics) (now mint : Nat) (val : Item) (r : SetResult)
    (h : t.set st now mint val = some r) :
    setAfterFind (t.active.2.unlocked_find st val.getKey (t.bucket val.getKey) now)
      (t.bucket val.getKey) now mint val = some r := by
  unfold set at h
  rw [active_eq] at h
  simp only [Bool.not_true, Bool.false_eq_true, if_false, bucket_active] at h
  cases hm : t.active.2.getMutex (t.bucket val.getKey) with
  | none => rw [hm] at h; cases h
  | some l =>
    rw [hm] at h
    exact h

theorem set_rv_range (t : HashTable) (st : Statics) (now mint : Nat) (val : Item)
    (r : SetResult) (h : t.set st now mint val = some r) :
    r.rv = .NOT_FOUND ∨ r.rv = .INVALID_CAS ∨ r.rv = .WAS_CLEAN ∨ r.rv = .WAS_DIRTY ∨
      r.rv = .IS_LOCKED ∨ r.rv = .NOMEM := by
  have hs := set_some t st now mint val r h
  cases hv : (t.active.2.unlocked_find st val.getKey (t.bucket val.getKey) now).v with
  | none =>
    rcases setAfterFind_miss _ _ _ _ _ _ hv hs with ⟨-, e⟩ | ⟨-, -, e⟩ | ⟨-, -, w, st1, -, e⟩
    · subst e; exact Or.inl rfl
    · subst e; exact Or.inr (Or.inr (Or.inr (Or.inr (Or.inr rfl))))
    · subst e; exact Or.inl rfl
  | some p =>
    obtain ⟨i, v⟩ := p
    have hu : ∀ (tb : HashTable) (s : Statics) (b : Nat) (u : StoredValue),
        (tb.set_update s now mint val b i u).rv = .WAS_CLEAN ∨
        (tb.set_update s now mint val b i u).rv = .WAS_DIRTY := by
      intro tb s b u
      rw [set_update_rv]
      cases u.isClean
      · right; rfl
      · left; rfl
    rcases setAfterFind_hit _ (t.bucket val.getKey) now mint i v val hv with
      ⟨-, -, e⟩ | ⟨-, -, e⟩ | ⟨-, -, -, e⟩ | ⟨-, -, e⟩
    · rw [e] at hs; have := Option.some.inj hs; subst this
      exact Or.inr (Or.inr (Or.inr (Or.inr (Or.inl rfl))))
    · rw [e] at hs; have := Option.some.inj hs; subst this
      rcases hu _ _ _ _ with c | c
      · exact Or.inr (Or.inr (Or.inl c))
      · exact Or.inr (Or.inr (Or.inr (Or.inl c)))
    · rw [e] at hs; have := Option.some.inj hs; subst this
      exact Or.inr (Or.inl rfl)
    · rw [e] at hs; have := Option.some.inj hs; subst this
      rcases hu _ _ _ _ with c | c
      · exact Or.inr (Or.inr (Or.inl c))
      · exact Or.inr (Or.inr (Or.inr (Or.inl c)))

end HashTable

/-- C36: on a table with no entry for the key of `val` (at most 255 bytes),
a `set` with CAS 0 when `hasAvailableSpace` holds returns `NOT_FOUND` and puts
the record the factory builds, dirty and carrying the item's key and value, at
the head of chain `bucket(key)`, the other chains staying as they are; a `set`
for the same key carrying a non-zero CAS is rejected with the same code
`NOT_FOUND`; and no `set` on any table returns `SUCCESS` or
`INVALID_VBUCKET`. -/
theorem set_insert_not_found (t : HashTable) (st : Statics) (now mint : Nat) (val : Item)
    (hwf : t.wf) (hn : t.noEntry val.key) (hc : val.cas = 0)
    (hsp : StoredValue.hasAvailableSpace st val = true) (hk : val.key.length ≤ 255) :
    (∃ r w, t.set st now mint val = some r ∧ r.rv = .NOT_FOUND ∧
        r.table.chain (t.bucket val.key) = w :: t.chain (t.bucket val.key) ∧
        (∀ b1, b1 ≠ t.bucket val.key → r.table.chain b1 = t.chain b1) ∧
        w.isDirty = true ∧ w.getKey = val.key ∧ (∀ k, w.hasKey k = true ↔ k = val.key) ∧
        w.getValue = val.value ∧ r.itm = val.setCas mint) ∧
      (∀ val2 : Item, val2.key = val.key → val2.cas ≠ 0 →
        ∃ r2, t.set st now mint val2 = some r2 ∧ r2.rv = .NOT_FOUND ∧
          r2.table.values = t.values) ∧
      (∀ (t1 : HashTable) (st1 : Statics) (now1 mint1 : Nat) (val1 : Item) (r1 : SetResult),
        t1.set st1 now1 mint1 val1 = some r1 → r1.rv ≠ .SUCCESS ∧ r1.rv ≠ .INVALID_VBUCKET) := by
  have hblt : t.bucket val.key < t.values.length := by
    rw [hwf.2.2.2.2]; exact HashTable.bucket_lt t val.key hwf
  refine ⟨?_, ?_, ?_⟩
  · have hcf : chainFind val.getKey (t.active.2.chain (t.bucket val.getKey)) = none :=
      HashTable.chainFind_of_noEntry t val.key _ hn
    have hlen : (val.setCas mint).getKey.length < 256 := by
      show val.key.length < 256
      omega
    obtain ⟨w, st1, hcall, h1, h2, -⟩ :=
      StoredValueFactory.call_key t.valFact (val.setCas mint) true now st hlen
    obtain ⟨p1, p2, -⟩ := StoredValueFactory.call_props _ _ _ _ _ _ _ hcall
    have hset : t.set st now mint val = some ⟨.NOT_FOUND, val.setCas mint,
        t.active.2.setChain (t.bucket val.getKey) (w :: t.active.2.chain (t.bucket val.getKey)),
        st1⟩ := by
      rw [HashTable.set_eq t st now mint val hwf, HashTable.unlocked_find_miss _ _ _ _ _ hcf]
      unfold HashTable.setAfterFind
      have hc1 : ¬ val.getCas ≠ 0 := by
        show ¬ val.cas ≠ 0
        omega
      simp only
      rw [if_neg hc1, hsp]
      simp only [Bool.not_true, Bool.false_eq_true, if_false]
      have hcall1 : StoredValueFactory.call t.active.2.valFact (val.setCas mint) true now st =
          some (w, st1) := hcall
      rw [hcall1]
    refine ⟨_, w, hset, rfl, ?_, ?_, p1, ?_, StoredValue.hasKey_iff_of_key w _ h1 h2, p2, rfl⟩
    · exact HashTable.chain_setChain_same t.active.2 _ _ hblt
    · intro b1 hb1
      exact HashTable.chain_setChain_other t.active.2 _ b1 _ hb1
    · unfold StoredValue.getKey
      rw [h1, h2, List.take_length]
      rfl
  · intro val2 hkey hc2
    have hn2 : t.noEntry val2.key := by rw [hkey]; exact hn
    have hcf : chainFind val2.getKey (t.active.2.chain (t.bucket val2.getKey)) = none :=
      HashTable.chainFind_of_noEntry t val2.key _ hn2
    rw [HashTable.set_eq t st now mint val2 hwf, HashTable.unlocked_find_miss _ _ _ _ _ hcf]
    refine ⟨⟨.NOT_FOUND, val2, t.active.2, st⟩, ?_, rfl, rfl⟩
    have hc1 : val2.getCas ≠ 0 := hc2
    unfold HashTable.setAfterFind
    simp only
    rw [if_pos hc1]
  · intro t1 st1 now1 mint1 val1 r1 h1
    rcases HashTable.set_rv_range t1 st1 now1 mint1 val1 r1 h1 with
      e | e | e | e | e | e <;> rw [e] <;> exact ⟨by decide, by decide⟩

/-- C36 at the empty sample table: `set` of `sampleItem 0 0` at time 10. -/
theorem set_insert_not_found_witness :
    (sampleTable []).set sampleStatics 10 42 (sampleItem 0 0) = some sampleInserted ∧
    ((∃ r w, (sampleTable []).set sampleStatics 10 42 (sampleItem 0 0) = some r ∧
        r.rv = .NOT_FOUND ∧
        r.table.chain ((sampleTable []).bucket (sampleItem 0 0).key) =
          w :: (sampleTable []).chain ((sampleTable []).bucket (sampleItem 0 0).key) ∧
        (∀ b1, b1 ≠ (sampleTable []).bucket (sampleItem 0 0).key →
          r.table.chain b1 = (sampleTable []).chain b1) ∧
        w.isDirty = true ∧ w.getKey = (sampleItem 0 0).key ∧
        (∀ k, w.hasKey k = true ↔ k = (sampleItem 0 0).key) ∧
        w.getValue = (sampleItem 0 0).value ∧ r.itm = (sampleItem 0 0).setCas 42) ∧
      (∀ val2 : Item, val2.key = (sampleItem 0 0).key → val2.cas ≠ 0 →
        ∃ r2, (sampleTable []).set sampleStatics 10 42 val2 = some r2 ∧ r2.rv = .NOT_FOUND ∧
          r2.table.values = (sampleTable []).values) ∧
      (∀ (t1 : HashTable) (st1 : Statics) (now1 mint1 : Nat) (val1 : Item) (r1 : SetResult),
        t1.set st1 now1 mint1 val1 = some r1 →
          r1.rv ≠ .SUCCESS ∧ r1.rv ≠ .INVALID_VBUCKET)) :=
  ⟨by decide, set_insert_not_found (sampleTable []) sampleStatics 10 42 (sampleItem 0 0)
    (by decide) (by decide) (by decide) (by decide) (by decide)⟩

/-! ## Key uniqueness and bucket confinement -/

namespace StoredValue

theorem sameKey_refl (v : StoredValue) : v.sameKey v := ⟨rfl, rfl⟩

theorem sameKey_trans (u v w : StoredValue) (h1 : u.sameKey v) (h2 : v.sameKey w) :
    u.sameKey w := ⟨h2.1.trans h1.1, h2.2.trans h1.2⟩

theorem sameKey_hasKey (v w : StoredValue) (h : v.sameKey w) (k : Key) :
    w.hasKey k = v.hasKey k := by
  unfold hasKey
  rw [h.1, h.2]

theorem sameKey_getKey (v w : StoredValue) (h : v.sameKey w) : w.getKey = v.getKey := by
  unfold getKey
  rw [h.1, h.2]

theorem sameKey_isLocked (v : StoredValue) (now : Nat) : v.sameKey (v.isLocked now).2 := by
  unfold sameKey isLocked
  cases hx : v.extra with
  | small s => simp
  | feature f =>
    simp only
    split <;> simp [getKeyLen, getKeyBytes, hx]

theorem sameKey_unlock (v : StoredValue) : v.sameKey v.unlock := by
  unfold sameKey unlock
  cases hx : v.extra <;> simp [getKeyLen, getKeyBytes, hx]

theorem sameKey_setValue (v : StoredValue) (val : Blob) (fl ex cs now : Nat) (st : Statics) :
    v.sameKey (v.setValue val fl ex cs now st).1 := by
  unfold sameKey setValue
  cases hx : v.extra <;> simp [getKeyLen, getKeyBytes, markDirty, reDirty, hx]

end StoredValue

namespace HashTable

theorem bucket_of_size (t t1 : HashTable) (h : t1.size = t.size) (k : Key) :
    t1.bucket k = t.bucket k := by
  unfold bucket
  rw [h]

theorem confined_iff (t : HashTable) :
    t.confined ↔ ∀ b i u, t.entry b i = some u → t.bucket u.getKey = b := by
  constructor
  · intro h b i u hu
    obtain ⟨hb, -⟩ := lt_of_entry t b i u hu
    exact h b hb u (List.getElem?_mem hu)
  · intro h b _ u hu
    obtain ⟨i, hi⟩ := List.getElem?_of_mem hu
    exact h b i u hi

end HashTable

namespace HashTable

/-- What `KeepsKeys` means node by node: the dimensions stay, and every node of
the new table sits where a node of the old table with the same key sat, in the
same chain, different nodes coming from different nodes. -/
theorem KeepsKeys.embed (t t1 : HashTable) (h : KeepsKeys t t1) :
    t1.size = t.size ∧ t1.n_locks = t.n_locks ∧ t1.values.length = t.values.length ∧
      t1.valFact = t.valFact ∧
      ∃ g : Nat → Nat → Nat, (∀ b j j1, g b j = g b j1 → j = j1) ∧
        ∀ b j u, t1.entry b j = some u → ∃ u0, t.entry b (g b j) = some u0 ∧ u0.sameKey u := by
  induction h with
  | refl t =>
    exact ⟨rfl, rfl, rfl, rfl, fun _ j => j, fun _ _ _ e => e,
      fun b j u hu => ⟨u, hu, StoredValue.sameKey_refl u⟩⟩
  | active t =>
    exact ⟨rfl, rfl, rfl, rfl, fun _ j => j, fun _ _ _ e => e,
      fun b j u hu => ⟨u, hu, StoredValue.sameKey_refl u⟩⟩
  | erase t b i =>
    refine ⟨rfl, rfl, ?_, rfl, fun b1 j => if b1 = b ∧ i ≤ j then j + 1 else j, ?_, ?_⟩
    · show (t.values.set b _).length = t.values.length
      exact List.length_set _ _ _
    · intro b1 j j1 e
      simp only at e
      split at e <;> split at e <;> omega
    · intro b1 j u hu
      refine ⟨u, ?_, StoredValue.sameKey_refl u⟩
      rcases entry_setChain _ _ _ _ _ _ hu with ⟨hb, hj⟩ | ⟨hb, hj⟩
      · subst hb
        rw [List.getElem?_eraseIdx] at hj
        by_cases hji : j < i
        · rw [if_pos hji] at hj
          have hc : ¬ (b1 = b1 ∧ i ≤ j) := by omega
          show t.entry b1 (if b1 = b1 ∧ i ≤ j then j + 1 else j) = some u
          rw [if_neg hc]
          exact hj
        · rw [if_neg hji] at hj
          have hc : b1 = b1 ∧ i ≤ j := ⟨rfl, by omega⟩
          show t.entry b1 (if b1 = b1 ∧ i ≤ j then j + 1 else j) = some u
          rw [if_pos hc]
          exact hj
      · have hc : ¬ (b1 = b ∧ i ≤ j) := fun c => hb c.1
        show t.entry b1 (if b1 = b ∧ i ≤ j then j + 1 else j) = some u
        rw [if_neg hc]
        exact hj
  | store t b i v w hv hs =>
    refine ⟨rfl, rfl, ?_, rfl, fun _ j => j, fun _ _ _ e => e, ?_⟩
    · show (t.values.set b _).length = t.values.length
      exact List.length_set _ _ _
    · intro b1 j u hu
      by_cases hbj : b1 = b ∧ j = i
      · obtain ⟨e1, e2⟩ := hbj
        subst e1; subst e2
        rw [entry_store_same t b1 j v w hv] at hu
        have := Option.some.inj hu
        subst this
        exact ⟨v, hv, hs⟩
      · rw [entry_store_other t b i w b1 j hbj] at hu
        exact ⟨u, hu, StoredValue.sameKey_refl u⟩
  | trans t t1 t2 _ _ ih1 ih2 =>
    obtain ⟨a1, a2, a3, a4, g1, hg1, he1⟩ := ih1
    obtain ⟨b1, b2, b3, b4, g2, hg2, he2⟩ := ih2
    refine ⟨b1.trans a1, b2.trans a2, b3.trans a3, b4.trans a4,
      fun b j => g1 b (g2 b j), ?_, ?_⟩
    · intro b j j1 e
      exact hg2 b j j1 (hg1 b _ _ e)
    · intro b j u hu
      obtain ⟨u1, hu1, s1⟩ := he2 b j u hu
      obtain ⟨u0, hu0, s0⟩ := he1 b _ u1 hu1
      exact ⟨u0, hu0, StoredValue.sameKey_trans _ _ _ s0 s1⟩

theorem KeepsKeys.wf (t t1 : HashTable) (h : KeepsKeys t t1) (hwf : t.wf) : t1.wf := by
  obtain ⟨a1, a2, a3, -, -⟩ := KeepsKeys.embed t t1 h
  obtain ⟨h0, h1, h2, h3, h4⟩ := hwf
  exact ⟨by omega, by omega, by omega, by omega, by omega⟩

theorem KeepsKeys.bucket (t t1 : HashTable) (h : KeepsKeys t t1) (k : Key) :
    t1.bucket k = t.bucket k :=
  bucket_of_size t t1 (KeepsKeys.embed t t1 h).1 k

theorem KeepsKeys.uniqueKeys (t t1 : HashTable) (h : KeepsKeys t t1) (hu : t.uniqueKeys) :
    t1.uniqueKeys := by
  obtain ⟨-, -, -, -, g, hg, he⟩ := KeepsKeys.embed t t1 h
  intro k b i u b1 j u1 e e1 hk hk1
  obtain ⟨v, hv, sv⟩ := he b i u e
  obtain ⟨v1, hv1, sv1⟩ := he b1 j u1 e1
  rw [StoredValue.sameKey_hasKey _ _ sv] at hk
  rw [StoredValue.sameKey_hasKey _ _ sv1] at hk1
  obtain ⟨c1, c2⟩ := hu k b _ v b1 _ v1 hv hv1 hk hk1
  subst c1
  exact ⟨rfl, hg b i j c2⟩

theorem KeepsKeys.confined (t t1 : HashTable) (h : KeepsKeys t t1) (hc : t.confined) :
    t1.confined := by
  obtain ⟨-, -, -, -, g, -, he⟩ := KeepsKeys.embed t t1 h
  rw [confined_iff] at hc ⊢
  intro b i u e
  obtain ⟨v, hv, sv⟩ := he b i u e
  rw [KeepsKeys.bucket t t1 h, StoredValue.sameKey_getKey _ _ sv]
  exact hc b _ v hv

theorem KeepsKeys.noEntry (t t1 : HashTable) (h : KeepsKeys t t1) (k : Key)
    (hn : t.noEntry k) : t1.noEntry k := by
  obtain ⟨-, -, -, -, g, -, he⟩ := KeepsKeys.embed t t1 h
  rw [noEntry_iff] at hn ⊢
  intro b j u e
  obtain ⟨v, hv, sv⟩ := he b j u e
  rw [StoredValue.sameKey_hasKey _ _ sv]
  exact hn b _ v hv

/-- A node of the new table that is not expired comes from a node for the same
keys in the old table (used for lookups after the call). -/
theorem KeepsKeys.entry_from (t t1 : HashTable) (h : KeepsKeys t t1) (b j : Nat)
    (u : StoredValue) (e : t1.entry b j = some u) :
    ∃ i v, t.entry b i = some v ∧ v.sameKey u :=
  let ⟨_, _, _, _, g, _, he⟩ := KeepsKeys.embed t t1 h
  let ⟨v, hv, sv⟩ := he b j u e
  ⟨g b j, v, hv, sv⟩

theorem unlocked_del_keeps (t : HashTable) (st : Statics) (k : Key) (b now : Nat) :
    KeepsKeys t (t.unlocked_del st k b now).table := by
  have hsame : t.active.2.setChain b (t.chain b) = t.active.2 := by
    have h := setChain_chain t.active.2 b
    rw [chain_active] at h
    exact h
  cases hc : chainFind k (t.chain b) with
  | none =>
    rw [unlocked_del_miss t st k b now hc]
    show KeepsKeys t (t.active.2.setChain b (t.chain b))
    rw [hsame]
    exact KeepsKeys.active t
  | some p =>
    obtain ⟨i, v⟩ := p
    cases hl : (v.isLocked now).1 with
    | true =>
      rw [unlocked_del_locked t st k b now i v hc hl]
      show KeepsKeys t (t.active.2.setChain b (t.chain b))
      rw [hsame]
      exact KeepsKeys.active t
    | false =>
      rw [unlocked_del_unlocked t st k b now i v hc hl]
      exact KeepsKeys.trans _ _ _ (KeepsKeys.active t) (KeepsKeys.erase t.active.2 b i)

theorem unlocked_find_keeps (t : HashTable) (st : Statics) (k : Key) (b now : Nat) :
    KeepsKeys t (t.unlocked_find st k b now).table := by
  cases hc : chainFind k (t.chain b) with
  | none => rw [unlocked_find_miss t st k b now hc]; exact KeepsKeys.refl t
  | some p =>
    obtain ⟨i, v⟩ := p
    by_cases hx : v.expired now
    · rw [unlocked_find_expired t st k b now i v hc hx]
      exact unlocked_del_keeps t st k b now
    · rw [unlocked_find_hit t st k b now i v hc hx]
      exact KeepsKeys.refl t

end HashTable

namespace HashTable

theorem add_some (t : HashTable) (st : Statics) (now mint : Nat) (val : Item) (d : Bool)
    (r : AddResult) (h : t.add st now mint val d = some r) :
    addAfterFind (t.active.2.unlocked_find st val.getKey (t.bucket val.getKey) now)
      (t.bucket val.getKey) now mint val d = some r := by
  unfold add at h
  rw [active_eq] at h
  simp only [Bool.not_true, Bool.false_eq_true, if_false, bucket_active] at h
  cases hm : t.active.2.getMutex (t.bucket val.getKey) with
  | none => rw [hm] at h; cases h
  | some l =>
    rw [hm] at h
    exact h

theorem addAfterFind_miss (fr : FindResult) (b now mint : Nat) (val : Item) (d : Bool)
    (r : AddResult) (hv : fr.v = none) (h : addAfterFind fr b now mint val d = some r) :
    r.table = fr.table ∨
      ∃ w st1, StoredValueFactory.call fr.table.valFact (val.setCas mint) d now fr.statics =
          some (w, st1) ∧
        r = ⟨true, val.setCas mint, fr.table.setChain b (w :: fr.table.chain b), st1⟩ := by
  unfold addAfterFind at h
  rw [hv] at h
  simp only at h
  split at h
  · left
    have := Option.some.inj h
    subst this
    rfl
  · right
    cases hc : StoredValueFactory.call fr.table.valFact (val.setCas mint) d now fr.statics with
    | none => rw [hc] at h; cases h
    | some p =>
      obtain ⟨w, st1⟩ := p
      rw [hc] at h
      exact ⟨w, st1, rfl, (Option.some.inj h).symm⟩

/-- What `set` does to the table: it keeps the keys in place, or it puts a
record the factory built for the item in front of the key's chain after
`unlocked_find` missed. -/
theorem set_shape (t : HashTable) (st : Statics) (now mint : Nat) (val : Item) (r : SetResult)
    (h : t.set st now mint val = some r) :
    KeepsKeys t r.table ∨
      ((t.active.2.unlocked_find st val.getKey (t.bucket val.getKey) now).v = none ∧
        ∃ w st1, StoredValueFactory.call
            (t.active.2.unlocked_find st val.getKey (t.bucket val.getKey) now).table.valFact
            (val.setCas mint) true now
            (t.active.2.unlocked_find st val.getKey (t.bucket val.getKey) now).statics =
              some (w, st1) ∧
          r.table = (t.active.2.unlocked_find st val.getKey (t.bucket val.getKey) now).table.setChain
            (t.bucket val.getKey)
            (w :: (t.active.2.unlocked_find st val.getKey
              (t.bucket val.getKey) now).table.chain (t.bucket val.getKey))) := by
  have hs := set_some t st now mint val r h
  have hk : KeepsKeys t (t.active.2.unlocked_find st val.getKey (t.bucket val.getKey) now).table :=
    KeepsKeys.trans _ _ _ (KeepsKeys.active t) (unlocked_find_keeps t.active.2 st _ _ now)
  cases hv : (t.active.2.unlocked_find st val.getKey (t.bucket val.getKey) now).v with
  | none =>
    rcases setAfterFind_miss _ _ _ _ _ _ hv hs with ⟨-, e⟩ | ⟨-, -, e⟩ | ⟨-, -, w, st1, hc, e⟩
    · left; subst e; exact hk
    · left; subst e; exact hk
    · right; subst e; exact ⟨rfl, w, st1, hc, rfl⟩
  | some p =>
    obtain ⟨i, v⟩ := p
    left
    obtain ⟨hcf, -, hfr⟩ := unlocked_find_some _ _ _ _ _ _ _ hv
    have hent : t.active.2.entry (t.bucket val.getKey) i = some v :=
      ((chainFind_eq_some _ _ _ _).1 hcf).1
    have hstore : ∀ w, v.sameKey w → KeepsKeys t (t.active.2.store (t.bucket val.getKey) i w) :=
      fun w hw => KeepsKeys.trans _ _ _ (KeepsKeys.active t)
        (KeepsKeys.store t.active.2 _ i v w hent hw)
    have s1 := StoredValue.sameKey_isLocked v now
    have s2 := StoredValue.sameKey_trans _ _ _ s1 (StoredValue.sameKey_unlock (v.isLocked now).2)
    rw [hfr] at hs
    rcases setAfterFind_hit ⟨some (i, v), t.active.2, st⟩ (t.bucket val.getKey) now mint i v val
      rfl with ⟨-, -, e⟩ | ⟨-, -, e⟩ | ⟨-, -, -, e⟩ | ⟨-, -, e⟩
    · rw [e] at hs; have := Option.some.inj hs; subst this
      exact hstore _ s1
    · rw [e] at hs; have := Option.some.inj hs; subst this
      rw [set_update_table]
      exact hstore _ (StoredValue.sameKey_trans _ _ _ s2 (StoredValue.sameKey_setValue _ _ _ _ _ _ _))
    · rw [e] at hs; have := Option.some.inj hs; subst this
      exact hstore _ s1
    · rw [e] at hs; have := Option.some.inj hs; subst this
      rw [set_update_table]
      exact hstore _ (StoredValue.sameKey_trans _ _ _ s1 (StoredValue.sameKey_setValue _ _ _ _ _ _ _))

/-- What `add` does to the table, as `set_shape`. -/
theorem add_shape (t : HashTable) (st : Statics) (now mint : Nat) (val : Item) (d : Bool)
    (r : AddResult) (h : t.add st now mint val d = some r) :
    KeepsKeys t r.table ∨
      ((t.active.2.unlocked_find st val.getKey (t.bucket val.getKey) now).v = none ∧
        ∃ w st1, StoredValueFactory.call
            (t.active.2.unlocked_find st val.getKey (t.bucket val.getKey) now).table.valFact
            (val.setCas mint) d now
            (t.active.2.unlocked_find st val.getKey (t.bucket val.getKey) now).statics =
              some (w, st1) ∧
          r.table = (t.active.2.unlocked_find st val.getKey (t.bucket val.getKey) now).table.setChain
            (t.bucket val.getKey)
            (w :: (t.active.2.unlocked_find st val.getKey
              (t.bucket val.getKey) now).table.chain (t.bucket val.getKey))) := by
  have hs := add_some t st now mint val d r h
  have hk : KeepsKeys t (t.active.2.unlocked_find st val.getKey (t.bucket val.getKey) now).table :=
    KeepsKeys.trans _ _ _ (KeepsKeys.active t) (unlocked_find_keeps t.active.2 st _ _ now)
  cases hv : (t.active.2.unlocked_find st val.getKey (t.bucket val.getKey) now).v with
  | none =>
    rcases addAfterFind_miss _ _ _ _ _ _ _ hv hs with e | ⟨w, st1, hc, e⟩
    · left; rw [e]; exact hk
    · right; subst e; exact ⟨rfl, w, st1, hc, rfl⟩
  | some p =>
    left
    unfold addAfterFind at hs
    rw [hv] at hs
    have := Option.some.inj hs
    subst this
    exact hk

theorem find_some (t : HashTable) (st : Statics) (key : Key) (now : Nat) (r : FindResult)
    (h : t.find st key now = some r) :
    r = t.active.2.unlocked_find st key (t.bucket key) now := by
  unfold find at h
  rw [active_eq] at h
  simp only [Bool.not_true, Bool.false_eq_true, if_false, bucket_active] at h
  cases hm : t.active.2.getMutex (t.bucket key) with
  | none => rw [hm] at h; cases h
  | some l =>
    rw [hm] at h
    exact (Option.some.inj h).symm

theorem del_some (t : HashTable) (st : Statics) (key : Key) (now : Nat) (r : DelResult)
    (h : t.del st key now = some r) :
    r = t.active.2.unlocked_del st key (t.bucket key) now := by
  unfold del at h
  rw [active_eq] at h
  simp only [Bool.not_true, Bool.false_eq_true, if_false, bucket_active] at h
  cases hm : t.active.2.getMutex (t.bucket key) with
  | none => rw [hm] at h; cases h
  | some l =>
    rw [hm] at h
    exact (Option.some.inj h).symm

theorem find_keeps (t : HashTable) (st : Statics) (key : Key) (now : Nat) (r : FindResult)
    (h : t.find st key now = some r) : KeepsKeys t r.table := by
  rw [find_some t st key now r h]
  exact KeepsKeys.trans _ _ _ (KeepsKeys.active t) (unlocked_find_keeps t.active.2 st _ _ now)

theorem del_keeps (t : HashTable) (st : Statics) (key : Key) (now : Nat) (r : DelResult)
    (h : t.del st key now = some r) : KeepsKeys t r.table := by
  rw [del_some t st key now r h]
  exact KeepsKeys.trans _ _ _ (KeepsKeys.active t) (unlocked_del_keeps t.active.2 st _ _ now)

end HashTable

namespace HashTable

theorem entry_cons (t : HashTable) (b : Nat) (w : StoredValue) (b1 j : Nat) (u : StoredValue)
    (e : (t.setChain b (w :: t.chain b)).entry b1 j = some u) :
    (b1 = b ∧ j = 0 ∧ u = w) ∨ (b1 = b ∧ ∃ j0, j = j0 + 1 ∧ t.entry b j0 = some u) ∨
      (b1 ≠ b ∧ t.entry b1 j = some u) := by
  rcases entry_setChain _ _ _ _ _ _ e with ⟨hb, hj⟩ | ⟨hb, hj⟩
  · cases j with
    | zero =>
      left
      rw [List.getElem?_cons_zero] at hj
      exact ⟨hb, rfl, (Option.some.inj hj).symm⟩
    | succ j0 =>
      right; left
      rw [List.getElem?_cons_succ] at hj
      exact ⟨hb, j0, rfl, hj⟩
  · right; right
    exact ⟨hb, hj⟩

theorem insert_uniqueKeys (t : HashTable) (k : Key) (b : Nat) (w : StoredValue)
    (hn : t.noEntry k) (hw : ∀ k1, w.hasKey k1 = true → k1 = k) (hu : t.uniqueKeys) :
    (t.setChain b (w :: t.chain b)).uniqueKeys := by
  rw [noEntry_iff] at hn
  have hold : ∀ k1 b0 j0 u, t.entry b0 j0 = some u → u.hasKey k1 = true → k1 ≠ k := by
    intro k1 b0 j0 u e hk c
    subst c
    rw [hn b0 j0 u e] at hk
    cases hk
  intro k1 b1 i u b2 j u1 e e1 hk hk1
  rcases entry_cons _ _ _ _ _ _ e with ⟨a1, a2, a3⟩ | ⟨a1, i0, a2, a3⟩ | ⟨a1, a3⟩ <;>
    rcases entry_cons _ _ _ _ _ _ e1 with ⟨c1, c2, c3⟩ | ⟨c1, j0, c2, c3⟩ | ⟨c1, c3⟩
  · exact ⟨a1.trans c1.symm, a2.trans c2.symm⟩
  · subst a3
    exact absurd (hw k1 hk) (hold k1 _ _ _ c3 hk1)
  · subst a3
    exact absurd (hw k1 hk) (hold k1 _ _ _ c3 hk1)
  · subst c3
    exact absurd (hw k1 hk1) (hold k1 _ _ _ a3 hk)
  · obtain ⟨-, d2⟩ := hu k1 b i0 u b j0 u1 a3 c3 hk hk1
    exact ⟨a1.trans c1.symm, by omega⟩
  · obtain ⟨d1, -⟩ := hu k1 b i0 u b2 j u1 a3 c3 hk hk1
    exact absurd d1.symm c1
  · subst c3
    exact absurd (hw k1 hk1) (hold k1 _ _ _ a3 hk)
  · obtain ⟨d1, -⟩ := hu k1 b1 i u b j0 u1 a3 c3 hk hk1
    exact absurd d1 a1
  · exact hu k1 b1 i u b2 j u1 a3 c3 hk hk1

theorem insert_confined (t : HashTable) (b : Nat) (w : StoredValue)
    (hb : t.bucket w.getKey = b) (hc : t.confined) :
    (t.setChain b (w :: t.chain b)).confined := by
  rw [confined_iff] at hc ⊢
  intro b1 j u e
  show t.bucket u.getKey = b1
  rcases entry_cons _ _ _ _ _ _ e with ⟨a1, -, a3⟩ | ⟨a1, j0, -, a3⟩ | ⟨-, a3⟩
  · subst a3; rw [a1]; exact hb
  · rw [a1]; exact hc b j0 u a3
  · exact hc b1 j u a3

/-- In a confined table a key that is not met in the chain of its bucket is
met nowhere. -/
theorem noEntry_of_chainFind_none (t : HashTable) (k : Key) (hc : t.confined)
    (h : chainFind k (t.chain (t.bucket k)) = none) : t.noEntry k := by
  rw [noEntry_iff]
  rw [confined_iff] at hc
  rw [chainFind_eq_none] at h
  intro b j u e
  by_contra hk
  simp only [Bool.not_eq_false] at hk
  have hb := hc b j u e
  rw [StoredValue.getKey_of_hasKey u k hk] at hb
  subst hb
  have := h u (List.getElem?_mem e)
  rw [this] at hk
  cases hk

theorem onlyEntry_of_unique (t : HashTable) (k : Key) (b i : Nat) (v : StoredValue)
    (hu : t.uniqueKeys) (e : t.entry b i = some v) (hk : v.hasKey k = true) :
    t.onlyEntry k b i := by
  intro b1 j u e1 hk1
  obtain ⟨c1, c2⟩ := hu k b i v b1 j u e e1 hk hk1
  exact ⟨c1.symm, c2.symm⟩

/-- After a miss of `unlocked_find` in a table with unique, confined keys no
node carries the key, unless the key's entry is expired and still locked. -/
theorem miss_noEntry (t : HashTable) (st : Statics) (k : Key) (now : Nat)
    (hu : t.uniqueKeys) (hc : t.confined)
    (hx : ∀ i v, chainFind k (t.chain (t.bucket k)) = some (i, v) → v.expired now →
      (v.isLocked now).1 = false)
    (hv : (t.unlocked_find st k (t.bucket k) now).v = none) :
    (t.unlocked_find st k (t.bucket k) now).table.noEntry k := by
  cases hcf : chainFind k (t.chain (t.bucket k)) with
  | none =>
    rw [unlocked_find_miss t st k _ now hcf]
    exact noEntry_of_chainFind_none t k hc hcf
  | some p =>
    obtain ⟨i, v⟩ := p
    by_cases hex : v.expired now
    · have hl := hx i v hcf hex
      obtain ⟨e1, e2, -⟩ := (chainFind_eq_some _ _ _ _).1 hcf
      rw [unlocked_find_expired t st k _ now i v hcf hex,
        unlocked_del_unlocked t st k _ now i v hcf hl]
      exact noEntry_erase t.active.2 k _ i (onlyEntry_of_unique t k _ i v hu e1 e2)
    · rw [unlocked_find_hit t st k _ now i v hcf hex] at hv
      cases hv

theorem setAfterFind_isSome (fr : FindResult) (b now mint : Nat) (val : Item)
    (hk : val.key.length < 256) : ∃ r, setAfterFind fr b now mint val = some r := by
  cases hv : fr.v with
  | some p =>
    obtain ⟨i, v⟩ := p
    rcases setAfterFind_hit fr b now mint i v val hv with
      ⟨-, -, e⟩ | ⟨-, -, e⟩ | ⟨-, -, -, e⟩ | ⟨-, -, e⟩ <;> exact ⟨_, e⟩
  | none =>
    unfold setAfterFind
    rw [hv]
    simp only
    split
    · exact ⟨_, rfl⟩
    · split
      · exact ⟨_, rfl⟩
      · obtain ⟨w, st1, e, -⟩ :=
          StoredValueFactory.call_key fr.table.valFact (val.setCas mint) true now fr.statics hk
        rw [e]
        exact ⟨_, rfl⟩

theorem addAfterFind_isSome (fr : FindResult) (b now mint : Nat) (val : Item) (d : Bool)
    (hk : val.key.length < 256) : ∃ r, addAfterFind fr b now mint val d = some r := by
  unfold addAfterFind
  cases hv : fr.v with
  | some p => exact ⟨_, rfl⟩
  | none =>
    simp only
    split
    · exact ⟨_, rfl⟩
    · obtain ⟨w, st1, e, -⟩ :=
        StoredValueFactory.call_key fr.table.valFact (val.setCas mint) d now fr.statics hk
      rw [e]
      exact ⟨_, rfl⟩

theorem set_isSome (t : HashTable) (st : Statics) (now mint : Nat) (val : Item) (hwf : t.wf)
    (hk : val.key.length < 256) : ∃ r, t.set st now mint val = some r := by
  rw [set_eq t st now mint val hwf]
  exact setAfterFind_isSome _ _ _ _ _ hk

theorem add_isSome (t : HashTable) (st : Statics) (now mint : Nat) (val : Item) (d : Bool)
    (hwf : t.wf) (hk : val.key.length < 256) : ∃ r, t.add st now mint val d = some r := by
  rw [add_eq t st now mint val d hwf]
  exact addAfterFind_isSome _ _ _ _ _ _ hk

/-- The record the factory builds carries the item's key and no other. -/
theorem call_hasKey (ty : stored_value_type) (itm : Item) (d : Bool) (now : Nat)
    (st : Statics) (w : StoredValue) (st1 : Statics)
    (h : StoredValueFactory.call ty itm d now st = some (w, st1)) :
    (∀ k, w.hasKey k = true ↔ k = itm.getKey) ∧ w.getKey = itm.getKey := by
  obtain ⟨-, -, h1, h2, -⟩ := StoredValueFactory.call_props _ _ _ _ _ _ _ h
  refine ⟨StoredValue.hasKey_iff_of_key w _ h1 h2, ?_⟩
  unfold StoredValue.getKey
  rw [h1, h2, List.take_length]

end HashTable

namespace HashTable

theorem set_confined (t : HashTable) (st : Statics) (now mint : Nat) (val : Item)
    (r : SetResult) (hc : t.confined) (h : t.set st now mint val = some r) :
    r.table.confined := by
  have hk : KeepsKeys t (t.active.2.unlocked_find st val.getKey (t.bucket val.getKey) now).table :=
    KeepsKeys.trans _ _ _ (KeepsKeys.active t) (unlocked_find_keeps t.active.2 st _ _ now)
  rcases set_shape t st now mint val r h with k | ⟨-, w, st1, hcall, e⟩
  · exact KeepsKeys.confined t _ k hc
  · rw [e]
    apply insert_confined _ _ _ _ (KeepsKeys.confined t _ hk hc)
    rw [KeepsKeys.bucket t _ hk, (call_hasKey _ _ _ _ _ _ _ hcall).2]
    rfl

theorem add_confined (t : HashTable) (st : Statics) (now mint : Nat) (val : Item) (d : Bool)
    (r : AddResult) (hc : t.confined) (h : t.add st now mint val d = some r) :
    r.table.confined := by
  have hk : KeepsKeys t (t.active.2.unlocked_find st val.getKey (t.bucket val.getKey) now).table :=
    KeepsKeys.trans _ _ _ (KeepsKeys.active t) (unlocked_find_keeps t.active.2 st _ _ now)
  rcases add_shape t st now mint val d r h with k | ⟨-, w, st1, hcall, e⟩
  · exact KeepsKeys.confined t _ k hc
  · rw [e]
    apply insert_confined _ _ _ _ (KeepsKeys.confined t _ hk hc)
    rw [KeepsKeys.bucket t _ hk, (call_hasKey _ _ _ _ _ _ _ hcall).2]
    rfl

/-- The miss of `set` and `add` leaves no node for the key, in a table with
unique, confined keys whose entry for the key is not expired and locked. -/
theorem miss_noEntry_active (t : HashTable) (st : Statics) (k : Key) (now : Nat)
    (hu : t.uniqueKeys) (hc : t.confined)
    (hx : ∀ i v, t.entryFor k i v → v.expired now → (v.isLocked now).1 = false)
    (hv : (t.active.2.unlocked_find st k (t.bucket k) now).v = none) :
    (t.active.2.unlocked_find st k (t.bucket k) now).table.noEntry k := by
  apply miss_noEntry t.active.2 st k now (KeepsKeys.uniqueKeys t _ (KeepsKeys.active t) hu)
    (KeepsKeys.confined t _ (KeepsKeys.active t) hc) _ hv
  intro i v hcf
  exact hx i v ((entryFor_iff t k i v).2 hcf)

theorem set_uniqueKeys (t : HashTable) (st : Statics) (now mint : Nat) (val : Item)
    (r : SetResult) (hu : t.uniqueKeys) (hc : t.confined)
    (hx : ∀ i v, t.entryFor val.key i v → v.expired now → (v.isLocked now).1 = false)
    (h : t.set st now mint val = some r) : r.table.uniqueKeys := by
  have hk : KeepsKeys t (t.active.2.unlocked_find st val.getKey (t.bucket val.getKey) now).table :=
    KeepsKeys.trans _ _ _ (KeepsKeys.active t) (unlocked_find_keeps t.active.2 st _ _ now)
  rcases set_shape t st now mint val r h with k | ⟨hv, w, st1, hcall, e⟩
  · exact KeepsKeys.uniqueKeys t _ k hu
  · rw [e]
    exact insert_uniqueKeys _ val.getKey _ w (miss_noEntry_active t st val.getKey now hu hc hx hv)
      (fun k1 h1 => ((call_hasKey _ _ _ _ _ _ _ hcall).1 k1).1 h1)
      (KeepsKeys.uniqueKeys t _ hk hu)

theorem add_uniqueKeys (t : HashTable) (st : Statics) (now mint : Nat) (val : Item) (d : Bool)
    (r : AddResult) (hu : t.uniqueKeys) (hc : t.confined)
    (hx : ∀ i v, t.entryFor val.key i v → v.expired now → (v.isLocked now).1 = false)
    (h : t.add st now mint val d = some r) : r.table.uniqueKeys := by
  have hk : KeepsKeys t (t.active.2.unlocked_find st val.getKey (t.bucket val.getKey) now).table :=
    KeepsKeys.trans _ _ _ (KeepsKeys.active t) (unlocked_find_keeps t.active.2 st _ _ now)
  rcases add_shape t st now mint val d r h with k | ⟨hv, w, st1, hcall, e⟩
  · exact KeepsKeys.uniqueKeys t _ k hu
  · rw [e]
    exact insert_uniqueKeys _ val.getKey _ w (miss_noEntry_active t st val.getKey now hu hc hx hv)
      (fun k1 h1 => ((call_hasKey _ _ _ _ _ _ _ hcall).1 k1).1 h1)
      (KeepsKeys.uniqueKeys t _ hk hu)

theorem uniqueKeys_sampleTable (e : StoredValue) : (sampleTable [e]).uniqueKeys := by
  intro k b i u b1 j u1 h1 h2 hk hk1
  obtain ⟨a1, a2⟩ := onlyEntry_sampleTable e k b i u h1 hk
  obtain ⟨c1, c2⟩ := onlyEntry_sampleTable e k b1 j u1 h2 hk1
  exact ⟨a1.trans c1.symm, a2.trans c2.symm⟩

end HashTable

/-- C34, as stated, fails: the sample table holds one entry for "a", expired
at time 10 (exptime 5) and locked until 100, so no key occurs twice. `set` of
an item for "a" with CAS 0 at time 10 misses the entry, cannot unlink it, and
links a second node for "a" in front of it: the key then occurs in two
entries. -/
theorem set_duplicates_key :
    (sampleTable [sampleEntry 5 5 100 true false]).uniqueKeys ∧
      (sampleTable [sampleEntry 5 5 100 true false]).confined ∧
      (sampleTable [sampleEntry 5 5 100 true false]).set sampleStatics 10 42 (sampleItem 0 0) =
        some sampleDuplicated ∧
      ¬ sampleDuplicated.table.uniqueKeys := by
  refine ⟨HashTable.uniqueKeys_sampleTable _, by decide, by decide, ?_⟩
  intro h
  have := (h [97] 1 0 sampleFresh 1 1 (sampleEntry 5 5 100 true false) (by decide) (by decide)
    (by decide) (by decide)).2
  omega

/-- C34, amended: in a well-formed table in which every node sits in the chain
of its key's bucket and no key occurs in more than one entry, `find` and `del`
return and leave a table in which no key occurs in more than one entry; so do
`set` and `add` (which return for keys of at most 255 bytes) whenever the
entry of the call's key is not both expired and locked at the current time. -/
theorem uniqueKeys_preserved (t : HashTable) (st : Statics) (hwf : t.wf) (hu : t.uniqueKeys)
    (hc : t.confined) :
    (∀ key now, ∃ r, t.find st key now = some r ∧ r.table.uniqueKeys) ∧
      (∀ key now, ∃ r, t.del st key now = some r ∧ r.table.uniqueKeys) ∧
      (∀ now mint val,
        (∀ i v, t.entryFor val.key i v → v.expired now → (v.isLocked now).1 = false) →
        (val.key.length ≤ 255 → ∃ r, t.set st now mint val = some r) ∧
        ∀ r, t.set st now mint val = some r → r.table.uniqueKeys) ∧
      (∀ now mint val d,
        (∀ i v, t.entryFor val.key i v → v.expired now → (v.isLocked now).1 = false) →
        (val.key.length ≤ 255 → ∃ r, t.add st now mint val d = some r) ∧
        ∀ r, t.add st now mint val d = some r → r.table.uniqueKeys) := by
  refine ⟨?_, ?_, ?_, ?_⟩
  · intro key now
    exact ⟨_, HashTable.find_eq t st key now hwf,
      HashTable.KeepsKeys.uniqueKeys t _
        (HashTable.find_keeps t st key now _ (HashTable.find_eq t st key now hwf)) hu⟩
  · intro key now
    exact ⟨_, HashTable.del_eq t st key now hwf,
      HashTable.KeepsKeys.uniqueKeys t _
        (HashTable.del_keeps t st key now _ (HashTable.del_eq t st key now hwf)) hu⟩
  · intro now mint val hx
    exact ⟨fun hk => HashTable.set_isSome t st now mint val hwf (by omega),
      fun r h => HashTable.set_uniqueKeys t st now mint val r hu hc hx h⟩
  · intro now mint val d hx
    exact ⟨fun hk => HashTable.add_isSome t st now mint val d hwf (by omega),
      fun r h => HashTable.add_uniqueKeys t st now mint val d r hu hc hx h⟩

/-- C34 (amended) at the sample table with one live entry for "a". -/
theorem uniqueKeys_preserved_witness :
    (∀ key now, ∃ r, (sampleTable [sampleEntry 5 0 0 false false]).find sampleStatics key now =
        some r ∧ r.table.uniqueKeys) ∧
      (∀ key now, ∃ r, (sampleTable [sampleEntry 5 0 0 false false]).del sampleStatics key now =
        some r ∧ r.table.uniqueKeys) ∧
      (∀ now mint val,
        (∀ i v, (sampleTable [sampleEntry 5 0 0 false false]).entryFor val.key i v →
          v.expired now → (v.isLocked now).1 = false) →
        (val.key.length ≤ 255 →
          ∃ r, (sampleTable [sampleEntry 5 0 0 false false]).set sampleStatics now mint val =
            some r) ∧
        ∀ r, (sampleTable [sampleEntry 5 0 0 false false]).set sampleStatics now mint val =
          some r → r.table.uniqueKeys) ∧
      (∀ now mint val d,
        (∀ i v, (sampleTable [sampleEntry 5 0 0 false false]).entryFor val.key i v →
          v.expired now → (v.isLocked now).1 = false) →
        (val.key.length ≤ 255 →
          ∃ r, (sampleTable [sampleEntry 5 0 0 false false]).add sampleStatics now mint val d =
            some r) ∧
        ∀ r, (sampleTable [sampleEntry 5 0 0 false false]).add sampleStatics now mint val d =
          some r → r.table.uniqueKeys) :=
  uniqueKeys_preserved (sampleTable [sampleEntry 5 0 0 false false]) sampleStatics (by decide)
    (HashTable.uniqueKeys_sampleTable _) (by decide)

namespace HashTable

/-- A miss of `find`: the first node for the key in the chain of its bucket,
if there is one, is expired. -/
theorem find_miss_first (t : HashTable) (st : Statics) (key : Key) (now : Nat)
    (r : FindResult) (h : t.find st key now = some r) (hv : r.v = none) :
    chainFind key (t.chain (t.bucket key)) = none ∨
      ∃ i v, chainFind key (t.chain (t.bucket key)) = some (i, v) ∧ v.expired now := by
  rw [find_some t st key now r h] at hv
  cases hcf : chainFind key (t.chain (t.bucket key)) with
  | none => left; rfl
  | some p =>
    obtain ⟨i, v⟩ := p
    right
    refine ⟨i, v, rfl, ?_⟩
    by_contra hx
    have hcf1 : chainFind key (t.active.2.chain (t.bucket key)) = some (i, v) := hcf
    rw [unlocked_find_hit _ _ _ _ _ _ _ hcf1 hx] at hv
    cases hv

end HashTable

/-! ## Nodes behind the first node for a key -/

theorem not_hasKey_before (k : Key) (l : List StoredValue) (i i1 : Nat) (u : StoredValue)
    (h : (l.take i).all (fun x => !x.hasKey k) = true) (hi : i1 < i) (e : l[i1]? = some u) :
    u.hasKey k = false := by
  rw [List.all_eq_true] at h
  have hm : u ∈ l.take i := by
    apply List.getElem?_mem
    rw [List.getElem?_take, if_pos hi]
    exact e
  have := h u hm
  simpa using this

namespace HashTable

theorem shadowsExpired_iff (t : HashTable) (now : Nat) :
    t.shadowsExpired now ↔ ∀ k b i j u v, i < j → t.entry b i = some u → t.entry b j = some v →
      u.hasKey k = true → v.hasKey k = true → v.expired now := by
  constructor
  · intro h k b i j u v hij eu ev hu hv
    obtain ⟨l, hl, hi⟩ := values_of_entry t b i u eu
    obtain ⟨l1, hl1, hj⟩ := values_of_entry t b j v ev
    rw [hl] at hl1
    have := Option.some.inj hl1
    subst this
    have hp := h l (List.getElem?_mem hl)
    rw [List.pairwise_iff_getElem] at hp
    obtain ⟨hi1, hi2⟩ := List.getElem?_eq_some.1 hi
    obtain ⟨hj1, hj2⟩ := List.getElem?_eq_some.1 hj
    have := hp i j hi1 hj1 hij
    rw [hi2, hj2] at this
    apply this
    unfold StoredValue.keyShared
    rw [StoredValue.getKey_of_hasKey u k hu]
    exact ⟨hu, hv⟩
  · intro h l hl
    obtain ⟨b, hb⟩ := List.getElem?_of_mem hl
    rw [List.pairwise_iff_getElem]
    intro i j hi hj hij hs
    exact h _ b i j l[i] l[j] hij (entry_of_values t b i l _ hb (List.getElem?_eq_getElem hi))
      (entry_of_values t b j l _ hb (List.getElem?_eq_getElem hj)) hs.1 hs.2

/-- The clock only moves forward: what is expired stays expired. -/
theorem shadowsExpired_mono (t : HashTable) (now now1 : Nat) (hn : now ≤ now1)
    (h : t.shadowsExpired now) : t.shadowsExpired now1 := by
  rw [shadowsExpired_iff] at h ⊢
  intro k b i j u v hij eu ev hu hv
  have := h k b i j u v hij eu ev hu hv
  unfold StoredValue.expired at this ⊢
  omega

theorem shadowsExpired_erase (t : HashTable) (now b i : Nat) (h : t.shadowsExpired now) :
    (t.setChain b ((t.chain b).eraseIdx i)).shadowsExpired now := by
  rw [shadowsExpired_iff] at h ⊢
  intro k b1 i1 j1 u v hij eu ev hu hv
  rcases entry_setChain _ _ _ _ _ _ eu with ⟨hb, hi⟩ | ⟨hb, hi⟩
  · rcases entry_setChain _ _ _ _ _ _ ev with ⟨-, hj⟩ | ⟨hb1, -⟩
    · subst hb
      rw [List.getElem?_eraseIdx] at hi hj
      by_cases c1 : i1 < i
      · rw [if_pos c1] at hi
        by_cases c2 : j1 < i
        · rw [if_pos c2] at hj
          exact h k b1 i1 j1 u v hij hi hj hu hv
        · rw [if_neg c2] at hj
          exact h k b1 i1 (j1 + 1) u v (by omega) hi hj hu hv
      · rw [if_neg c1] at hi
        have c2 : ¬ j1 < i := by omega
        rw [if_neg c2] at hj
        exact h k b1 (i1 + 1) (j1 + 1) u v (by omega) hi hj hu hv
    · exact absurd hb hb1
  · rcases entry_setChain _ _ _ _ _ _ ev with ⟨hb1, -⟩ | ⟨-, hj⟩
    · exact absurd hb1 hb
    · exact h k b1 i1 j1 u v hij hi hj hu hv

/-- A write through a pointer that leaves the key alone keeps the property
when the node written is expired or has no node for its key in front of it. -/
theorem shadowsExpired_store (t : HashTable) (now b i : Nat) (v w : StoredValue)
    (h : t.shadowsExpired now) (hv : t.entry b i = some v) (hs : v.sameKey w)
    (hx : ∀ k i1 u, i1 < i → t.entry b i1 = some u → u.hasKey k = true → v.hasKey k = true →
      w.expired now) :
    (t.store b i w).shadowsExpired now := by
  rw [shadowsExpired_iff] at h ⊢
  intro k b1 i1 j1 u1 v1 hij eu ev hu hv1
  have old : ∀ j u, (t.store b i w).entry b1 j = some u →
      (b1 = b ∧ j = i ∧ u = w) ∨ (¬ (b1 = b ∧ j = i) ∧ t.entry b1 j = some u) := by
    intro j u e
    by_cases c : b1 = b ∧ j = i
    · left
      obtain ⟨c1, c2⟩ := c
      rw [c1, c2, entry_store_same t b i v w hv] at e
      exact ⟨c1, c2, (Option.some.inj e).symm⟩
    · right
      rw [entry_store_other t b i w b1 j c] at e
      exact ⟨c, e⟩
  rcases old i1 u1 eu with ⟨c1, c2, c3⟩ | ⟨-, e1⟩
  · rcases old j1 v1 ev with ⟨-, d2, -⟩ | ⟨-, e2⟩
    · omega
    · rw [c3, StoredValue.sameKey_hasKey _ _ hs] at hu
      rw [c1] at e2
      rw [c2] at hij
      exact h k b i j1 v v1 hij hv e2 hu hv1
  · rcases old j1 v1 ev with ⟨d1, d2, d3⟩ | ⟨-, e2⟩
    · rw [d3, StoredValue.sameKey_hasKey _ _ hs] at hv1
      rw [d1] at e1
      rw [d2] at hij
      rw [d3]
      exact hx k i1 u1 hij e1 hu hv1
    · exact h k b1 i1 j1 u1 v1 hij e1 e2 hu hv1

/-- A write that leaves the key and the expiry time alone (`lock`, `unlock`,
`isLocked`, `markClean`, `setId`) keeps the property. -/
theorem shadowsExpired_store_same (t : HashTable) (now b i : Nat) (v w : StoredValue)
    (h : t.shadowsExpired now) (hv : t.entry b i = some v) (hs : v.sameKey w)
    (he : w.getExptime = v.getExptime) : (t.store b i w).shadowsExpired now := by
  apply shadowsExpired_store t now b i v w h hv hs
  intro k i1 u hi e hu hk
  have := (shadowsExpired_iff t now).1 h k b i1 i u v hi e hv hu hk
  unfold StoredValue.expired at this ⊢
  rw [he]
  exact this

/-- A write to the node `unlocked_find` walks to, the first of its chain for
the key, keeps the property whatever expiry time it sets. -/
theorem shadowsExpired_store_first (t : HashTable) (now b i : Nat) (k : Key) (v w : StoredValue)
    (h : t.shadowsExpired now) (hc : chainFind k (t.chain b) = some (i, v)) (hs : v.sameKey w) :
    (t.store b i w).shadowsExpired now := by
  obtain ⟨e1, e2, e3⟩ := (chainFind_eq_some _ _ _ _).1 hc
  apply shadowsExpired_store t now b i v w h e1 hs
  intro k1 i1 u hi e hu hk
  have a1 := StoredValue.getKey_of_hasKey v k e2
  have a2 := StoredValue.getKey_of_hasKey v k1 hk
  rw [a1] at a2
  subst a2
  rw [not_hasKey_before k _ i i1 u e3 hi e] at hu
  cases hu

/-- Linking a node in front of a chain keeps the property when every node of
the chain that carries its key is expired. -/
theorem shadowsExpired_cons (t : HashTable) (now b : Nat) (w : StoredValue)
    (h : t.shadowsExpired now)
    (hx : ∀ k j u, t.entry b j = some u → w.hasKey k = true → u.hasKey k = true →
      u.expired now) :
    (t.setChain b (w :: t.chain b)).shadowsExpired now := by
  rw [shadowsExpired_iff] at h ⊢
  intro k b1 i1 j1 u v hij eu ev hu hv
  rcases entry_cons _ _ _ _ _ _ eu with ⟨c1, c2, c3⟩ | ⟨c1, i0, c2, e1⟩ | ⟨c1, e1⟩
  · rcases entry_cons _ _ _ _ _ _ ev with ⟨-, d2, -⟩ | ⟨-, j0, -, e2⟩ | ⟨d1, -⟩
    · omega
    · rw [c3] at hu
      exact hx k j0 v e2 hu hv
    · exact absurd c1 d1
  · rcases entry_cons _ _ _ _ _ _ ev with ⟨-, d2, -⟩ | ⟨-, j0, d2, e2⟩ | ⟨d1, -⟩
    · omega
    · exact h k b i0 j0 u v (by omega) e1 e2 hu hv
    · exact absurd c1 d1
  · rcases entry_cons _ _ _ _ _ _ ev with ⟨d1, -, -⟩ | ⟨d1, -, -, -⟩ | ⟨-, e2⟩
    · exact absurd d1 c1
    · exact absurd d1 c1
    · exact h k b1 i1 j1 u v hij e1 e2 hu hv

/-- When the first node of a chain for a key is expired, every node of the
chain for the key is. -/
theorem all_expired_of_first (t : HashTable) (now : Nat) (k : Key) (b i : Nat) (v : StoredValue)
    (h : t.shadowsExpired now) (hc : chainFind k (t.chain b) = some (i, v)) (hx : v.expired now)
    (j : Nat) (u : StoredValue) (e : t.entry b j = some u) (hk : u.hasKey k = true) :
    u.expired now := by
  obtain ⟨e1, e2, e3⟩ := (chainFind_eq_some _ _ _ _).1 hc
  rcases Nat.lt_trichotomy j i with c | c | c
  · rw [not_hasKey_before k _ i j u e3 c e] at hk
    cases hk
  · subst c
    have e4 : (t.chain b)[j]? = some u := e
    rw [e1] at e4
    rw [← Option.some.inj e4]
    exact hx
  · exact (shadowsExpired_iff t now).1 h k b i j v u c e1 e e2 hk

theorem unlocked_del_shadows (t : HashTable) (st : Statics) (k : Key) (b now n : Nat)
    (h : t.shadowsExpired n) : (t.unlocked_del st k b now).table.shadowsExpired n := by
  have hsame : t.active.2.setChain b (t.chain b) = t.active.2 := by
    have h := setChain_chain t.active.2 b
    rw [chain_active] at h
    exact h
  cases hc : chainFind k (t.chain b) with
  | none =>
    rw [unlocked_del_miss t st k b now hc]
    show (t.active.2.setChain b (t.chain b)).shadowsExpired n
    rw [hsame]
    exact h
  | some p =>
    obtain ⟨i, v⟩ := p
    cases hl : (v.isLocked now).1 with
    | true =>
      rw [unlocked_del_locked t st k b now i v hc hl]
      show (t.active.2.setChain b (t.chain b)).shadowsExpired n
      rw [hsame]
      exact h
    | false =>
      rw [unlocked_del_unlocked t st k b now i v hc hl]
      exact shadowsExpired_erase t.active.2 n b i h

theorem unlocked_find_shadows (t : HashTable) (st : Statics) (k : Key) (b now n : Nat)
    (h : t.shadowsExpired n) : (t.unlocked_find st k b now).table.shadowsExpired n := by
  cases hc : chainFind k (t.chain b) with
  | none => rw [unlocked_find_miss t st k b now hc]; exact h
  | some p =>
    obtain ⟨i, v⟩ := p
    by_cases hx : v.expired now
    · rw [unlocked_find_expired t st k b now i v hc hx]
      exact unlocked_del_shadows t st k b now n h
    · rw [unlocked_find_hit t st k b now i v hc hx]
      exact h

/-- After a miss of `unlocked_find`, every node for the key left in the chain
is expired. -/
theorem unlocked_find_miss_expired (t : HashTable) (st : Statics) (k : Key) (b now : Nat)
    (h : t.shadowsExpired now) (hv : (t.unlocked_find st k b now).v = none)
    (j : Nat) (u : StoredValue) (e : (t.unlocked_find st k b now).table.entry b j = some u)
    (hk : u.hasKey k = true) : u.expired now := by
  have hsame : t.active.2.setChain b (t.chain b) = t.active.2 := by
    have h := setChain_chain t.active.2 b
    rw [chain_active] at h
    exact h
  cases hc : chainFind k (t.chain b) with
  | none =>
    rw [unlocked_find_miss t st k b now hc] at e
    have e1 : (t.chain b)[j]? = some u := e
    rw [(chainFind_eq_none k _).1 hc u (List.getElem?_mem e1)] at hk
    cases hk
  | some p =>
    obtain ⟨i, v⟩ := p
    by_cases hx : v.expired now
    · rw [unlocked_find_expired t st k b now i v hc hx] at e
      cases hl : (v.isLocked now).1 with
      | true =>
        rw [unlocked_del_locked t st k b now i v hc hl] at e
        have e1 : (t.active.2.setChain b (t.chain b)).entry b j = some u := e
        rw [hsame] at e1
        exact all_expired_of_first t now k b i v h hc hx j u e1 hk
      | false =>
        rw [unlocked_del_unlocked t st k b now i v hc hl] at e
        have e1 : (t.active.2.setChain b ((t.chain b).eraseIdx i)).entry b j = some u := e
        rcases entry_setChain _ _ _ _ _ _ e1 with ⟨-, hj⟩ | ⟨hb, -⟩
        · rw [List.getElem?_eraseIdx] at hj
          by_cases c : j < i
          · rw [if_pos c] at hj
            exact all_expired_of_first t now k b i v h hc hx j u hj hk
          · rw [if_neg c] at hj
            exact all_expired_of_first t now k b i v h hc hx (j + 1) u hj hk
        · exact absurd rfl hb
    · rw [unlocked_find_hit t st k b now i v hc hx] at hv
      cases hv

theorem find_shadows (t : HashTable) (st : Statics) (key : Key) (now n : Nat) (r : FindResult)
    (h : t.shadowsExpired n) (hr : t.find st key now = some r) : r.table.shadowsExpired n := by
  rw [find_some t st key now r hr]
  exact unlocked_find_shadows t.active.2 st key _ now n h

theorem del_shadows (t : HashTable) (st : Statics) (key : Key) (now n : Nat) (r : DelResult)
    (h : t.shadowsExpired n) (hr : t.del st key now = some r) : r.table.shadowsExpired n := by
  rw [del_some t st key now r hr]
  exact unlocked_del_shadows t.active.2 st key _ now n h

/-- The record the factory builds answers `hasKey` for the item's key only. -/
theorem call_key_only (ty : stored_value_type) (itm : Item) (d : Bool) (now : Nat)
    (st : Statics) (w : StoredValue) (st1 : Statics)
    (h : StoredValueFactory.call ty itm d now st = some (w, st1)) (k : Key)
    (hk : w.hasKey k = true) : k = itm.getKey := by
  obtain ⟨-, -, h3, h4, -⟩ := StoredValueFactory.call_props ty itm d now st w st1 h
  have := StoredValue.getKey_of_hasKey w k hk
  unfold StoredValue.getKey at this
  rw [h3, h4, List.take_length] at this
  exact this.symm

theorem set_shadows (t : HashTable) (st : Statics) (now mint : Nat) (val : Item)
    (r : SetResult) (h : t.shadowsExpired now) (hr : t.set st now mint val = some r) :
    r.table.shadowsExpired now := by
  have hs := set_some t st now mint val r hr
  have hf : (t.active.2.unlocked_find st val.getKey (t.bucket val.getKey) now).table.shadowsExpired
      now := unlocked_find_shadows t.active.2 st _ _ now now h
  cases hv : (t.active.2.unlocked_find st val.getKey (t.bucket val.getKey) now).v with
  | none =>
    rcases setAfterFind_miss _ _ _ _ _ _ hv hs with ⟨-, e⟩ | ⟨-, -, e⟩ | ⟨-, -, w, st1, hc, e⟩
    · subst e; exact hf
    · subst e; exact hf
    · subst e
      apply shadowsExpired_cons _ now _ w hf
      intro k j u eu hw hu
      have := call_key_only _ _ _ _ _ _ _ hc k hw
      subst this
      exact unlocked_find_miss_expired t.active.2 st _ _ now h hv j u eu hu
  | some p =>
    obtain ⟨i, v⟩ := p
    obtain ⟨hcf, -, hfr⟩ := unlocked_find_some _ _ _ _ _ _ _ hv
    have hst : ∀ w, v.sameKey w → (t.active.2.store (t.bucket val.getKey) i w).shadowsExpired now :=
      fun w hw => shadowsExpired_store_first t.active.2 now _ i _ v w h hcf hw
    have s1 := StoredValue.sameKey_isLocked v now
    have s2 := StoredValue.sameKey_trans _ _ _ s1 (StoredValue.sameKey_unlock (v.isLocked now).2)
    rw [hfr] at hs
    rcases setAfterFind_hit ⟨some (i, v), t.active.2, st⟩ (t.bucket val.getKey) now mint i v val
      rfl with ⟨-, -, e⟩ | ⟨-, -, e⟩ | ⟨-, -, -, e⟩ | ⟨-, -, e⟩
    · rw [e] at hs; have := Option.some.inj hs; subst this
      exact hst _ s1
    · rw [e] at hs; have := Option.some.inj hs; subst this
      rw [set_update_table]
      exact hst _ (StoredValue.sameKey_trans _ _ _ s2 (StoredValue.sameKey_setValue _ _ _ _ _ _ _))
    · rw [e] at hs; have := Option.some.inj hs; subst this
      exact hst _ s1
    · rw [e] at hs; have := Option.some.inj hs; subst this
      rw [set_update_table]
      exact hst _ (StoredValue.sameKey_trans _ _ _ s1 (StoredValue.sameKey_setValue _ _ _ _ _ _ _))

theorem add_shadows (t : HashTable) (st : Statics) (now mint : Nat) (val : Item) (d : Bool)
    (r : AddResult) (h : t.shadowsExpired now) (hr : t.add st now mint val d = some r) :
    r.table.shadowsExpired now := by
  have hs := add_some t st now mint val d r hr
  have hf : (t.active.2.unlocked_find st val.getKey (t.bucket val.getKey) now).table.shadowsExpired
      now := unlocked_find_shadows t.active.2 st _ _ now now h
  cases hv : (t.active.2.unlocked_find st val.getKey (t.bucket val.getKey) now).v with
  | none =>
    rcases addAfterFind_miss _ _ _ _ _ _ _ hv hs with e | ⟨w, st1, hc, e⟩
    · rw [e]; exact hf
    · subst e
      apply shadowsExpired_cons _ now _ w hf
      intro k j u eu hw hu
      have := call_key_only _ _ _ _ _ _ _ hc k hw
      subst this
      exact unlocked_find_miss_expired t.active.2 st _ _ now h hv j u eu hu
  | some p =>
    unfold addAfterFind at hs
    rw [hv] at hs
    have := Option.some.inj hs
    subst this
    exact hf

/-- The table the constructor builds has empty chains. -/
theorem construct_shadows (size n_locks : Nat) (ty : stored_value_type) (t : HashTable)
    (now : Nat) (h : HashTable.construct size n_locks ty = some t) :
    t.confined ∧ t.uniqueKeys ∧ t.shadowsExpired now := by
  unfold HashTable.construct at h
  split at h
  · have := Option.some.inj h
    subst this
    have hno : ∀ b j u, ¬ (HashTable.entry
        { size := size, n_locks := n_locks, values := List.replicate size [],
          valFact := ty, activeState := true } b j = some u) := by
      intro b j u e
      obtain ⟨l, hl, hj⟩ := values_of_entry _ b j u e
      have hm := List.getElem?_mem hl
      have : l = [] := List.eq_of_mem_replicate hm
      subst this
      simp at hj
    refine ⟨?_, ?_, ?_⟩
    · rw [confined_iff]
      intro b i u e
      exact absurd e (hno b i u)
    · intro k b i u b1 j u1 e
      exact absurd e (hno b i u)
    · rw [shadowsExpired_iff]
      intro k b i j u v _ e
      exact absurd e (hno b i u)
  · cases h

/-- On a table in which the nodes sit in the chains of their keys and an
unexpired node is the first of its chain for its key, a miss of `find` means
that every node for the key, in whatever chain, is expired. -/
theorem find_miss_all_expired (t : HashTable) (st : Statics) (key : Key) (now : Nat)
    (r : FindResult) (hc : t.confined) (h : t.shadowsExpired now)
    (hr : t.find st key now = some r) (hv : r.v = none)
    (b j : Nat) (u : StoredValue) (e : t.entry b j = some u) (hk : u.hasKey key = true) :
    u.expired now := by
  rcases find_miss_first t st key now r hr hv with hcf | ⟨i, v, hcf, hx⟩
  · have hn := noEntry_of_chainFind_none t key hc hcf
    rw [noEntry_iff] at hn
    rw [hn b j u e] at hk
    cases hk
  · have hb : t.bucket u.getKey = b := (confined_iff t).1 hc b j u e
    rw [StoredValue.getKey_of_hasKey u key hk] at hb
    subst hb
    exact all_expired_of_first t now key _ i v h hcf hx j u e hk

end HashTable

/-- C38: in a well-formed table in which every node sits in the chain of its
key's bucket, `find` and `del` return and leave such a table, and so do `set`
and `add` (which return for keys of at most 255 bytes). When `find(key)`
reports a miss, the first node for `key` in chain `bucket(key)` is absent or
expired, and every entry for `key` anywhere in the table is expired, on a
table in which the nodes standing behind the first node for a key are expired
(`shadowsExpired`). The tables the code builds are such tables: the
constructor builds one, such a table stays one as the clock moves on, `find`,
`del`, `set` and `add` at the current time leave one, and so does every write
through a pointer that leaves the key and the expiry time of the node alone
(`lock`, `unlock`). -/
theorem confined_preserved (t : HashTable) (st : Statics) (hwf : t.wf) (hc : t.confined) :
    (∀ key now, ∃ r, t.find st key now = some r ∧ r.table.confined) ∧
      (∀ key now, ∃ r, t.del st key now = some r ∧ r.table.confined) ∧
      (∀ now mint val, (val.key.length ≤ 255 → ∃ r, t.set st now mint val = some r) ∧
        ∀ r, t.set st now mint val = some r → r.table.confined) ∧
      (∀ now mint val d, (val.key.length ≤ 255 → ∃ r, t.add st now mint val d = some r) ∧
        ∀ r, t.add st now mint val d = some r → r.table.confined) ∧
      (∀ key now r, t.find st key now = some r → r.v = none →
        (∀ i v, t.entryFor key i v → v.expired now) ∧
        (t.shadowsExpired now → ∀ b j u, t.entry b j = some u → u.hasKey key = true →
          u.expired now)) ∧
      (∀ now, t.shadowsExpired now →
        (∀ now1, now ≤ now1 → t.shadowsExpired now1) ∧
        (∀ key r, t.find st key now = some r → r.table.shadowsExpired now) ∧
        (∀ key r, t.del st key now = some r → r.table.shadowsExpired now) ∧
        (∀ mint val r, t.set st now mint val = some r → r.table.shadowsExpired now) ∧
        (∀ mint val d r, t.add st now mint val d = some r → r.table.shadowsExpired now) ∧
        (∀ b i v w, t.entry b i = some v → v.sameKey w → w.getExptime = v.getExptime →
          (t.store b i w).confined ∧ (t.store b i w).shadowsExpired now)) ∧
      (∀ size n_locks ty t0 now, HashTable.construct size n_locks ty = some t0 →
        t0.confined ∧ t0.shadowsExpired now) := by
  refine ⟨?_, ?_, ?_, ?_, ?_, ?_, ?_⟩
  · intro key now
    exact ⟨_, HashTable.find_eq t st key now hwf,
      HashTable.KeepsKeys.confined t _
        (HashTable.find_keeps t st key now _ (HashTable.find_eq t st key now hwf)) hc⟩
  · intro key now
    exact ⟨_, HashTable.del_eq t st key now hwf,
      HashTable.KeepsKeys.confined t _
        (HashTable.del_keeps t st key now _ (HashTable.del_eq t st key now hwf)) hc⟩
  · intro now mint val
    exact ⟨fun hk => HashTable.set_isSome t st now mint val hwf (by omega),
      fun r h => HashTable.set_confined t st now mint val r hc h⟩
  · intro now mint val d
    exact ⟨fun hk => HashTable.add_isSome t st now mint val d hwf (by omega),
      fun r h => HashTable.add_confined t st now mint val d r hc h⟩
  · intro key now r h hv
    constructor
    · intro i1 v1 he
      rcases HashTable.find_miss_first t st key now r h hv with hcf | ⟨i, v, hcf, hx⟩
      · rw [(HashTable.entryFor_iff t key i1 v1).1 he] at hcf
        cases hcf
      · rw [(HashTable.entryFor_iff t key i1 v1).1 he] at hcf
        simp only [Option.some.injEq, Prod.mk.injEq] at hcf
        rw [hcf.2]
        exact hx
    · intro hs b j u e hk
      exact HashTable.find_miss_all_expired t st key now r hc hs h hv b j u e hk
  · intro now hs
    refine ⟨fun now1 hn => HashTable.shadowsExpired_mono t now now1 hn hs,
      fun key r h => HashTable.find_shadows t st key now now r hs h,
      fun key r h => HashTable.del_shadows t st key now now r hs h,
      fun mint val r h => HashTable.set_shadows t st now mint val r hs h,
      fun mint val d r h => HashTable.add_shadows t st now mint val d r hs h, ?_⟩
    intro b i v w e hk hx
    exact ⟨HashTable.KeepsKeys.confined t _ (HashTable.KeepsKeys.store t b i v w e hk) hc,
      HashTable.shadowsExpired_store_same t now b i v w hs e hk hx⟩
  · intro size n_locks ty t0 now h
    obtain ⟨h1, -, h3⟩ := HashTable.construct_shadows size n_locks ty t0 now h
    exact ⟨h1, h3⟩

/-- C38 at a table built by `set` at time 1 (expiry time 5), a lock until time
7, and `set` at time 6 (expiry time 7): the chain for "a" holds two nodes, both
expired at time 8. `find("a")` at time 8 unlinks the first and reports a miss,
and every entry for "a" is expired. -/
theorem confined_preserved_witness :
    (sampleTable [sampleStored 43 7 1, (sampleStored 42 5 0).lock 7]).shadowsExpired 8 ∧
    (sampleTable [sampleStored 43 7 1, (sampleStored 42 5 0).lock 7]).find
        { maxDataSize := 100000, currentSize := 1130 } [97] 8 =
      some ⟨none, sampleTable [(sampleStored 42 5 0).lock 7],
        { maxDataSize := 100000, currentSize := 1065 }⟩ ∧
    ((∀ i v, (sampleTable [sampleStored 43 7 1, (sampleStored 42 5 0).lock 7]).entryFor [97] i v →
        v.expired 8) ∧
      ((sampleTable [sampleStored 43 7 1, (sampleStored 42 5 0).lock 7]).shadowsExpired 8 →
        ∀ b j u, (sampleTable [sampleStored 43 7 1, (sampleStored 42 5 0).lock 7]).entry b j =
            some u → u.hasKey [97] = true → u.expired 8)) :=
  ⟨by decide, by decide,
    (confined_preserved (sampleTable [sampleStored 43 7 1, (sampleStored 42 5 0).lock 7])
      { maxDataSize := 100000, currentSize := 1130 } (by decide) (by decide)).2.2.2.2.1 [97] 8
      ⟨none, sampleTable [(sampleStored 42 5 0).lock 7],
        { maxDataSize := 100000, currentSize := 1065 }⟩ (by decide) rfl⟩

/-! ## Stored CAS values -/

namespace StoredValue

theorem not_small_of_getCas (v : StoredValue) (h : v.getCas ≠ 0) : v._isSmall = false := by
  unfold getCas at h
  unfold _isSmall
  cases hx : v.extra with
  | small s => rw [hx] at h; exact absurd rfl h
  | feature f => rfl

theorem getCas_unlock (v : StoredValue) : v.unlock.getCas = v.getCas := by
  unfold unlock
  cases hx : v.extra with
  | small s => simp
  | feature f => simp [getCas, hx]

theorem getCas_lock (v : StoredValue) (e : Nat) : (v.lock e).getCas = v.getCas := by
  unfold lock
  cases hx : v.extra with
  | small s => simp
  | feature f => simp [getCas, hx]

end StoredValue

namespace HashTable

theorem casStamped_chain (t : HashTable) (b : Nat) (h : t.casStamped) :
    ∀ u ∈ t.chain b, u.getCas ≠ 0 := by
  intro u hu
  obtain ⟨j, hj⟩ := List.getElem?_of_mem hu
  obtain ⟨l, hl, hj1⟩ := values_of_entry t b j u hj
  exact h.2 l (List.getElem?_mem hl) u (List.getElem?_mem hj1)

theorem casStamped_setChain (t : HashTable) (b : Nat) (l : List StoredValue)
    (h : t.casStamped) (hl : ∀ u ∈ l, u.getCas ≠ 0) : (t.setChain b l).casStamped := by
  refine ⟨h.1, ?_⟩
  intro l1 hl1 u hu
  rcases List.mem_or_eq_of_mem_set hl1 with c | c
  · exact h.2 l1 c u hu
  · subst c
    exact hl u hu

theorem casStamped_store (t : HashTable) (b i : Nat) (w : StoredValue) (h : t.casStamped)
    (hw : w.getCas ≠ 0) : (t.store b i w).casStamped := by
  apply casStamped_setChain t b _ h
  intro u hu
  rcases List.mem_or_eq_of_mem_set hu with c | c
  · exact casStamped_chain t b h u c
  · subst c
    exact hw

theorem casStamped_cons (t : HashTable) (b : Nat) (w : StoredValue) (h : t.casStamped)
    (hw : w.getCas ≠ 0) : (t.setChain b (w :: t.chain b)).casStamped := by
  apply casStamped_setChain t b _ h
  intro u hu
  rcases List.mem_cons.1 hu with c | c
  · subst c
    exact hw
  · exact casStamped_chain t b h u c

theorem unlocked_del_stamped (t : HashTable) (st : Statics) (k : Key) (b now : Nat)
    (h : t.casStamped) : (t.unlocked_del st k b now).table.casStamped := by
  have hsame : t.active.2.setChain b (t.chain b) = t.active.2 := by
    have h := setChain_chain t.active.2 b
    rw [chain_active] at h
    exact h
  cases hc : chainFind k (t.chain b) with
  | none =>
    rw [unlocked_del_miss t st k b now hc]
    show (t.active.2.setChain b (t.chain b)).casStamped
    rw [hsame]
    exact h
  | some p =>
    obtain ⟨i, v⟩ := p
    cases hl : (v.isLocked now).1 with
    | true =>
      rw [unlocked_del_locked t st k b now i v hc hl]
      show (t.active.2.setChain b (t.chain b)).casStamped
      rw [hsame]
      exact h
    | false =>
      rw [unlocked_del_unlocked t st k b now i v hc hl]
      apply casStamped_setChain t.active.2 b _ h
      intro u hu
      exact casStamped_chain t b h u ((List.eraseIdx_sublist _ _).subset hu)

theorem unlocked_find_stamped (t : HashTable) (st : Statics) (k : Key) (b now : Nat)
    (h : t.casStamped) : (t.unlocked_find st k b now).table.casStamped := by
  cases hc : chainFind k (t.chain b) with
  | none => rw [unlocked_find_miss t st k b now hc]; exact h
  | some p =>
    obtain ⟨i, v⟩ := p
    by_cases hx : v.expired now
    · rw [unlocked_find_expired t st k b now i v hc hx]
      exact unlocked_del_stamped t st k b now h
    · rw [unlocked_find_hit t st k b now i v hc hx]
      exact h

theorem find_stamped (t : HashTable) (st : Statics) (key : Key) (now : Nat) (r : FindResult)
    (h : t.casStamped) (hr : t.find st key now = some r) : r.table.casStamped := by
  rw [find_some t st key now r hr]
  exact unlocked_find_stamped t.active.2 st key _ now h

theorem del_stamped (t : HashTable) (st : Statics) (key : Key) (now : Nat) (r : DelResult)
    (h : t.casStamped) (hr : t.del st key now = some r) : r.table.casStamped := by
  rw [del_some t st key now r hr]
  exact unlocked_del_stamped t.active.2 st key _ now h

/-- The record the featured factory builds carries the CAS of the item. -/
theorem call_getCas (itm : Item) (d : Bool) (now : Nat) (st : Statics) (w : StoredValue)
    (st1 : Statics) (h : StoredValueFactory.call .featured itm d now st = some (w, st1)) :
    w.getCas = itm.getCas := by
  obtain ⟨w1, st2, e, -, -, -, -, hc, -, -⟩ :=
    StoredValueFactory.call_featured itm now st d (StoredValueFactory.length_of_call _ _ _ _ _ _ h)
  rw [h] at e
  simp only [Option.some.injEq, Prod.mk.injEq] at e
  rw [e.1]
  exact hc

theorem set_stamped (t : HashTable) (st : Statics) (now mint : Nat) (val : Item)
    (r : SetResult) (h : t.casStamped) (hm : mint ≠ 0) (hr : t.set st now mint val = some r) :
    r.table.casStamped := by
  have hs := set_some t st now mint val r hr
  have hf : (t.active.2.unlocked_find st val.getKey (t.bucket val.getKey) now).table.casStamped :=
    unlocked_find_stamped t.active.2 st _ _ now h
  cases hv : (t.active.2.unlocked_find st val.getKey (t.bucket val.getKey) now).v with
  | none =>
    rcases setAfterFind_miss _ _ _ _ _ _ hv hs with ⟨-, e⟩ | ⟨-, -, e⟩ | ⟨-, -, w, st1, hc, e⟩
    · subst e; exact hf
    · subst e; exact hf
    · subst e
      apply casStamped_cons _ _ w hf
      rw [hf.1] at hc
      rw [call_getCas _ _ _ _ _ _ hc]
      exact hm
  | some p =>
    obtain ⟨i, v⟩ := p
    obtain ⟨hcf, -, hfr⟩ := unlocked_find_some _ _ _ _ _ _ _ hv
    have hv0 : v.getCas ≠ 0 :=
      casStamped_chain t.active.2 _ h v (List.getElem?_mem ((chainFind_eq_some _ _ _ _).1 hcf).1)
    have hs0 := StoredValue.not_small_of_getCas v hv0
    have hst : ∀ w, w.getCas ≠ 0 → (t.active.2.store (t.bucket val.getKey) i w).casStamped :=
      fun w hw => casStamped_store t.active.2 _ i w h hw
    rw [hfr] at hs
    rcases setAfterFind_hit ⟨some (i, v), t.active.2, st⟩ (t.bucket val.getKey) now mint i v val
      rfl with ⟨-, -, e⟩ | ⟨-, -, e⟩ | ⟨-, -, -, e⟩ | ⟨-, -, e⟩
    · rw [e] at hs; have := Option.some.inj hs; subst this
      apply hst
      rw [StoredValue.getCas_isLocked]
      exact hv0
    · rw [e] at hs; have := Option.some.inj hs; subst this
      rw [set_update_table]
      apply hst
      rw [(StoredValue.feature_setValue _ _ _ _ _ _ _
        (by rw [StoredValue.isSmall_unlock, StoredValue.isSmall_isLocked]; exact hs0)).1]
      exact hm
    · rw [e] at hs; have := Option.some.inj hs; subst this
      apply hst
      rw [StoredValue.getCas_isLocked]
      exact hv0
    · rw [e] at hs; have := Option.some.inj hs; subst this
      rw [set_update_table]
      apply hst
      rw [(StoredValue.feature_setValue _ _ _ _ _ _ _
        (by rw [StoredValue.isSmall_isLocked]; exact hs0)).1]
      exact hm

theorem add_stamped (t : HashTable) (st : Statics) (now mint : Nat) (val : Item) (d : Bool)
    (r : AddResult) (h : t.casStamped) (hm : mint ≠ 0)
    (hr : t.add st now mint val d = some r) : r.table.casStamped := by
  have hs := add_some t st now mint val d r hr
  have hf : (t.active.2.unlocked_find st val.getKey (t.bucket val.getKey) now).table.casStamped :=
    unlocked_find_stamped t.active.2 st _ _ now h
  cases hv : (t.active.2.unlocked_find st val.getKey (t.bucket val.getKey) now).v with
  | none =>
    rcases addAfterFind_miss _ _ _ _ _ _ _ hv hs with e | ⟨w, st1, hc, e⟩
    · rw [e]; exact hf
    · subst e
      apply casStamped_cons _ _ w hf
      rw [hf.1] at hc
      rw [call_getCas _ _ _ _ _ _ hc]
      exact hm
  | some p =>
    unfold addAfterFind at hs
    rw [hv] at hs
    have := Option.some.inj hs
    subst this
    exact hf

/-- The featured table the constructor builds has no entry yet. -/
theorem construct_stamped (size n_locks : Nat) (t : HashTable)
    (h : HashTable.construct size n_locks .featured = some t) : t.casStamped := by
  unfold HashTable.construct at h
  split at h
  · have := Option.some.inj h
    subst this
    refine ⟨rfl, ?_⟩
    intro l hl u hu
    have : l = [] := List.eq_of_mem_replicate hl
    subst this
    cases hu
  · cases h

end HashTable

/-- C12: in a featured table, let the key's entry be unexpired and locked at
the current time, its stored CAS being other than 0, the value that stands for
"no CAS". A `set` carrying no CAS (CAS 0) is denied: it returns `IS_LOCKED`;
the entry is the very same node afterwards, still locked, and no chain and no
counter has changed. That no entry carries CAS 0 (`casStamped`) holds of the
featured tables the code builds with minted CAS values other than 0: the
constructor builds such a table, `find`, `del`, `set` and `add` leave one, and
so does a write through a pointer of a record whose CAS is not 0 (as `lock`
and `unlock` of an entry, which leave the CAS alone). -/
theorem set_no_cas_on_locked (t : HashTable) (st : Statics) (now mint : Nat) (val : Item)
    (i : Nat) (v : StoredValue) (hwf : t.wf) (hf : t.featuredTable)
    (he : t.entryFor val.key i v) (hx : v.getExptime = 0 ∨ now ≤ v.getExptime)
    (hl : (v.isLocked now).1 = true) (hc0 : val.cas = 0) (hcas : v.getCas ≠ 0) :
    (∃ r, t.set st now mint val = some r ∧ r.rv = .IS_LOCKED ∧
      r.table.entry (t.bucket val.key) i = some v ∧ (v.isLocked now).1 = true ∧
      r.table.values = t.values ∧ r.statics = st ∧ r.itm = val ∧ r.table.featuredTable) ∧
    (t.casStamped →
      (∀ key n r, t.find st key n = some r → r.table.casStamped) ∧
      (∀ key n r, t.del st key n = some r → r.table.casStamped) ∧
      (∀ n m itm r, m ≠ 0 → t.set st n m itm = some r → r.table.casStamped) ∧
      (∀ n m itm d r, m ≠ 0 → t.add st n m itm d = some r → r.table.casStamped) ∧
      (∀ b j w, w.getCas ≠ 0 → (t.store b j w).casStamped)) ∧
    (∀ size n_locks t0, HashTable.construct size n_locks .featured = some t0 →
      t0.casStamped) := by
  have hcf : chainFind val.getKey (t.active.2.chain (t.bucket val.getKey)) = some (i, v) :=
    (HashTable.entryFor_iff t val.key i v).1 he
  have hnx : ¬ v.expired now := by unfold StoredValue.expired; omega
  have hc : val.getCas ≠ v.getCas := by
    show val.cas ≠ v.getCas
    omega
  refine ⟨?_, ?_, ?_⟩
  · rw [HashTable.set_eq t st now mint val hwf, HashTable.unlocked_find_hit _ _ _ _ _ _ _ hcf hnx]
    rcases HashTable.setAfterFind_hit ⟨some (i, v), t.active.2, st⟩ (t.bucket val.getKey) now
      mint i v val rfl with ⟨-, -, e⟩ | ⟨-, h2, -⟩ | ⟨h1, -, -, -⟩ | ⟨h1, -, -⟩
    · have hs : t.active.2.store (t.bucket val.getKey) i (v.isLocked now).2 = t.active.2 := by
        rw [isLocked_fst_true v now hl]
        exact HashTable.store_self t.active.2 _ _ _ he.1
      refine ⟨_, e, rfl, ?_, hl, ?_, rfl, rfl, ?_⟩
      · show (t.active.2.store (t.bucket val.getKey) i (v.isLocked now).2).entry _ i = some v
        rw [hs]; exact he.1
      · show (t.active.2.store (t.bucket val.getKey) i (v.isLocked now).2).values = t.values
        rw [hs]; rfl
      · show (t.active.2.store (t.bucket val.getKey) i (v.isLocked now).2).featuredTable
        rw [hs]; exact hf
    · exact absurd h2 hc
    · rw [hl] at h1; cases h1
    · rw [hl] at h1; cases h1
  · intro hs
    exact ⟨fun key n r h => HashTable.find_stamped t st key n r hs h,
      fun key n r h => HashTable.del_stamped t st key n r hs h,
      fun n m itm r hm h => HashTable.set_stamped t st n m itm r hs hm h,
      fun n m itm d r hm h => HashTable.add_stamped t st n m itm d r hs hm h,
      fun b j w hw => HashTable.casStamped_store t b j w hs hw⟩
  · intro size n_locks t0 h
    exact HashTable.construct_stamped size n_locks t0 h

/-- C12 at the table built by `set` at time 1 with minted CAS 42 and a lock
until time 100: the `set` at time 10 carrying CAS 0 is denied. -/
theorem set_no_cas_on_locked_witness :
    (sampleTable []).set sampleStatics 1 42 (sampleItem 0 0) =
      some ⟨.NOT_FOUND, (sampleItem 0 0).setCas 42, sampleTable [sampleStored 42 0 0],
        { maxDataSize := 100000, currentSize := 1065 }⟩ ∧
    (sampleTable [sampleStored 42 0 0]).store 1 0 ((sampleStored 42 0 0).lock 100) =
      sampleTable [(sampleStored 42 0 0).lock 100] ∧
    (sampleTable [(sampleStored 42 0 0).lock 100]).casStamped ∧
    ∃ r, (sampleTable [(sampleStored 42 0 0).lock 100]).set
        { maxDataSize := 100000, currentSize := 1065 } 10 43 (sampleItem 0 0) = some r ∧
      r.rv = .IS_LOCKED ∧
      r.table.entry ((sampleTable [(sampleStored 42 0 0).lock 100]).bucket (sampleItem 0 0).key)
        0 = some ((sampleStored 42 0 0).lock 100) ∧
      (((sampleStored 42 0 0).lock 100).isLocked 10).1 = true ∧
      r.table.values = (sampleTable [(sampleStored 42 0 0).lock 100]).values ∧
      r.statics = { maxDataSize := 100000, currentSize := 1065 } ∧ r.itm = sampleItem 0 0 ∧
      r.table.featuredTable :=
  ⟨by decide, by decide, by decide,
    (set_no_cas_on_locked (sampleTable [(sampleStored 42 0 0).lock 100])
      { maxDataSize := 100000, currentSize := 1065 } 10 43 (sampleItem 0 0) 0
      ((sampleStored 42 0 0).lock 100) (by decide) (by decide) (by decide) (by decide) (by decide)
      (by decide) (by decide)).1⟩

/-! ## Expired means absent -/

namespace StoredValue

theorem destroy_isLocked (v : StoredValue) (now : Nat) (st : Statics) :
    (v.isLocked now).2.destroy st = v.destroy st := by
  unfold destroy
  rw [size_isLocked]

end StoredValue

namespace HashTable

/-- What `unlocked_find` answers on the key's entry when it is expired and not
locked: a miss, the entry unlinked and destroyed. -/
theorem unlocked_find_expired_unlocked (t : HashTable) (st : Statics) (k : Key) (now i : Nat)
    (v : StoredValue) (he : t.entryFor k i v) (hx : v.expired now)
    (hl : (v.isLocked now).1 = false) :
    t.active.2.unlocked_find st k (t.bucket k) now =
      ⟨none, (t.setChain (t.bucket k) ((t.chain (t.bucket k)).eraseIdx i)).active.2,
        v.destroy st⟩ := by
  have hcf : chainFind k (t.active.2.chain (t.bucket k)) = some (i, v) :=
    (entryFor_iff t k i v).1 he
  rw [unlocked_find_expired _ _ _ _ _ _ _ hcf hx, unlocked_del_unlocked _ _ _ _ _ _ _ hcf hl,
    StoredValue.destroy_isLocked]
  rfl

/-- What `unlocked_find` answers once the key's only entry is taken out. -/
theorem unlocked_find_removed (t : HashTable) (st : Statics) (k : Key) (now i : Nat)
    (ho : t.onlyEntry k (t.bucket k) i) :
    (t.setChain (t.bucket k) ((t.chain (t.bucket k)).eraseIdx i)).active.2.unlocked_find st k
        (t.bucket k) now =
      ⟨none, (t.setChain (t.bucket k) ((t.chain (t.bucket k)).eraseIdx i)).active.2, st⟩ := by
  apply unlocked_find_miss
  exact chainFind_of_noEntry _ k _ (noEntry_erase t k _ i ho)

end HashTable

/-- C35, as stated, fails on a chain that holds two nodes for the key. `set`
at time 1 stores "a" with expiry time 5, and the entry is locked until time
7. At time 6 that entry is expired and still locked, so `set` (expiry time 7)
links a second node for "a" in front of it. At time 8 the entry of "a", the
first node, is expired and not locked. `set("a")` on this table unlinks it and
links the new record in front of the older node: two nodes, CAS 44 and 42.
On the table with the entry removed, the same `set` finds the older node
expired with its lock run out, unlinks it, and leaves one node, CAS 44. So do
the two calls of `add`. Removing the older node instead gives one node too. -/
theorem set_keeps_node_behind_expired :
    (sampleTable []).set sampleStatics 1 42 (sampleItem 0 5) =
        some ⟨.NOT_FOUND, (sampleItem 0 5).setCas 42, sampleTable [sampleStored 42 5 0],
          { maxDataSize := 100000, currentSize := 1065 }⟩ ∧
      (sampleTable [sampleStored 42 5 0]).store 1 0 ((sampleStored 42 5 0).lock 7) =
        sampleTable [(sampleStored 42 5 0).lock 7] ∧
      (sampleTable [(sampleStored 42 5 0).lock 7]).set
          { maxDataSize := 100000, currentSize := 1065 } 6 43 (sampleItem 0 7) =
        some ⟨.NOT_FOUND, (sampleItem 0 7).setCas 43,
          sampleTable [sampleStored 43 7 1, (sampleStored 42 5 0).lock 7],
          { maxDataSize := 100000, currentSize := 1130 }⟩ ∧
      (sampleTable [sampleStored 43 7 1, (sampleStored 42 5 0).lock 7]).entryFor [97] 0
        (sampleStored 43 7 1) ∧
      (sampleStored 43 7 1).expired 8 ∧ ((sampleStored 43 7 1).isLocked 8).1 = false ∧
      (sampleTable [sampleStored 43 7 1, (sampleStored 42 5 0).lock 7]).set
          { maxDataSize := 100000, currentSize := 1130 } 8 44 (sampleItem 0 0) =
        some ⟨.NOT_FOUND, (sampleItem 0 0).setCas 44,
          sampleTable [sampleStored 44 0 2, (sampleStored 42 5 0).lock 7],
          { maxDataSize := 100000, currentSize := 1130 }⟩ ∧
      (sampleTable [sampleStored 43 7 1, (sampleStored 42 5 0).lock 7]).setChain 1
          (((sampleTable [sampleStored 43 7 1, (sampleStored 42 5 0).lock 7]).chain 1).eraseIdx 0) =
        sampleTable [(sampleStored 42 5 0).lock 7] ∧
      (sampleStored 43 7 1).destroy { maxDataSize := 100000, currentSize := 1130 } =
        { maxDataSize := 100000, currentSize := 1065 } ∧
      (sampleTable [(sampleStored 42 5 0).lock 7]).set
          { maxDataSize := 100000, currentSize := 1065 } 8 44 (sampleItem 0 0) =
        some ⟨.NOT_FOUND, (sampleItem 0 0).setCas 44, sampleTable [sampleStored 44 0 2],
          { maxDataSize := 100000, currentSize := 1065 }⟩ ∧
      ((sampleTable [sampleStored 43 7 1, (sampleStored 42 5 0).lock 7]).add
          { maxDataSize := 100000, currentSize := 1130 } 8 44 (sampleItem 0 0) true).map
          (fun r => r.table) =
        some (sampleTable [sampleStored 44 0 2, (sampleStored 42 5 0).lock 7]) ∧
      ((sampleTable [(sampleStored 42 5 0).lock 7]).add
          { maxDataSize := 100000, currentSize := 1065 } 8 44 (sampleItem 0 0) true).map
          (fun r => r.table) =
        some (sampleTable [sampleStored 44 0 2]) ∧
      ((sampleTable [sampleStored 43 7 1]).set
          { maxDataSize := 100000, currentSize := 1065 } 8 44 (sampleItem 0 0)).map
          (fun r => r.table) =
        some (sampleTable [sampleStored 44 0 2]) := by
  decide

/-- C35 (amended): let the entry of the key of `val` be expired at the current
time and not locked, and be the only node carrying that key. Then `set(val)` and
`add(val)` give the same result (code, item, table, statics) as the same call
on the table with that entry unlinked and destroyed; the key has no entry in
that table; a `set` carrying a non-zero CAS returns `NOT_FOUND`; and for a key
of at most 255 bytes both calls return. -/
theorem expired_means_absent (t : HashTable) (st : Statics) (now mint : Nat) (val : Item)
    (d : Bool) (i : Nat) (v : StoredValue) (hwf : t.wf) (he : t.entryFor val.key i v)
    (ho : t.onlyEntry val.key (t.bucket val.key) i) (hx : v.expired now)
    (hl : (v.isLocked now).1 = false) :
    t.set st now mint val =
        (t.setChain (t.bucket val.key) ((t.chain (t.bucket val.key)).eraseIdx i)).set
          (v.destroy st) now mint val ∧
      t.add st now mint val d =
        (t.setChain (t.bucket val.key) ((t.chain (t.bucket val.key)).eraseIdx i)).add
          (v.destroy st) now mint val d ∧
      (t.setChain (t.bucket val.key) ((t.chain (t.bucket val.key)).eraseIdx i)).noEntry val.key ∧
      (val.cas ≠ 0 → ∃ r, t.set st now mint val = some r ∧ r.rv = .NOT_FOUND) ∧
      (val.key.length ≤ 255 →
        (∃ r, t.set st now mint val = some r) ∧ ∃ r, t.add st now mint val d = some r) := by
  have hwf1 := HashTable.wf_setChain t (t.bucket val.key)
    ((t.chain (t.bucket val.key)).eraseIdx i) hwf
  have h1 := HashTable.unlocked_find_expired_unlocked t st val.key now i v he hx hl
  have h2 := HashTable.unlocked_find_removed t (v.destroy st) val.key now i ho
  have hs : t.set st now mint val =
      HashTable.setAfterFind ⟨none,
        (t.setChain (t.bucket val.key) ((t.chain (t.bucket val.key)).eraseIdx i)).active.2,
        v.destroy st⟩ (t.bucket val.key) now mint val := by
    rw [HashTable.set_eq t st now mint val hwf]
    show HashTable.setAfterFind (t.active.2.unlocked_find st val.key (t.bucket val.key) now)
      (t.bucket val.key) now mint val = _
    rw [h1]
  refine ⟨?_, ?_, HashTable.noEntry_erase t val.key _ i ho, ?_, ?_⟩
  · rw [hs, HashTable.set_eq _ (v.destroy st) now mint val hwf1]
    show _ = HashTable.setAfterFind
      ((t.setChain (t.bucket val.key) ((t.chain (t.bucket val.key)).eraseIdx i)).active.2.unlocked_find
        (v.destroy st) val.key (t.bucket val.key) now) (t.bucket val.key) now mint val
    rw [h2]
  · rw [HashTable.add_eq t st now mint val d hwf,
      HashTable.add_eq _ (v.destroy st) now mint val d hwf1]
    show HashTable.addAfterFind (t.active.2.unlocked_find st val.key (t.bucket val.key) now)
        (t.bucket val.key) now mint val d =
      HashTable.addAfterFind
        ((t.setChain (t.bucket val.key)
          ((t.chain (t.bucket val.key)).eraseIdx i)).active.2.unlocked_find
          (v.destroy st) val.key (t.bucket val.key) now) (t.bucket val.key) now mint val d
    rw [h1, h2]
  · intro hc
    rw [hs]
    refine ⟨⟨.NOT_FOUND, val,
      (t.setChain (t.bucket val.key) ((t.chain (t.bucket val.key)).eraseIdx i)).active.2,
      v.destroy st⟩, ?_, rfl⟩
    have hc1 : val.getCas ≠ 0 := hc
    unfold HashTable.setAfterFind
    simp only
    rw [if_pos hc1]
  · intro hk
    exact ⟨HashTable.set_isSome t st now mint val hwf (by omega),
      HashTable.add_isSome t st now mint val d hwf (by omega)⟩

/-- C35 (amended) at the sample table whose only entry for "a" is expired at
time 10: a `set` carrying CAS 9 returns `NOT_FOUND` with the entry gone, as on the empty table. -/
theorem expired_means_absent_witness :
    (sampleTable [sampleEntry 5 5 0 false false]).set sampleStatics 10 42 (sampleItem 9 0) =
        some ⟨.NOT_FOUND, sampleItem 9 0, sampleTable [],
          { maxDataSize := 100000, currentSize := 934 }⟩ ∧
    ((sampleTable [sampleEntry 5 5 0 false false]).set sampleStatics 10 42 (sampleItem 9 0) =
        ((sampleTable [sampleEntry 5 5 0 false false]).setChain
          ((sampleTable [sampleEntry 5 5 0 false false]).bucket (sampleItem 9 0).key)
          (((sampleTable [sampleEntry 5 5 0 false false]).chain
            ((sampleTable [sampleEntry 5 5 0 false false]).bucket
              (sampleItem 9 0).key)).eraseIdx 0)).set
          ((sampleEntry 5 5 0 false false).destroy sampleStatics) 10 42 (sampleItem 9 0) ∧
      (sampleTable [sampleEntry 5 5 0 false false]).add sampleStatics 10 42 (sampleItem 9 0)
          true =
        ((sampleTable [sampleEntry 5 5 0 false false]).setChain
          ((sampleTable [sampleEntry 5 5 0 false false]).bucket (sampleItem 9 0).key)
          (((sampleTable [sampleEntry 5 5 0 false false]).chain
            ((sampleTable [sampleEntry 5 5 0 false false]).bucket
              (sampleItem 9 0).key)).eraseIdx 0)).add
          ((sampleEntry 5 5 0 false false).destroy sampleStatics) 10 42 (sampleItem 9 0) true ∧
      ((sampleTable [sampleEntry 5 5 0 false false]).setChain
          ((sampleTable [sampleEntry 5 5 0 false false]).bucket (sampleItem 9 0).key)
          (((sampleTable [sampleEntry 5 5 0 false false]).chain
            ((sampleTable [sampleEntry 5 5 0 false false]).bucket
              (sampleItem 9 0).key)).eraseIdx 0)).noEntry (sampleItem 9 0).key ∧
      ((sampleItem 9 0).cas ≠ 0 →
        ∃ r, (sampleTable [sampleEntry 5 5 0 false false]).set sampleStatics 10 42
          (sampleItem 9 0) = some r ∧ r.rv = .NOT_FOUND) ∧
      ((sampleItem 9 0).key.length ≤ 255 →
        (∃ r, (sampleTable [sampleEntry 5 5 0 false false]).set sampleStatics 10 42
          (sampleItem 9 0) = some r) ∧
        ∃ r, (sampleTable [sampleEntry 5 5 0 false false]).add sampleStatics 10 42
          (sampleItem 9 0) true = some r)) :=
  ⟨by decide,
    expired_means_absent (sampleTable [sampleEntry 5 5 0 false false]) sampleStatics 10 42
      (sampleItem 9 0) true 0 (sampleEntry 5 5 0 false false) (by decide) (by decide)
      (HashTable.onlyEntry_sampleTable _ _) (by decide) (by decide)⟩

/-! ## Per-key serialization -/

namespace HashTable

theorem getMutex_of_dims (t t1 : HashTable) (h1 : t1.size = t.size)
    (h2 : t1.n_locks = t.n_locks) (b : Nat) : t1.getMutex b = t.getMutex b := by
  unfold getMutex mutexForBucket getMutexForLock
  rw [h1, h2]

theorem set_dims (t : HashTable) (st : Statics) (now mint : Nat) (val : Item) (r : SetResult)
    (h : t.set st now mint val = some r) :
    r.table.size = t.size ∧ r.table.n_locks = t.n_locks ∧
      r.table.values.length = t.values.length := by
  have hk : KeepsKeys t (t.active.2.unlocked_find st val.getKey (t.bucket val.getKey) now).table :=
    KeepsKeys.trans _ _ _ (KeepsKeys.active t) (unlocked_find_keeps t.active.2 st _ _ now)
  rcases set_shape t st now mint val r h with k | ⟨-, w, st1, -, e⟩
  · obtain ⟨a1, a2, a3, -⟩ := KeepsKeys.embed t _ k
    exact ⟨a1, a2, a3⟩
  · obtain ⟨a1, a2, a3, -⟩ := KeepsKeys.embed t _ hk
    rw [e]
    refine ⟨a1, a2, ?_⟩
    rw [values_setChain, List.length_set]
    exact a3

theorem add_dims (t : HashTable) (st : Statics) (now mint : Nat) (val : Item) (d : Bool)
    (r : AddResult) (h : t.add st now mint val d = some r) :
    r.table.size = t.size ∧ r.table.n_locks = t.n_locks ∧
      r.table.values.length = t.values.length := by
  have hk : KeepsKeys t (t.active.2.unlocked_find st val.getKey (t.bucket val.getKey) now).table :=
    KeepsKeys.trans _ _ _ (KeepsKeys.active t) (unlocked_find_keeps t.active.2 st _ _ now)
  rcases add_shape t st now mint val d r h with k | ⟨-, w, st1, -, e⟩
  · obtain ⟨a1, a2, a3, -⟩ := KeepsKeys.embed t _ k
    exact ⟨a1, a2, a3⟩
  · obtain ⟨a1, a2, a3, -⟩ := KeepsKeys.embed t _ hk
    rw [e]
    refine ⟨a1, a2, ?_⟩
    rw [values_setChain, List.length_set]
    exact a3

/-- No call changes the number of buckets or of locks. -/
theorem applyOp_dims (t : HashTable) (st : Statics) (op : HashTableOp) (t1 : HashTable)
    (st1 : Statics) (h : t.applyOp st op = some (t1, st1)) :
    t1.size = t.size ∧ t1.n_locks = t.n_locks ∧ t1.values.length = t.values.length := by
  cases op with
  | set now mint val =>
    simp only [applyOp, Option.map_eq_some', Prod.mk.injEq] at h
    obtain ⟨r, hr, e, -⟩ := h
    rw [← e]
    exact set_dims t st now mint val r hr
  | add now mint val d =>
    simp only [applyOp, Option.map_eq_some', Prod.mk.injEq] at h
    obtain ⟨r, hr, e, -⟩ := h
    rw [← e]
    exact add_dims t st now mint val d r hr
  | del key now =>
    simp only [applyOp, Option.map_eq_some', Prod.mk.injEq] at h
    obtain ⟨r, hr, e, -⟩ := h
    rw [← e]
    obtain ⟨a1, a2, a3, -⟩ := KeepsKeys.embed t _ (del_keeps t st key now r hr)
    exact ⟨a1, a2, a3⟩
  | find key now =>
    simp only [applyOp, Option.map_eq_some', Prod.mk.injEq] at h
    obtain ⟨r, hr, e, -⟩ := h
    rw [← e]
    obtain ⟨a1, a2, a3, -⟩ := KeepsKeys.embed t _ (find_keeps t st key now r hr)
    exact ⟨a1, a2, a3⟩

theorem applyOp_wf (t : HashTable) (st : Statics) (op : HashTableOp) (t1 : HashTable)
    (st1 : Statics) (hwf : t.wf) (h : t.applyOp st op = some (t1, st1)) : t1.wf := by
  obtain ⟨a1, a2, a3⟩ := applyOp_dims t st op t1 st1 h
  obtain ⟨h0, h1, h2, h3, h4⟩ := hwf
  exact ⟨by omega, by omega, by omega, by omega, by omega⟩

/-- On a well-formed table the part of a call under the mutex, run on the
table `active()` left, is the call. -/
theorem lockedPart_eq_applyOp (t : HashTable) (st : Statics) (op : HashTableOp) (hwf : t.wf) :
    t.active.2.lockedPart st (t.bucket op.key) op = t.applyOp st op := by
  cases op with
  | set now mint val =>
    show (setAfterFind _ _ _ _ _).map _ = (t.set st now mint val).map _
    rw [set_eq t st now mint val hwf]
    rfl
  | add now mint val d =>
    show (addAfterFind _ _ _ _ _ _).map _ = (t.add st now mint val d).map _
    rw [add_eq t st now mint val d hwf]
    rfl
  | del key now =>
    show some _ = (t.del st key now).map _
    rw [del_eq t st key now hwf]
    rfl
  | find key now =>
    show some _ = (t.find st key now).map _
    rw [find_eq t st key now hwf]
    rfl

/-- A call returns on a well-formed table when its key has at most 255
bytes. -/
theorem applyOp_isSome (t : HashTable) (st : Statics) (op : HashTableOp) (hwf : t.wf)
    (hk : op.key.length ≤ 255) : ∃ p, t.applyOp st op = some p := by
  cases op with
  | set now mint val =>
    obtain ⟨r, hr⟩ := set_isSome t st now mint val hwf (by
      show val.getKey.length < 256
      have : val.getKey.length ≤ 255 := hk
      omega)
    exact ⟨(r.table, r.statics), by simp only [applyOp, hr, Option.map_some']⟩
  | add now mint val d =>
    obtain ⟨r, hr⟩ := add_isSome t st now mint val d hwf (by
      show val.getKey.length < 256
      have : val.getKey.length ≤ 255 := hk
      omega)
    exact ⟨(r.table, r.statics), by simp only [applyOp, hr, Option.map_some']⟩
  | del key now =>
    simp only [applyOp, del_eq t st key now hwf, Option.map_some']
    exact ⟨_, rfl⟩
  | find key now =>
    simp only [applyOp, find_eq t st key now hwf, Option.map_some']
    exact ⟨_, rfl⟩

end HashTable

namespace TwoThreads

theorem bool_cases (tid x : Bool) : tid = x ∨ tid = !x := by
  cases tid <;> cases x <;> simp

theorem not_ne (x : Bool) : (!x) ≠ x := by
  cases x <;> decide

theorem step_start (s : TwoThreads) (tid : Bool) (l : Int) (hpc : s.pc tid = .start)
    (hm : s.table.active.2.getMutex (s.table.bucket (s.op tid).key) = some l) :
    s.step tid =
      if l ∈ s.held then none
      else some { s with table := s.table.active.2, held := l :: s.held,
                         acquired := s.acquired ++ [tid],
                         pc := Function.update s.pc tid
                           (.locked (s.table.bucket (s.op tid).key) l) } := by
  unfold step
  rw [hpc]
  simp only
  rw [HashTable.active_eq]
  simp only [Bool.not_true, Bool.false_eq_true, if_false, HashTable.bucket_active, hm]

theorem step_locked (s : TwoThreads) (tid : Bool) (b : Nat) (l : Int) (t1 : HashTable)
    (st1 : Statics) (hpc : s.pc tid = .locked b l)
    (hp : s.table.lockedPart s.statics b (s.op tid) = some (t1, st1)) :
    s.step tid = some { s with table := t1, statics := st1,
                               pc := Function.update s.pc tid (.ran l) } := by
  unfold step
  rw [hpc]
  simp only [hp]

theorem step_locked_none (s : TwoThreads) (tid : Bool) (b : Nat) (l : Int)
    (hpc : s.pc tid = .locked b l)
    (hp : s.table.lockedPart s.statics b (s.op tid) = none) : s.step tid = none := by
  unfold step
  rw [hpc]
  simp only [hp]

theorem step_ran (s : TwoThreads) (tid : Bool) (l : Int) (hpc : s.pc tid = .ran l) :
    s.step tid = some { s with held := s.held.erase l,
                               pc := Function.update s.pc tid .returned } := by
  unfold step
  rw [hpc]

theorem step_returned (s : TwoThreads) (tid : Bool) (hpc : s.pc tid = .returned) :
    s.step tid = none := by
  unfold step
  rw [hpc]

end TwoThreads

namespace TwoThreads

theorem mutex_same (t T : HashTable) (k : Key) (b : Nat) (l : Int) (hsz : T.size = t.size)
    (hn : T.n_locks = t.n_locks) (hb : t.bucket k = b) (hl : t.active.2.getMutex b = some l) :
    T.active.2.getMutex (T.bucket k) = some l := by
  rw [HashTable.bucket_of_size t T hsz, hb,
    HashTable.getMutex_of_dims t.active.2 T.active.2 hsz hn]
  exact hl

/-- A step leads from a stage of a serial run to a stage of that run. -/
theorem step_stage (t : HashTable) (st : Statics) (x : Bool) (b : Nat) (l : Int)
    (s s1 : TwoThreads) (tid : Bool) (hwf : t.wf) (hb : t.bucket (s.op x).key = b)
    (hk : (s.op (!x)).key = (s.op x).key) (hl : t.active.2.getMutex b = some l)
    (hs : Stage t st x b l s) (h : s.step tid = some s1) :
    Stage t st x b l s1 ∧ s1.op = s.op := by
  have hxy := not_ne x
  have hyx : x ≠ (!x) := fun e => hxy e.symm
  have hby : t.bucket (s.op (!x)).key = b := by rw [hk]; exact hb
  rcases hs with ⟨e1, e2, e3, e4, e5, e6⟩ | ⟨tx, stx, hax, hs⟩
  · rcases bool_cases tid x with e | e <;> subst e
    · have hp : s.table.lockedPart s.statics b (s.op tid) = t.applyOp st (s.op tid) := by
        rw [e1, e2, ← hb]
        exact HashTable.lockedPart_eq_applyOp t st _ hwf
      cases happ : t.applyOp st (s.op tid) with
      | none =>
        rw [step_locked_none s tid b l e4 (hp.trans happ)] at h
        cases h
      | some p =>
        obtain ⟨tx, stx⟩ := p
        rw [step_locked s tid b l tx stx e4 (hp.trans happ)] at h
        have := Option.some.inj h
        subst this
        exact ⟨Or.inr ⟨tx, stx, happ, Or.inl ⟨rfl, rfl, e3, Function.update_same _ _ _,
          (Function.update_noteq hxy _ _).trans e5, e6⟩⟩, rfl⟩
    · have hm : s.table.active.2.getMutex (s.table.bucket (s.op (!x)).key) = some l := by
        rw [e1]
        exact mutex_same t t.active.2 _ b l rfl rfl hby hl
      rw [step_start s (!x) l e5 hm, e3] at h
      simp at h
  · have hd := HashTable.applyOp_dims t st _ tx stx hax
    have hwfx := HashTable.applyOp_wf t st _ tx stx hwf hax
    have hbx : tx.bucket (s.op (!x)).key = b := by
      rw [HashTable.bucket_of_size t tx hd.1]; exact hby
    rcases hs with ⟨e1, e2, e3, e4, e5, e6⟩ | ⟨e1, e2, e3, e4, e5, e6⟩ |
      ⟨e1, e2, e3, e4, e5, e6⟩ | ⟨ty, sty, hay, e1, e2, e4, e6, hs⟩
    · rcases bool_cases tid x with e | e <;> subst e
      · rw [step_ran s tid l e4] at h
        have := Option.some.inj h
        subst this
        refine ⟨Or.inr ⟨tx, stx, hax, Or.inr (Or.inl ⟨e1, e2, ?_, Function.update_same _ _ _,
          (Function.update_noteq hxy _ _).trans e5, e6⟩)⟩, rfl⟩
        show s.held.erase l = []
        rw [e3]
        simp
      · have hm : s.table.active.2.getMutex (s.table.bucket (s.op (!x)).key) = some l := by
          rw [e1]
          exact mutex_same t tx _ b l hd.1 hd.2.1 hby hl
        rw [step_start s (!x) l e5 hm, e3] at h
        simp at h
    · rcases bool_cases tid x with e | e <;> subst e
      · rw [step_returned s tid e4] at h
        cases h
      · have hm : s.table.active.2.getMutex (s.table.bucket (s.op (!x)).key) = some l := by
          rw [e1]
          exact mutex_same t tx _ b l hd.1 hd.2.1 hby hl
        rw [step_start s (!x) l e5 hm, e3] at h
        simp only [List.not_mem_nil, if_false] at h
        have := Option.some.inj h
        subst this
        refine ⟨Or.inr ⟨tx, stx, hax, Or.inr (Or.inr (Or.inl ⟨?_, e2, rfl, ?_, ?_, ?_⟩))⟩, rfl⟩
        · show s.table.active.2 = tx.active.2
          rw [e1]
        · exact (Function.update_noteq hyx _ _).trans e4
        · show Function.update s.pc (!x) _ (!x) = _
          rw [Function.update_same, e1, hbx]
        · show s.acquired ++ [!x] = [x, !x]
          rw [e6]
          rfl
    · rcases bool_cases tid x with e | e <;> subst e
      · rw [step_returned s tid e4] at h
        cases h
      · have hp : s.table.lockedPart s.statics b (s.op (!x)) = tx.applyOp stx (s.op (!x)) := by
          rw [e1, e2, ← hbx]
          exact HashTable.lockedPart_eq_applyOp tx stx _ hwfx
        cases happ : tx.applyOp stx (s.op (!x)) with
        | none =>
          rw [step_locked_none s (!x) b l e5 (hp.trans happ)] at h
          cases h
        | some p =>
          obtain ⟨ty, sty⟩ := p
          rw [step_locked s (!x) b l ty sty e5 (hp.trans happ)] at h
          have := Option.some.inj h
          subst this
          exact ⟨Or.inr ⟨tx, stx, hax, Or.inr (Or.inr (Or.inr ⟨ty, sty, happ, rfl, rfl,
            (Function.update_noteq hyx _ _).trans e4, e6,
            Or.inl ⟨e3, Function.update_same _ _ _⟩⟩))⟩, rfl⟩
    · rcases hs with ⟨e3, e5⟩ | ⟨e3, e5⟩
      · rcases bool_cases tid x with e | e <;> subst e
        · rw [step_returned s tid e4] at h
          cases h
        · rw [step_ran s (!x) l e5] at h
          have := Option.some.inj h
          subst this
          refine ⟨Or.inr ⟨tx, stx, hax, Or.inr (Or.inr (Or.inr ⟨ty, sty, hay, e1, e2,
            (Function.update_noteq hyx _ _).trans e4, e6,
            Or.inr ⟨?_, Function.update_same _ _ _⟩⟩))⟩, rfl⟩
          show s.held.erase l = []
          rw [e3]
          simp
      · rcases bool_cases tid x with e | e <;> subst e
        · rw [step_returned s tid e4] at h
          cases h
        · rw [step_returned s (!x) e5] at h
          cases h

end TwoThreads

namespace TwoThreads

theorem run_stage (t : HashTable) (st : Statics) (x : Bool) (b : Nat) (l : Int)
    (sched : List Bool) (s s1 : TwoThreads) (hwf : t.wf) (hb : t.bucket (s.op x).key = b)
    (hk : (s.op (!x)).key = (s.op x).key) (hl : t.active.2.getMutex b = some l)
    (hs : Stage t st x b l s) (h : run sched s = some s1) :
    Stage t st x b l s1 ∧ s1.op = s.op := by
  induction sched generalizing s with
  | nil =>
    have := Option.some.inj h
    subst this
    exact ⟨hs, rfl⟩
  | cons tid rest ih =>
    unfold run at h
    cases hstep : s.step tid with
    | none => rw [hstep] at h; cases h
    | some s2 =>
      rw [hstep] at h
      simp only at h
      obtain ⟨hs2, hop⟩ := step_stage t st x b l s s2 tid hwf hb hk hl hs hstep
      obtain ⟨r1, r2⟩ := ih s2 (by rw [hop]; exact hb) (by rw [hop]; exact hk) hs2 h
      exact ⟨r1, r2.trans hop⟩

theorem fwd_start (s : TwoThreads) (tid : Bool) (l : Int) (hpc : s.pc tid = .start)
    (hm : s.table.active.2.getMutex (s.table.bucket (s.op tid).key) = some l)
    (hfree : l ∉ s.held) :
    ∃ s1, s.step tid = some s1 ∧ s1.table = s.table.active.2 ∧ s1.statics = s.statics ∧
      s1.held = l :: s.held ∧ s1.acquired = s.acquired ++ [tid] ∧ s1.op = s.op ∧
      s1.pc tid = .locked (s.table.bucket (s.op tid).key) l ∧
      ∀ o, o ≠ tid → s1.pc o = s.pc o := by
  refine ⟨{ s with table := s.table.active.2, held := l :: s.held,
                   acquired := s.acquired ++ [tid],
                   pc := Function.update s.pc tid
                     (.locked (s.table.bucket (s.op tid).key) l) },
    ?_, rfl, rfl, rfl, rfl, rfl, Function.update_same _ _ _,
    fun _ ho => Function.update_noteq ho _ _⟩
  rw [step_start s tid l hpc hm, if_neg hfree]

theorem fwd_locked (s : TwoThreads) (tid : Bool) (b : Nat) (l : Int) (t1 : HashTable)
    (st1 : Statics) (hpc : s.pc tid = .locked b l)
    (hp : s.table.lockedPart s.statics b (s.op tid) = some (t1, st1)) :
    ∃ s1, s.step tid = some s1 ∧ s1.table = t1 ∧ s1.statics = st1 ∧ s1.held = s.held ∧
      s1.acquired = s.acquired ∧ s1.op = s.op ∧ s1.pc tid = .ran l ∧
      ∀ o, o ≠ tid → s1.pc o = s.pc o :=
  ⟨_, step_locked s tid b l t1 st1 hpc hp, rfl, rfl, rfl, rfl, rfl,
    Function.update_same _ _ _, fun _ ho => Function.update_noteq ho _ _⟩

theorem fwd_ran (s : TwoThreads) (tid : Bool) (l : Int) (hpc : s.pc tid = .ran l) :
    ∃ s1, s.step tid = some s1 ∧ s1.table = s.table ∧ s1.statics = s.statics ∧
      s1.held = s.held.erase l ∧ s1.acquired = s.acquired ∧ s1.op = s.op ∧
      s1.pc tid = .returned ∧ ∀ o, o ≠ tid → s1.pc o = s.pc o :=
  ⟨_, step_ran s tid l hpc, rfl, rfl, rfl, rfl, rfl,
    Function.update_same _ _ _, fun _ ho => Function.update_noteq ho _ _⟩

/-- The first step from the initial state: a thread takes the mutex of the
key's bucket. -/
theorem init_step (t : HashTable) (st : Statics) (op0 op1 : HashTableOp) (tid : Bool)
    (s1 : TwoThreads) (l : Int)
    (hl : t.active.2.getMutex (t.bucket ((init t st op0 op1).op tid).key) = some l)
    (h : (init t st op0 op1).step tid = some s1) :
    Stage t st tid (t.bucket ((init t st op0 op1).op tid).key) l s1 ∧
      s1.op = (init t st op0 op1).op := by
  obtain ⟨s2, h2, a1, a2, a3, a4, a5, a6, a7⟩ :=
    fwd_start (init t st op0 op1) tid l rfl hl (by simp [init])
  rw [h2] at h
  have := Option.some.inj h
  subst this
  exact ⟨Or.inl ⟨a1, a2, a3, a6, (a7 _ (not_ne tid)), a4⟩, a5⟩

/-- The serial schedule runs to the end when both calls return. -/
theorem run_serial (t : HashTable) (st : Statics) (op0 op1 : HashTableOp) (x : Bool)
    (tx ty : HashTable) (stx sty : Statics) (hwf : t.wf)
    (hk : ((init t st op0 op1).op (!x)).key = ((init t st op0 op1).op x).key)
    (hax : t.applyOp st ((init t st op0 op1).op x) = some (tx, stx))
    (hay : tx.applyOp stx ((init t st op0 op1).op (!x)) = some (ty, sty)) :
    ∃ s, run (serial x) (init t st op0 op1) = some s ∧ s.table = ty ∧ s.statics = sty ∧
      s.held = [] ∧ s.pc x = .returned ∧ s.pc (!x) = .returned ∧ s.acquired = [x, !x] := by
  have hxy := not_ne x
  have hyx : x ≠ (!x) := fun e => hxy e.symm
  obtain ⟨l, hl⟩ := HashTable.getMutex_bucket t ((init t st op0 op1).op x).key hwf
  have hd := HashTable.applyOp_dims t st _ tx stx hax
  have hwfx := HashTable.applyOp_wf t st _ tx stx hwf hax
  obtain ⟨s1, h1, a1, a2, a3, a4, a5, a6, a7⟩ :=
    fwd_start (init t st op0 op1) x l rfl hl (by simp [init])
  have hp1 : s1.table.lockedPart s1.statics (t.bucket ((init t st op0 op1).op x).key)
      (s1.op x) = some (tx, stx) := by
    rw [a1, a2, a5]
    exact (HashTable.lockedPart_eq_applyOp t st _ hwf).trans hax
  obtain ⟨s2, h2, b1, b2, b3, b4, b5, b6, b7⟩ := fwd_locked s1 x _ l tx stx a6 hp1
  obtain ⟨s3, h3, c1, c2, c3, c4, c5, c6, c7⟩ := fwd_ran s2 x l b6
  have hpc3 : s3.pc (!x) = .start := by
    rw [c7 _ hxy, b7 _ hxy, a7 _ hxy]
    rfl
  have hbk : t.bucket ((init t st op0 op1).op (!x)).key =
      t.bucket ((init t st op0 op1).op x).key := by rw [hk]
  have hm3 : s3.table.active.2.getMutex (s3.table.bucket (s3.op (!x)).key) = some l := by
    rw [c1, b1, c5, b5, a5]
    exact mutex_same t tx _ _ l hd.1 hd.2.1 hbk hl
  have hheld3 : s3.held = [] := by
    rw [c3, b3, a3]
    simp [init]
  obtain ⟨s4, h4, d1, d2, d3, d4, d5, d6, d7⟩ :=
    fwd_start s3 (!x) l hpc3 hm3 (by rw [hheld3]; simp)
  have hp4 : s4.table.lockedPart s4.statics (s3.table.bucket (s3.op (!x)).key) (s4.op (!x)) =
      some (ty, sty) := by
    rw [d1, d2, d5, c1, c2, c5, b1, b2, b5, a5]
    exact (HashTable.lockedPart_eq_applyOp tx stx _ hwfx).trans hay
  obtain ⟨s5, h5, e1, e2, e3, e4, e5, e6, e7⟩ := fwd_locked s4 (!x) _ l ty sty d6 hp4
  obtain ⟨s6, h6, f1, f2, f3, f4, f5, f6, f7⟩ := fwd_ran s5 (!x) l e6
  refine ⟨s6, ?_, f1.trans e1, f2.trans e2, ?_, ?_, f6, ?_⟩
  · simp only [serial, run, h1, h2, h3, h4, h5, h6]
  · rw [f3, e3, d3, hheld3]
    simp
  · rw [f7 _ hyx, e7 _ hyx, d7 _ hyx]
    exact c6
  · rw [f4, e4, d4, c4, b4, a4]
    rfl

end TwoThreads

namespace TwoThreads

/-- While one thread holds the mutex of the key, the other cannot take it. -/
theorem run_blocked (t : HashTable) (st : Statics) (op0 op1 : HashTableOp) (x : Bool)
    (hwf : t.wf)
    (hk : ((init t st op0 op1).op (!x)).key = ((init t st op0 op1).op x).key) :
    run [x, !x] (init t st op0 op1) = none := by
  have hxy := not_ne x
  obtain ⟨l, hl⟩ := HashTable.getMutex_bucket t ((init t st op0 op1).op x).key hwf
  obtain ⟨s1, h1, a1, a2, a3, a4, a5, a6, a7⟩ :=
    fwd_start (init t st op0 op1) x l rfl hl (by simp [init])
  have hbk : t.bucket ((init t st op0 op1).op (!x)).key =
      t.bucket ((init t st op0 op1).op x).key := by rw [hk]
  have hm1 : s1.table.active.2.getMutex (s1.table.bucket (s1.op (!x)).key) = some l := by
    rw [a1, a5]
    exact mutex_same t t.active.2 _ _ l rfl rfl hbk hl
  have hpc1 : s1.pc (!x) = .start := by
    rw [a7 _ hxy]
    rfl
  have hb1 : s1.step (!x) = none := by
    rw [step_start s1 (!x) l hpc1 hm1, a3]
    simp
  simp only [run, h1, hb1]

/-- What holds in every stage of a serial run. -/
theorem stage_facts (t : HashTable) (st : Statics) (x : Bool) (b : Nat) (l : Int)
    (s : TwoThreads) (hs : Stage t st x b l s) :
    ¬ (s.inCritical x = true ∧ s.inCritical (!x) = true) ∧
      (s.pc x = .returned → s.pc (!x) = .returned →
        s.acquired = [x, !x] ∧
        HashTable.runOps [s.op x, s.op (!x)] t st = some (s.table, s.statics)) ∧
      (∀ z, s.acquired = [z, !z] → s.pc z = .returned) ∧ s.held.length ≤ 1 := by
  rcases hs with ⟨e1, e2, e3, e4, e5, e6⟩ | ⟨tx, stx, hax, hs⟩
  · refine ⟨by simp [inCritical, e4, e5], ?_, ?_, by rw [e3]; simp⟩
    · intro h; rw [e4] at h; cases h
    · intro z hz; rw [e6] at hz; simp at hz
  · rcases hs with ⟨e1, e2, e3, e4, e5, e6⟩ | ⟨e1, e2, e3, e4, e5, e6⟩ |
      ⟨e1, e2, e3, e4, e5, e6⟩ | ⟨ty, sty, hay, e1, e2, e4, e6, hs⟩
    · refine ⟨by simp [inCritical, e4, e5], ?_, ?_, by rw [e3]; simp⟩
      · intro h; rw [e4] at h; cases h
      · intro z hz; rw [e6] at hz; simp at hz
    · refine ⟨by simp [inCritical, e4, e5], ?_, ?_, by rw [e3]; simp⟩
      · intro _ h; rw [e5] at h; cases h
      · intro z hz; rw [e6] at hz; simp at hz
    · refine ⟨by simp [inCritical, e4, e5], ?_, ?_, by rw [e3]; simp⟩
      · intro _ h; rw [e5] at h; cases h
      · intro z hz
        rw [e6] at hz
        simp only [List.cons.injEq, and_true] at hz
        rw [← hz.1]
        exact e4
    · have hz : ∀ z, s.acquired = [z, !z] → s.pc z = .returned := by
        intro z hz
        rw [e6] at hz
        simp only [List.cons.injEq, and_true] at hz
        rw [← hz.1]
        exact e4
      have hseq : HashTable.runOps [s.op x, s.op (!x)] t st = some (s.table, s.statics) := by
        simp only [HashTable.runOps, hax, hay, e1, e2]
      rcases hs with ⟨e3, e5⟩ | ⟨e3, e5⟩
      · exact ⟨by simp [inCritical, e4, e5], fun _ _ => ⟨e6, hseq⟩, hz, by rw [e3]; simp⟩
      · exact ⟨by simp [inCritical, e4, e5], fun _ _ => ⟨e6, hseq⟩, hz, by rw [e3]; simp⟩

end TwoThreads

/-- C33: two threads call `find`, `set`, `add` or `del` for the same key on a
well-formed table; each call takes the mutex of the key's bucket before its
unlocked part and gives it back when it returns. Whatever the order `sched`
in which the threads take their steps: the two threads are never both
between taking the mutex and returning; a second thread takes the mutex only
after the first has returned; and when both have returned, the table and the
statics are those of the two calls executed one after the other in the order
in which the threads took the mutex. While one thread holds the mutex the
other cannot take it, and for keys of at most 255 bytes each of the two
serial orders runs to the end. -/
theorem same_key_serialized (t : HashTable) (st : Statics) (op0 op1 : HashTableOp)
    (sched : List Bool) (s : TwoThreads) (hwf : t.wf) (hk : op0.key = op1.key)
    (hrun : TwoThreads.run sched (TwoThreads.init t st op0 op1) = some s) :
    ¬ (s.inCritical false = true ∧ s.inCritical true = true) ∧
      (∀ z, s.acquired = [z, !z] → s.pc z = .returned) ∧
      (s.pc false = .returned → s.pc true = .returned →
        (s.acquired = [false, true] ∧
          HashTable.runOps [op0, op1] t st = some (s.table, s.statics)) ∨
        (s.acquired = [true, false] ∧
          HashTable.runOps [op1, op0] t st = some (s.table, s.statics))) ∧
      (∀ x, TwoThreads.run [x, !x] (TwoThreads.init t st op0 op1) = none) ∧
      (op0.key.length ≤ 255 →
        ∀ x, ∃ s1, TwoThreads.run (TwoThreads.serial x) (TwoThreads.init t st op0 op1) =
          some s1 ∧ s1.pc false = .returned ∧ s1.pc true = .returned) := by
  have hkx : ∀ x, ((TwoThreads.init t st op0 op1).op (!x)).key =
      ((TwoThreads.init t st op0 op1).op x).key := by
    intro x
    cases x
    · exact hk.symm
    · exact hk
  have hmain : ¬ (s.inCritical false = true ∧ s.inCritical true = true) ∧
      (∀ z, s.acquired = [z, !z] → s.pc z = .returned) ∧
      (s.pc false = .returned → s.pc true = .returned →
        (s.acquired = [false, true] ∧
          HashTable.runOps [op0, op1] t st = some (s.table, s.statics)) ∨
        (s.acquired = [true, false] ∧
          HashTable.runOps [op1, op0] t st = some (s.table, s.statics))) := by
    cases sched with
    | nil =>
      have := Option.some.inj hrun
      subst this
      refine ⟨by simp [TwoThreads.inCritical, TwoThreads.init], ?_, ?_⟩
      · intro z hz
        simp [TwoThreads.init] at hz
      · intro h
        simp [TwoThreads.init] at h
    | cons x rest =>
      unfold TwoThreads.run at hrun
      cases hstep : (TwoThreads.init t st op0 op1).step x with
      | none => rw [hstep] at hrun; cases hrun
      | some s1 =>
        rw [hstep] at hrun
        simp only at hrun
        obtain ⟨l, hl⟩ :=
          HashTable.getMutex_bucket t ((TwoThreads.init t st op0 op1).op x).key hwf
        obtain ⟨hs1, hop1⟩ := TwoThreads.init_step t st op0 op1 x s1 l hl hstep
        obtain ⟨hs, hop⟩ := TwoThreads.run_stage t st x _ l rest s1 s hwf
          (by rw [hop1]) (by rw [hop1]; exact hkx x) hl hs1 hrun
        obtain ⟨f1, f2, f3, -⟩ := TwoThreads.stage_facts t st x _ l s hs
        have hops : s.op = (TwoThreads.init t st op0 op1).op := hop.trans hop1
        rw [hops] at f2
        cases x
        · refine ⟨f1, f3, fun h0 h1 => Or.inl (f2 h0 h1)⟩
        · refine ⟨fun h => f1 ⟨h.2, h.1⟩, f3, fun h0 h1 => Or.inr (f2 h1 h0)⟩
  refine ⟨hmain.1, hmain.2.1, hmain.2.2, ?_, ?_⟩
  · intro x
    exact TwoThreads.run_blocked t st op0 op1 x hwf (hkx x)
  · intro hlen x
    have hlen1 : ∀ z, ((TwoThreads.init t st op0 op1).op z).key.length ≤ 255 := by
      intro z
      cases z
      · exact hlen
      · show op1.key.length ≤ 255
        rw [← hk]
        exact hlen
    obtain ⟨⟨tx, stx⟩, hax⟩ := HashTable.applyOp_isSome t st _ hwf (hlen1 x)
    obtain ⟨⟨ty, sty⟩, hay⟩ := HashTable.applyOp_isSome tx stx _
      (HashTable.applyOp_wf t st _ tx stx hwf hax) (hlen1 (!x))
    obtain ⟨s1, h1, -, -, -, p1, p2, -⟩ :=
      TwoThreads.run_serial t st op0 op1 x tx ty stx sty hwf (hkx x) hax hay
    refine ⟨s1, h1, ?_, ?_⟩
    · cases x
      · exact p1
      · exact p2
    · cases x
      · exact p2
      · exact p1


/-- C33 at the empty sample table: thread `false` stores "a", thread `true`
deletes "a". In the serial run in which the deleting thread takes the mutex
first the table ends as after `del` then `set`. -/
theorem same_key_serialized_witness :
    ∃ s, TwoThreads.run (TwoThreads.serial true)
        (TwoThreads.init (sampleTable []) sampleStatics (.set 10 42 (sampleItem 0 0))
          (.del [97] 11)) = some s ∧
      s.table = sampleInserted.table ∧ s.statics = sampleInserted.statics ∧
      s.acquired = [true, false] ∧
      (¬ (s.inCritical false = true ∧ s.inCritical true = true) ∧
        (∀ z, s.acquired = [z, !z] → s.pc z = .returned) ∧
        (s.pc false = .returned → s.pc true = .returned →
          (s.acquired = [false, true] ∧
            HashTable.runOps [.set 10 42 (sampleItem 0 0), .del [97] 11] (sampleTable [])
              sampleStatics = some (s.table, s.statics)) ∨
          (s.acquired = [true, false] ∧
            HashTable.runOps [.del [97] 11, .set 10 42 (sampleItem 0 0)] (sampleTable [])
              sampleStatics = some (s.table, s.statics))) ∧
        (∀ x, TwoThreads.run [x, !x]
          (TwoThreads.init (sampleTable []) sampleStatics (.set 10 42 (sampleItem 0 0))
            (.del [97] 11)) = none) ∧
        ((HashTableOp.set 10 42 (sampleItem 0 0)).key.length ≤ 255 →
          ∀ x, ∃ s1, TwoThreads.run (TwoThreads.serial x)
            (TwoThreads.init (sampleTable []) sampleStatics (.set 10 42 (sampleItem 0 0))
              (.del [97] 11)) = some s1 ∧
            s1.pc false = .returned ∧ s1.pc true = .returned)) := by
  obtain ⟨s, hs, a1, a2, -, -, -, a6⟩ :=
    TwoThreads.run_serial (sampleTable []) sampleStatics (.set 10 42 (sampleItem 0 0))
      (.del [97] 11) true (sampleTable []) sampleInserted.table sampleStatics
      sampleInserted.statics (by decide) rfl (by decide) (by decide)
  exact ⟨s, hs, a1, a2, a6,
    same_key_serialized (sampleTable []) sampleStatics (.set 10 42 (sampleItem 0 0))
      (.del [97] 11) (TwoThreads.serial true) s (by decide) (by decide) hs⟩

end EpEngine
